import Mathlib

/-! SoftCacheLib: a shallow embedding of the cache engine.

The definitions below translate `src/src/SoftCache/softcache.cpp` and
`softcache.hpp` (the `CACHE_ENABLED` variant, which is the default of the
header).  Conventions of the embedding:

* host pointers (`void*`) and device handles (`cl_mem`) are natural numbers,
  `0` standing for `nullptr` / `NULL`;
* `size_t` and `unsigned long long` counters are natural numbers reduced
  modulo `2^64`, `unsigned int` counters modulo `2^32`;
* a `CacheLine*` into the line table is the index of the line;
* the accelerator runtime and `rand()` are an environment `Env`: the runtime
  answers the call issued at position `k` of the call trace with
  `Env.status k` (and `Env.mem k` for a created handle), the `k`-th call of
  `rand()` returns `Env.rand k`;
* `exit(1)` is the outcome `Res.fatal`, undefined behaviour (a modulo by
  zero) is `Res.undefined`, and a loop without bound in the source that has
  not ended after `Env.fuel` rounds is `Res.diverge`.
-/

namespace SoftCache

/-! ## Data model (softcache.hpp) -/

/-- Coherence flag of a line: `enum Flag { CPU, GPU, BOTH }`.  The spec calls
the three values Host, Device and Both. -/
inductive Flag where
  | CPU
  | GPU
  | BOTH
  deriving DecidableEq, Repr

/-- One slot of the line table: `struct CacheLine`. -/
structure CacheLine where
  flag : Flag
  age : Int
  size : Nat
  tag : Nat
  deviceAddress : Nat
  deriving DecidableEq, Repr

/-- The all-zero line produced by `new CacheLine[n]()` and by `memset`. -/
def zeroLine : CacheLine :=
  { flag := Flag.CPU, age := 0, size := 0, tag := 0, deviceAddress := 0 }

/-- Cache organisation: `enum Organisation`. -/
inductive Organisation where
  | DIRECT_MAPPING
  | SET_ASSOCIATIVE
  | FULLY_ASSOCIATIVE
  deriving DecidableEq, Repr

/-- Replacement policy: `enum ReplacementPolicy`. -/
inductive ReplacementPolicy where
  | LRU
  | FIFO
  | RANDOM
  | SMALLEST
  deriving DecidableEq, Repr

/-- Statistics record: `struct durations_t`. -/
structure durations_t where
  hostToDevice : Nat
  deviceToHost : Nat
  kernel : Nat
  cacheHit : Nat
  cacheMiss : Nat
  bytesSaved : Nat
  bytesTotal : Nat
  bytesh2d_saved : Nat
  bytesh2d_total : Nat
  bytesd2h_saved : Nat
  bytesd2h_total : Nat
  deriving DecidableEq, Repr

/-- A call of the accelerator runtime, with the arguments the cache passes.
The `event` out-parameter, which the cache always replaces by its own local
event, is left out. -/
inductive RtCall where
  | clCreateBuffer (context flags size host_ptr : Nat)
  | clEnqueueWriteBuffer (command_queue buffer blocking offset cb ptr num_events event_wait_list : Nat)
  | clEnqueueReadBuffer (command_queue buffer blocking offset cb ptr num_events event_wait_list : Nat)
  | clEnqueueNDRangeKernel (command_queue kernel work_dim global_work_offset global_work_size
      local_work_size num_events event_wait_list : Nat)
  | clSetKernelArg (kernel index size value : Nat)
  | clReleaseMemObject (memobj : Nat)
  deriving DecidableEq, Repr

/-- The members of `class Cache`, followed by two ghost fields: `randCalls`
counts the calls of `rand()` made so far and `trace` is the chronological
list of runtime calls issued by the cache.  The geometry members are `int` in
the source; they are never negative in a constructed cache. -/
structure Cache where
  kernelArguments : List (Nat × List Nat)
  nrOfSets : Nat
  nrOfLines : Nat
  nrOfLinesPerSet : Nat
  organisation : Organisation
  replacementPolicy : ReplacementPolicy
  lines : List CacheLine
  FIFO_index : List Nat
  cache_command_queue : Nat
  lockedLines : List Nat
  duration : durations_t
  write_back : Bool
  buffers : Nat
  randCalls : Nat
  trace : List RtCall
  deriving DecidableEq, Repr

/-- The environment of the cache: the answers of the runtime, the values of
`rand()`, the elapsed time `probe_event_time` reports for the event of the
runtime call at a trace position, the number of rounds after which a loop
that has no bound in the source is reported as `Res.diverge`, the value
of the identifier `write_through`, which `Cache::enqueueReadBuffer` reads and
no file under `src/` declares, and the order in which a range-`for` visits the
elements of a `std::unordered_set`: `argOrder` maps the elements in the order
of their insertion to the order of the iteration, which the C++ standard
leaves to the implementation; it is some permutation. -/
structure Env where
  rand : Nat → Nat
  mem : Nat → Nat
  status : Nat → Int
  eventTime : Nat → Nat
  fuel : Nat
  write_through : Bool
  argOrder : List Nat → List Nat
  argOrder_perm : ∀ l, List.Perm (argOrder l) l

/-- Outcome of an operation that may not return to its caller. -/
inductive Res (α : Type) where
  | ok (a : α)
  | fatal
  | undefined
  | diverge
  deriving DecidableEq, Repr

/-- Continue with `f` on the value of an outcome that returned. -/
def Res.map {α β : Type} (r : Res α) (f : α → β) : Res β :=
  match r with
  | Res.ok a => Res.ok (f a)
  | Res.fatal => Res.fatal
  | Res.undefined => Res.undefined
  | Res.diverge => Res.diverge

/-! ## Constants and machine arithmetic -/

/-- OpenCL's `CL_SUCCESS`. -/
def CL_SUCCESS : Int := 0

/-- OpenCL's `CL_TRUE`. -/
def CL_TRUE : Nat := 1

/-- OpenCL's `CL_MEM_COPY_HOST_PTR`, the bit `1 << 5` of `cl_mem_flags`. -/
def CL_MEM_COPY_HOST_PTR : Nat := 32

/-- Addition of two `size_t` / `unsigned long long` values. -/
def add64 (a b : Nat) : Nat := (a + b) % 2 ^ 64

/-- Subtraction of two `size_t` values, wrapping below zero. -/
def sub64 (a b : Nat) : Nat := (a + (2 ^ 64 - b % 2 ^ 64)) % 2 ^ 64

/-- Addition of two `unsigned int` values. -/
def add32 (a b : Nat) : Nat := (a + b) % 2 ^ 32

/-- Subtraction of two `unsigned int` values, wrapping below zero. -/
def sub32 (a b : Nat) : Nat := (a + (2 ^ 32 - b % 2 ^ 32)) % 2 ^ 32

/-- Conversion of an `int` to `size_t`, as the comparison of a `size_t` with
an `int` performs it. -/
def toSizeT (x : Int) : Nat := (x % 2 ^ 64).toNat

/-- Addition of two `int` values.  A signed overflow, which is undefined
behaviour in C++, wraps around in two's complement, as it does in the compiled
library: `INT_MAX + 1` is `INT_MIN`. -/
def addInt (a b : Int) : Int := (a + b + 2147483648) % 4294967296 - 2147483648

/-- Conversion of a `size_t` to a 32-bit two's-complement `int`. -/
def toInt32 (n : Nat) : Int :=
  if n % 2 ^ 32 < 2 ^ 31 then ((n % 2 ^ 32 : Nat) : Int) else ((n % 2 ^ 32 : Nat) : Int) - 2 ^ 32

/-! ## Line table access -/

/-- Read of `this->lines[idx]`. -/
def lineAt (lines : List CacheLine) (idx : Nat) : CacheLine :=
  lines.getD idx zeroLine

/-- Write of `this->lines[idx]`. -/
def setLine (lines : List CacheLine) (idx : Nat) (l : CacheLine) : List CacheLine :=
  lines.set idx l

/-- The statement `this->lines[idx].age += 1` on the `int` member `age`. -/
def bumpAge (lines : List CacheLine) (idx : Nat) : List CacheLine :=
  setLine lines idx { lineAt lines idx with age := addInt (lineAt lines idx).age 1 }

/-- The statement `this->lines[idx].age = 0`. -/
def clearAge (lines : List CacheLine) (idx : Nat) : List CacheLine :=
  setLine lines idx { lineAt lines idx with age := 0 }

/-- The statement `this->lines[idx].flag = flag`. -/
def setFlag (lines : List CacheLine) (idx : Nat) (flag : Flag) : List CacheLine :=
  setLine lines idx { lineAt lines idx with flag := flag }

/-! ## Indexer and lookup -/

/-- `Cache::getSetIndex`: `((uintptr_t) tag) % nrOfSets`.  Every constructed
cache has `nrOfSets ≥ 1` (a prime of `getTableSize`, or `1`), so the modulo by
zero, undefined in the source, does not arise. -/
def getSetIndex (c : Cache) (tag : Nat) : Nat :=
  tag % c.nrOfSets

/-- The `for` loop of `Cache::getCacheLine`: `n` lines remain to be scanned
from `idx` on, `found` is the current value of `cacheLine`. -/
def getCacheLineLoop (rp : ReplacementPolicy) (tag : Nat) :
    Nat → Nat → List CacheLine → Option Nat → Option Nat × List CacheLine
  | 0, _, lines, found => (found, lines)
  | n + 1, idx, lines, found =>
    if (lineAt lines idx).tag = tag then
      if rp = ReplacementPolicy.LRU then
        getCacheLineLoop rp tag n (idx + 1) (bumpAge (clearAge lines idx) idx) (some idx)
      else
        (some idx, lines)
    else
      if rp = ReplacementPolicy.LRU then
        getCacheLineLoop rp tag n (idx + 1) (bumpAge lines idx) found
      else
        getCacheLineLoop rp tag n (idx + 1) lines found

/-- `Cache::getCacheLine`: the index of the line found for `tag`, if any, and
the cache with the ages the scan has updated. -/
def getCacheLine (c : Cache) (tag : Nat) : Option Nat × Cache :=
  if tag = 0 then (none, c)
  else
    let setIndex := getSetIndex c tag
    let offset := setIndex * c.nrOfLinesPerSet
    let r := getCacheLineLoop c.replacementPolicy tag c.nrOfLinesPerSet offset c.lines none
    (r.1, { c with lines := r.2 })

/-! ## Replacement policies -/

/-- The `do … while` loop of `Cache::getRandomIndex`.  The first argument is
`maxIter`, the second the number of `rand()` calls made so far; the result is
the last `idx`, the new number of `rand()` calls and the final `maxIter`. -/
def getRandomIndexLoop (env : Env) (L setIndex : Nat) (locked : List Nat) :
    Nat → Nat → Nat × Nat × Int
  | 0, rc =>
    let idx := setIndex * L + env.rand rc % L
    (idx, rc + 1, if idx ∈ locked then -1 else 0)
  | m + 1, rc =>
    let idx := setIndex * L + env.rand rc % L
    if idx ∈ locked then
      if 0 < m then getRandomIndexLoop env L setIndex locked m (rc + 1)
      else (idx, rc + 1, 0)
    else (idx, rc + 1, ((m + 1 : Nat) : Int))

/-- `Cache::getRandomIndex`.  A modulo by `nrOfLinesPerSet = 0` is undefined
behaviour; `exit(1)` after the retry budget is `Res.fatal`. -/
def getRandomIndex (env : Env) (c : Cache) (setIndex : Nat) : Res (Nat × Cache) :=
  if c.nrOfLinesPerSet = 0 then Res.undefined
  else
    let r := getRandomIndexLoop env c.nrOfLinesPerSet setIndex c.lockedLines 1000 c.randCalls
    if r.2.2 = 0 then Res.fatal
    else Res.ok (r.1, { c with randCalls := r.2.1 })

/-- The `for` loop of `Cache::getOldestIndex`; the last two arguments are
`oldestLineIndex` and `oldestLineAge`.  The `continue` on a locked line skips
the age increment. -/
def getOldestIndexLoop (locked : List Nat) (increaseAge : Bool) :
    Nat → Nat → List CacheLine → Int → Int → Int × List CacheLine
  | 0, _, lines, oldestLineIndex, _ => (oldestLineIndex, lines)
  | n + 1, idx, lines, oldestLineIndex, oldestLineAge =>
    if (lineAt lines idx).age > oldestLineAge then
      if idx ∈ locked then
        getOldestIndexLoop locked increaseAge n (idx + 1) lines oldestLineIndex oldestLineAge
      else
        getOldestIndexLoop locked increaseAge n (idx + 1)
          (if increaseAge then bumpAge lines idx else lines) (idx : Int) (lineAt lines idx).age
    else
      getOldestIndexLoop locked increaseAge n (idx + 1)
        (if increaseAge then bumpAge lines idx else lines) oldestLineIndex oldestLineAge

/-- `Cache::getOldestIndex`. -/
def getOldestIndex (env : Env) (c : Cache) (setIndex : Nat) (increaseAge : Bool) :
    Res (Nat × Cache) :=
  let offset := setIndex * c.nrOfLinesPerSet
  let r := getOldestIndexLoop c.lockedLines increaseAge c.nrOfLinesPerSet offset c.lines (-1) (-1)
  let c1 := { c with lines := r.2 }
  if r.1 = -1 then getRandomIndex env c1 setIndex
  else Res.ok (r.1.toNat, c1)

/-- The `for` loop of `Cache::getSmallestDataLine`; the last two arguments
are `smallestLineIndex` and `smallestLineSize`.  The comparison converts the
`int` to `size_t`, the assignment converts the `size_t` to `int`. -/
def getSmallestDataLineLoop (locked : List Nat) (lines : List CacheLine) :
    Nat → Nat → Int → Int → Int
  | 0, _, smallestLineIndex, _ => smallestLineIndex
  | n + 1, idx, smallestLineIndex, smallestLineSize =>
    if (lineAt lines idx).size < toSizeT smallestLineSize then
      if idx ∈ locked then
        getSmallestDataLineLoop locked lines n (idx + 1) smallestLineIndex smallestLineSize
      else
        getSmallestDataLineLoop locked lines n (idx + 1) (idx : Int) (toInt32 (lineAt lines idx).size)
    else
      getSmallestDataLineLoop locked lines n (idx + 1) smallestLineIndex smallestLineSize

/-- `Cache::getSmallestDataLine`. -/
def getSmallestDataLine (env : Env) (c : Cache) (setIndex : Nat) : Res (Nat × Cache) :=
  let offset := setIndex * c.nrOfLinesPerSet
  let r := getSmallestDataLineLoop c.lockedLines c.lines c.nrOfLinesPerSet offset (-1) (-1)
  if r = -1 then getRandomIndex env c setIndex
  else Res.ok (r.toNat, c)

/-- The `do … while` loop of the FIFO case of `Cache::addToCache`.  The first
argument is `maxIter`, the second the cursor `FIFO_index[setIndex]`; the
result is the last cursor, the last `idx` and the final `maxIter`. -/
def fifoLoop (L setIndex : Nat) (locked : List Nat) : Nat → Nat → Nat × Nat × Int
  | 0, cur =>
    let cur1 := add32 cur 1 % L
    let idx := cur1 + setIndex * L
    (cur1, idx, if idx ∈ locked then -1 else 0)
  | m + 1, cur =>
    let cur1 := add32 cur 1 % L
    let idx := cur1 + setIndex * L
    if idx ∈ locked then
      if 0 < m then fifoLoop L setIndex locked m cur1
      else (cur1, idx, 0)
    else (cur1, idx, ((m + 1 : Nat) : Int))

/-- The FIFO case of the `switch` in `Cache::addToCache`. -/
def fifoIndex (c : Cache) (setIndex : Nat) : Res (Nat × Cache) :=
  if c.nrOfLinesPerSet = 0 then Res.undefined
  else
    let r := fifoLoop c.nrOfLinesPerSet setIndex c.lockedLines 1000 (c.FIFO_index.getD setIndex 0)
    if r.2.2 = 0 then Res.fatal
    else Res.ok (r.2.1, { c with FIFO_index := c.FIFO_index.set setIndex r.1 })

/-- The `do … while` loop of the direct-mapped fallback of
`Cache::addToCache`, which has no bound in the source.  The first argument is
the remaining fuel, the second the number of `rand()` calls made so far. -/
def directLoop (env : Env) (nrOfLines : Nat) (locked : List Nat) : Nat → Nat → Res (Nat × Nat)
  | 0, _ => Res.diverge
  | f + 1, rc =>
    let idx := env.rand rc % nrOfLines
    if idx ∈ locked then directLoop env nrOfLines locked f (rc + 1)
    else Res.ok (idx, rc + 1)

/-- The block `if (idx == -1) { … }` of `Cache::addToCache`: the choice of the
line to overwrite when the caller supplies none. -/
def chooseVictim (env : Env) (c : Cache) (tag : Nat) : Res (Nat × Cache) :=
  let idx := getSetIndex c tag
  if c.organisation ≠ Organisation.DIRECT_MAPPING then
    match c.replacementPolicy with
    | ReplacementPolicy.LRU => getOldestIndex env c idx false
    | ReplacementPolicy.FIFO => fifoIndex c idx
    | ReplacementPolicy.RANDOM => getRandomIndex env c idx
    | ReplacementPolicy.SMALLEST => getSmallestDataLine env c idx
  else if idx ∈ c.lockedLines then
    if c.nrOfLines = 0 then Res.undefined
    else
      match directLoop env c.nrOfLines c.lockedLines env.fuel c.randCalls with
      | Res.ok r => Res.ok (r.1, { c with randCalls := r.2 })
      | Res.fatal => Res.fatal
      | Res.undefined => Res.undefined
      | Res.diverge => Res.diverge
  else Res.ok (idx, c)

/-! ## Insertion -/

/-- The part of `Cache::addToCache` after the index is known: flush of a
Device line under write-back, release of the old handle, lock and overwrite.
The status of the flush read is discarded, as in the source. -/
def overwriteLine (env : Env) (c : Cache) (idx tag size deviceAddress : Nat) (flag : Flag) :
    CacheLine × Cache :=
  let old := lineAt c.lines idx
  let c1 : Cache :=
    if c.write_back = true ∧ old.flag = Flag.GPU then
      { c with
        trace := c.trace ++ [RtCall.clEnqueueReadBuffer c.cache_command_queue old.deviceAddress
          CL_TRUE 0 old.size old.tag 0 0]
        duration := { c.duration with
          bytesSaved := sub64 c.duration.bytesSaved old.size
          deviceToHost := add64 c.duration.deviceToHost (env.eventTime c.trace.length) }
        lines := setFlag c.lines idx Flag.BOTH }
    else c
  let c2 : Cache :=
    if (lineAt c1.lines idx).deviceAddress ≠ deviceAddress ∧ (lineAt c1.lines idx).deviceAddress ≠ 0 then
      { c1 with
        buffers := sub32 c1.buffers 1
        trace := c1.trace ++ [RtCall.clReleaseMemObject (lineAt c1.lines idx).deviceAddress] }
    else c1
  let line : CacheLine :=
    { flag := flag, age := 0, tag := tag, size := size, deviceAddress := deviceAddress }
  (line, { c2 with
    lockedLines := c2.lockedLines ++ [idx]
    lines := setLine c2.lines idx line })

/-- `Cache::addToCache`.  The argument `idx` is the optional index of the
source, `-1` when the caller supplies none. -/
def addToCache (env : Env) (c : Cache) (tag size deviceAddress : Nat) (flag : Flag) (idx : Int) :
    Res (CacheLine × Cache) :=
  if idx = -1 then
    match chooseVictim env c tag with
    | Res.ok r => Res.ok (overwriteLine env r.2 r.1 tag size deviceAddress flag)
    | Res.fatal => Res.fatal
    | Res.undefined => Res.undefined
    | Res.diverge => Res.diverge
  else Res.ok (overwriteLine env c idx.toNat tag size deviceAddress flag)

/-! ## Kernel-argument map -/

/-- The statement `kernelArguments[kernel].insert(value)` on the map of sets,
kept as an association list of duplicate-free lists; a new value goes to the
end of its list. -/
def kaInsert (kernel value : Nat) : List (Nat × List Nat) → List (Nat × List Nat)
  | [] => [(kernel, [value])]
  | (k, vs) :: rest =>
    if k = kernel then (k, if value ∈ vs then vs else vs ++ [value]) :: rest
    else (k, vs) :: kaInsert kernel value rest

/-- The lookup `kernelArguments[kernel]`: the recorded values, none for a
kernel the map does not hold. -/
def kaLookup (kernel : Nat) : List (Nat × List Nat) → List Nat
  | [] => []
  | (k, vs) :: rest => if k = kernel then vs else kaLookup kernel rest

/-- The entry `operator[]` creates for a kernel the map does not hold. -/
def kaTouch (kernel : Nat) : List (Nat × List Nat) → List (Nat × List Nat)
  | [] => [(kernel, [])]
  | (k, vs) :: rest => if k = kernel then (k, vs) :: rest else (k, vs) :: kaTouch kernel rest

/-! ## The instrumented operations -/

/-- `Cache::setDirtyFlag`. -/
def setDirtyFlag (c : Cache) (ptr : Nat) (flag : Flag) : Cache :=
  let r := getCacheLine c ptr
  match r.1 with
  | some i => { r.2 with lines := setFlag r.2.lines i flag }
  | none => r.2

/-- The statements `duration.bytesTotal += size; duration.bytesh2d_total += size`
that open `createBuffer` (copy-host-pointer case) and `enqueueWriteBuffer`. -/
def countH2D (c : Cache) (size : Nat) : Cache :=
  { c with duration := { c.duration with
    bytesTotal := add64 c.duration.bytesTotal size
    bytesh2d_total := add64 c.duration.bytesh2d_total size } }

/-- The statement `this->cache_command_queue = command_queue`. -/
def setQueue (c : Cache) (command_queue : Nat) : Cache :=
  { c with cache_command_queue := command_queue }

/-- The statement `duration.cacheMiss += 1`. -/
def countMiss (c : Cache) : Cache :=
  { c with duration := { c.duration with cacheMiss := add32 c.duration.cacheMiss 1 } }

/-- The statements `duration.cacheHit += 1; duration.bytesSaved += size;
duration.bytesh2d_saved += size` of a hit in `createBuffer` and
`enqueueWriteBuffer`. -/
def countHit (c : Cache) (size : Nat) : Cache :=
  { c with duration := { c.duration with
    cacheHit := add32 c.duration.cacheHit 1
    bytesSaved := add64 c.duration.bytesSaved size
    bytesh2d_saved := add64 c.duration.bytesh2d_saved size } }

/-- The statement `lockedLines.push_back(idx)`. -/
def lockLine (c : Cache) (idx : Nat) : Cache :=
  { c with lockedLines := c.lockedLines ++ [idx] }

/-- The statement `lockedLines.clear()`. -/
def clearLocks (c : Cache) : Cache :=
  { c with lockedLines := [] }

/-- The statements `buffers--; clReleaseMemObject(memobj)`; the status of the
release is discarded. -/
def releaseMemObject (c : Cache) (memobj : Nat) : Cache :=
  { c with
    buffers := sub32 c.buffers 1
    trace := c.trace ++ [RtCall.clReleaseMemObject memobj] }

/-- The call `clCreateBuffer(context, flags, size, host_ptr, errcode_ret)`
recorded in the trace; the handle it returns is `env.mem k` and the error
code it stores is `env.status k`, `k` being the trace position of the call. -/
def issueCreate (c : Cache) (context flags size host_ptr : Nat) : Cache :=
  { c with trace := c.trace ++ [RtCall.clCreateBuffer context flags size host_ptr] }

/-- The forwarded `clEnqueueWriteBuffer` with the statement
`duration.hostToDevice += probe_event_time(myevent, command_queue)`. -/
def forwardWrite (env : Env) (c : Cache)
    (command_queue buffer blocking_write offset cb ptr num_events event_wait_list : Nat) : Cache :=
  { c with
    trace := c.trace ++ [RtCall.clEnqueueWriteBuffer command_queue buffer blocking_write offset
      cb ptr num_events event_wait_list]
    duration := { c.duration with
      hostToDevice := add64 c.duration.hostToDevice (env.eventTime c.trace.length) } }

/-- The statements that open `enqueueReadBuffer`: `lockedLines.clear()`, the
four counter updates `bytesTotal += cb; bytesSaved += cb; bytesd2h_total += cb;
bytesd2h_saved += cb`, and `cache_command_queue = command_queue`. -/
def readEntry (c : Cache) (command_queue cb : Nat) : Cache :=
  { c with
    lockedLines := []
    duration := { c.duration with
      bytesTotal := add64 c.duration.bytesTotal cb
      bytesSaved := add64 c.duration.bytesSaved cb
      bytesd2h_total := add64 c.duration.bytesd2h_total cb
      bytesd2h_saved := add64 c.duration.bytesd2h_saved cb }
    cache_command_queue := command_queue }

/-- The block `if (!write_back) { … }` of `enqueueReadBuffer` when it is
entered: the forwarded `clEnqueueReadBuffer`, `deviceToHost += probe_event_time`,
`bytesSaved -= cb` and `bytesd2h_saved -= cb`. -/
def forwardRead (env : Env) (c : Cache)
    (command_queue buffer blocking_read offset cb ptr num_events event_wait_list : Nat) : Cache :=
  { c with
    trace := c.trace ++ [RtCall.clEnqueueReadBuffer command_queue buffer blocking_read offset
      cb ptr num_events event_wait_list]
    duration := { c.duration with
      deviceToHost := add64 c.duration.deviceToHost (env.eventTime c.trace.length)
      bytesSaved := sub64 c.duration.bytesSaved cb
      bytesd2h_saved := sub64 c.duration.bytesd2h_saved cb } }

/-- `Cache::createBuffer`.  The argument `errcode` is the value `*errcode_ret`
holds at the call; the result is the returned handle and the value of
`*errcode_ret` afterwards (a hit does not write it). -/
def createBuffer (env : Env) (c : Cache) (context flags size host_ptr : Nat) (errcode : Int) :
    Res ((Nat × Int) × Cache) :=
  if flags &&& CL_MEM_COPY_HOST_PTR ≠ 0 then
    let r := getCacheLine (countH2D c size) host_ptr
    let miss : Res ((Nat × Int) × Cache) :=
      let k := r.2.trace.length
      (addToCache env (issueCreate (countMiss r.2) context flags size host_ptr)
          host_ptr size (env.mem k) Flag.BOTH (-1)).map
        fun a => ((env.mem k, env.status k), a.2)
    match r.1 with
    | none => miss
    | some i =>
      if (lineAt r.2.lines i).flag = Flag.CPU then miss
      else Res.ok (((lineAt r.2.lines i).deviceAddress, errcode), lockLine (countHit r.2 size) i)
  else
    Res.ok ((env.mem c.trace.length, env.status c.trace.length),
      { issueCreate c context flags size host_ptr with buffers := add32 c.buffers 1 })

/-- `Cache::enqueueWriteBuffer`.  The argument `buffer` is the value `*buffer`
holds at the call; the result is the returned status and the value of
`*buffer` afterwards. -/
def enqueueWriteBuffer (env : Env) (c : Cache)
    (command_queue buffer blocking_write offset cb ptr num_events event_wait_list : Nat) :
    Res ((Int × Nat) × Cache) :=
  let r := getCacheLine (setQueue (countH2D c cb) command_queue) ptr
  let missWith (idx : Int) : Res ((Int × Nat) × Cache) :=
    (addToCache env (countMiss r.2) ptr cb buffer Flag.BOTH idx).map
      fun a => ((env.status a.2.trace.length, buffer),
        forwardWrite env a.2 command_queue buffer blocking_write offset cb ptr num_events
          event_wait_list)
  match r.1 with
  | none => missWith (-1)
  | some i =>
    if (lineAt r.2.lines i).flag = Flag.CPU then missWith (i : Int)
    else if (lineAt r.2.lines i).deviceAddress ≠ buffer ∧ buffer ≠ 0 then
      Res.ok ((CL_SUCCESS, (lineAt r.2.lines i).deviceAddress),
        lockLine (releaseMemObject (countHit r.2 cb) buffer) i)
    else
      Res.ok ((CL_SUCCESS, buffer), lockLine (countHit r.2 cb) i)

/-- `Cache::enqueueReadBuffer`. -/
def enqueueReadBuffer (env : Env) (c : Cache)
    (command_queue buffer blocking_read offset cb ptr num_events event_wait_list : Nat) :
    Res (Int × Cache) :=
  let c0 := readEntry c command_queue cb
  let err : Int := if c0.write_back = false then env.status c0.trace.length else CL_SUCCESS
  let c1 : Cache :=
    if c0.write_back = false then
      forwardRead env c0 command_queue buffer blocking_read offset cb ptr num_events
        event_wait_list
    else c0
  let r := getCacheLine c1 ptr
  match r.1 with
  | none =>
    (addToCache env r.2 ptr cb buffer
        (if r.2.write_back = false ∧ env.write_through = true then Flag.BOTH else Flag.GPU)
        (-1)).map
      fun a => (err, clearLocks a.2)
  | some i =>
    if buffer ≠ (lineAt r.2.lines i).deviceAddress then
      Res.ok (err, clearLocks (releaseMemObject r.2 buffer))
    else Res.ok (err, clearLocks r.2)

/-- `Cache::setKernelArg`. -/
def setKernelArg (env : Env) (c : Cache) (kernel index size value : Nat) : Int × Cache :=
  let k := c.trace.length
  (env.status k, { c with
    kernelArguments := kaInsert kernel value c.kernelArguments
    trace := c.trace ++ [RtCall.clSetKernelArg kernel index size value] })

/-- The loop `for (auto& argument : argumentsVector) setDirtyFlag(argument, GPU)`
of `Cache::enqueueNDRangeKernel`, over the arguments in the order of the
iteration. -/
def markArguments (c : Cache) : List Nat → Cache
  | [] => c
  | argument :: rest => markArguments (setDirtyFlag c argument Flag.GPU) rest

/-- `Cache::enqueueNDRangeKernel`.  The recorded arguments are a
`std::unordered_set`, which the loop visits in the order `env.argOrder` gives
to the arguments recorded so far. -/
def enqueueNDRangeKernel (env : Env) (c : Cache)
    (command_queue kernel work_dim global_work_offset global_work_size local_work_size
      num_events event_wait_list : Nat) : Int × Cache :=
  let k := c.trace.length
  let c1 : Cache := { c with
    lockedLines := []
    trace := c.trace ++ [RtCall.clEnqueueNDRangeKernel command_queue kernel work_dim
      global_work_offset global_work_size local_work_size num_events event_wait_list]
    duration := { c.duration with kernel := add64 c.duration.kernel (env.eventTime k) }
    kernelArguments := kaTouch kernel c.kernelArguments }
  (env.status k, markArguments c1 (env.argOrder (kaLookup kernel c1.kernelArguments)))

/-- The body of the loop of `Cache::writeBack()` for a line whose flag is
`GPU`, shared with `Cache::writeBack(void*)`: read the device buffer into the
tag address, set the flag to `BOTH`, take the size off the saved counters. -/
def flushLine (env : Env) (c : Cache) (i : Nat) (err : Int) : Int × Cache :=
  let l := lineAt c.lines i
  let k := c.trace.length
  (Int.lor err (env.status k), { c with
    trace := c.trace ++ [RtCall.clEnqueueReadBuffer c.cache_command_queue l.deviceAddress
      CL_TRUE 0 l.size l.tag 0 0]
    duration := { c.duration with
      deviceToHost := add64 c.duration.deviceToHost (env.eventTime k)
      bytesSaved := sub64 c.duration.bytesSaved l.size
      bytesd2h_saved := sub64 c.duration.bytesd2h_saved l.size }
    lines := setFlag c.lines i Flag.BOTH })

/-- The `for` loop of `Cache::writeBack()`: `n` lines remain from `i` on. -/
def writeBackLoop (env : Env) : Nat → Nat → Cache → Int → Int × Cache
  | 0, _, c, err => (err, c)
  | n + 1, i, c, err =>
    if (lineAt c.lines i).flag = Flag.GPU then
      writeBackLoop env n (i + 1) (flushLine env c i err).2 (flushLine env c i err).1
    else writeBackLoop env n (i + 1) c err

/-- `Cache::writeBack()`. -/
def writeBack (env : Env) (c : Cache) : Int × Cache :=
  if c.write_back = false then (CL_SUCCESS, c)
  else writeBackLoop env c.nrOfLines 0 c CL_SUCCESS

/-- `Cache::writeBack(void *host_ptr)`. -/
def writeBackPtr (env : Env) (c : Cache) (host_ptr : Nat) : Int × Cache :=
  if c.write_back = false then (CL_SUCCESS, c)
  else
    let r := getCacheLine c host_ptr
    match r.1 with
    | some i =>
      if (lineAt r.2.lines i).flag = Flag.GPU then flushLine env r.2 i CL_SUCCESS
      else (CL_SUCCESS, r.2)
    | none => (CL_SUCCESS, r.2)

/-- `Cache::resetTimers`. -/
def resetTimers (c : Cache) : Cache :=
  { c with duration :=
    { hostToDevice := 0, deviceToHost := 0, kernel := 0, cacheHit := 0, cacheMiss := 0,
      bytesSaved := 0, bytesTotal := 0, bytesh2d_saved := 0, bytesh2d_total := 0,
      bytesd2h_saved := 0, bytesd2h_total := 0 } }

/-- The release loop shared by `Cache::resetCache` and `Cache::~Cache`: every
line with a non-null handle is released; `n` lines remain from `i` on. -/
def releaseLoop (env : Env) : Nat → Nat → Cache → Int → Int × Cache
  | 0, _, c, err => (err, c)
  | n + 1, i, c, err =>
    if (lineAt c.lines i).deviceAddress ≠ 0 then
      releaseLoop env n (i + 1)
        { c with
          buffers := sub32 c.buffers 1
          trace := c.trace ++ [RtCall.clReleaseMemObject (lineAt c.lines i).deviceAddress] }
        (Int.lor err (env.status c.trace.length))
    else releaseLoop env n (i + 1) c err

/-- `Cache::resetCache`: release every handle, then `memset` the first
`nrOfLines` lines to zero. -/
def resetCache (env : Env) (c : Cache) : Cache :=
  let r := releaseLoop env c.nrOfLines 0 c 0
  { r.2 with lines := List.replicate c.nrOfLines zeroLine ++ r.2.lines.drop c.nrOfLines }

/-- `Cache::~Cache`: release every handle, then free the line table. -/
def destroy (env : Env) (c : Cache) : Int × Cache :=
  let r := releaseLoop env c.nrOfLines 0 c 0
  (r.1, { r.2 with lines := [] })

/-! ## Construction -/

/-- The largest value of `int`. -/
def INT_MAX : Int := 2147483647

/-- The `for` loop of `Cache::isPrime`, `i` being the loop variable.  The
product `i * i` beyond `INT_MAX` is a signed overflow, which is undefined
behaviour. -/
def isPrimeLoop (n : Int) : Nat → Int → Res Bool
  | 0, _ => Res.diverge
  | f + 1, i =>
    if i * i > INT_MAX then Res.undefined
    else if i * i ≤ n then
      if n % i = 0 ∨ n % (i + 2) = 0 then Res.ok false
      else isPrimeLoop n f (i + 6)
    else Res.ok true

/-- `Cache::isPrime`: true for an odd prime.  The loop runs fewer than `n`
rounds. -/
def isPrime (n : Int) : Res Bool :=
  if n ≤ 1 then Res.ok false
  else if n = 2 then Res.ok false
  else if n ≤ 3 then Res.ok true
  else if n % 2 = 0 ∨ n % 3 = 0 then Res.ok false
  else isPrimeLoop n n.toNat 5

/-- The `while (true)` loop of `Cache::getTableSize`.  The test of the
additional constraint reads `prime`, which holds the argument `n` throughout;
`(uintptr_t) ~0` is `2^64 - 1`.  An `upper++` beyond `INT_MAX` is a signed
overflow. -/
def getTableSizeLoop (n : Int) : Nat → Int → Int → Res Int
  | 0, _, _ => Res.diverge
  | f + 1, lower, upper =>
    match isPrime lower with
    | Res.ok pl =>
      if pl = true ∧ (2 ^ 64 - 1 : Int) % n ≠ 1 then Res.ok lower
      else
        match isPrime upper with
        | Res.ok pu =>
          if pu = true ∧ (2 ^ 64 - 1 : Int) % n ≠ 1 then Res.ok upper
          else if upper + 1 > INT_MAX then Res.undefined
          else getTableSizeLoop n f (lower - 1) (upper + 1)
        | Res.fatal => Res.fatal
        | Res.undefined => Res.undefined
        | Res.diverge => Res.diverge
    | Res.fatal => Res.fatal
    | Res.undefined => Res.undefined
    | Res.diverge => Res.diverge

/-- `Cache::getTableSize`; `fuel` bounds the rounds of its `while (true)`. -/
def getTableSize (fuel : Nat) (n : Int) : Res Int :=
  if n ≤ 2 then Res.ok 3
  else
    match isPrime n with
    | Res.ok true => Res.ok n
    | Res.ok false => getTableSizeLoop n fuel (n - 1) (n + 1)
    | Res.fatal => Res.fatal
    | Res.undefined => Res.undefined
    | Res.diverge => Res.diverge

/-- The state `Cache::initialise` leaves for a geometry: a zeroed line table,
one FIFO cursor per set, reset statistics, empty lock set and argument map.
The members `buffers` and `cache_command_queue`, which the constructor does
not initialise, start at `0`. -/
def freshCache (organisation : Organisation) (replacementPolicy : ReplacementPolicy)
    (nrOfSets nrOfLines nrOfLinesPerSet : Nat) (write_back : Bool) : Cache :=
  { kernelArguments := []
    nrOfSets := nrOfSets
    nrOfLines := nrOfLines
    nrOfLinesPerSet := nrOfLinesPerSet
    organisation := organisation
    replacementPolicy := replacementPolicy
    lines := List.replicate nrOfLines zeroLine
    FIFO_index := List.replicate nrOfSets 0
    cache_command_queue := 0
    lockedLines := []
    duration :=
      { hostToDevice := 0, deviceToHost := 0, kernel := 0, cacheHit := 0, cacheMiss := 0,
        bytesSaved := 0, bytesTotal := 0, bytesh2d_saved := 0, bytesh2d_total := 0,
        bytesd2h_saved := 0, bytesd2h_total := 0 }
    write_back := write_back
    buffers := 0
    randCalls := 0
    trace := [] }

/-- `Cache::initialise`, which both constructors call.  The division is the
truncating division of `int`; an array of negative length makes `new` throw,
which ends the process (`Res.fatal`). -/
def initialise (fuel : Nat) (organisation : Organisation) (replacementPolicy : ReplacementPolicy)
    (cacheSize nrOfSet : Int) (write_back : Bool) : Res Cache :=
  let build (nrOfSets nrOfLines nrOfLinesPerSet : Int) : Res Cache :=
    if nrOfLines < 0 then Res.fatal
    else Res.ok (freshCache organisation replacementPolicy nrOfSets.toNat nrOfLines.toNat
      nrOfLinesPerSet.toNat write_back)
  match organisation with
  | Organisation.DIRECT_MAPPING =>
    match getTableSize fuel cacheSize with
    | Res.ok nrOfSets => build nrOfSets nrOfSets 1
    | Res.fatal => Res.fatal
    | Res.undefined => Res.undefined
    | Res.diverge => Res.diverge
  | Organisation.FULLY_ASSOCIATIVE => build 1 cacheSize cacheSize
  | Organisation.SET_ASSOCIATIVE =>
    match getTableSize fuel nrOfSet with
    | Res.ok nrOfSets =>
      build nrOfSets (nrOfSets * Int.tdiv cacheSize nrOfSets) (Int.tdiv cacheSize nrOfSets)
    | Res.fatal => Res.fatal
    | Res.undefined => Res.undefined
    | Res.diverge => Res.diverge

/-! ## Sequences of operations -/

/-- A call of the public interface of the cache, with its arguments. -/
inductive Op where
  | createBuffer (context flags size host_ptr : Nat) (errcode : Int)
  | enqueueWriteBuffer (command_queue buffer blocking_write offset cb ptr num_events
      event_wait_list : Nat)
  | enqueueReadBuffer (command_queue buffer blocking_read offset cb ptr num_events
      event_wait_list : Nat)
  | setKernelArg (kernel index size value : Nat)
  | enqueueNDRangeKernel (command_queue kernel work_dim global_work_offset global_work_size
      local_work_size num_events event_wait_list : Nat)
  | writeBack
  | writeBackPtr (host_ptr : Nat)
  | setDirtyFlag (ptr : Nat) (flag : Flag)
  | resetCache
  | resetTimers
  deriving DecidableEq, Repr

/-- One call on the cache: the pair of the status and the handle it hands
back (the error code and the returned handle for `createBuffer`, the status
and the value of `*buffer` for `enqueueWriteBuffer`, handle `0` for the
others, status `0` for the calls that return nothing) and the next state. -/
def step (env : Env) (c : Cache) : Op → Res ((Int × Nat) × Cache)
  | Op.createBuffer context flags size host_ptr errcode =>
    match createBuffer env c context flags size host_ptr errcode with
    | Res.ok r => Res.ok ((r.1.2, r.1.1), r.2)
    | Res.fatal => Res.fatal
    | Res.undefined => Res.undefined
    | Res.diverge => Res.diverge
  | Op.enqueueWriteBuffer q b bl off cb ptr ne wl => enqueueWriteBuffer env c q b bl off cb ptr ne wl
  | Op.enqueueReadBuffer q b bl off cb ptr ne wl =>
    match enqueueReadBuffer env c q b bl off cb ptr ne wl with
    | Res.ok r => Res.ok ((r.1, 0), r.2)
    | Res.fatal => Res.fatal
    | Res.undefined => Res.undefined
    | Res.diverge => Res.diverge
  | Op.setKernelArg kernel index size value =>
    Res.ok (((setKernelArg env c kernel index size value).1, 0),
      (setKernelArg env c kernel index size value).2)
  | Op.enqueueNDRangeKernel q kernel wd gwo gws lws ne wl =>
    Res.ok (((enqueueNDRangeKernel env c q kernel wd gwo gws lws ne wl).1, 0),
      (enqueueNDRangeKernel env c q kernel wd gwo gws lws ne wl).2)
  | Op.writeBack => Res.ok (((writeBack env c).1, 0), (writeBack env c).2)
  | Op.writeBackPtr host_ptr =>
    Res.ok (((writeBackPtr env c host_ptr).1, 0), (writeBackPtr env c host_ptr).2)
  | Op.setDirtyFlag ptr flag => Res.ok ((0, 0), setDirtyFlag c ptr flag)
  | Op.resetCache => Res.ok ((0, 0), resetCache env c)
  | Op.resetTimers => Res.ok ((0, 0), resetTimers c)

/-- A sequence of calls, in order: the list of what they handed back and the
final state, or the outcome of the first call that does not return. -/
def run (env : Env) : List Op → Cache → Res (List (Int × Nat) × Cache)
  | [], c => Res.ok ([], c)
  | op :: ops, c =>
    match step env c op with
    | Res.ok r =>
      match run env ops r.2 with
      | Res.ok rs => Res.ok (r.1 :: rs.1, rs.2)
      | Res.fatal => Res.fatal
      | Res.undefined => Res.undefined
      | Res.diverge => Res.diverge
    | Res.fatal => Res.fatal
    | Res.undefined => Res.undefined
    | Res.diverge => Res.diverge

/-! ## Predicates and examples used in the statements -/

/-- Two line tables of the same length whose lines agree in everything but
the age. -/
def AgeOnly (l1 l2 : List CacheLine) : Prop :=
  l1.length = l2.length ∧ ∀ j, (lineAt l1 j).flag = (lineAt l2 j).flag ∧
    (lineAt l1 j).size = (lineAt l2 j).size ∧ (lineAt l1 j).tag = (lineAt l2 j).tag ∧
    (lineAt l1 j).deviceAddress = (lineAt l2 j).deviceAddress

/-- No two lines of the table with a non-null tag hold the same tag. -/
def NoDupTags (c : Cache) : Prop :=
  ∀ i j, i < c.lines.length → j < c.lines.length → (lineAt c.lines i).tag ≠ 0 →
    (lineAt c.lines i).tag = (lineAt c.lines j).tag → i = j

/-- An example environment: a runtime whose every call succeeds and creates
the handle `100 + k` at trace position `k`, `rand()` always `1`, and sets
iterated in the order of insertion. -/
def exEnv : Env :=
  { rand := fun _ => 1, mem := fun k => 100 + k, status := fun _ => 0,
    eventTime := fun _ => 0, fuel := 10, write_through := true,
    argOrder := fun l => l, argOrder_perm := fun l => List.Perm.refl l }

/-- An example state: a fully associative write-through LRU cache of two lines,
line 1 holding the host pointer `6` with handle `8` and flag `BOTH`. -/
def exCacheA : Cache :=
  { freshCache Organisation.FULLY_ASSOCIATIVE ReplacementPolicy.LRU 1 2 2 false with
    lines := [zeroLine, { flag := Flag.BOTH, age := 0, size := 4, tag := 6, deviceAddress := 8 }] }

/-- The flush read `Cache::addToCache` issues before it overwrites line `idx`:
under write-back, for a line whose flag is `GPU`, a blocking read of the old
handle, of the old size, into the old tag address. -/
def flushCalls (c : Cache) (idx : Nat) : List RtCall :=
  if c.write_back = true ∧ (lineAt c.lines idx).flag = Flag.GPU then
    [RtCall.clEnqueueReadBuffer c.cache_command_queue (lineAt c.lines idx).deviceAddress
      CL_TRUE 0 (lineAt c.lines idx).size (lineAt c.lines idx).tag 0 0]
  else []

/-- The release `Cache::addToCache` issues before it overwrites line `idx` with
the handle `deviceAddress`: of the old handle, when it is non-null and differs
from the incoming one. -/
def releaseCalls (c : Cache) (idx deviceAddress : Nat) : List RtCall :=
  if (lineAt c.lines idx).deviceAddress ≠ deviceAddress ∧ (lineAt c.lines idx).deviceAddress ≠ 0 then
    [RtCall.clReleaseMemObject (lineAt c.lines idx).deviceAddress]
  else []

/-- Recogniser of the runtime call `clEnqueueWriteBuffer`. -/
def RtCall.isWrite : RtCall → Bool
  | RtCall.clEnqueueWriteBuffer _ _ _ _ _ _ _ _ => true
  | _ => false

/-- Recogniser of the runtime call `clCreateBuffer`. -/
def RtCall.isCreate : RtCall → Bool
  | RtCall.clCreateBuffer _ _ _ _ => true
  | _ => false

/-- Recogniser of the runtime call `clReleaseMemObject`. -/
def RtCall.isRelease : RtCall → Bool
  | RtCall.clReleaseMemObject _ => true
  | _ => false

/-- The example state `exCacheA` with its populated line 1 in the lock set. -/
def exCacheB : Cache :=
  { exCacheA with lockedLines := [1] }

/-- The example state `exCacheA` after `setDirtyFlag(6, CPU)`: line 1 holds the
host pointer `6` with the flag `CPU`. -/
def exCacheC : Cache :=
  { exCacheA with
    lines := [zeroLine, { flag := Flag.CPU, age := 0, size := 4, tag := 6, deviceAddress := 8 }] }

/-- The geometry a constructed cache with at least one line has: a positive
number of sets and of lines per set, a table of `nrOfSets * nrOfLinesPerSet`
lines, and one line per set under direct mapping. -/
def WF (c : Cache) : Prop :=
  0 < c.nrOfSets ∧ 0 < c.nrOfLinesPerSet ∧ c.nrOfLines = c.nrOfSets * c.nrOfLinesPerSet ∧
    c.lines.length = c.nrOfLines ∧
    (c.organisation = Organisation.DIRECT_MAPPING → c.nrOfLinesPerSet = 1)

/-- An example state: a fully associative write-back LRU cache of one line,
which holds the host pointer `3` with handle `7` and flag `GPU`; it is the
state a fresh cache is in after `enqueueReadBuffer` of buffer `7` into `3`. -/
def exCacheD : Cache :=
  { freshCache Organisation.FULLY_ASSOCIATIVE ReplacementPolicy.LRU 1 1 1 true with
    lines := [{ flag := Flag.GPU, age := 0, size := 4, tag := 3, deviceAddress := 7 }]
    cache_command_queue := 1
    duration :=
      { hostToDevice := 0, deviceToHost := 0, kernel := 0, cacheHit := 0, cacheMiss := 0,
        bytesSaved := 4, bytesTotal := 4, bytesh2d_saved := 0, bytesh2d_total := 0,
        bytesd2h_saved := 4, bytesd2h_total := 4 } }

/-- An example state: `exCacheA` in which `setKernelArg` has recorded the
values `6` and `5` for the kernel `2`, and line 1 is in the lock set. -/
def exCacheE : Cache :=
  { exCacheA with kernelArguments := [(2, [6, 5])], lockedLines := [1] }

/-- The cache `c1` differs from `c` in its line table only. -/
def SameButLines (c c1 : Cache) : Prop :=
  c1 = { c with lines := c1.lines }

/-- An example state: a fully associative write-back LRU cache of two lines,
both flagged `GPU`: line 0 holds the host pointer `3`, line 1 the host
pointer `6`. -/
def exCacheF : Cache :=
  { freshCache Organisation.FULLY_ASSOCIATIVE ReplacementPolicy.LRU 1 2 2 true with
    lines := [{ flag := Flag.GPU, age := 0, size := 4, tag := 3, deviceAddress := 7 },
      { flag := Flag.GPU, age := 0, size := 4, tag := 6, deviceAddress := 8 }]
    cache_command_queue := 1 }

/-- The invariant behind the uniqueness of tags, for a cache that is not
direct-mapped: every line with a non-null tag sits in the set its tag indexes
to, no two lines share a non-null tag, and no line with a non-null tag is
flagged `CPU`. -/
def TagInv (c : Cache) : Prop :=
  c.organisation ≠ Organisation.DIRECT_MAPPING ∧
  (∀ i, (lineAt c.lines i).tag ≠ 0 →
    getSetIndex c (lineAt c.lines i).tag * c.nrOfLinesPerSet ≤ i ∧
    i < getSetIndex c (lineAt c.lines i).tag * c.nrOfLinesPerSet + c.nrOfLinesPerSet) ∧
  (∀ i j, (lineAt c.lines i).tag ≠ 0 → (lineAt c.lines i).tag = (lineAt c.lines j).tag → i = j) ∧
  (∀ i, (lineAt c.lines i).tag ≠ 0 → (lineAt c.lines i).flag ≠ Flag.CPU)

/-- The cache `c1` has the geometry and the tags of `c`, and each of its flags
is the flag of `c` or is not `CPU`. -/
def Soft (c c1 : Cache) : Prop :=
  c1.organisation = c.organisation ∧ c1.nrOfSets = c.nrOfSets ∧
    c1.nrOfLinesPerSet = c.nrOfLinesPerSet ∧
    ∀ j, (lineAt c1.lines j).tag = (lineAt c.lines j).tag ∧
      ((lineAt c1.lines j).flag = (lineAt c.lines j).flag ∨ (lineAt c1.lines j).flag ≠ Flag.CPU)

/-- The call is not `setDirtyFlag(ptr, CPU)`: it does not flag a line Host. -/
def Op.noHostFlag : Op → Prop
  | Op.setDirtyFlag _ Flag.CPU => False
  | _ => True

/-- The value of an outcome that returned, `d` otherwise. -/
def Res.getD {α : Type} (r : Res α) (d : α) : α :=
  match r with
  | Res.ok a => a
  | _ => d

/-- An example sequence of calls: a write-buffer of the host pointer `3`, one
of the host pointer `6`, a kernel launch (which clears the lock set), and a
second write-buffer of the host pointer `6` with a new handle. -/
def exOps : List Op :=
  [Op.enqueueWriteBuffer 1 7 1 0 4 3 0 0, Op.enqueueWriteBuffer 1 8 1 0 4 6 0 0,
    Op.enqueueNDRangeKernel 1 5 1 0 0 0 0 0, Op.enqueueWriteBuffer 1 9 1 0 4 6 0 0]

/-- The cache `c1` has the geometry, the organisation and the table length of
`c`. -/
def Geo (c c1 : Cache) : Prop :=
  c1.nrOfSets = c.nrOfSets ∧ c1.nrOfLinesPerSet = c.nrOfLinesPerSet ∧
    c1.nrOfLines = c.nrOfLines ∧ c1.organisation = c.organisation ∧
    c1.lines.length = c.lines.length

/-- An example state: the fully associative cache of two lines of the spec's
starvation scenario, line 0 holding the host pointer `0x300` and line 1 the
host pointer `0x400`, both in the lock set after consecutive hits. -/
def exCacheG (replacementPolicy : ReplacementPolicy) : Cache :=
  { freshCache Organisation.FULLY_ASSOCIATIVE replacementPolicy 1 2 2 false with
    lines := [{ flag := Flag.BOTH, age := 1, size := 4, tag := 0x300, deviceAddress := 7 },
      { flag := Flag.BOTH, age := 1, size := 4, tag := 0x400, deviceAddress := 8 }]
    lockedLines := [0, 1] }

/-- An example state: a direct-mapped cache of three lines whose line 0 holds
the host pointer `3` and is in the lock set. -/
def exCacheH : Cache :=
  { freshCache Organisation.DIRECT_MAPPING ReplacementPolicy.LRU 3 3 1 false with
    lines := [{ flag := Flag.BOTH, age := 0, size := 4, tag := 3, deviceAddress := 7 },
      zeroLine, zeroLine]
    lockedLines := [0] }

/-- The fresh cache of the scenario "hit on repeated write": fully associative,
4 lines, LRU, write-through. -/
def exFresh4 : Cache :=
  freshCache Organisation.FULLY_ASSOCIATIVE ReplacementPolicy.LRU 1 4 4 false

/-- An example sequence of calls on a write-back cache: a write-buffer of the
host pointer `3` (64 bytes), the host pointer recorded as argument of the
kernel `5`, a launch of that kernel, and `writeBack()`. -/
def exOpsSaved : List Op :=
  [Op.enqueueWriteBuffer 1 7 1 0 64 3 0 0, Op.setKernelArg 5 0 8 3,
    Op.enqueueNDRangeKernel 1 5 1 0 0 0 0 0, Op.writeBack]

/-- The handle a runtime call releases: the argument of a
`clReleaseMemObject`, none for any other call. -/
def RtCall.released : RtCall → Option Nat
  | RtCall.clReleaseMemObject memobj => some memobj
  | _ => none

/-- The handles passed to `clReleaseMemObject`, in the order of the trace. -/
def releases (trace : List RtCall) : List Nat :=
  trace.filterMap RtCall.released

/-- The line `l1` is the line `l` up to age, size and flag: same tag, same
handle, and an empty line (flag `CPU`, null tag) keeps its flag. -/
def Kept (l l1 : CacheLine) : Prop :=
  l1.tag = l.tag ∧ l1.deviceAddress = l.deviceAddress ∧
    (l.flag = Flag.CPU → l.tag = 0 → l1.flag = Flag.CPU)

/-- From `c` to `c1` no line was overwritten, and the handles in `rel` were
released, in that order. -/
def Frame (c c1 : Cache) (rel : List Nat) : Prop :=
  (∀ j, Kept (lineAt c.lines j) (lineAt c1.lines j)) ∧ c1.lines.length = c.lines.length ∧
    releases c1.trace = releases c.trace ++ rel

/-- From `c` to `c1` line `idx` was overwritten by an insertion of the handle
`b`: the other lines are kept, and the old handle of line `idx` was released
when it is non-null and differs from `b`. -/
def Inserted (c c1 : Cache) (idx b : Nat) : Prop :=
  (∀ j, if idx = j ∧ idx < c.lines.length then (lineAt c1.lines j).deviceAddress = b
    else Kept (lineAt c.lines j) (lineAt c1.lines j)) ∧
  c1.lines.length = c.lines.length ∧
  releases c1.trace = releases c.trace ++
    (if (lineAt c.lines idx).deviceAddress ≠ b ∧ (lineAt c.lines idx).deviceAddress ≠ 0
      then [(lineAt c.lines idx).deviceAddress] else [])

/-- The handle a call brings into the cache, if any: the one the runtime
creates for a `createBuffer` that misses (or hits a line flagged `CPU`), and
the caller's buffer of a write-buffer or read-buffer unless it is the handle of
the line the lookup finds. -/
def incoming (env : Env) (c : Cache) : Op → Option Nat
  | Op.createBuffer _ flags _ host_ptr _ =>
    if flags &&& CL_MEM_COPY_HOST_PTR ≠ 0 then
      match (getCacheLine c host_ptr).1 with
      | some i =>
        if (lineAt c.lines i).flag = Flag.CPU then some (env.mem c.trace.length) else none
      | none => some (env.mem c.trace.length)
    else none
  | Op.enqueueWriteBuffer _ b _ _ _ ptr _ _ =>
    match (getCacheLine c ptr).1 with
    | some i => if (lineAt c.lines i).deviceAddress = b then none else some b
    | none => some b
  | Op.enqueueReadBuffer _ b _ _ _ ptr _ _ =>
    match (getCacheLine c ptr).1 with
    | some i => if (lineAt c.lines i).deviceAddress = b then none else some b
    | none => some b
  | _ => none
/-- What a call other than `resetCache` does to the handles, from `c` to
`c1`: either no line is overwritten and at most the incoming handle is
released, or one line is overwritten by an insertion, of the incoming handle
or of the handle the line holds already (the line then has a non-null tag). -/
def Shape (env : Env) (c : Cache) (op : Op) (c1 : Cache) : Prop :=
  (∃ rel, Frame c c1 rel ∧ (rel = [] ∨ ∃ b, incoming env c op = some b ∧ rel = [b])) ∨
  (∃ idx b, (incoming env c op = some b ∨
      (b = (lineAt c.lines idx).deviceAddress ∧ (lineAt c.lines idx).tag ≠ 0)) ∧
    Inserted c c1 idx b)

/-- Every line holds a device handle, or is empty (flag `CPU`, null tag). -/
def HandlesPresent (c : Cache) : Prop :=
  ∀ j, (lineAt c.lines j).deviceAddress ≠ 0 ∨
    ((lineAt c.lines j).flag = Flag.CPU ∧ (lineAt c.lines j).tag = 0)

/-- The call passes a non-null buffer: the `*buffer` of a write-buffer and the
`buffer` of a read-buffer are not null. -/
def Op.bufferPresent : Op → Prop
  | Op.enqueueWriteBuffer _ b _ _ _ _ _ _ => b ≠ 0
  | Op.enqueueReadBuffer _ b _ _ _ _ _ _ => b ≠ 0
  | _ => True

/-- An example runtime that is out of device memory: every `clCreateBuffer`
returns the null handle and the status `-4`
(`CL_MEM_OBJECT_ALLOCATION_FAILURE`). -/
def exEnvFail : Env :=
  { exEnv with mem := fun _ => 0, status := fun _ => -4 }

/-- An example sequence of calls: a create-buffer of the host pointer `3`
with the flag `CL_MEM_COPY_HOST_PTR`, the host pointer recorded as argument of
the kernel `5`, and a launch of that kernel. -/
def exOpsCreate : List Op :=
  [Op.createBuffer 1 32 64 3 0, Op.setKernelArg 5 0 8 3, Op.enqueueNDRangeKernel 1 5 1 0 0 0 0 0]

/-- The handle `b` is fresh in the state `c`: no line holds it and it was
never released. -/
def FreshH (c : Cache) (b : Nat) : Prop :=
  (∀ l ∈ c.lines, l.deviceAddress ≠ b) ∧ b ∉ releases c.trace

instance (c : Cache) (b : Nat) : Decidable (FreshH c b) :=
  inferInstanceAs (Decidable ((∀ l ∈ c.lines, l.deviceAddress ≠ b) ∧ b ∉ releases c.trace))

/-- The handle the call brings into the cache, if any, is null or fresh. -/
def freshOp (env : Env) (c : Cache) (op : Op) : Bool :=
  match incoming env c op with
  | none => true
  | some b => decide (b = 0 ∨ FreshH c b)

/-- Every call of the sequence brings in a null or fresh handle, if any, in
the state it is made in. -/
def freshRun (env : Env) : List Op → Cache → Bool
  | [], _ => true
  | op :: ops, c =>
    freshOp env c op &&
      match step env c op with
      | Res.ok r => freshRun env ops r.2
      | _ => true

/-- The invariant of the handles: no two lines hold the same non-null handle,
no non-null handle held by a line was released, and no non-null handle was
released twice. -/
def HandleInv (c : Cache) : Prop :=
  (∀ i j, (lineAt c.lines i).deviceAddress ≠ 0 →
    (lineAt c.lines i).deviceAddress = (lineAt c.lines j).deviceAddress → i = j) ∧
  (∀ j, (lineAt c.lines j).deviceAddress ≠ 0 →
    (lineAt c.lines j).deviceAddress ∉ releases c.trace) ∧
  (∀ h, h ≠ 0 → (releases c.trace).count h ≤ 1)

/-- From `c` to `c1` every non-null handle a line held is still held by that
line or was released, and what was released stays released. -/
def Later (c c1 : Cache) : Prop :=
  (∀ j, (lineAt c.lines j).deviceAddress ≠ 0 →
    (lineAt c1.lines j).deviceAddress = (lineAt c.lines j).deviceAddress ∨
    (lineAt c.lines j).deviceAddress ∈ releases c1.trace) ∧
  (∀ h ∈ releases c.trace, h ∈ releases c1.trace)

/-- An example sequence of calls: two write-buffers with the same device
buffer `7`, of the host pointers `3` and `6`, then `resetCache`. -/
def exOpsShared : List Op :=
  [Op.enqueueWriteBuffer 1 7 1 0 4 3 0 0, Op.enqueueWriteBuffer 1 7 1 0 4 6 0 0, Op.resetCache]

/-- The cache `c` with another organisation, `rand()` count and FIFO cursors. -/
def retag (c : Cache) (o : Organisation) (rc : Nat) (fi : List Nat) : Cache :=
  { c with organisation := o, randCalls := rc, FIFO_index := fi }

/-- The host pointer for which the call has `addToCache` choose the line to
overwrite while lines may be locked, if it does: a create-buffer that misses or
finds a line flagged `CPU`, and a write-buffer that misses.  (A read-buffer
clears the lock set first, and a write-buffer that finds a line flagged `CPU`
passes the index of that line.) -/
def victimTag (c : Cache) : Op → Option Nat
  | Op.createBuffer _ flags _ host_ptr _ =>
    if flags &&& CL_MEM_COPY_HOST_PTR ≠ 0 then
      match (getCacheLine c host_ptr).1 with
      | some i => if (lineAt c.lines i).flag = Flag.CPU then some host_ptr else none
      | none => some host_ptr
    else none
  | Op.enqueueWriteBuffer _ _ _ _ _ ptr _ _ =>
    match (getCacheLine c ptr).1 with
    | some _ => none
    | none => some ptr
  | _ => none

/-- The call finds the candidate line of its insertion, the line its host
pointer indexes to, not locked. -/
def freeOp (c : Cache) (op : Op) : Bool :=
  match victimTag c op with
  | none => true
  | some tag => decide (getSetIndex c tag ∉ c.lockedLines)

/-- No call of the sequence finds the candidate line of its insertion locked,
in the state it is made in. -/
def freeRun (env : Env) : List Op → Cache → Bool
  | [], _ => true
  | op :: ops, c =>
    freeOp c op &&
      match step env c op with
      | Res.ok r => freeRun env ops r.2
      | _ => true

/-- An example sequence of calls: write-buffers of the host pointers `3` and
`4`, a kernel launch, and a write-buffer of the host pointer `6`. -/
def exOpsFree : List Op :=
  [Op.enqueueWriteBuffer 1 7 1 0 4 3 0 0, Op.enqueueWriteBuffer 1 8 1 0 4 4 0 0,
    Op.enqueueNDRangeKernel 1 5 1 0 0 0 0 0, Op.enqueueWriteBuffer 1 9 1 0 4 6 0 0]

/-- An example state: a fully associative LRU cache of three lines, holding
the host pointers `3`, `6`, `9` with the ages 3, 5, 5 and the sizes 64, 16,
16. -/
def exCacheAges : Cache :=
  { freshCache Organisation.FULLY_ASSOCIATIVE ReplacementPolicy.LRU 1 3 3 false with
    lines := [{ flag := Flag.BOTH, age := 3, size := 64, tag := 3, deviceAddress := 7 },
      { flag := Flag.BOTH, age := 5, size := 16, tag := 6, deviceAddress := 8 },
      { flag := Flag.BOTH, age := 5, size := 16, tag := 9, deviceAddress := 9 }] }

/-- An example state: the three-line example cache under FIFO, with the cursor
of its one set at 0 and line 1 in the lock set. -/
def exCacheFifo : Cache :=
  { exCacheAges with replacementPolicy := ReplacementPolicy.FIFO, lockedLines := [1] }

/-- An example state: a fully associative SMALLEST cache of two lines, line 0
holding the host pointer `3` with a buffer of `2^32` bytes and line 1 the host
pointer `6` with a buffer of 16 bytes. -/
def exCacheBig : Cache :=
  { freshCache Organisation.FULLY_ASSOCIATIVE ReplacementPolicy.SMALLEST 1 2 2 false with
    lines := [{ flag := Flag.BOTH, age := 0, size := 2 ^ 32, tag := 3, deviceAddress := 7 },
      { flag := Flag.BOTH, age := 0, size := 16, tag := 6, deviceAddress := 8 }] }

/-- An example runtime in which the call at trace position 3 fails with the
status `-5` (`CL_OUT_OF_RESOURCES`) and every other call succeeds. -/
def exEnvFlush : Env :=
  { exEnv with status := fun k => if k = 3 then -5 else 0 }

/-- An example sequence of calls on a write-back cache of one line: a
write-buffer of the host pointer `3`, which a kernel launch then flags `GPU`,
and a write-buffer of the host pointer `6`, which evicts it. -/
def exOpsEvict : List Op :=
  [Op.enqueueWriteBuffer 1 7 1 0 64 3 0 0, Op.setKernelArg 5 0 8 3,
    Op.enqueueNDRangeKernel 1 5 1 0 0 0 0 0, Op.enqueueWriteBuffer 1 8 1 0 64 6 0 0]

/-- The cache `c1` has the geometry, the replacement policy and the write mode
of `c`. -/
def Conf (c c1 : Cache) : Prop :=
  Geo c c1 ∧ c1.replacementPolicy = c.replacementPolicy ∧ c1.write_back = c.write_back

/-- An example sequence of calls: a write-buffer of the host pointer `3` and
one of the host pointer `6`, which a direct-mapped cache of three lines maps
to the same line. -/
def exOpsDirect : List Op :=
  [Op.enqueueWriteBuffer 1 7 1 0 64 3 0 0, Op.enqueueWriteBuffer 1 8 1 0 64 6 0 0]

/-- An example sequence of calls: a read-buffer and a second write-buffer of
the host pointer `6`, with the handle and the size of the first one. -/
def exOpsAgain : List Op :=
  [Op.enqueueReadBuffer 1 8 1 0 64 6 0 0, Op.enqueueWriteBuffer 1 8 1 0 64 6 0 0]

/-- The flag, tag, size and handle of every line of a table. -/
def lineContents (lines : List CacheLine) : List (Flag × Nat × Nat × Nat) :=
  lines.map fun l => (l.flag, l.tag, l.size, l.deviceAddress)

/-- An example state: the direct-mapped cache of three lines with every line
in the lock set. -/
def exCacheLockedDM : Cache :=
  { freshCache Organisation.DIRECT_MAPPING ReplacementPolicy.LRU 3 3 1 false with
    lockedLines := [0, 1, 2] }

/-- An example sequence of calls: write-buffers of the host pointers `3`, `4`
and `5`, which a direct-mapped cache of three lines maps to its lines 0, 1
and 2. -/
def exOpsFill : List Op :=
  [Op.enqueueWriteBuffer 1 7 1 0 64 3 0 0, Op.enqueueWriteBuffer 1 8 1 0 64 4 0 0,
    Op.enqueueWriteBuffer 1 9 1 0 64 5 0 0]

/-- Every line with a non-null tag sits in the set its tag indexes to, in a
cache that is not direct-mapped. -/
def Placed (c : Cache) : Prop :=
  c.organisation ≠ Organisation.DIRECT_MAPPING ∧
  ∀ i, (lineAt c.lines i).tag ≠ 0 →
    getSetIndex c (lineAt c.lines i).tag * c.nrOfLinesPerSet ≤ i ∧
    i < getSetIndex c (lineAt c.lines i).tag * c.nrOfLinesPerSet + c.nrOfLinesPerSet

/-- The cache `c1` has the organisation, the set geometry and the tags of
`c`. -/
def SameTags (c c1 : Cache) : Prop :=
  c1.organisation = c.organisation ∧ c1.nrOfSets = c.nrOfSets ∧
    c1.nrOfLinesPerSet = c.nrOfLinesPerSet ∧
    ∀ j, (lineAt c1.lines j).tag = (lineAt c.lines j).tag

/-- An example sequence of calls on a cache of two lines: write-buffers of the
host pointers `3` and `6`, a kernel launch (which clears the lock set), a
write-buffer of `3` again, which is a hit, and a second launch. -/
def exOpsLruHit : List Op :=
  [Op.enqueueWriteBuffer 1 7 1 0 64 3 0 0, Op.enqueueWriteBuffer 1 8 1 0 64 6 0 0,
    Op.enqueueNDRangeKernel 1 5 1 0 0 0 0 0, Op.enqueueWriteBuffer 1 7 1 0 64 3 0 0,
    Op.enqueueNDRangeKernel 1 5 1 0 0 0 0 0]

-- end of the definitions

/-! # Theorems -/

/-! ## Line table lemmas -/

theorem lineAt_setLine (lines : List CacheLine) (i j : Nat) (l : CacheLine) :
    lineAt (setLine lines i l) j = if i = j ∧ i < lines.length then l else lineAt lines j := by
  unfold lineAt setLine
  rw [List.getD_eq_getElem?_getD, List.getD_eq_getElem?_getD, List.getElem?_set]
  by_cases h : i = j
  · subst h
    by_cases h2 : i < lines.length
    · simp [h2]
    · simp [h2]
      have : lines[i]? = none := by simp; omega
      simp [this]
  · simp [h]

theorem length_setLine (lines : List CacheLine) (i : Nat) (l : CacheLine) :
    (setLine lines i l).length = lines.length := by
  unfold setLine; simp

theorem lineAt_of_length_le (lines : List CacheLine) (i : Nat) (h : lines.length ≤ i) :
    lineAt lines i = zeroLine := by
  unfold lineAt
  rw [List.getD_eq_getElem?_getD]
  have : lines[i]? = none := by simp; omega
  simp [this]

theorem lt_length_of_tag_ne_zero (lines : List CacheLine) (i : Nat)
    (h : (lineAt lines i).tag ≠ 0) : i < lines.length := by
  by_contra hc
  rw [lineAt_of_length_le lines i (by omega)] at h
  exact h rfl

theorem AgeOnly.ageRefl (l : List CacheLine) : AgeOnly l l :=
  ⟨rfl, fun _ => ⟨rfl, rfl, rfl, rfl⟩⟩

theorem AgeOnly.ageTrans {l1 l2 l3 : List CacheLine} (h12 : AgeOnly l1 l2) (h23 : AgeOnly l2 l3) :
    AgeOnly l1 l3 := by
  refine ⟨h12.1.trans h23.1, fun j => ?_⟩
  obtain ⟨a1, a2, a3, a4⟩ := h12.2 j
  obtain ⟨b1, b2, b3, b4⟩ := h23.2 j
  exact ⟨a1.trans b1, a2.trans b2, a3.trans b3, a4.trans b4⟩

theorem ageOnly_bumpAge (lines : List CacheLine) (i : Nat) : AgeOnly lines (bumpAge lines i) := by
  refine ⟨(length_setLine _ _ _).symm, fun j => ?_⟩
  unfold bumpAge
  rw [lineAt_setLine]
  split
  · next h => obtain ⟨rfl, _⟩ := h; exact ⟨rfl, rfl, rfl, rfl⟩
  · exact ⟨rfl, rfl, rfl, rfl⟩

theorem ageOnly_clearAge (lines : List CacheLine) (i : Nat) : AgeOnly lines (clearAge lines i) := by
  refine ⟨(length_setLine _ _ _).symm, fun j => ?_⟩
  unfold clearAge
  rw [lineAt_setLine]
  split
  · next h => obtain ⟨rfl, _⟩ := h; exact ⟨rfl, rfl, rfl, rfl⟩
  · exact ⟨rfl, rfl, rfl, rfl⟩

theorem getCacheLineLoop_ageOnly (rp : ReplacementPolicy) (tag : Nat) (n : Nat) :
    ∀ (idx : Nat) (lines : List CacheLine) (found : Option Nat),
      AgeOnly lines (getCacheLineLoop rp tag n idx lines found).2 := by
  induction n with
  | zero => intro idx lines found; exact AgeOnly.ageRefl _
  | succ n ih =>
    intro idx lines found
    unfold getCacheLineLoop
    split
    · split
      · exact ((ageOnly_clearAge lines idx).ageTrans (ageOnly_bumpAge _ idx)).ageTrans (ih _ _ _)
      · exact AgeOnly.ageRefl _
    · split
      · exact (ageOnly_bumpAge lines idx).ageTrans (ih _ _ _)
      · exact ih _ _ _

theorem getCacheLineLoop_found (rp : ReplacementPolicy) (tag : Nat) (n : Nat) :
    ∀ (idx : Nat) (lines : List CacheLine) (found : Option Nat),
      ((getCacheLineLoop rp tag n idx lines found).1 = found ∧
        ∀ j, idx ≤ j → j < idx + n → (lineAt lines j).tag ≠ tag) ∨
      ∃ i, (getCacheLineLoop rp tag n idx lines found).1 = some i ∧ idx ≤ i ∧ i < idx + n ∧
        (lineAt lines i).tag = tag := by
  induction n with
  | zero =>
    intro idx lines found
    left
    exact ⟨rfl, fun j h1 h2 => by omega⟩
  | succ n ih =>
    intro idx lines found
    unfold getCacheLineLoop
    split
    · next hm =>
      split
      · right
        have hA := (ageOnly_clearAge lines idx).ageTrans (ageOnly_bumpAge (clearAge lines idx) idx)
        rcases ih (idx + 1) (bumpAge (clearAge lines idx) idx) (some idx) with ⟨h1, _⟩ | ⟨i, h1, h2, h3, h4⟩
        · exact ⟨idx, h1, le_refl _, by omega, hm⟩
        · exact ⟨i, h1, by omega, by omega, by rw [(hA.2 i).2.2.1]; exact h4⟩
      · right
        exact ⟨idx, rfl, le_refl _, by omega, hm⟩
    · next hm =>
      split
      · have hA := ageOnly_bumpAge lines idx
        rcases ih (idx + 1) (bumpAge lines idx) found with ⟨h1, h2⟩ | ⟨i, h1, h2, h3, h4⟩
        · left
          refine ⟨h1, fun j hj1 hj2 => ?_⟩
          by_cases hj : j = idx
          · subst hj; exact hm
          · rw [(hA.2 j).2.2.1]; exact h2 j (by omega) (by omega)
        · right
          exact ⟨i, h1, by omega, by omega, by rw [(hA.2 i).2.2.1]; exact h4⟩
      · rcases ih (idx + 1) lines found with ⟨h1, h2⟩ | ⟨i, h1, h2, h3, h4⟩
        · left
          refine ⟨h1, fun j hj1 hj2 => ?_⟩
          by_cases hj : j = idx
          · subst hj; exact hm
          · exact h2 j (by omega) (by omega)
        · right
          exact ⟨i, h1, by omega, by omega, h4⟩

theorem getCacheLine_ageOnly (c : Cache) (tag : Nat) :
    AgeOnly c.lines (getCacheLine c tag).2.lines := by
  unfold getCacheLine
  split
  · exact AgeOnly.ageRefl _
  · exact getCacheLineLoop_ageOnly _ _ _ _ _ _

/-- The lookup changes the line table only: every other member of the cache
is as before. -/
theorem getCacheLine_frame (c : Cache) (tag : Nat) :
    (getCacheLine c tag).2 = { c with lines := (getCacheLine c tag).2.lines } := by
  unfold getCacheLine
  split <;> rfl

theorem getCacheLine_some (c : Cache) (tag i : Nat) (h : (getCacheLine c tag).1 = some i) :
    tag ≠ 0 ∧ getSetIndex c tag * c.nrOfLinesPerSet ≤ i ∧
      i < getSetIndex c tag * c.nrOfLinesPerSet + c.nrOfLinesPerSet ∧
      (lineAt c.lines i).tag = tag := by
  unfold getCacheLine at h
  split at h
  · simp at h
  · next h0 =>
    rcases getCacheLineLoop_found c.replacementPolicy tag c.nrOfLinesPerSet
      (getSetIndex c tag * c.nrOfLinesPerSet) c.lines none with ⟨h1, _⟩ | ⟨j, h1, h2, h3, h4⟩
    · simp only [] at h
      rw [h1] at h
      simp at h
    · simp only [] at h
      rw [h1] at h
      have : j = i := by simpa using h
      subst this
      exact ⟨h0, h2, h3, h4⟩

theorem getCacheLine_none (c : Cache) (tag : Nat) (h : (getCacheLine c tag).1 = none) :
    tag = 0 ∨ ∀ j, getSetIndex c tag * c.nrOfLinesPerSet ≤ j →
      j < getSetIndex c tag * c.nrOfLinesPerSet + c.nrOfLinesPerSet →
      (lineAt c.lines j).tag ≠ tag := by
  unfold getCacheLine at h
  split at h
  · next h0 => exact Or.inl h0
  · right
    rcases getCacheLineLoop_found c.replacementPolicy tag c.nrOfLinesPerSet
      (getSetIndex c tag * c.nrOfLinesPerSet) c.lines none with ⟨_, h2⟩ | ⟨j, h1, _, _, _⟩
    · exact h2
    · simp only [] at h
      rw [h1] at h
      simp at h

/-! ## C3: lookup -/

/-- C3: for every cache state and every non-null tag `p`, the lookup
`getCacheLine` returns a line if and only if some line among the candidate
indices `[s*L, s*L + L)`, with `s = p mod nrOfSets` and `L = nrOfLinesPerSet`,
has tag `p`; the line it returns lies in that range (and in the table) and
has tag `p`, before and after the scan. -/
theorem getCacheLine_iff_tag_in_set (c : Cache) (p : Nat) (hp : p ≠ 0) :
    ((∃ i, (getCacheLine c p).1 = some i) ↔
      ∃ j, (p % c.nrOfSets) * c.nrOfLinesPerSet ≤ j ∧
        j < (p % c.nrOfSets) * c.nrOfLinesPerSet + c.nrOfLinesPerSet ∧
        (lineAt c.lines j).tag = p) ∧
    ∀ i, (getCacheLine c p).1 = some i →
      (p % c.nrOfSets) * c.nrOfLinesPerSet ≤ i ∧
      i < (p % c.nrOfSets) * c.nrOfLinesPerSet + c.nrOfLinesPerSet ∧
      i < c.lines.length ∧ (lineAt c.lines i).tag = p ∧
      (lineAt (getCacheLine c p).2.lines i).tag = p := by
  refine ⟨⟨?_, ?_⟩, ?_⟩
  · rintro ⟨i, hi⟩
    obtain ⟨_, h1, h2, h3⟩ := getCacheLine_some c p i hi
    exact ⟨i, h1, h2, h3⟩
  · rintro ⟨j, h1, h2, h3⟩
    cases hr : (getCacheLine c p).1 with
    | some i => exact ⟨i, rfl⟩
    | none =>
      rcases getCacheLine_none c p hr with h0 | hno
      · exact absurd h0 hp
      · exact absurd h3 (hno j h1 h2)
  · intro i hi
    obtain ⟨_, h1, h2, h3⟩ := getCacheLine_some c p i hi
    refine ⟨h1, h2, ?_, h3, ?_⟩
    · exact lt_length_of_tag_ne_zero c.lines i (by rw [h3]; exact hp)
    · rw [← ((getCacheLine_ageOnly c p).2 i).2.2.1]; exact h3

/-- C3, witness: the lookup of the host pointer `6` in the example state. -/
theorem getCacheLine_iff_tag_in_set_witness :
    (6 : Nat) ≠ 0 ∧ (getCacheLine exCacheA 6).1 = some 1 ∧
      ((∃ i, (getCacheLine exCacheA 6).1 = some i) ↔
        ∃ j, (6 % exCacheA.nrOfSets) * exCacheA.nrOfLinesPerSet ≤ j ∧
          j < (6 % exCacheA.nrOfSets) * exCacheA.nrOfLinesPerSet + exCacheA.nrOfLinesPerSet ∧
          (lineAt exCacheA.lines j).tag = 6) :=
  ⟨by decide, by decide, (getCacheLine_iff_tag_in_set exCacheA 6 (by decide)).1⟩

/-! ## Victim selection -/

theorem getRandomIndexLoop_not_locked (env : Env) (L setIndex : Nat) (locked : List Nat) (m : Nat) :
    ∀ rc, (getRandomIndexLoop env L setIndex locked (m + 1) rc).2.2 ≠ 0 →
      (getRandomIndexLoop env L setIndex locked (m + 1) rc).1 ∉ locked := by
  induction m with
  | zero =>
    intro rc h
    unfold getRandomIndexLoop at h ⊢
    by_cases hl : setIndex * L + env.rand rc % L ∈ locked
    · simp [hl] at h
    · simp [hl]
  | succ m ih =>
    intro rc h
    unfold getRandomIndexLoop at h ⊢
    by_cases hl : setIndex * L + env.rand rc % L ∈ locked
    · simp only [hl, if_true, Nat.succ_pos] at h ⊢
      exact ih (rc + 1) h
    · simp [hl]

theorem getRandomIndexLoop_range (env : Env) (L setIndex : Nat) (locked : List Nat) (hL : 0 < L)
    (m : Nat) : ∀ rc, setIndex * L ≤ (getRandomIndexLoop env L setIndex locked m rc).1 ∧
      (getRandomIndexLoop env L setIndex locked m rc).1 < setIndex * L + L := by
  induction m with
  | zero =>
    intro rc
    unfold getRandomIndexLoop
    have := Nat.mod_lt (env.rand rc) hL
    constructor
    · simp
    · simp
      omega
  | succ m ih =>
    intro rc
    unfold getRandomIndexLoop
    have := Nat.mod_lt (env.rand rc) hL
    by_cases hl : setIndex * L + env.rand rc % L ∈ locked
    · by_cases hm : 0 < m
      · simp only [hl, hm, if_true]
        exact ih (rc + 1)
      · simp only [hl, hm, if_true, if_false]
        constructor <;> omega
    · simp only [hl, if_false]
      constructor <;> omega

theorem getRandomIndexLoop_first (env : Env) (L setIndex : Nat) (locked : List Nat) (m rc : Nat)
    (h : setIndex * L + env.rand rc % L ∉ locked) :
    getRandomIndexLoop env L setIndex locked (m + 1) rc =
      (setIndex * L + env.rand rc % L, rc + 1, ((m + 1 : Nat) : Int)) := by
  unfold getRandomIndexLoop
  simp [h]

theorem fifoLoop_not_locked (L setIndex : Nat) (locked : List Nat) (m : Nat) :
    ∀ cur, (fifoLoop L setIndex locked (m + 1) cur).2.2 ≠ 0 →
      (fifoLoop L setIndex locked (m + 1) cur).2.1 ∉ locked := by
  induction m with
  | zero =>
    intro cur h
    unfold fifoLoop at h ⊢
    by_cases hl : add32 cur 1 % L + setIndex * L ∈ locked
    · simp [hl] at h
    · simp [hl]
  | succ m ih =>
    intro cur h
    unfold fifoLoop at h ⊢
    by_cases hl : add32 cur 1 % L + setIndex * L ∈ locked
    · simp only [hl, if_true, Nat.succ_pos] at h ⊢
      exact ih _ h
    · simp [hl]

theorem fifoLoop_range (L setIndex : Nat) (locked : List Nat) (hL : 0 < L) (m : Nat) :
    ∀ cur, setIndex * L ≤ (fifoLoop L setIndex locked m cur).2.1 ∧
      (fifoLoop L setIndex locked m cur).2.1 < setIndex * L + L := by
  induction m with
  | zero =>
    intro cur
    unfold fifoLoop
    have := Nat.mod_lt (add32 cur 1) hL
    constructor
    · simp
    · simp
      omega
  | succ m ih =>
    intro cur
    unfold fifoLoop
    have := Nat.mod_lt (add32 cur 1) hL
    by_cases hl : add32 cur 1 % L + setIndex * L ∈ locked
    · by_cases hm : 0 < m
      · simp only [hl, hm, if_true]
        exact ih _
      · simp only [hl, hm, if_true, if_false]
        constructor <;> omega
    · simp only [hl, if_false]
      constructor <;> omega

theorem fifoLoop_first (L setIndex : Nat) (locked : List Nat) (m cur : Nat)
    (h : add32 cur 1 % L + setIndex * L ∉ locked) :
    fifoLoop L setIndex locked (m + 1) cur =
      (add32 cur 1 % L, add32 cur 1 % L + setIndex * L, ((m + 1 : Nat) : Int)) := by
  unfold fifoLoop
  simp [h]

theorem getOldestIndexLoop_spec (locked : List Nat) (n : Nat) :
    ∀ (idx : Nat) (lines : List CacheLine) (oi oa : Int),
      (getOldestIndexLoop locked false n idx lines oi oa).2 = lines ∧
      ((getOldestIndexLoop locked false n idx lines oi oa).1 = oi ∨
        ∃ k : Nat, (getOldestIndexLoop locked false n idx lines oi oa).1 = (k : Int) ∧
          idx ≤ k ∧ k < idx + n ∧ k ∉ locked) := by
  induction n with
  | zero => intro idx lines oi oa; exact ⟨rfl, Or.inl rfl⟩
  | succ n ih =>
    intro idx lines oi oa
    unfold getOldestIndexLoop
    split
    · split
      · obtain ⟨h1, h2⟩ := ih (idx + 1) lines oi oa
        refine ⟨h1, ?_⟩
        rcases h2 with h2 | ⟨k, h2, h3, h4, h5⟩
        · exact Or.inl h2
        · exact Or.inr ⟨k, h2, by omega, by omega, h5⟩
      · next hl =>
        simp only [Bool.false_eq_true, if_false]
        obtain ⟨h1, h2⟩ := ih (idx + 1) lines (idx : Int) (lineAt lines idx).age
        refine ⟨h1, ?_⟩
        rcases h2 with h2 | ⟨k, h2, h3, h4, h5⟩
        · exact Or.inr ⟨idx, h2, le_refl _, by omega, hl⟩
        · exact Or.inr ⟨k, h2, by omega, by omega, h5⟩
    · simp only [Bool.false_eq_true, if_false]
      obtain ⟨h1, h2⟩ := ih (idx + 1) lines oi oa
      refine ⟨h1, ?_⟩
      rcases h2 with h2 | ⟨k, h2, h3, h4, h5⟩
      · exact Or.inl h2
      · exact Or.inr ⟨k, h2, by omega, by omega, h5⟩

theorem getSmallestDataLineLoop_spec (locked : List Nat) (lines : List CacheLine) (n : Nat) :
    ∀ (idx : Nat) (si ss : Int),
      getSmallestDataLineLoop locked lines n idx si ss = si ∨
        ∃ k : Nat, getSmallestDataLineLoop locked lines n idx si ss = (k : Int) ∧
          idx ≤ k ∧ k < idx + n ∧ k ∉ locked := by
  induction n with
  | zero => intro idx si ss; exact Or.inl rfl
  | succ n ih =>
    intro idx si ss
    unfold getSmallestDataLineLoop
    split
    · split
      · rcases ih (idx + 1) si ss with h2 | ⟨k, h2, h3, h4, h5⟩
        · exact Or.inl h2
        · exact Or.inr ⟨k, h2, by omega, by omega, h5⟩
      · next hl =>
        rcases ih (idx + 1) (idx : Int) (toInt32 (lineAt lines idx).size) with
          h2 | ⟨k, h2, h3, h4, h5⟩
        · exact Or.inr ⟨idx, h2, le_refl _, by omega, hl⟩
        · exact Or.inr ⟨k, h2, by omega, by omega, h5⟩
    · rcases ih (idx + 1) si ss with h2 | ⟨k, h2, h3, h4, h5⟩
      · exact Or.inl h2
      · exact Or.inr ⟨k, h2, by omega, by omega, h5⟩

theorem directLoop_spec (env : Env) (nrOfLines : Nat) (locked : List Nat) (f : Nat) :
    ∀ rc r, directLoop env nrOfLines locked f rc = Res.ok r → r.1 ∉ locked := by
  induction f with
  | zero => intro rc r h; simp [directLoop] at h
  | succ f ih =>
    intro rc r h
    unfold directLoop at h
    by_cases hl : env.rand rc % nrOfLines ∈ locked
    · simp only [hl, if_true] at h
      exact ih _ _ h
    · simp only [hl, if_false, Res.ok.injEq] at h
      rw [← h]
      exact hl

theorem getRandomIndex_ok (env : Env) (c : Cache) (setIndex : Nat) (r : Nat × Cache)
    (h : getRandomIndex env c setIndex = Res.ok r) :
    r.1 ∉ c.lockedLines ∧ setIndex * c.nrOfLinesPerSet ≤ r.1 ∧
      r.1 < setIndex * c.nrOfLinesPerSet + c.nrOfLinesPerSet ∧
      r.2 = { c with randCalls := r.2.randCalls } := by
  unfold getRandomIndex at h
  split at h
  · simp at h
  · next hL =>
    simp only [] at h
    split at h
    · simp at h
    · next hm =>
      simp only [Res.ok.injEq] at h
      subst h
      refine ⟨getRandomIndexLoop_not_locked env _ _ _ 999 _ hm, ?_, ?_, rfl⟩
      · exact (getRandomIndexLoop_range env _ setIndex c.lockedLines (by omega) 1000 _).1
      · exact (getRandomIndexLoop_range env _ setIndex c.lockedLines (by omega) 1000 _).2

theorem fifoIndex_ok (c : Cache) (setIndex : Nat) (r : Nat × Cache)
    (h : fifoIndex c setIndex = Res.ok r) :
    r.1 ∉ c.lockedLines ∧ setIndex * c.nrOfLinesPerSet ≤ r.1 ∧
      r.1 < setIndex * c.nrOfLinesPerSet + c.nrOfLinesPerSet ∧
      r.2 = { c with FIFO_index := r.2.FIFO_index } := by
  unfold fifoIndex at h
  split at h
  · simp at h
  · next hL =>
    simp only [] at h
    split at h
    · simp at h
    · next hm =>
      simp only [Res.ok.injEq] at h
      subst h
      refine ⟨fifoLoop_not_locked _ _ _ 999 _ hm, ?_, ?_, rfl⟩
      · exact (fifoLoop_range _ setIndex c.lockedLines (by omega) 1000 _).1
      · exact (fifoLoop_range _ setIndex c.lockedLines (by omega) 1000 _).2

theorem getOldestIndex_ok (env : Env) (c : Cache) (setIndex : Nat) (r : Nat × Cache)
    (h : getOldestIndex env c setIndex false = Res.ok r) :
    r.1 ∉ c.lockedLines ∧ setIndex * c.nrOfLinesPerSet ≤ r.1 ∧
      r.1 < setIndex * c.nrOfLinesPerSet + c.nrOfLinesPerSet ∧
      r.2 = { c with randCalls := r.2.randCalls } := by
  unfold getOldestIndex at h
  obtain ⟨h1, h2⟩ := getOldestIndexLoop_spec c.lockedLines c.nrOfLinesPerSet
    (setIndex * c.nrOfLinesPerSet) c.lines (-1) (-1)
  simp only [] at h
  rw [h1] at h
  split at h
  · exact getRandomIndex_ok env c setIndex r h
  · next hne =>
    rcases h2 with h2 | ⟨k, h2, h3, h4, h5⟩
    · exact absurd h2 hne
    · simp only [Res.ok.injEq] at h
      subst h
      simp only [h2, Int.toNat_ofNat]
      exact ⟨h5, h3, h4, trivial⟩

theorem getSmallestDataLine_ok (env : Env) (c : Cache) (setIndex : Nat) (r : Nat × Cache)
    (h : getSmallestDataLine env c setIndex = Res.ok r) :
    r.1 ∉ c.lockedLines ∧ setIndex * c.nrOfLinesPerSet ≤ r.1 ∧
      r.1 < setIndex * c.nrOfLinesPerSet + c.nrOfLinesPerSet ∧
      r.2 = { c with randCalls := r.2.randCalls } := by
  unfold getSmallestDataLine at h
  have h2 := getSmallestDataLineLoop_spec c.lockedLines c.lines c.nrOfLinesPerSet
    (setIndex * c.nrOfLinesPerSet) (-1) (-1)
  simp only [] at h
  split at h
  · exact getRandomIndex_ok env c setIndex r h
  · next hne =>
    rcases h2 with h2 | ⟨k, h2, h3, h4, h5⟩
    · exact absurd h2 hne
    · simp only [Res.ok.injEq] at h
      subst h
      simp only [h2, Int.toNat_ofNat]
      exact ⟨h5, h3, h4, trivial⟩

/-- What a returning victim selection guarantees: the chosen index is not in
the lock set, the cache is unchanged but for the `rand()` count and the FIFO
cursors, and, unless the cache is direct-mapped, the index lies in the set
of the tag. -/
theorem chooseVictim_ok (env : Env) (c : Cache) (tag : Nat) (r : Nat × Cache)
    (h : chooseVictim env c tag = Res.ok r) :
    r.1 ∉ c.lockedLines ∧
      r.2 = { c with randCalls := r.2.randCalls, FIFO_index := r.2.FIFO_index } ∧
      (c.organisation ≠ Organisation.DIRECT_MAPPING →
        getSetIndex c tag * c.nrOfLinesPerSet ≤ r.1 ∧
        r.1 < getSetIndex c tag * c.nrOfLinesPerSet + c.nrOfLinesPerSet) := by
  unfold chooseVictim at h
  simp only [] at h
  split at h
  · next horg =>
    split at h
    · obtain ⟨h1, h2, h3, h4⟩ := getOldestIndex_ok env c _ r h
      exact ⟨h1, by rw [h4], fun _ => ⟨h2, h3⟩⟩
    · obtain ⟨h1, h2, h3, h4⟩ := fifoIndex_ok c _ r h
      exact ⟨h1, by rw [h4], fun _ => ⟨h2, h3⟩⟩
    · obtain ⟨h1, h2, h3, h4⟩ := getRandomIndex_ok env c _ r h
      exact ⟨h1, by rw [h4], fun _ => ⟨h2, h3⟩⟩
    · obtain ⟨h1, h2, h3, h4⟩ := getSmallestDataLine_ok env c _ r h
      exact ⟨h1, by rw [h4], fun _ => ⟨h2, h3⟩⟩
  · next horg =>
    split at h
    · split at h
      · simp at h
      · split at h
        · next x hx =>
          simp only [Res.ok.injEq] at h
          subst h
          exact ⟨directLoop_spec env _ _ _ _ _ hx, rfl, fun hn => absurd hn horg⟩
        · simp at h
        · simp at h
        · simp at h
    · next hl =>
      simp only [Res.ok.injEq] at h
      subst h
      exact ⟨hl, rfl, fun hn => absurd hn horg⟩

/-! ## Overwriting a line -/

theorem lineAt_setFlag (lines : List CacheLine) (i j : Nat) (f : Flag) :
    lineAt (setFlag lines i f) j =
      if i = j ∧ i < lines.length then { lineAt lines i with flag := f } else lineAt lines j := by
  unfold setFlag
  rw [lineAt_setLine]

theorem length_setFlag (lines : List CacheLine) (i : Nat) (f : Flag) :
    (setFlag lines i f).length = lines.length := by
  unfold setFlag; exact length_setLine _ _ _

theorem setLine_setFlag (lines : List CacheLine) (i : Nat) (f : Flag) (l : CacheLine) :
    setLine (setFlag lines i f) i l = setLine lines i l := by
  unfold setFlag setLine
  simp

theorem overwriteLine_fst (env : Env) (c : Cache) (idx tag size deviceAddress : Nat) (flag : Flag) :
    (overwriteLine env c idx tag size deviceAddress flag).1 =
      { flag := flag, age := 0, tag := tag, size := size, deviceAddress := deviceAddress } := by
  rfl

theorem overwriteLine_lines (env : Env) (c : Cache) (idx tag size deviceAddress : Nat)
    (flag : Flag) :
    (overwriteLine env c idx tag size deviceAddress flag).2.lines =
      setLine c.lines idx
        { flag := flag, age := 0, tag := tag, size := size, deviceAddress := deviceAddress } := by
  unfold overwriteLine
  simp only []
  split_ifs <;> simp [setLine_setFlag]

theorem overwriteLine_frame (env : Env) (c : Cache) (idx tag size deviceAddress : Nat)
    (flag : Flag) :
    (overwriteLine env c idx tag size deviceAddress flag).2 =
      { c with
        lines := (overwriteLine env c idx tag size deviceAddress flag).2.lines
        lockedLines := c.lockedLines ++ [idx]
        trace := (overwriteLine env c idx tag size deviceAddress flag).2.trace
        duration := (overwriteLine env c idx tag size deviceAddress flag).2.duration
        buffers := (overwriteLine env c idx tag size deviceAddress flag).2.buffers } := by
  unfold overwriteLine
  simp only []
  split_ifs <;> rfl

theorem overwriteLine_trace (env : Env) (c : Cache) (idx tag size deviceAddress : Nat)
    (flag : Flag) :
    (overwriteLine env c idx tag size deviceAddress flag).2.trace =
      c.trace ++ flushCalls c idx ++ releaseCalls c idx deviceAddress := by
  unfold overwriteLine flushCalls releaseCalls
  simp only []
  by_cases h1 : c.write_back = true ∧ (lineAt c.lines idx).flag = Flag.GPU
  · have hd : (lineAt (setFlag c.lines idx Flag.BOTH) idx).deviceAddress =
        (lineAt c.lines idx).deviceAddress := by
      rw [lineAt_setFlag]; split <;> rfl
    simp only [h1, and_self, if_true, hd]
    split_ifs <;> simp
  · simp only [h1, if_false]
    split_ifs <;> simp

/-! ## C2: lock safety of the victim selection -/

/-- C2: for every cache state, organisation and replacement policy, whenever
an insertion that chooses its own victim (`addToCache` called without an
index) returns, the index it overwrote was not in the lock set when the
insertion began; the insertion appends that index to the lock set, writes
the new line there, and leaves every line whose index was in the lock set
exactly as it was, so no line in the lock set is evicted. -/
theorem addToCache_victim_not_locked (env : Env) (c : Cache) (tag size deviceAddress : Nat)
    (flag : Flag) (r : CacheLine × Cache)
    (h : addToCache env c tag size deviceAddress flag (-1) = Res.ok r) :
    ∃ idx c1, chooseVictim env c tag = Res.ok (idx, c1) ∧
      r = overwriteLine env c1 idx tag size deviceAddress flag ∧
      idx ∉ c.lockedLines ∧
      r.2.lockedLines = c.lockedLines ++ [idx] ∧
      r.2.lines = setLine c.lines idx r.1 ∧
      ∀ j ∈ c.lockedLines, lineAt r.2.lines j = lineAt c.lines j := by
  unfold addToCache at h
  simp only [if_true] at h
  cases hv : chooseVictim env c tag with
  | ok v =>
    rw [hv] at h
    simp only [Res.ok.injEq] at h
    obtain ⟨h1, h2, _⟩ := chooseVictim_ok env c tag v hv
    have hlines : v.2.lines = c.lines := by rw [h2]
    have hlocked : v.2.lockedLines = c.lockedLines := by rw [h2]
    refine ⟨v.1, v.2, rfl, h.symm, h1, ?_, ?_, ?_⟩
    · rw [← h, overwriteLine_frame, hlocked]
    · rw [← h, overwriteLine_lines, overwriteLine_fst, hlines]
    · intro j hj
      rw [← h, overwriteLine_lines, hlines, lineAt_setLine]
      have hne : ¬ (v.1 = j ∧ v.1 < c.lines.length) := by
        rintro ⟨rfl, _⟩
        exact h1 hj
      simp [hne]
  | fatal => rw [hv] at h; simp at h
  | undefined => rw [hv] at h; simp at h
  | diverge => rw [hv] at h; simp at h

/-- C2, witness: an LRU insertion into the example state whose line 1 is
locked returns and overwrites line 0. -/
theorem addToCache_victim_not_locked_witness :
    addToCache exEnv exCacheB 3 4 9 Flag.BOTH (-1) =
        Res.ok (overwriteLine exEnv exCacheB 0 3 4 9 Flag.BOTH) ∧
      ∃ idx c1, chooseVictim exEnv exCacheB 3 = Res.ok (idx, c1) ∧
        overwriteLine exEnv exCacheB 0 3 4 9 Flag.BOTH =
          overwriteLine exEnv c1 idx 3 4 9 Flag.BOTH ∧
        idx ∉ exCacheB.lockedLines ∧
        (overwriteLine exEnv exCacheB 0 3 4 9 Flag.BOTH).2.lockedLines =
          exCacheB.lockedLines ++ [idx] ∧
        (overwriteLine exEnv exCacheB 0 3 4 9 Flag.BOTH).2.lines =
          setLine exCacheB.lines idx (overwriteLine exEnv exCacheB 0 3 4 9 Flag.BOTH).1 ∧
        ∀ j ∈ exCacheB.lockedLines,
          lineAt (overwriteLine exEnv exCacheB 0 3 4 9 Flag.BOTH).2.lines j =
            lineAt exCacheB.lines j :=
  ⟨by decide, addToCache_victim_not_locked exEnv exCacheB 3 4 9 Flag.BOTH _ (by decide)⟩

/-! ## Lookup inside the operations -/

theorem getCacheLine_congr (c c0 : Cache) (tag : Nat) (h1 : c0.lines = c.lines)
    (h2 : c0.nrOfSets = c.nrOfSets) (h3 : c0.nrOfLinesPerSet = c.nrOfLinesPerSet)
    (h4 : c0.replacementPolicy = c.replacementPolicy) :
    (getCacheLine c0 tag).1 = (getCacheLine c tag).1 ∧
      (getCacheLine c0 tag).2.lines = (getCacheLine c tag).2.lines := by
  unfold getCacheLine getSetIndex
  rw [h1, h2, h3, h4]
  split <;> simp [h1]

/-- The flag, size, tag and handle of the line a lookup finds are those the
line had before the lookup. -/
theorem getCacheLine_lineAt (c : Cache) (tag j : Nat) :
    (lineAt (getCacheLine c tag).2.lines j).flag = (lineAt c.lines j).flag ∧
      (lineAt (getCacheLine c tag).2.lines j).size = (lineAt c.lines j).size ∧
      (lineAt (getCacheLine c tag).2.lines j).tag = (lineAt c.lines j).tag ∧
      (lineAt (getCacheLine c tag).2.lines j).deviceAddress = (lineAt c.lines j).deviceAddress := by
  obtain ⟨a, b, c1, d⟩ := (getCacheLine_ageOnly c tag).2 j
  exact ⟨a.symm, b.symm, c1.symm, d.symm⟩

/-! ## The lookup changes the line table only -/

@[simp]
theorem getCacheLine_kernelArguments (c : Cache) (tag : Nat) :
    (getCacheLine c tag).2.kernelArguments = c.kernelArguments := by
  unfold getCacheLine; split <;> rfl

@[simp]
theorem getCacheLine_nrOfSets (c : Cache) (tag : Nat) :
    (getCacheLine c tag).2.nrOfSets = c.nrOfSets := by
  unfold getCacheLine; split <;> rfl

@[simp]
theorem getCacheLine_nrOfLines (c : Cache) (tag : Nat) :
    (getCacheLine c tag).2.nrOfLines = c.nrOfLines := by
  unfold getCacheLine; split <;> rfl

@[simp]
theorem getCacheLine_nrOfLinesPerSet (c : Cache) (tag : Nat) :
    (getCacheLine c tag).2.nrOfLinesPerSet = c.nrOfLinesPerSet := by
  unfold getCacheLine; split <;> rfl

@[simp]
theorem getCacheLine_organisation (c : Cache) (tag : Nat) :
    (getCacheLine c tag).2.organisation = c.organisation := by
  unfold getCacheLine; split <;> rfl

@[simp]
theorem getCacheLine_replacementPolicy (c : Cache) (tag : Nat) :
    (getCacheLine c tag).2.replacementPolicy = c.replacementPolicy := by
  unfold getCacheLine; split <;> rfl

@[simp]
theorem getCacheLine_FIFO_index (c : Cache) (tag : Nat) :
    (getCacheLine c tag).2.FIFO_index = c.FIFO_index := by
  unfold getCacheLine; split <;> rfl

@[simp]
theorem getCacheLine_cache_command_queue (c : Cache) (tag : Nat) :
    (getCacheLine c tag).2.cache_command_queue = c.cache_command_queue := by
  unfold getCacheLine; split <;> rfl

@[simp]
theorem getCacheLine_lockedLines (c : Cache) (tag : Nat) :
    (getCacheLine c tag).2.lockedLines = c.lockedLines := by
  unfold getCacheLine; split <;> rfl

@[simp]
theorem getCacheLine_duration (c : Cache) (tag : Nat) :
    (getCacheLine c tag).2.duration = c.duration := by
  unfold getCacheLine; split <;> rfl

@[simp]
theorem getCacheLine_write_back (c : Cache) (tag : Nat) :
    (getCacheLine c tag).2.write_back = c.write_back := by
  unfold getCacheLine; split <;> rfl

@[simp]
theorem getCacheLine_buffers (c : Cache) (tag : Nat) :
    (getCacheLine c tag).2.buffers = c.buffers := by
  unfold getCacheLine; split <;> rfl

@[simp]
theorem getCacheLine_randCalls (c : Cache) (tag : Nat) :
    (getCacheLine c tag).2.randCalls = c.randCalls := by
  unfold getCacheLine; split <;> rfl

@[simp]
theorem getCacheLine_trace (c : Cache) (tag : Nat) :
    (getCacheLine c tag).2.trace = c.trace := by
  unfold getCacheLine; split <;> rfl

@[simp]
theorem getCacheLine_length (c : Cache) (tag : Nat) :
    (getCacheLine c tag).2.lines.length = c.lines.length :=
  (getCacheLine_ageOnly c tag).1.symm
/-! ## C4: write-buffer on a hit -/

/-- C4: for every cache state in which the lookup of `ptr` finds a line whose
flag is `GPU` or `BOTH` (Device or Both), `enqueueWriteBuffer` returns
`CL_SUCCESS`, issues no `clEnqueueWriteBuffer` (the trace grows by nothing, or
by the one release below), and appends the index of the line to the lock set;
if the caller's handle is non-null and differs from the cached handle, it
issues exactly one release, of the caller's handle, and stores the cached
handle through the caller's pointer; otherwise `*buffer` is unchanged. -/
theorem enqueueWriteBuffer_hit (env : Env) (c : Cache)
    (command_queue buffer blocking_write offset cb ptr num_events event_wait_list i : Nat)
    (hfind : (getCacheLine c ptr).1 = some i)
    (hflag : (lineAt c.lines i).flag = Flag.GPU ∨ (lineAt c.lines i).flag = Flag.BOTH) :
    ∃ c1, enqueueWriteBuffer env c command_queue buffer blocking_write offset cb ptr num_events
        event_wait_list =
        Res.ok ((CL_SUCCESS,
          if (lineAt c.lines i).deviceAddress ≠ buffer ∧ buffer ≠ 0
          then (lineAt c.lines i).deviceAddress else buffer), c1) ∧
      c1.lockedLines = c.lockedLines ++ [i] ∧
      c1.trace = c.trace ++
        (if (lineAt c.lines i).deviceAddress ≠ buffer ∧ buffer ≠ 0
         then [RtCall.clReleaseMemObject buffer] else []) := by
  have hcg := getCacheLine_congr c (setQueue (countH2D c cb) command_queue) ptr rfl rfl rfl rfl
  have hl := getCacheLine_lineAt c ptr i
  have hcpu : (lineAt c.lines i).flag ≠ Flag.CPU := by
    rcases hflag with h | h <;> rw [h] <;> decide
  unfold enqueueWriteBuffer
  simp only []
  rw [hcg.1, hfind]
  simp only []
  rw [hcg.2, hl.1, hl.2.2.2, if_neg hcpu]
  by_cases hrel : (lineAt c.lines i).deviceAddress ≠ buffer ∧ buffer ≠ 0
  · rw [if_pos hrel, if_pos hrel, if_pos hrel]
    exact ⟨_, rfl, by simp [lockLine, releaseMemObject, countHit, countH2D, setQueue],
      by simp [lockLine, releaseMemObject, countHit, countH2D, setQueue]⟩
  · rw [if_neg hrel, if_neg hrel, if_neg hrel]
    exact ⟨_, rfl, by simp [lockLine, countHit, countH2D, setQueue],
      by simp [lockLine, countHit, countH2D, setQueue]⟩

/-- C4, witness: a write of the cached host pointer `6` with the fresh handle
`9` releases `9` and hands back the cached handle `8`. -/
theorem enqueueWriteBuffer_hit_witness :
    (getCacheLine exCacheA 6).1 = some 1 ∧
      ∃ c1, enqueueWriteBuffer exEnv exCacheA 1 9 1 0 4 6 0 0 = Res.ok ((CL_SUCCESS, 8), c1) ∧
        c1.lockedLines = [1] ∧ c1.trace = [RtCall.clReleaseMemObject 9] :=
  ⟨by decide, enqueueWriteBuffer_hit exEnv exCacheA 1 9 1 0 4 6 0 0 1 (by decide) (by decide)⟩

/-! ## C5: create-buffer on a hit -/

/-- C5: for every cache state in which the lookup of `host_ptr` finds a line
whose flag is not `CPU` (Host), `createBuffer` called with the
copy-host-pointer flag issues no runtime call, returns the handle stored in
that line, appends the index of the line to the lock set, and adds 1 to the
hit counter (an `unsigned int`) and `size` to `bytesSaved` and
`bytesh2d_saved` (both `size_t`). -/
theorem createBuffer_hit (env : Env) (c : Cache) (context flags size host_ptr : Nat)
    (errcode : Int) (i : Nat)
    (hcopy : flags &&& CL_MEM_COPY_HOST_PTR ≠ 0)
    (hfind : (getCacheLine c host_ptr).1 = some i)
    (hflag : (lineAt c.lines i).flag ≠ Flag.CPU) :
    ∃ c1, createBuffer env c context flags size host_ptr errcode =
        Res.ok (((lineAt c.lines i).deviceAddress, errcode), c1) ∧
      c1.trace = c.trace ∧
      c1.lockedLines = c.lockedLines ++ [i] ∧
      c1.duration.cacheHit = (c.duration.cacheHit + 1) % 2 ^ 32 ∧
      c1.duration.bytesSaved = (c.duration.bytesSaved + size) % 2 ^ 64 ∧
      c1.duration.bytesh2d_saved = (c.duration.bytesh2d_saved + size) % 2 ^ 64 := by
  have hcg := getCacheLine_congr c (countH2D c size) host_ptr rfl rfl rfl rfl
  have hl := getCacheLine_lineAt c host_ptr i
  unfold createBuffer
  rw [if_pos hcopy]
  simp only []
  rw [hcg.1, hfind]
  simp only []
  rw [hcg.2, hl.1, hl.2.2.2, if_neg hflag]
  refine ⟨_, rfl, ?_, ?_, ?_, ?_, ?_⟩ <;> simp [lockLine, countHit, countH2D, add32, add64]

/-- C5, witness: a create-buffer of the cached host pointer `6` with the
copy-host-pointer flag returns the cached handle `8`. -/
theorem createBuffer_hit_witness :
    (32 &&& CL_MEM_COPY_HOST_PTR ≠ 0) ∧ (getCacheLine exCacheA 6).1 = some 1 ∧
      ∃ c1, createBuffer exEnv exCacheA 0 32 4 6 0 = Res.ok ((8, 0), c1) ∧
        c1.trace = [] ∧ c1.lockedLines = [1] ∧ c1.duration.cacheHit = 1 ∧
        c1.duration.bytesSaved = 4 ∧ c1.duration.bytesh2d_saved = 4 :=
  ⟨by decide, by decide,
    createBuffer_hit exEnv exCacheA 0 32 4 6 0 1 (by decide) (by decide) (by decide)⟩

theorem releaseCalls_ageOnly (c c1 : Cache) (idx deviceAddress : Nat)
    (h : AgeOnly c.lines c1.lines) :
    releaseCalls c1 idx deviceAddress = releaseCalls c idx deviceAddress := by
  unfold releaseCalls
  rw [(h.2 idx).2.2.2]

theorem flushCalls_of_flag_ne (c : Cache) (idx : Nat) (h : (lineAt c.lines idx).flag ≠ Flag.GPU) :
    flushCalls c idx = [] := by
  unfold flushCalls
  rw [if_neg]
  exact fun hc => h hc.2

theorem overwriteLine_duration_counts (env : Env) (c : Cache) (idx tag size deviceAddress : Nat)
    (flag : Flag) :
    (overwriteLine env c idx tag size deviceAddress flag).2.duration.cacheMiss =
        c.duration.cacheMiss ∧
      (overwriteLine env c idx tag size deviceAddress flag).2.duration.cacheHit =
        c.duration.cacheHit := by
  unfold overwriteLine
  simp only []
  split_ifs <;> exact ⟨rfl, rfl⟩

/-! ## C6: write-buffer on a line flagged Host -/

/-- C6: for every cache state in which the lookup of `ptr` finds a line at
index `i` whose flag is `CPU` (Host), `enqueueWriteBuffer` counts a miss,
overwrites that same index `i`, so that line `i` holds `ptr`, `cb`, the
caller's handle and the flag `BOTH`, changes the tag, size, handle and flag of
no other line, and issues exactly one `clEnqueueWriteBuffer` (after the
release of the old handle, if the insertion makes one), whose status it
returns; `*buffer` is unchanged. -/
theorem enqueueWriteBuffer_host_line (env : Env) (c : Cache)
    (command_queue buffer blocking_write offset cb ptr num_events event_wait_list i : Nat)
    (hfind : (getCacheLine c ptr).1 = some i)
    (hflag : (lineAt c.lines i).flag = Flag.CPU) :
    ∃ c1, enqueueWriteBuffer env c command_queue buffer blocking_write offset cb ptr num_events
        event_wait_list =
        Res.ok ((env.status (c.trace.length + (releaseCalls c i buffer).length), buffer), c1) ∧
      c1.duration.cacheMiss = (c.duration.cacheMiss + 1) % 2 ^ 32 ∧
      c1.duration.cacheHit = c.duration.cacheHit ∧
      lineAt c1.lines i =
        { flag := Flag.BOTH, age := 0, size := cb, tag := ptr, deviceAddress := buffer } ∧
      (∀ j, j ≠ i → (lineAt c1.lines j).flag = (lineAt c.lines j).flag ∧
        (lineAt c1.lines j).size = (lineAt c.lines j).size ∧
        (lineAt c1.lines j).tag = (lineAt c.lines j).tag ∧
        (lineAt c1.lines j).deviceAddress = (lineAt c.lines j).deviceAddress) ∧
      c1.trace = c.trace ++ releaseCalls c i buffer ++
        [RtCall.clEnqueueWriteBuffer command_queue buffer blocking_write offset cb ptr num_events
          event_wait_list] := by
  have hcg := getCacheLine_congr c (setQueue (countH2D c cb) command_queue) ptr rfl rfl rfl rfl
  have hl := getCacheLine_lineAt c ptr i
  have hA := getCacheLine_ageOnly c ptr
  obtain ⟨hp0, _, _, htag⟩ := getCacheLine_some c ptr i hfind
  have hlen : i < c.lines.length := lt_length_of_tag_ne_zero c.lines i (by rw [htag]; exact hp0)
  have hneg : ¬ ((i : Int) = -1) := by omega
  -- the state `x` handed to the insertion: the looked-up cache with the miss counted
  have hx1 : AgeOnly c.lines
      (countMiss (getCacheLine (setQueue (countH2D c cb) command_queue) ptr).2).lines := by
    show AgeOnly c.lines (getCacheLine _ ptr).2.lines
    rw [hcg.2]
    exact hA
  have hx2 : (countMiss (getCacheLine (setQueue (countH2D c cb) command_queue) ptr).2).trace =
      c.trace := by
    simp [countMiss, setQueue, countH2D]
  have hx3 : (countMiss (getCacheLine (setQueue (countH2D c cb) command_queue)
      ptr).2).duration.cacheMiss = (c.duration.cacheMiss + 1) % 2 ^ 32 := by
    simp [countMiss, setQueue, countH2D, add32]
  have hx4 : (countMiss (getCacheLine (setQueue (countH2D c cb) command_queue)
      ptr).2).duration.cacheHit = c.duration.cacheHit := by
    simp [countMiss, setQueue, countH2D]
  unfold enqueueWriteBuffer
  simp only []
  rw [hcg.1, hfind]
  simp only []
  rw [hcg.2, hl.1, if_pos hflag]
  unfold addToCache
  rw [if_neg hneg]
  simp only [Res.map, Int.toNat_ofNat]
  generalize countMiss (getCacheLine (setQueue (countH2D c cb) command_queue) ptr).2 = x at *
  have hrel : releaseCalls x i buffer = releaseCalls c i buffer := releaseCalls_ageOnly c x i buffer hx1
  have hfl : flushCalls x i = [] :=
    flushCalls_of_flag_ne x i (by rw [← (hx1.2 i).1, hflag]; decide)
  have htr : (overwriteLine env x i ptr cb buffer Flag.BOTH).2.trace =
      c.trace ++ releaseCalls c i buffer := by
    rw [overwriteLine_trace, hrel, hfl, hx2]; simp
  rw [htr, List.length_append]
  refine ⟨_, rfl, ?_, ?_, ?_, ?_, ?_⟩
  · show (overwriteLine env x i ptr cb buffer Flag.BOTH).2.duration.cacheMiss = _
    rw [(overwriteLine_duration_counts env x i ptr cb buffer Flag.BOTH).1, hx3]
  · show (overwriteLine env x i ptr cb buffer Flag.BOTH).2.duration.cacheHit = _
    rw [(overwriteLine_duration_counts env x i ptr cb buffer Flag.BOTH).2, hx4]
  · show lineAt (overwriteLine env x i ptr cb buffer Flag.BOTH).2.lines i = _
    rw [overwriteLine_lines, lineAt_setLine, if_pos ⟨rfl, by rw [← hx1.1]; exact hlen⟩]
  · intro j hj
    have hfw : (forwardWrite env (overwriteLine env x i ptr cb buffer Flag.BOTH).2 command_queue
        buffer blocking_write offset cb ptr num_events event_wait_list).lines =
        (overwriteLine env x i ptr cb buffer Flag.BOTH).2.lines := rfl
    rw [hfw, overwriteLine_lines, lineAt_setLine, if_neg (fun h => hj h.1.symm)]
    obtain ⟨a1, a2, a3, a4⟩ := hx1.2 j
    exact ⟨a1.symm, a2.symm, a3.symm, a4.symm⟩
  · show (overwriteLine env x i ptr cb buffer Flag.BOTH).2.trace ++ _ = _
    rw [htr]

/-- C6, witness: a write of the host pointer `6`, whose line 1 is flagged
`CPU`, with the handle `9` overwrites line 1 in place, releasing the old
handle `8` before the one write. -/
theorem enqueueWriteBuffer_host_line_witness :
    (getCacheLine exCacheC 6).1 = some 1 ∧ (lineAt exCacheC.lines 1).flag = Flag.CPU ∧
      ∃ c1, enqueueWriteBuffer exEnv exCacheC 1 9 1 0 4 6 0 0 = Res.ok ((0, 9), c1) ∧
        c1.duration.cacheMiss = 1 ∧
        lineAt c1.lines 1 =
          { flag := Flag.BOTH, age := 0, size := 4, tag := 6, deviceAddress := 9 } ∧
        c1.trace = [RtCall.clReleaseMemObject 8, RtCall.clEnqueueWriteBuffer 1 9 1 0 4 6 0 0] := by
  obtain ⟨c1, h1, h2, _, h4, _, h6⟩ :=
    enqueueWriteBuffer_host_line exEnv exCacheC 1 9 1 0 4 6 0 0 1 (by decide) (by decide)
  exact ⟨by decide, by decide, c1, h1, h2, h4, h6⟩

/-! ## Victim selection with an empty lock set -/

theorem getRandomIndex_unlocked (env : Env) (c : Cache) (setIndex : Nat)
    (hlock : c.lockedLines = []) (hL : 0 < c.nrOfLinesPerSet) :
    ∃ r, getRandomIndex env c setIndex = Res.ok r := by
  unfold getRandomIndex
  rw [if_neg (by omega)]
  simp only []
  rw [getRandomIndexLoop_first env _ _ _ 999 _ (by rw [hlock]; simp)]
  simp

theorem chooseVictim_unlocked (env : Env) (c : Cache) (tag : Nat)
    (hlock : c.lockedLines = []) (hL : 0 < c.nrOfLinesPerSet) :
    ∃ r, chooseVictim env c tag = Res.ok r := by
  unfold chooseVictim
  simp only []
  split
  · split
    · unfold getOldestIndex
      simp only []
      split
      · exact getRandomIndex_unlocked env _ _ hlock hL
      · exact ⟨_, rfl⟩
    · unfold fifoIndex
      rw [if_neg (by omega)]
      simp only []
      rw [fifoLoop_first _ _ _ 999 _ (by rw [hlock]; simp)]
      simp
    · exact getRandomIndex_unlocked env _ _ hlock hL
    · unfold getSmallestDataLine
      simp only []
      split
      · exact getRandomIndex_unlocked env _ _ hlock hL
      · exact ⟨_, rfl⟩
  · rw [if_neg (by rw [hlock]; simp)]
    exact ⟨_, rfl⟩

theorem chooseVictim_lt_length (env : Env) (c : Cache) (tag : Nat) (r : Nat × Cache)
    (hwf : WF c) (hlock : c.lockedLines = []) (h : chooseVictim env c tag = Res.ok r) :
    r.1 < c.lines.length := by
  obtain ⟨h1, h2, h3, h4, h5⟩ := hwf
  have hs : getSetIndex c tag < c.nrOfSets := Nat.mod_lt _ h1
  have hbound : getSetIndex c tag * c.nrOfLinesPerSet + c.nrOfLinesPerSet ≤
      c.nrOfSets * c.nrOfLinesPerSet := by
    calc getSetIndex c tag * c.nrOfLinesPerSet + c.nrOfLinesPerSet
        = (getSetIndex c tag + 1) * c.nrOfLinesPerSet := by ring
      _ ≤ c.nrOfSets * c.nrOfLinesPerSet := Nat.mul_le_mul_right _ hs
  by_cases horg : c.organisation = Organisation.DIRECT_MAPPING
  · unfold chooseVictim at h
    simp only [horg, ne_eq, not_true_eq_false, if_false] at h
    rw [if_neg (by rw [hlock]; simp)] at h
    simp only [Res.ok.injEq] at h
    rw [← h, h4, h3, h5 horg]
    simpa using hs
  · obtain ⟨_, _, h6⟩ := chooseVictim_ok env c tag r h
    have := (h6 horg).2
    rw [h4, h3]
    omega

/-! ## Insertion with an empty lock set -/

theorem addToCache_unlocked (env : Env) (x : Cache) (tag size deviceAddress : Nat) (flag : Flag)
    (hwf : WF x) (hlock : x.lockedLines = []) :
    ∃ idx v, chooseVictim env x tag = Res.ok (idx, v) ∧
      addToCache env x tag size deviceAddress flag (-1) =
        Res.ok (overwriteLine env v idx tag size deviceAddress flag) ∧
      idx < x.lines.length ∧
      v = { x with randCalls := v.randCalls, FIFO_index := v.FIFO_index } := by
  obtain ⟨r, hr⟩ := chooseVictim_unlocked env x tag hlock hwf.2.1
  obtain ⟨_, h2, _⟩ := chooseVictim_ok env x tag r hr
  refine ⟨r.1, r.2, hr, ?_, chooseVictim_lt_length env x tag r hwf hlock hr, h2⟩
  unfold addToCache
  rw [if_pos rfl, hr]

/-- The state in which `enqueueReadBuffer` looks the pointer up: the entry
statements, then the forwarded read unless the cache is write-back. -/
theorem readBuffer_lookup_state (env : Env) (c : Cache)
    (command_queue buffer blocking_read offset cb ptr num_events event_wait_list : Nat) :
    ∀ c1 : Cache,
      c1 = (if (readEntry c command_queue cb).write_back = false then
        forwardRead env (readEntry c command_queue cb) command_queue buffer blocking_read
          offset cb ptr num_events event_wait_list
        else readEntry c command_queue cb) →
      c1.lines = c.lines ∧ c1.nrOfSets = c.nrOfSets ∧ c1.nrOfLinesPerSet = c.nrOfLinesPerSet ∧
        c1.nrOfLines = c.nrOfLines ∧ c1.organisation = c.organisation ∧
        c1.replacementPolicy = c.replacementPolicy ∧ c1.lockedLines = [] ∧
        c1.write_back = c.write_back ∧ c1.cache_command_queue = command_queue ∧
        c1.trace = c.trace ++ (if c.write_back = false then
          [RtCall.clEnqueueReadBuffer command_queue buffer blocking_read offset cb ptr num_events
            event_wait_list] else []) := by
  intro c1 h
  subst h
  by_cases hwb : c.write_back = false
  · have : (readEntry c command_queue cb).write_back = false := hwb
    rw [if_pos this, if_pos hwb]
    simp [forwardRead, readEntry]
  · have : ¬ (readEntry c command_queue cb).write_back = false := hwb
    rw [if_neg this, if_neg hwb]
    simp [readEntry]

/-! ## C8: read-buffer on a miss -/

theorem bumpAge_tag (lines : List CacheLine) (i j : Nat) :
    (lineAt (bumpAge lines i) j).tag = (lineAt lines j).tag :=
  ((ageOnly_bumpAge lines i).2 j).2.2.1.symm

theorem clearAge_tag (lines : List CacheLine) (i j : Nat) :
    (lineAt (clearAge lines i) j).tag = (lineAt lines j).tag :=
  ((ageOnly_clearAge lines i).2 j).2.2.1.symm

theorem getCacheLineLoop_fst_congr (rp : ReplacementPolicy) (tag : Nat) (n : Nat) :
    ∀ (idx : Nat) (l1 l2 : List CacheLine) (found : Option Nat),
      (∀ j, (lineAt l1 j).tag = (lineAt l2 j).tag) →
      (getCacheLineLoop rp tag n idx l1 found).1 = (getCacheLineLoop rp tag n idx l2 found).1 := by
  induction n with
  | zero => intro idx l1 l2 found _; rfl
  | succ n ih =>
    intro idx l1 l2 found h
    unfold getCacheLineLoop
    rw [h idx]
    split
    · split
      · apply ih
        intro j
        rw [bumpAge_tag, clearAge_tag, bumpAge_tag, clearAge_tag]
        exact h j
      · rfl
    · split
      · apply ih
        intro j
        rw [bumpAge_tag, bumpAge_tag]
        exact h j
      · exact ih _ _ _ _ h

theorem getCacheLine_fst_congr (c c1 : Cache) (tag : Nat)
    (h : ∀ j, (lineAt c1.lines j).tag = (lineAt c.lines j).tag)
    (h2 : c1.nrOfSets = c.nrOfSets) (h3 : c1.nrOfLinesPerSet = c.nrOfLinesPerSet)
    (h4 : c1.replacementPolicy = c.replacementPolicy) :
    (getCacheLine c1 tag).1 = (getCacheLine c tag).1 := by
  unfold getCacheLine getSetIndex
  rw [h2, h3, h4]
  split
  · rfl
  · exact getCacheLineLoop_fst_congr _ _ _ _ _ _ _ h

/-! ## Marking lines dirty -/

/-- What `setDirtyFlag` does to the table: tags, sizes and handles stay, the
flag of the line the lookup finds becomes `flag`, the other flags stay. -/
theorem setDirtyFlag_lines (c : Cache) (ptr : Nat) (flag : Flag) (j : Nat) :
    (lineAt (setDirtyFlag c ptr flag).lines j).tag = (lineAt c.lines j).tag ∧
      (lineAt (setDirtyFlag c ptr flag).lines j).size = (lineAt c.lines j).size ∧
      (lineAt (setDirtyFlag c ptr flag).lines j).deviceAddress = (lineAt c.lines j).deviceAddress ∧
      ((getCacheLine c ptr).1 = some j →
        (lineAt (setDirtyFlag c ptr flag).lines j).flag = flag) ∧
      ((getCacheLine c ptr).1 ≠ some j →
        (lineAt (setDirtyFlag c ptr flag).lines j).flag = (lineAt c.lines j).flag) := by
  obtain ⟨a1, a2, a3, a4⟩ := getCacheLine_lineAt c ptr j
  unfold setDirtyFlag
  simp only []
  cases hfind : (getCacheLine c ptr).1 with
  | none =>
    simp only []
    exact ⟨a3, a2, a4, fun h => by simp at h, fun _ => a1⟩
  | some i =>
    simp only []
    rw [lineAt_setFlag]
    obtain ⟨hp0, _, _, htag⟩ := getCacheLine_some c ptr i hfind
    have hlen : i < (getCacheLine c ptr).2.lines.length := by
      rw [getCacheLine_length]
      exact lt_length_of_tag_ne_zero c.lines i (by rw [htag]; exact hp0)
    by_cases hij : i = j
    · subst hij
      rw [if_pos ⟨rfl, hlen⟩]
      exact ⟨a3, a2, a4, fun _ => rfl, fun h => absurd rfl h⟩
    · rw [if_neg (fun h => hij h.1)]
      refine ⟨a3, a2, a4, fun h => ?_, fun _ => a1⟩
      simp only [Option.some.injEq] at h
      exact absurd h hij

theorem setDirtyFlag_frame (c : Cache) (ptr : Nat) (flag : Flag) :
    setDirtyFlag c ptr flag = { c with lines := (setDirtyFlag c ptr flag).lines } := by
  unfold setDirtyFlag
  simp only []
  cases hfind : (getCacheLine c ptr).1 with
  | none => simp only []; exact getCacheLine_frame c ptr
  | some i =>
    simp only []
    rw [getCacheLine_frame c ptr]

theorem setDirtyFlag_length (c : Cache) (ptr : Nat) (flag : Flag) :
    (setDirtyFlag c ptr flag).lines.length = c.lines.length := by
  unfold setDirtyFlag
  simp only []
  cases hfind : (getCacheLine c ptr).1 with
  | none => simp
  | some i => simp [length_setFlag]

theorem SameButLines.linesTrans {c c1 c2 : Cache} (h1 : SameButLines c c1) (h2 : SameButLines c1 c2) :
    SameButLines c c2 := by
  unfold SameButLines at *
  cases c; cases c1; cases c2
  simp only [Cache.mk.injEq, true_and, and_true] at *
  obtain ⟨a1, a2, a3, a4, a5, a6, a7, a8, a9, a10, a11, a12, a13, a14⟩ := h1
  obtain ⟨b1, b2, b3, b4, b5, b6, b7, b8, b9, b10, b11, b12, b13, b14⟩ := h2
  subst a1 a2 a3 a4 a5 a6 a7 a8 a9 a10 a11 a12 a13 a14
  exact ⟨b1, b2, b3, b4, b5, b6, b7, b8, b9, b10, b11, b12, b13, b14⟩

/-- The loop over the recorded arguments: the cache changes in its line table
only, tags, sizes and handles stay, a flag either stays or becomes `GPU` on a
line whose tag is one of the arguments, and the line the lookup finds for an
argument ends with the flag `GPU`. -/
theorem markArguments_spec (args : List Nat) :
    ∀ c : Cache,
      SameButLines c (markArguments c args) ∧
      (markArguments c args).lines.length = c.lines.length ∧
      (∀ j, (lineAt (markArguments c args).lines j).tag = (lineAt c.lines j).tag ∧
        (lineAt (markArguments c args).lines j).size = (lineAt c.lines j).size ∧
        (lineAt (markArguments c args).lines j).deviceAddress = (lineAt c.lines j).deviceAddress ∧
        ((lineAt (markArguments c args).lines j).flag = (lineAt c.lines j).flag ∨
          ((lineAt (markArguments c args).lines j).flag = Flag.GPU ∧
            (lineAt c.lines j).tag ∈ args))) ∧
      (∀ v ∈ args, ∀ i, (getCacheLine c v).1 = some i →
        (lineAt (markArguments c args).lines i).flag = Flag.GPU) := by
  induction args with
  | nil =>
    intro c
    exact ⟨rfl, rfl, fun j => ⟨rfl, rfl, rfl, Or.inl rfl⟩, fun v hv => by simp at hv⟩
  | cons a rest ih =>
    intro c
    obtain ⟨h1, h2, h3, h4⟩ := ih (setDirtyFlag c a Flag.GPU)
    have hfr := setDirtyFlag_frame c a Flag.GPU
    have hcgr : ∀ v, (getCacheLine (setDirtyFlag c a Flag.GPU) v).1 = (getCacheLine c v).1 := by
      intro v
      apply getCacheLine_fst_congr
      · exact fun j => (setDirtyFlag_lines c a Flag.GPU j).1
      · rw [hfr]
      · rw [hfr]
      · rw [hfr]
    refine ⟨?_, ?_, ?_, ?_⟩
    · exact SameButLines.linesTrans hfr h1
    · show (markArguments (setDirtyFlag c a Flag.GPU) rest).lines.length = _
      rw [h2, setDirtyFlag_length]
    · intro j
      show (lineAt (markArguments (setDirtyFlag c a Flag.GPU) rest).lines j).tag = _ ∧ _
      obtain ⟨b1, b2, b3, b4⟩ := h3 j
      obtain ⟨d1, d2, d3, d4, d5⟩ := setDirtyFlag_lines c a Flag.GPU j
      refine ⟨b1.trans d1, b2.trans d2, b3.trans d3, ?_⟩
      rcases b4 with b4 | ⟨b4, b5⟩
      · by_cases hf : (getCacheLine c a).1 = some j
        · right
          refine ⟨b4.trans (d4 hf), ?_⟩
          rw [(getCacheLine_some c a j hf).2.2.2]
          exact List.mem_cons_self _ _
        · left
          exact b4.trans (d5 hf)
      · right
        rw [d1] at b5
        exact ⟨b4, List.mem_cons_of_mem _ b5⟩
    · intro v hv i hi
      show (lineAt (markArguments (setDirtyFlag c a Flag.GPU) rest).lines i).flag = _
      rcases List.mem_cons.1 hv with hva | hvr
      · subst hva
        rcases (h3 i).2.2.2 with b4 | ⟨b4, _⟩
        · rw [b4]
          exact (setDirtyFlag_lines c v Flag.GPU i).2.2.2.1 hi
        · exact b4
      · exact h4 v hvr i (by rw [hcgr]; exact hi)

theorem kaLookup_kaTouch (kernel : Nat) (m : List (Nat × List Nat)) :
    kaLookup kernel (kaTouch kernel m) = kaLookup kernel m := by
  induction m with
  | nil => simp [kaTouch, kaLookup]
  | cons e rest ih =>
    obtain ⟨k, vs⟩ := e
    unfold kaTouch
    by_cases hk : k = kernel
    · simp [hk, kaLookup]
    · simp [hk, kaLookup, ih]

/-- A value `setKernelArg` records for a kernel is among the arguments of that
kernel afterwards, and the arguments recorded before remain. -/
theorem kaLookup_kaInsert (kernel value : Nat) (m : List (Nat × List Nat)) :
    value ∈ kaLookup kernel (kaInsert kernel value m) ∧
      ∀ k v, v ∈ kaLookup k m → v ∈ kaLookup k (kaInsert kernel value m) := by
  induction m with
  | nil => simp [kaInsert, kaLookup]
  | cons e rest ih =>
    obtain ⟨k0, vs⟩ := e
    unfold kaInsert
    by_cases hk : k0 = kernel
    · subst hk
      simp only [if_true]
      constructor
      · simp only [kaLookup, if_true]
        by_cases hv : value ∈ vs
        · simp [hv]
        · simp [hv]
      · intro k v hkv
        simp only [kaLookup] at hkv ⊢
        by_cases hkk : k0 = k
        · simp only [hkk, if_true] at hkv ⊢
          by_cases hv : value ∈ vs
          · simpa [hv] using hkv
          · simp [hv, hkv]
        · simpa [hkk] using hkv
    · simp only [hk, if_false]
      constructor
      · simp only [kaLookup, hk, if_false]
        exact ih.1
      · intro k v hkv
        simp only [kaLookup] at hkv ⊢
        by_cases hkk : k0 = k
        · simpa [hkk] using hkv
        · simp only [hkk, if_false] at hkv ⊢
          exact ih.2 k v hkv

/-! ## C9: enqueue-kernel -/

/-- C9: for every cache state and kernel, `enqueueNDRangeKernel` returns the
status of the underlying kernel launch, which is the one runtime call it
issues, and leaves the lock set empty; afterwards every line the lookup finds
for a value recorded by `setKernelArg` for that kernel has the flag `GPU`
(Device), and every line whose tag is not among the recorded values keeps its
flag. -/
theorem enqueueNDRangeKernel_marks_arguments (env : Env) (c : Cache)
    (command_queue kernel work_dim global_work_offset global_work_size local_work_size
      num_events event_wait_list : Nat) :
    (enqueueNDRangeKernel env c command_queue kernel work_dim global_work_offset
        global_work_size local_work_size num_events event_wait_list).1 =
        env.status c.trace.length ∧
      (enqueueNDRangeKernel env c command_queue kernel work_dim global_work_offset
        global_work_size local_work_size num_events event_wait_list).2.trace =
        c.trace ++ [RtCall.clEnqueueNDRangeKernel command_queue kernel work_dim
          global_work_offset global_work_size local_work_size num_events event_wait_list] ∧
      (enqueueNDRangeKernel env c command_queue kernel work_dim global_work_offset
        global_work_size local_work_size num_events event_wait_list).2.lockedLines = [] ∧
      (∀ v ∈ kaLookup kernel c.kernelArguments, ∀ i,
        (getCacheLine (enqueueNDRangeKernel env c command_queue kernel work_dim
          global_work_offset global_work_size local_work_size num_events
          event_wait_list).2 v).1 = some i →
        (lineAt (enqueueNDRangeKernel env c command_queue kernel work_dim global_work_offset
          global_work_size local_work_size num_events event_wait_list).2.lines i).flag =
          Flag.GPU) ∧
      (∀ j, (lineAt c.lines j).tag ∉ kaLookup kernel c.kernelArguments →
        (lineAt (enqueueNDRangeKernel env c command_queue kernel work_dim global_work_offset
          global_work_size local_work_size num_events event_wait_list).2.lines j).flag =
          (lineAt c.lines j).flag) := by
  unfold enqueueNDRangeKernel
  simp only [kaLookup_kaTouch]
  generalize hc1 : ({ c with
    lockedLines := []
    trace := c.trace ++ [RtCall.clEnqueueNDRangeKernel command_queue kernel work_dim
      global_work_offset global_work_size local_work_size num_events event_wait_list]
    duration := { c.duration with kernel := add64 c.duration.kernel (env.eventTime c.trace.length) }
    kernelArguments := kaTouch kernel c.kernelArguments } : Cache) = c1
  have e1 : c1.lines = c.lines := by rw [← hc1]
  have e2 : c1.lockedLines = [] := by rw [← hc1]
  have e3 : c1.trace = c.trace ++ [RtCall.clEnqueueNDRangeKernel command_queue kernel work_dim
      global_work_offset global_work_size local_work_size num_events event_wait_list] := by
    rw [← hc1]
  obtain ⟨h1, _, h3, h4⟩ :=
    markArguments_spec (env.argOrder (kaLookup kernel c.kernelArguments)) c1
  have hcgr : ∀ v, (getCacheLine (markArguments c1
      (env.argOrder (kaLookup kernel c.kernelArguments))) v).1 = (getCacheLine c1 v).1 := by
    intro v
    unfold SameButLines at h1
    apply getCacheLine_fst_congr
    · exact fun j => (h3 j).1
    · rw [h1]
    · rw [h1]
    · rw [h1]
  refine ⟨trivial, ?_, ?_, ?_, ?_⟩
  · unfold SameButLines at h1
    rw [h1]; exact e3
  · unfold SameButLines at h1
    rw [h1]; exact e2
  · intro v hv i hi
    rw [hcgr] at hi
    exact h4 v ((env.argOrder_perm _).mem_iff.mpr hv) i hi
  · intro j hj
    rcases (h3 j).2.2.2 with h | ⟨_, h⟩
    · rw [h, e1]
    · rw [e1] at h
      exact absurd ((env.argOrder_perm _).mem_iff.mp h) hj

/-- C9, witness: on the example state, whose line 1 holds the recorded
argument `6` of kernel `2`, the launch of kernel `2` flags line 1 `GPU`. -/
theorem enqueueNDRangeKernel_marks_arguments_witness :
    (6 ∈ kaLookup 2 exCacheE.kernelArguments) ∧
      (getCacheLine (enqueueNDRangeKernel exEnv exCacheE 1 2 1 0 0 0 0 0).2 6).1 = some 1 ∧
      (lineAt (enqueueNDRangeKernel exEnv exCacheE 1 2 1 0 0 0 0 0).2.lines 1).flag = Flag.GPU :=
  ⟨by decide, by decide,
    (enqueueNDRangeKernel_marks_arguments exEnv exCacheE 1 2 1 0 0 0 0 0).2.2.2.1 6 (by decide) 1
      (by decide)⟩

/-! ## C10: write-back -/

theorem flushLine_lines (env : Env) (c : Cache) (i : Nat) (err : Int) :
    (flushLine env c i err).2.lines = setFlag c.lines i Flag.BOTH := rfl

theorem writeBackLoop_spec (env : Env) (n : Nat) :
    ∀ (i : Nat) (c : Cache) (err : Int),
      (∀ j, (j < i ∨ i + n ≤ j) →
        lineAt (writeBackLoop env n i c err).2.lines j = lineAt c.lines j) ∧
      (∀ j, i ≤ j → j < i + n → (lineAt (writeBackLoop env n i c err).2.lines j).flag ≠ Flag.GPU) := by
  induction n with
  | zero =>
    intro i c err
    exact ⟨fun j _ => rfl, fun j h1 h2 => by omega⟩
  | succ n ih =>
    intro i c err
    unfold writeBackLoop
    by_cases hg : (lineAt c.lines i).flag = Flag.GPU
    · rw [if_pos hg]
      obtain ⟨h1, h2⟩ := ih (i + 1) (flushLine env c i err).2 (flushLine env c i err).1
      have hlen : i < c.lines.length := by
        by_contra hc
        rw [lineAt_of_length_le c.lines i (by omega)] at hg
        exact absurd hg (by decide)
      constructor
      · intro j hj
        rw [h1 j (by omega), flushLine_lines, lineAt_setFlag, if_neg (by omega)]
      · intro j hj1 hj2
        by_cases hji : j = i
        · subst hji
          rw [h1 j (by omega), flushLine_lines, lineAt_setFlag, if_pos ⟨rfl, hlen⟩]
          exact fun h => Flag.noConfusion h
        · exact h2 j (by omega) (by omega)
    · rw [if_neg hg]
      obtain ⟨h1, h2⟩ := ih (i + 1) c err
      constructor
      · intro j hj
        exact h1 j (by omega)
      · intro j hj1 hj2
        by_cases hji : j = i
        · subst hji
          rw [h1 j (by omega)]
          exact hg
        · exact h2 j (by omega) (by omega)

/-- C10 (amended): with write-back enabled, after the global `writeBack()` no
line of the table has the flag `GPU` (Device), and after `writeBack(host_ptr)`
the line the lookup finds for `host_ptr` does not have the flag `GPU`, while
every other line keeps its flag; under write-through both calls return
`CL_SUCCESS` and leave the cache, its flags included, as it was. -/
theorem writeBack_flags (env : Env) (c : Cache) :
    (c.write_back = true → c.lines.length ≤ c.nrOfLines →
      ∀ j, (lineAt (writeBack env c).2.lines j).flag ≠ Flag.GPU) ∧
    (c.write_back = true → ∀ host_ptr i, (getCacheLine c host_ptr).1 = some i →
      (lineAt (writeBackPtr env c host_ptr).2.lines i).flag ≠ Flag.GPU ∧
      ∀ j, j ≠ i → (lineAt (writeBackPtr env c host_ptr).2.lines j).flag =
        (lineAt c.lines j).flag) ∧
    (c.write_back = false → writeBack env c = (CL_SUCCESS, c) ∧
      ∀ host_ptr, writeBackPtr env c host_ptr = (CL_SUCCESS, c)) := by
  refine ⟨?_, ?_, ?_⟩
  · intro hwb hlen j
    unfold writeBack
    rw [if_neg (by rw [hwb]; simp)]
    obtain ⟨h1, h2⟩ := writeBackLoop_spec env c.nrOfLines 0 c CL_SUCCESS
    by_cases hj : j < c.nrOfLines
    · exact h2 j (by omega) (by omega)
    · rw [h1 j (by omega), lineAt_of_length_le c.lines j (by omega)]
      decide
  · intro hwb host_ptr i hfind
    obtain ⟨hp0, _, _, htag⟩ := getCacheLine_some c host_ptr i hfind
    have hlen : i < (getCacheLine c host_ptr).2.lines.length := by
      rw [getCacheLine_length]
      exact lt_length_of_tag_ne_zero c.lines i (by rw [htag]; exact hp0)
    unfold writeBackPtr
    rw [if_neg (by rw [hwb]; simp)]
    simp only []
    rw [hfind]
    simp only []
    by_cases hg : (lineAt (getCacheLine c host_ptr).2.lines i).flag = Flag.GPU
    · rw [if_pos hg, flushLine_lines]
      constructor
      · rw [lineAt_setFlag, if_pos ⟨rfl, hlen⟩]
        exact fun h => Flag.noConfusion h
      · intro j hj
        rw [lineAt_setFlag, if_neg (fun h => hj h.1.symm)]
        exact (getCacheLine_lineAt c host_ptr j).1
    · rw [if_neg hg]
      exact ⟨hg, fun j _ => (getCacheLine_lineAt c host_ptr j).1⟩
  · intro hwb
    constructor
    · unfold writeBack
      rw [if_pos hwb]
    · intro host_ptr
      unfold writeBackPtr
      rw [if_pos hwb]

/-- C10, counterexample.  On a fresh fully associative write-through cache of
one line, a write-buffer of the host pointer `6`, its recording as an argument
of kernel `2` and the launch of kernel `2` flag the line `GPU`; the calls
`writeBack()` and `writeBack(6)` that follow leave the flag `GPU`.  On the
write-back example state, whose two lines are flagged `GPU`, `writeBack(6)`
leaves line 0 flagged `GPU`. -/
theorem writeBack_leaves_device_lines :
    (run exEnv [Op.enqueueWriteBuffer 1 7 1 0 4 6 0 0, Op.setKernelArg 2 0 8 6,
        Op.enqueueNDRangeKernel 1 2 1 0 0 0 0 0, Op.writeBack, Op.writeBackPtr 6]
        (freshCache Organisation.FULLY_ASSOCIATIVE ReplacementPolicy.LRU 1 1 1 false)).map
        (fun r => r.2.lines.map (fun l => (l.tag, l.flag))) = Res.ok [(6, Flag.GPU)] ∧
      exCacheF.write_back = true ∧
      (lineAt (writeBackPtr exEnv exCacheF 6).2.lines 0).flag = Flag.GPU := by
  refine ⟨by decide, by decide, by decide⟩

/-- C10 (amended), witness: on the write-back example state, whose two lines
are flagged `GPU`, no line is flagged `GPU` after `writeBack()`, and line 1,
which holds the host pointer `6`, is not flagged `GPU` after `writeBack(6)`. -/
theorem writeBack_flags_witness :
    exCacheF.write_back = true ∧ exCacheF.lines.length ≤ exCacheF.nrOfLines ∧
      (getCacheLine exCacheF 6).1 = some 1 ∧
      (∀ j, (lineAt (writeBack exEnv exCacheF).2.lines j).flag ≠ Flag.GPU) ∧
      (lineAt (writeBackPtr exEnv exCacheF 6).2.lines 1).flag ≠ Flag.GPU :=
  ⟨by decide, by decide, by decide,
    (writeBack_flags exEnv exCacheF).1 (by decide) (by decide),
    ((writeBack_flags exEnv exCacheF).2.1 (by decide) 6 1 (by decide)).1⟩

/-! ## C1: uniqueness of tags -/

theorem Soft.softRefl (c : Cache) : Soft c c :=
  ⟨rfl, rfl, rfl, fun _ => ⟨rfl, Or.inl rfl⟩⟩

theorem Soft.softTrans {c c1 c2 : Cache} (h1 : Soft c c1) (h2 : Soft c1 c2) : Soft c c2 := by
  obtain ⟨a1, a2, a3, a4⟩ := h1
  obtain ⟨b1, b2, b3, b4⟩ := h2
  refine ⟨b1.trans a1, b2.trans a2, b3.trans a3, fun j => ⟨(b4 j).1.trans (a4 j).1, ?_⟩⟩
  rcases (b4 j).2 with h | h
  · rcases (a4 j).2 with h' | h'
    · exact Or.inl (h.trans h')
    · exact Or.inr (by rw [h]; exact h')
  · exact Or.inr h

theorem Soft.of_lines_eq {c c1 : Cache} (h0 : c1.organisation = c.organisation)
    (h1 : c1.nrOfSets = c.nrOfSets) (h2 : c1.nrOfLinesPerSet = c.nrOfLinesPerSet)
    (h3 : c1.lines = c.lines) : Soft c c1 :=
  ⟨h0, h1, h2, fun j => by rw [h3]; exact ⟨rfl, Or.inl rfl⟩⟩

theorem TagInv.soft {c c1 : Cache} (hinv : TagInv c) (h : Soft c c1) : TagInv c1 := by
  obtain ⟨i1, i2, i3, i4⟩ := hinv
  obtain ⟨a1, a2, a3, a4⟩ := h
  refine ⟨by rw [a1]; exact i1, ?_, ?_, ?_⟩
  · intro i hi
    unfold getSetIndex
    rw [(a4 i).1, a2, a3]
    rw [(a4 i).1] at hi
    exact i2 i hi
  · intro i j hi hij
    rw [(a4 i).1] at hi hij
    rw [(a4 j).1] at hij
    exact i3 i j hi hij
  · intro i hi
    rw [(a4 i).1] at hi
    rcases (a4 i).2 with h | h
    · rw [h]; exact i4 i hi
    · exact h

theorem soft_getCacheLine (c : Cache) (tag : Nat) : Soft c (getCacheLine c tag).2 :=
  ⟨by simp, by simp, by simp, fun j =>
    ⟨(getCacheLine_lineAt c tag j).2.2.1, Or.inl (getCacheLine_lineAt c tag j).1⟩⟩

theorem soft_setDirtyFlag (c : Cache) (ptr : Nat) (flag : Flag) (hf : flag ≠ Flag.CPU) :
    Soft c (setDirtyFlag c ptr flag) := by
  have hfr := setDirtyFlag_frame c ptr flag
  refine ⟨by rw [hfr], by rw [hfr], by rw [hfr], fun j => ?_⟩
  obtain ⟨d1, _, _, d4, d5⟩ := setDirtyFlag_lines c ptr flag j
  refine ⟨d1, ?_⟩
  by_cases h : (getCacheLine c ptr).1 = some j
  · exact Or.inr (by rw [d4 h]; exact hf)
  · exact Or.inl (d5 h)

theorem soft_markArguments (c : Cache) (args : List Nat) : Soft c (markArguments c args) := by
  obtain ⟨h1, _, h3, _⟩ := markArguments_spec args c
  unfold SameButLines at h1
  refine ⟨by rw [h1], by rw [h1], by rw [h1], fun j => ⟨(h3 j).1, ?_⟩⟩
  rcases (h3 j).2.2.2 with h | ⟨h, _⟩
  · exact Or.inl h
  · exact Or.inr (by rw [h]; decide)

theorem soft_flushLine (env : Env) (c : Cache) (i : Nat) (err : Int) :
    Soft c (flushLine env c i err).2 := by
  refine ⟨rfl, rfl, rfl, fun j => ?_⟩
  rw [flushLine_lines, lineAt_setFlag]
  split
  · next h =>
    obtain ⟨rfl, _⟩ := h
    exact ⟨rfl, Or.inr (fun h => Flag.noConfusion h)⟩
  · exact ⟨rfl, Or.inl rfl⟩

theorem soft_writeBackLoop (env : Env) (n : Nat) :
    ∀ (i : Nat) (c : Cache) (err : Int), Soft c (writeBackLoop env n i c err).2 := by
  induction n with
  | zero => intro i c err; exact Soft.softRefl c
  | succ n ih =>
    intro i c err
    unfold writeBackLoop
    split
    · exact (soft_flushLine env c i err).softTrans (ih _ _ _)
    · exact ih _ _ _

theorem soft_writeBack (env : Env) (c : Cache) : Soft c (writeBack env c).2 := by
  unfold writeBack
  split
  · exact Soft.softRefl c
  · exact soft_writeBackLoop env _ _ _ _

theorem soft_writeBackPtr (env : Env) (c : Cache) (host_ptr : Nat) :
    Soft c (writeBackPtr env c host_ptr).2 := by
  unfold writeBackPtr
  split
  · exact Soft.softRefl c
  · simp only []
    cases h : (getCacheLine c host_ptr).1 with
    | none => exact soft_getCacheLine c host_ptr
    | some i =>
      simp only []
      split
      · exact (soft_getCacheLine c host_ptr).softTrans (soft_flushLine env _ i _)
      · exact soft_getCacheLine c host_ptr

theorem releaseLoop_lines (env : Env) (n : Nat) :
    ∀ (i : Nat) (c : Cache) (err : Int),
      (releaseLoop env n i c err).2.lines = c.lines ∧
      (releaseLoop env n i c err).2.organisation = c.organisation ∧
      (releaseLoop env n i c err).2.nrOfSets = c.nrOfSets ∧
      (releaseLoop env n i c err).2.nrOfLinesPerSet = c.nrOfLinesPerSet := by
  induction n with
  | zero => intro i c err; exact ⟨rfl, rfl, rfl, rfl⟩
  | succ n ih =>
    intro i c err
    unfold releaseLoop
    split
    · obtain ⟨h1, h2, h3, h4⟩ := ih (i + 1)
        { c with
          buffers := sub32 c.buffers 1
          trace := c.trace ++ [RtCall.clReleaseMemObject (lineAt c.lines i).deviceAddress] }
        (Int.lor err (env.status c.trace.length))
      exact ⟨h1, h2, h3, h4⟩
    · exact ih _ _ _

theorem lineAt_replicate_append_drop (n : Nat) (l : List CacheLine) (j : Nat) :
    lineAt (List.replicate n zeroLine ++ l.drop n) j = if j < n then zeroLine else lineAt l j := by
  unfold lineAt
  rw [List.getD_eq_getElem?_getD, List.getD_eq_getElem?_getD]
  by_cases hj : j < n
  · rw [if_pos hj, List.getElem?_append_left (by simpa using hj)]
    simp [List.getElem?_replicate, hj]
  · rw [if_neg hj, List.getElem?_append_right (by simpa using hj)]
    simp only [List.length_replicate, List.getElem?_drop]
    have : n + (j - n) = j := by omega
    rw [this]

theorem lineAt_replicate (n j : Nat) : lineAt (List.replicate n zeroLine) j = zeroLine := by
  unfold lineAt
  rw [List.getD_eq_getElem?_getD]
  by_cases hj : j < n
  · simp [List.getElem?_replicate, hj]
  · simp [List.getElem?_replicate, hj]

theorem tagInv_resetCache (env : Env) (c : Cache) (hinv : TagInv c) :
    TagInv (resetCache env c) := by
  obtain ⟨i1, i2, i3, i4⟩ := hinv
  obtain ⟨h1, h2, h3, h4⟩ := releaseLoop_lines env c.nrOfLines 0 c 0
  have hl : ∀ j, lineAt (resetCache env c).lines j =
      if j < c.nrOfLines then zeroLine else lineAt c.lines j := by
    intro j
    show lineAt (List.replicate c.nrOfLines zeroLine ++
      (releaseLoop env c.nrOfLines 0 c 0).2.lines.drop c.nrOfLines) j = _
    rw [h1, lineAt_replicate_append_drop]
  have hkeep : ∀ j, (lineAt (resetCache env c).lines j).tag ≠ 0 →
      lineAt (resetCache env c).lines j = lineAt c.lines j := by
    intro j hj
    rw [hl] at hj ⊢
    split
    · next h => rw [if_pos h] at hj; exact absurd rfl hj
    · rfl
  refine ⟨?_, ?_, ?_, ?_⟩
  · show (releaseLoop env c.nrOfLines 0 c 0).2.organisation ≠ _
    rw [h2]; exact i1
  · intro i hi
    have hk := hkeep i hi
    rw [hk] at hi ⊢
    have := i2 i hi
    unfold getSetIndex at this ⊢
    show (lineAt c.lines i).tag % (releaseLoop env c.nrOfLines 0 c 0).2.nrOfSets *
      (releaseLoop env c.nrOfLines 0 c 0).2.nrOfLinesPerSet ≤ i ∧
      i < (lineAt c.lines i).tag % (releaseLoop env c.nrOfLines 0 c 0).2.nrOfSets *
      (releaseLoop env c.nrOfLines 0 c 0).2.nrOfLinesPerSet +
      (releaseLoop env c.nrOfLines 0 c 0).2.nrOfLinesPerSet
    rw [h3, h4]
    exact this
  · intro i j hi hij
    have hj : (lineAt (resetCache env c).lines j).tag ≠ 0 := by rw [← hij]; exact hi
    have hki := hkeep i hi
    have hkj := hkeep j hj
    rw [hki] at hi hij
    rw [hkj] at hij
    exact i3 i j hi hij
  · intro i hi
    have hki := hkeep i hi
    rw [hki] at hi ⊢
    exact i4 i hi

theorem addToCache_choose (env : Env) (x : Cache) (tag size deviceAddress : Nat) (flag : Flag)
    (a : CacheLine × Cache) (h : addToCache env x tag size deviceAddress flag (-1) = Res.ok a) :
    ∃ idx v, chooseVictim env x tag = Res.ok (idx, v) ∧
      a = overwriteLine env v idx tag size deviceAddress flag := by
  unfold addToCache at h
  rw [if_pos rfl] at h
  cases hv : chooseVictim env x tag with
  | ok r =>
    rw [hv] at h
    simp only [Res.ok.injEq] at h
    exact ⟨r.1, r.2, rfl, h.symm⟩
  | fatal => rw [hv] at h; simp at h
  | undefined => rw [hv] at h; simp at h
  | diverge => rw [hv] at h; simp at h

/-- An insertion that chooses its own victim, made after the lookup of the
tag has missed and with a flag other than `CPU`, keeps the invariant. -/
theorem tagInv_addToCache (env : Env) (x : Cache) (tag size deviceAddress : Nat) (flag : Flag)
    (a : CacheLine × Cache) (hinv : TagInv x) (hflag : flag ≠ Flag.CPU)
    (hmiss : tag = 0 ∨ ∀ j, getSetIndex x tag * x.nrOfLinesPerSet ≤ j →
      j < getSetIndex x tag * x.nrOfLinesPerSet + x.nrOfLinesPerSet →
      (lineAt x.lines j).tag ≠ tag)
    (h : addToCache env x tag size deviceAddress flag (-1) = Res.ok a) : TagInv a.2 := by
  obtain ⟨i1, i2, i3, i4⟩ := hinv
  obtain ⟨idx, v, hv, ha⟩ := addToCache_choose env x tag size deviceAddress flag a h
  obtain ⟨_, hvx0, hrange0⟩ := chooseVictim_ok env x tag (idx, v) hv
  have hvx : v = { x with randCalls := v.randCalls, FIFO_index := v.FIFO_index } := hvx0
  have hrange : x.organisation ≠ Organisation.DIRECT_MAPPING →
      getSetIndex x tag * x.nrOfLinesPerSet ≤ idx ∧
      idx < getSetIndex x tag * x.nrOfLinesPerSet + x.nrOfLinesPerSet := hrange0
  have hvl : v.lines = x.lines := by rw [hvx]
  have hrange := hrange i1
  have hfr := overwriteLine_frame env v idx tag size deviceAddress flag
  have e1 : a.2.organisation = x.organisation := by rw [ha, hfr]; show v.organisation = _; rw [hvx]
  have e2 : a.2.nrOfSets = x.nrOfSets := by rw [ha, hfr]; show v.nrOfSets = _; rw [hvx]
  have e3 : a.2.nrOfLinesPerSet = x.nrOfLinesPerSet := by
    rw [ha, hfr]; show v.nrOfLinesPerSet = _; rw [hvx]
  have hl : ∀ j, lineAt a.2.lines j = if idx = j ∧ idx < x.lines.length then
      { flag := flag, age := 0, tag := tag, size := size, deviceAddress := deviceAddress }
      else lineAt x.lines j := by
    intro j
    rw [ha, overwriteLine_lines, lineAt_setLine, hvl]
  have hset : ∀ t, getSetIndex a.2 t = getSetIndex x t := by
    intro t; unfold getSetIndex; rw [e2]
  refine ⟨by rw [e1]; exact i1, ?_, ?_, ?_⟩
  · intro i hi
    rw [hset, e3]
    rw [hl i] at hi ⊢
    split
    · next hc =>
      obtain ⟨rfl, _⟩ := hc
      exact hrange
    · next hc =>
      rw [if_neg hc] at hi
      exact i2 i hi
  · intro i j hi hij
    rw [hl i] at hi hij
    rw [hl j] at hij
    by_cases hci : idx = i ∧ idx < x.lines.length
    · by_cases hcj : idx = j ∧ idx < x.lines.length
      · exact hci.1.symm.trans hcj.1
      · rw [if_pos hci] at hi hij
        rw [if_neg hcj] at hij
        simp only [] at hi hij
        exfalso
        rcases hmiss with h0 | hm
        · exact hi h0
        · have hj2 := i2 j (by rw [← hij]; exact hi)
          rw [← hij] at hj2
          exact hm j hj2.1 hj2.2 hij.symm
    · by_cases hcj : idx = j ∧ idx < x.lines.length
      · rw [if_neg hci] at hi hij
        rw [if_pos hcj] at hij
        simp only [] at hij
        exfalso
        rcases hmiss with h0 | hm
        · rw [hij] at hi; exact hi h0
        · have hi2 := i2 i hi
          rw [hij] at hi2
          exact hm i hi2.1 hi2.2 hij
      · rw [if_neg hci] at hi hij
        rw [if_neg hcj] at hij
        exact i3 i j hi hij
  · intro i hi
    rw [hl i] at hi ⊢
    split
    · exact hflag
    · next hc =>
      rw [if_neg hc] at hi
      exact i4 i hi

theorem soft_releaseMemObject (c : Cache) (memobj : Nat) : Soft c (releaseMemObject c memobj) := by
  unfold releaseMemObject
  exact Soft.of_lines_eq rfl rfl rfl rfl

theorem soft_clearLocks (c : Cache) : Soft c (clearLocks c) := by
  unfold clearLocks
  exact Soft.of_lines_eq rfl rfl rfl rfl

theorem soft_lockLine (c : Cache) (i : Nat) : Soft c (lockLine c i) := by
  unfold lockLine
  exact Soft.of_lines_eq rfl rfl rfl rfl

theorem soft_countHit (c : Cache) (size : Nat) : Soft c (countHit c size) := by
  unfold countHit
  exact Soft.of_lines_eq rfl rfl rfl rfl

theorem miss_soft {c x : Cache} (tag : Nat) (h : Soft c x)
    (hmiss : tag = 0 ∨ ∀ j, getSetIndex c tag * c.nrOfLinesPerSet ≤ j →
      j < getSetIndex c tag * c.nrOfLinesPerSet + c.nrOfLinesPerSet →
      (lineAt c.lines j).tag ≠ tag) :
    tag = 0 ∨ ∀ j, getSetIndex x tag * x.nrOfLinesPerSet ≤ j →
      j < getSetIndex x tag * x.nrOfLinesPerSet + x.nrOfLinesPerSet →
      (lineAt x.lines j).tag ≠ tag := by
  obtain ⟨_, a2, a3, a4⟩ := h
  rcases hmiss with h0 | hm
  · exact Or.inl h0
  · right
    intro j hj1 hj2
    unfold getSetIndex at hj1 hj2 hm
    rw [a2, a3] at hj1 hj2
    rw [(a4 j).1]
    exact hm j hj1 hj2

/-- Under the invariant the line a lookup finds is not flagged `CPU`. -/
theorem found_not_cpu (c : Cache) (tag i : Nat) (hinv : TagInv c)
    (hfind : (getCacheLine c tag).1 = some i) :
    (lineAt (getCacheLine c tag).2.lines i).flag ≠ Flag.CPU := by
  obtain ⟨hp0, _, _, htag⟩ := getCacheLine_some c tag i hfind
  rw [(getCacheLine_lineAt c tag i).1]
  exact hinv.2.2.2 i (by rw [htag]; exact hp0)

theorem tagInv_createBuffer (env : Env) (c : Cache) (context flags size host_ptr : Nat)
    (errcode : Int) (r : (Nat × Int) × Cache) (hinv : TagInv c)
    (h : createBuffer env c context flags size host_ptr errcode = Res.ok r) : TagInv r.2 := by
  unfold createBuffer at h
  split at h
  · simp only [] at h
    have s0 : Soft c (countH2D c size) := Soft.of_lines_eq rfl rfl rfl rfl
    have s1 : Soft c (getCacheLine (countH2D c size) host_ptr).2 :=
      s0.softTrans (soft_getCacheLine _ _)
    have hmissCase : ∀ r : (Nat × Int) × Cache,
        (getCacheLine (countH2D c size) host_ptr).1 = none →
        (addToCache env (issueCreate (countMiss (getCacheLine (countH2D c size) host_ptr).2)
          context flags size host_ptr) host_ptr size
          (env.mem (getCacheLine (countH2D c size) host_ptr).2.trace.length) Flag.BOTH (-1)).map
          (fun a => ((env.mem (getCacheLine (countH2D c size) host_ptr).2.trace.length,
            env.status (getCacheLine (countH2D c size) host_ptr).2.trace.length), a.2)) =
          Res.ok r → TagInv r.2 := by
      intro r hnone hr
      have sx : Soft (getCacheLine (countH2D c size) host_ptr).2
          (issueCreate (countMiss (getCacheLine (countH2D c size) host_ptr).2)
            context flags size host_ptr) := Soft.of_lines_eq rfl rfl rfl rfl
      have hm := miss_soft host_ptr ((soft_getCacheLine _ _).softTrans sx)
        (getCacheLine_none _ _ hnone)
      cases hadd : addToCache env (issueCreate (countMiss
          (getCacheLine (countH2D c size) host_ptr).2) context flags size host_ptr) host_ptr size
          (env.mem (getCacheLine (countH2D c size) host_ptr).2.trace.length) Flag.BOTH (-1) with
      | ok a =>
        rw [hadd] at hr
        simp only [Res.map, Res.ok.injEq] at hr
        rw [← hr]
        exact tagInv_addToCache env _ _ _ _ _ a (hinv.soft (s1.softTrans sx))
          (fun h => Flag.noConfusion h) hm hadd
      | fatal => rw [hadd] at hr; simp [Res.map] at hr
      | undefined => rw [hadd] at hr; simp [Res.map] at hr
      | diverge => rw [hadd] at hr; simp [Res.map] at hr
    cases hfind : (getCacheLine (countH2D c size) host_ptr).1 with
    | none =>
      rw [hfind] at h
      exact hmissCase r hfind h
    | some i =>
      rw [hfind] at h
      simp only [] at h
      have hncpu := found_not_cpu (countH2D c size) host_ptr i (hinv.soft s0) hfind
      rw [if_neg hncpu] at h
      simp only [Res.ok.injEq] at h
      rw [← h]
      exact hinv.soft (s1.softTrans (Soft.of_lines_eq rfl rfl rfl rfl))
  · simp only [Res.ok.injEq] at h
    rw [← h]
    exact hinv.soft (Soft.of_lines_eq rfl rfl rfl rfl)

theorem tagInv_enqueueWriteBuffer (env : Env) (c : Cache)
    (command_queue buffer blocking_write offset cb ptr num_events event_wait_list : Nat)
    (r : (Int × Nat) × Cache) (hinv : TagInv c)
    (h : enqueueWriteBuffer env c command_queue buffer blocking_write offset cb ptr num_events
      event_wait_list = Res.ok r) : TagInv r.2 := by
  unfold enqueueWriteBuffer at h
  simp only [] at h
  have s0 : Soft c (setQueue (countH2D c cb) command_queue) := Soft.of_lines_eq rfl rfl rfl rfl
  have s1 : Soft c (getCacheLine (setQueue (countH2D c cb) command_queue) ptr).2 :=
    s0.softTrans (soft_getCacheLine _ _)
  cases hfind : (getCacheLine (setQueue (countH2D c cb) command_queue) ptr).1 with
  | none =>
    rw [hfind] at h
    simp only [] at h
    have sx : Soft (getCacheLine (setQueue (countH2D c cb) command_queue) ptr).2
        (countMiss (getCacheLine (setQueue (countH2D c cb) command_queue) ptr).2) :=
      Soft.of_lines_eq rfl rfl rfl rfl
    have hm := miss_soft ptr ((soft_getCacheLine _ _).softTrans sx) (getCacheLine_none _ _ hfind)
    cases hadd : addToCache env (countMiss
        (getCacheLine (setQueue (countH2D c cb) command_queue) ptr).2) ptr cb buffer
        Flag.BOTH (-1) with
    | ok a =>
      rw [hadd] at h
      simp only [Res.map, Res.ok.injEq] at h
      rw [← h]
      have := tagInv_addToCache env _ _ _ _ _ a (hinv.soft (s1.softTrans sx))
        (fun h => Flag.noConfusion h) hm hadd
      exact this.soft (Soft.of_lines_eq rfl rfl rfl rfl)
    | fatal => rw [hadd] at h; simp [Res.map] at h
    | undefined => rw [hadd] at h; simp [Res.map] at h
    | diverge => rw [hadd] at h; simp [Res.map] at h
  | some i =>
    rw [hfind] at h
    simp only [] at h
    have hncpu := found_not_cpu (setQueue (countH2D c cb) command_queue) ptr i (hinv.soft s0) hfind
    rw [if_neg hncpu] at h
    split at h
    · simp only [Res.ok.injEq] at h
      rw [← h]
      exact hinv.soft (((s1.softTrans (soft_countHit _ cb)).softTrans
        (soft_releaseMemObject _ buffer)).softTrans (soft_lockLine _ i))
    · simp only [Res.ok.injEq] at h
      rw [← h]
      exact hinv.soft ((s1.softTrans (soft_countHit _ cb)).softTrans (soft_lockLine _ i))

theorem tagInv_enqueueReadBuffer (env : Env) (c : Cache)
    (command_queue buffer blocking_read offset cb ptr num_events event_wait_list : Nat)
    (r : Int × Cache) (hinv : TagInv c)
    (h : enqueueReadBuffer env c command_queue buffer blocking_read offset cb ptr num_events
      event_wait_list = Res.ok r) : TagInv r.2 := by
  unfold enqueueReadBuffer at h
  simp only [] at h
  obtain ⟨e1, e2, e3, _, e5, _, _, _, _, _⟩ := readBuffer_lookup_state env c command_queue
    buffer blocking_read offset cb ptr num_events event_wait_list _ rfl
  generalize (if (readEntry c command_queue cb).write_back = false then
        forwardRead env (readEntry c command_queue cb) command_queue buffer blocking_read
          offset cb ptr num_events event_wait_list
        else readEntry c command_queue cb) = c1 at *
  have s0 : Soft c c1 := Soft.of_lines_eq e5 e2 e3 e1
  have s1 : Soft c (getCacheLine c1 ptr).2 := s0.softTrans (soft_getCacheLine _ _)
  cases hfind : (getCacheLine c1 ptr).1 with
  | none =>
    rw [hfind] at h
    simp only [] at h
    have hm := miss_soft ptr (soft_getCacheLine c1 ptr) (getCacheLine_none _ _ hfind)
    cases hadd : addToCache env (getCacheLine c1 ptr).2 ptr cb buffer
        (if (getCacheLine c1 ptr).2.write_back = false ∧ env.write_through = true
          then Flag.BOTH else Flag.GPU) (-1) with
    | ok a =>
      rw [hadd] at h
      simp only [Res.map, Res.ok.injEq] at h
      rw [← h]
      have hf : (if (getCacheLine c1 ptr).2.write_back = false ∧ env.write_through = true
          then Flag.BOTH else Flag.GPU) ≠ Flag.CPU := by
        split <;> exact fun h => Flag.noConfusion h
      have := tagInv_addToCache env _ _ _ _ _ a (hinv.soft s1) hf hm hadd
      exact this.soft (Soft.of_lines_eq rfl rfl rfl rfl)
    | fatal => rw [hadd] at h; simp [Res.map] at h
    | undefined => rw [hadd] at h; simp [Res.map] at h
    | diverge => rw [hadd] at h; simp [Res.map] at h
  | some i =>
    rw [hfind] at h
    simp only [] at h
    split at h
    · simp only [Res.ok.injEq] at h
      rw [← h]
      show TagInv (clearLocks (releaseMemObject (getCacheLine c1 ptr).2 buffer))
      exact hinv.soft ((s1.softTrans (soft_releaseMemObject _ buffer)).softTrans (soft_clearLocks _))
    · simp only [Res.ok.injEq] at h
      rw [← h]
      show TagInv (clearLocks (getCacheLine c1 ptr).2)
      exact hinv.soft (s1.softTrans (soft_clearLocks _))

theorem tagInv_step (env : Env) (c : Cache) (op : Op) (r : (Int × Nat) × Cache)
    (hinv : TagInv c) (hop : op.noHostFlag) (h : step env c op = Res.ok r) : TagInv r.2 := by
  cases op with
  | createBuffer context flags size host_ptr errcode =>
    simp only [step] at h
    cases hc : createBuffer env c context flags size host_ptr errcode with
    | ok a =>
      rw [hc] at h
      simp only [Res.ok.injEq] at h
      rw [← h]
      exact tagInv_createBuffer env c context flags size host_ptr errcode a hinv hc
    | fatal => rw [hc] at h; simp at h
    | undefined => rw [hc] at h; simp at h
    | diverge => rw [hc] at h; simp at h
  | enqueueWriteBuffer q b bl off cb ptr ne wl =>
    simp only [step] at h
    exact tagInv_enqueueWriteBuffer env c q b bl off cb ptr ne wl r hinv h
  | enqueueReadBuffer q b bl off cb ptr ne wl =>
    simp only [step] at h
    cases hc : enqueueReadBuffer env c q b bl off cb ptr ne wl with
    | ok a =>
      rw [hc] at h
      simp only [Res.ok.injEq] at h
      rw [← h]
      exact tagInv_enqueueReadBuffer env c q b bl off cb ptr ne wl a hinv hc
    | fatal => rw [hc] at h; simp at h
    | undefined => rw [hc] at h; simp at h
    | diverge => rw [hc] at h; simp at h
  | setKernelArg kernel index size value =>
    simp only [step] at h
    simp only [Res.ok.injEq] at h
    rw [← h]
    exact hinv.soft (Soft.of_lines_eq rfl rfl rfl rfl)
  | enqueueNDRangeKernel q kernel wd gwo gws lws ne wl =>
    simp only [step] at h
    simp only [Res.ok.injEq] at h
    rw [← h]
    unfold enqueueNDRangeKernel
    exact hinv.soft (Soft.softTrans (Soft.of_lines_eq rfl rfl rfl rfl) (soft_markArguments _ _))
  | writeBack =>
    simp only [step] at h
    simp only [Res.ok.injEq] at h
    rw [← h]
    exact hinv.soft (soft_writeBack env c)
  | writeBackPtr host_ptr =>
    simp only [step] at h
    simp only [Res.ok.injEq] at h
    rw [← h]
    exact hinv.soft (soft_writeBackPtr env c host_ptr)
  | setDirtyFlag ptr flag =>
    simp only [step] at h
    simp only [Res.ok.injEq] at h
    rw [← h]
    have hf : flag ≠ Flag.CPU := by
      intro hf
      rw [hf] at hop
      exact hop
    exact hinv.soft (soft_setDirtyFlag c ptr flag hf)
  | resetCache =>
    simp only [step] at h
    simp only [Res.ok.injEq] at h
    rw [← h]
    exact tagInv_resetCache env c hinv
  | resetTimers =>
    simp only [step] at h
    simp only [Res.ok.injEq] at h
    rw [← h]
    exact hinv.soft (Soft.of_lines_eq rfl rfl rfl rfl)

theorem tagInv_run (env : Env) (ops : List Op) :
    ∀ (c : Cache) (r : List (Int × Nat) × Cache), TagInv c → (∀ op ∈ ops, op.noHostFlag) →
      run env ops c = Res.ok r → TagInv r.2 := by
  induction ops with
  | nil =>
    intro c r hinv _ h
    simp only [run, Res.ok.injEq] at h
    rw [← h]
    exact hinv
  | cons op ops ih =>
    intro c r hinv hops h
    unfold run at h
    cases hs : step env c op with
    | ok a =>
      rw [hs] at h
      simp only [] at h
      cases hr : run env ops a.2 with
      | ok rs =>
        rw [hr] at h
        simp only [Res.ok.injEq] at h
        rw [← h]
        exact ih a.2 rs (tagInv_step env c op a hinv (hops op (List.mem_cons_self _ _)) hs)
          (fun o ho => hops o (List.mem_cons_of_mem _ ho)) hr
      | fatal => rw [hr] at h; simp at h
      | undefined => rw [hr] at h; simp at h
      | diverge => rw [hr] at h; simp at h
    | fatal => rw [hs] at h; simp at h
    | undefined => rw [hs] at h; simp at h
    | diverge => rw [hs] at h; simp at h

theorem tagInv_freshCache (organisation : Organisation) (replacementPolicy : ReplacementPolicy)
    (nrOfSets nrOfLines nrOfLinesPerSet : Nat) (write_back : Bool)
    (horg : organisation ≠ Organisation.DIRECT_MAPPING) :
    TagInv (freshCache organisation replacementPolicy nrOfSets nrOfLines nrOfLinesPerSet
      write_back) := by
  have hz : ∀ i, (lineAt (freshCache organisation replacementPolicy nrOfSets nrOfLines
      nrOfLinesPerSet write_back).lines i).tag = 0 := by
    intro i
    show (lineAt (List.replicate nrOfLines zeroLine) i).tag = 0
    rw [lineAt_replicate]
    rfl
  exact ⟨horg, fun i hi => absurd (hz i) hi, fun i j hi _ => absurd (hz i) hi,
    fun i hi => absurd (hz i) hi⟩

theorem tagInv_initialise (fuel : Nat) (organisation : Organisation)
    (replacementPolicy : ReplacementPolicy) (cacheSize nrOfSet : Int) (write_back : Bool)
    (c0 : Cache) (horg : organisation ≠ Organisation.DIRECT_MAPPING)
    (h : initialise fuel organisation replacementPolicy cacheSize nrOfSet write_back = Res.ok c0) :
    TagInv c0 := by
  unfold initialise at h
  cases organisation with
  | DIRECT_MAPPING => exact absurd rfl horg
  | FULLY_ASSOCIATIVE =>
    simp only [] at h
    split at h
    · simp at h
    · simp only [Res.ok.injEq] at h
      rw [← h]
      exact tagInv_freshCache _ _ _ _ _ _ horg
  | SET_ASSOCIATIVE =>
    simp only [] at h
    cases hg : getTableSize fuel nrOfSet with
    | ok n =>
      rw [hg] at h
      simp only [] at h
      split at h
      · simp at h
      · simp only [Res.ok.injEq] at h
        rw [← h]
        exact tagInv_freshCache _ _ _ _ _ _ horg
    | fatal => rw [hg] at h; simp at h
    | undefined => rw [hg] at h; simp at h
    | diverge => rw [hg] at h; simp at h

/-- C1 (amended): for every sequence of calls of the public interface
(create-buffer, write-buffer, read-buffer, set-kernel-arg, enqueue-kernel,
both write-backs, `setDirtyFlag`, and also `resetCache` and `resetTimers`) that
returns, issued on a freshly constructed cache that is set-associative or
fully associative (any replacement policy and write mode), and in which
`setDirtyFlag` is never called with the flag `CPU` (Host), no two lines with
a non-null tag hold the same tag. -/
theorem run_noDupTags (env : Env) (fuel : Nat) (organisation : Organisation)
    (replacementPolicy : ReplacementPolicy) (cacheSize nrOfSet : Int) (write_back : Bool)
    (ops : List Op) (c0 : Cache) (r : List (Int × Nat) × Cache)
    (horg : organisation ≠ Organisation.DIRECT_MAPPING)
    (hops : ∀ op ∈ ops, op.noHostFlag)
    (hinit : initialise fuel organisation replacementPolicy cacheSize nrOfSet write_back =
      Res.ok c0)
    (hrun : run env ops c0 = Res.ok r) : NoDupTags r.2 := by
  have hinv := tagInv_run env ops c0 r
    (tagInv_initialise fuel organisation replacementPolicy cacheSize nrOfSet write_back c0 horg
      hinit) hops hrun
  intro i j _ _ hi hij
  exact hinv.2.2.1 i j hi hij

/-- C1 (amended), witness: the example sequence on a fresh fully associative
cache of two lines returns, and no two lines share a non-null tag. -/
theorem run_noDupTags_witness :
    initialise 0 Organisation.FULLY_ASSOCIATIVE ReplacementPolicy.LRU 2 1 false =
        Res.ok (freshCache Organisation.FULLY_ASSOCIATIVE ReplacementPolicy.LRU 1 2 2 false) ∧
      run exEnv exOps (freshCache Organisation.FULLY_ASSOCIATIVE ReplacementPolicy.LRU 1 2 2 false)
        = Res.ok ((run exEnv exOps
          (freshCache Organisation.FULLY_ASSOCIATIVE ReplacementPolicy.LRU 1 2 2 false)).getD
            ([], exCacheA)) ∧
      NoDupTags ((run exEnv exOps
          (freshCache Organisation.FULLY_ASSOCIATIVE ReplacementPolicy.LRU 1 2 2 false)).getD
            ([], exCacheA)).2 := by
  have hops : ∀ op ∈ exOps, op.noHostFlag := by
    intro op hop
    simp only [exOps, List.mem_cons, List.mem_singleton, List.not_mem_nil, or_false] at hop
    rcases hop with rfl | rfl | rfl | rfl <;> exact trivial
  exact ⟨by decide, by decide,
    run_noDupTags exEnv 0 Organisation.FULLY_ASSOCIATIVE ReplacementPolicy.LRU 2 1 false exOps
      (freshCache Organisation.FULLY_ASSOCIATIVE ReplacementPolicy.LRU 1 2 2 false)
      ((run exEnv exOps
        (freshCache Organisation.FULLY_ASSOCIATIVE ReplacementPolicy.LRU 1 2 2 false)).getD
          ([], exCacheA))
      (by decide) hops (by decide) (by decide)⟩

/-- C1, counterexample: on a fresh direct-mapped cache of three lines (requested
size 3), with `rand()` returning `1`, the example sequence returns with the
host pointer `6` as the tag of both line 0 and line 1.  The first write-buffer
puts `3` into line 0 and locks it; the second finds line 0, the sole candidate
of `6`, locked and falls back to the random line 1; after the launch has
cleared the lock set the lookup of `6` scans line 0 only, misses, and the
third write-buffer overwrites line 0 with `6`. -/
theorem direct_mapped_duplicate_tags :
    initialise 0 Organisation.DIRECT_MAPPING ReplacementPolicy.LRU 3 1 false =
        Res.ok (freshCache Organisation.DIRECT_MAPPING ReplacementPolicy.LRU 3 3 1 false) ∧
      run exEnv exOps (freshCache Organisation.DIRECT_MAPPING ReplacementPolicy.LRU 3 3 1 false)
        = Res.ok ((run exEnv exOps
          (freshCache Organisation.DIRECT_MAPPING ReplacementPolicy.LRU 3 3 1 false)).getD
            ([], exCacheA)) ∧
      (((run exEnv exOps
          (freshCache Organisation.DIRECT_MAPPING ReplacementPolicy.LRU 3 3 1 false)).getD
            ([], exCacheA)).2.lines.map fun l => l.tag) = [6, 6, 0] ∧
      ¬ NoDupTags ((run exEnv exOps
          (freshCache Organisation.DIRECT_MAPPING ReplacementPolicy.LRU 3 3 1 false)).getD
            ([], exCacheA)).2 := by
  refine ⟨by decide, by decide, by decide, ?_⟩
  intro h
  exact absurd (h 0 1 (by decide) (by decide) (by decide) (by decide)) (by decide)

/-! ## The geometry is an invariant of every operation -/

theorem Geo.geoRefl (c : Cache) : Geo c c :=
  ⟨rfl, rfl, rfl, rfl, rfl⟩

theorem Geo.geoTrans {c c1 c2 : Cache} (h1 : Geo c c1) (h2 : Geo c1 c2) : Geo c c2 := by
  obtain ⟨a1, a2, a3, a4, a5⟩ := h1
  obtain ⟨b1, b2, b3, b4, b5⟩ := h2
  exact ⟨b1.trans a1, b2.trans a2, b3.trans a3, b4.trans a4, b5.trans a5⟩

theorem WF.geo {c c1 : Cache} (hwf : WF c) (h : Geo c c1) : WF c1 := by
  obtain ⟨a1, a2, a3, a4, a5⟩ := h
  unfold WF at *
  rw [a1, a2, a3, a4, a5]
  exact hwf

theorem geo_getCacheLine (c : Cache) (tag : Nat) : Geo c (getCacheLine c tag).2 :=
  ⟨by simp, by simp, by simp, by simp, by simp⟩

theorem geo_setDirtyFlag (c : Cache) (ptr : Nat) (flag : Flag) :
    Geo c (setDirtyFlag c ptr flag) := by
  have hfr := setDirtyFlag_frame c ptr flag
  exact ⟨by rw [hfr], by rw [hfr], by rw [hfr], by rw [hfr], setDirtyFlag_length c ptr flag⟩

theorem geo_markArguments (c : Cache) (args : List Nat) : Geo c (markArguments c args) := by
  obtain ⟨h1, h2, _, _⟩ := markArguments_spec args c
  unfold SameButLines at h1
  exact ⟨by rw [h1], by rw [h1], by rw [h1], by rw [h1], h2⟩

theorem geo_flushLine (env : Env) (c : Cache) (i : Nat) (err : Int) :
    Geo c (flushLine env c i err).2 :=
  ⟨rfl, rfl, rfl, rfl, by rw [flushLine_lines, length_setFlag]⟩

theorem geo_writeBackLoop (env : Env) (n : Nat) :
    ∀ (i : Nat) (c : Cache) (err : Int), Geo c (writeBackLoop env n i c err).2 := by
  induction n with
  | zero => intro i c err; exact Geo.geoRefl c
  | succ n ih =>
    intro i c err
    unfold writeBackLoop
    split
    · exact (geo_flushLine env c i err).geoTrans (ih _ _ _)
    · exact ih _ _ _

theorem geo_writeBack (env : Env) (c : Cache) : Geo c (writeBack env c).2 := by
  unfold writeBack
  split
  · exact Geo.geoRefl c
  · exact geo_writeBackLoop env _ _ _ _

theorem geo_writeBackPtr (env : Env) (c : Cache) (host_ptr : Nat) :
    Geo c (writeBackPtr env c host_ptr).2 := by
  unfold writeBackPtr
  split
  · exact Geo.geoRefl c
  · simp only []
    cases h : (getCacheLine c host_ptr).1 with
    | none => exact geo_getCacheLine c host_ptr
    | some i =>
      simp only []
      split
      · exact (geo_getCacheLine c host_ptr).geoTrans (geo_flushLine env _ i _)
      · exact geo_getCacheLine c host_ptr

theorem geo_releaseLoop (env : Env) (n : Nat) :
    ∀ (i : Nat) (c : Cache) (err : Int), Geo c (releaseLoop env n i c err).2 := by
  induction n with
  | zero => intro i c err; exact Geo.geoRefl c
  | succ n ih =>
    intro i c err
    unfold releaseLoop
    split
    · obtain ⟨g1, g2, g3, g4, g5⟩ := ih (i + 1)
        { c with
          buffers := sub32 c.buffers 1
          trace := c.trace ++ [RtCall.clReleaseMemObject (lineAt c.lines i).deviceAddress] }
        (Int.lor err (env.status c.trace.length))
      exact ⟨g1, g2, g3, g4, g5⟩
    · exact ih _ _ _

theorem wf_resetCache (env : Env) (c : Cache) (hwf : WF c) : WF (resetCache env c) := by
  obtain ⟨g1, g2, g3, g4, g5⟩ := geo_releaseLoop env c.nrOfLines 0 c 0
  obtain ⟨w1, w2, w3, w4, w5⟩ := hwf
  refine ⟨?_, ?_, ?_, ?_, ?_⟩
  · show 0 < (releaseLoop env c.nrOfLines 0 c 0).2.nrOfSets
    rw [g1]; exact w1
  · show 0 < (releaseLoop env c.nrOfLines 0 c 0).2.nrOfLinesPerSet
    rw [g2]; exact w2
  · show (releaseLoop env c.nrOfLines 0 c 0).2.nrOfLines =
      (releaseLoop env c.nrOfLines 0 c 0).2.nrOfSets *
        (releaseLoop env c.nrOfLines 0 c 0).2.nrOfLinesPerSet
    rw [g1, g2, g3]; exact w3
  · show (List.replicate c.nrOfLines zeroLine ++
      (releaseLoop env c.nrOfLines 0 c 0).2.lines.drop c.nrOfLines).length =
      (releaseLoop env c.nrOfLines 0 c 0).2.nrOfLines
    rw [g3, List.length_append, List.length_replicate, List.length_drop, g5, w4]
    omega
  · show (releaseLoop env c.nrOfLines 0 c 0).2.organisation = _ →
      (releaseLoop env c.nrOfLines 0 c 0).2.nrOfLinesPerSet = 1
    rw [g2, g4]; exact w5

theorem geo_overwriteLine (env : Env) (c : Cache) (idx tag size deviceAddress : Nat)
    (flag : Flag) : Geo c (overwriteLine env c idx tag size deviceAddress flag).2 := by
  have hfr := overwriteLine_frame env c idx tag size deviceAddress flag
  refine ⟨by rw [hfr], by rw [hfr], by rw [hfr], by rw [hfr], ?_⟩
  rw [overwriteLine_lines, length_setLine]

theorem geo_addToCache (env : Env) (c : Cache) (tag size deviceAddress : Nat) (flag : Flag)
    (idx : Int) (a : CacheLine × Cache)
    (h : addToCache env c tag size deviceAddress flag idx = Res.ok a) : Geo c a.2 := by
  unfold addToCache at h
  split at h
  · cases hv : chooseVictim env c tag with
    | ok r =>
      rw [hv] at h
      simp only [Res.ok.injEq] at h
      obtain ⟨_, h2, _⟩ := chooseVictim_ok env c tag r hv
      rw [← h]
      have g : Geo c r.2 := by
        refine ⟨?_, ?_, ?_, ?_, ?_⟩ <;> rw [h2]
      exact g.geoTrans (geo_overwriteLine env r.2 r.1 tag size deviceAddress flag)
    | fatal => rw [hv] at h; simp at h
    | undefined => rw [hv] at h; simp at h
    | diverge => rw [hv] at h; simp at h
  · simp only [Res.ok.injEq] at h
    rw [← h]
    exact geo_overwriteLine env c idx.toNat tag size deviceAddress flag

theorem geo_of_map {α : Type} (c c1 : Cache) (x : Res (CacheLine × Cache)) (f : Cache → Cache)
    (g : CacheLine × Cache → α) (r : α × Cache)
    (hx : ∀ a, x = Res.ok a → Geo c1 a.2) (hf : ∀ y, Geo y (f y)) (hc : Geo c c1)
    (h : x.map (fun a => (g a, f a.2)) = Res.ok r) : Geo c r.2 := by
  cases x with
  | ok a =>
    simp only [Res.map, Res.ok.injEq] at h
    rw [← h]
    exact (hc.geoTrans (hx a rfl)).geoTrans (hf a.2)
  | fatal => simp [Res.map] at h
  | undefined => simp [Res.map] at h
  | diverge => simp [Res.map] at h

theorem geo_countH2D (c : Cache) (size : Nat) : Geo c (countH2D c size) := by
  unfold countH2D
  exact ⟨rfl, rfl, rfl, rfl, rfl⟩

theorem geo_setQueue (c : Cache) (q : Nat) : Geo c (setQueue c q) := by
  unfold setQueue
  exact ⟨rfl, rfl, rfl, rfl, rfl⟩

theorem geo_countMiss (c : Cache)  : Geo c (countMiss c) := by
  unfold countMiss
  exact ⟨rfl, rfl, rfl, rfl, rfl⟩

theorem geo_countHit (c : Cache) (size : Nat) : Geo c (countHit c size) := by
  unfold countHit
  exact ⟨rfl, rfl, rfl, rfl, rfl⟩

theorem geo_lockLine (c : Cache) (i : Nat) : Geo c (lockLine c i) := by
  unfold lockLine
  exact ⟨rfl, rfl, rfl, rfl, rfl⟩

theorem geo_clearLocks (c : Cache)  : Geo c (clearLocks c) := by
  unfold clearLocks
  exact ⟨rfl, rfl, rfl, rfl, rfl⟩

theorem geo_releaseMemObject (c : Cache) (memobj : Nat) : Geo c (releaseMemObject c memobj) := by
  unfold releaseMemObject
  exact ⟨rfl, rfl, rfl, rfl, rfl⟩

theorem geo_issueCreate (c : Cache) (context flags size host_ptr : Nat) : Geo c (issueCreate c context flags size host_ptr) := by
  unfold issueCreate
  exact ⟨rfl, rfl, rfl, rfl, rfl⟩

theorem geo_readEntry (c : Cache) (q cb : Nat) : Geo c (readEntry c q cb) := by
  unfold readEntry
  exact ⟨rfl, rfl, rfl, rfl, rfl⟩

theorem geo_forwardWrite (env : Env) (c : Cache) (q b bl off cb ptr ne wl : Nat) :
    Geo c (forwardWrite env c q b bl off cb ptr ne wl) := by
  unfold forwardWrite
  exact ⟨rfl, rfl, rfl, rfl, rfl⟩

theorem geo_forwardRead (env : Env) (c : Cache) (q b bl off cb ptr ne wl : Nat) :
    Geo c (forwardRead env c q b bl off cb ptr ne wl) := by
  unfold forwardRead
  exact ⟨rfl, rfl, rfl, rfl, rfl⟩

theorem geo_createBuffer (env : Env) (c : Cache) (context flags size host_ptr : Nat)
    (errcode : Int) (r : (Nat × Int) × Cache)
    (h : createBuffer env c context flags size host_ptr errcode = Res.ok r) : Geo c r.2 := by
  unfold createBuffer at h
  split at h
  · simp only [] at h
    have g1 : Geo c (getCacheLine (countH2D c size) host_ptr).2 :=
      (geo_countH2D c size).geoTrans (geo_getCacheLine _ _)
    have hmissCase : ∀ r : (Nat × Int) × Cache,
        (addToCache env (issueCreate (countMiss (getCacheLine (countH2D c size) host_ptr).2)
          context flags size host_ptr) host_ptr size
          (env.mem (getCacheLine (countH2D c size) host_ptr).2.trace.length) Flag.BOTH (-1)).map
          (fun a => ((env.mem (getCacheLine (countH2D c size) host_ptr).2.trace.length,
            env.status (getCacheLine (countH2D c size) host_ptr).2.trace.length), a.2)) =
          Res.ok r → Geo c r.2 := by
      intro r hr
      exact geo_of_map c _ _ (fun y => y) _ r (fun a ha => geo_addToCache env _ _ _ _ _ _ a ha)
        (fun y => Geo.geoRefl y)
        ((g1.geoTrans (geo_countMiss _)).geoTrans (geo_issueCreate _ _ _ _ _)) hr
    cases hfind : (getCacheLine (countH2D c size) host_ptr).1 with
    | none =>
      rw [hfind] at h
      exact hmissCase r h
    | some i =>
      rw [hfind] at h
      simp only [] at h
      split at h
      · exact hmissCase r h
      · simp only [Res.ok.injEq] at h
        rw [← h]
        exact (g1.geoTrans (geo_countHit _ size)).geoTrans (geo_lockLine _ i)
  · simp only [Res.ok.injEq] at h
    rw [← h]
    exact (geo_issueCreate c context flags size host_ptr).geoTrans ⟨rfl, rfl, rfl, rfl, rfl⟩

theorem geo_enqueueWriteBuffer (env : Env) (c : Cache)
    (command_queue buffer blocking_write offset cb ptr num_events event_wait_list : Nat)
    (r : (Int × Nat) × Cache)
    (h : enqueueWriteBuffer env c command_queue buffer blocking_write offset cb ptr num_events
      event_wait_list = Res.ok r) : Geo c r.2 := by
  unfold enqueueWriteBuffer at h
  simp only [] at h
  have g1 : Geo c (getCacheLine (setQueue (countH2D c cb) command_queue) ptr).2 :=
    ((geo_countH2D c cb).geoTrans (geo_setQueue _ command_queue)).geoTrans (geo_getCacheLine _ _)
  have hmissCase : ∀ (idx : Int) (r : (Int × Nat) × Cache),
      (addToCache env (countMiss (getCacheLine (setQueue (countH2D c cb) command_queue) ptr).2)
        ptr cb buffer Flag.BOTH idx).map
        (fun a => ((env.status a.2.trace.length, buffer),
          forwardWrite env a.2 command_queue buffer blocking_write offset cb ptr num_events
            event_wait_list)) = Res.ok r → Geo c r.2 := by
    intro idx r hr
    exact geo_of_map c _ _
      (fun y => forwardWrite env y command_queue buffer blocking_write offset cb ptr num_events
        event_wait_list) (fun a => (env.status a.2.trace.length, buffer)) r
      (fun a ha => geo_addToCache env _ _ _ _ _ _ a ha)
      (fun y => geo_forwardWrite env y _ _ _ _ _ _ _ _)
      (g1.geoTrans (geo_countMiss _)) hr
  cases hfind : (getCacheLine (setQueue (countH2D c cb) command_queue) ptr).1 with
  | none =>
    rw [hfind] at h
    exact hmissCase (-1) r h
  | some i =>
    rw [hfind] at h
    simp only [] at h
    split at h
    · exact hmissCase i r h
    · split at h
      · simp only [Res.ok.injEq] at h
        rw [← h]
        exact ((g1.geoTrans (geo_countHit _ cb)).geoTrans
          (geo_releaseMemObject _ buffer)).geoTrans (geo_lockLine _ i)
      · simp only [Res.ok.injEq] at h
        rw [← h]
        exact (g1.geoTrans (geo_countHit _ cb)).geoTrans (geo_lockLine _ i)

theorem geo_enqueueReadBuffer (env : Env) (c : Cache)
    (command_queue buffer blocking_read offset cb ptr num_events event_wait_list : Nat)
    (r : Int × Cache)
    (h : enqueueReadBuffer env c command_queue buffer blocking_read offset cb ptr num_events
      event_wait_list = Res.ok r) : Geo c r.2 := by
  unfold enqueueReadBuffer at h
  simp only [] at h
  have g0 : Geo c (if (readEntry c command_queue cb).write_back = false then
        forwardRead env (readEntry c command_queue cb) command_queue buffer blocking_read
          offset cb ptr num_events event_wait_list
        else readEntry c command_queue cb) := by
    split
    · exact (geo_readEntry c command_queue cb).geoTrans (geo_forwardRead env _ _ _ _ _ _ _ _ _)
    · exact geo_readEntry c command_queue cb
  generalize (if (readEntry c command_queue cb).write_back = false then
        forwardRead env (readEntry c command_queue cb) command_queue buffer blocking_read
          offset cb ptr num_events event_wait_list
        else readEntry c command_queue cb) = c1 at *
  have g1 : Geo c (getCacheLine c1 ptr).2 := g0.geoTrans (geo_getCacheLine _ _)
  cases hfind : (getCacheLine c1 ptr).1 with
  | none =>
    rw [hfind] at h
    simp only [] at h
    exact geo_of_map c _ _ clearLocks _ r (fun a ha => geo_addToCache env _ _ _ _ _ _ a ha)
      geo_clearLocks g1 h
  | some i =>
    rw [hfind] at h
    simp only [] at h
    split at h
    · simp only [Res.ok.injEq] at h
      rw [← h]
      exact (g1.geoTrans (geo_releaseMemObject _ buffer)).geoTrans (geo_clearLocks _)
    · simp only [Res.ok.injEq] at h
      rw [← h]
      exact g1.geoTrans (geo_clearLocks _)

theorem wf_step (env : Env) (c : Cache) (op : Op) (r : (Int × Nat) × Cache)
    (hwf : WF c) (h : step env c op = Res.ok r) : WF r.2 := by
  cases op with
  | createBuffer context flags size host_ptr errcode =>
    simp only [step] at h
    cases hc : createBuffer env c context flags size host_ptr errcode with
    | ok a =>
      rw [hc] at h
      simp only [Res.ok.injEq] at h
      rw [← h]
      exact hwf.geo (geo_createBuffer env c context flags size host_ptr errcode a hc)
    | fatal => rw [hc] at h; simp at h
    | undefined => rw [hc] at h; simp at h
    | diverge => rw [hc] at h; simp at h
  | enqueueWriteBuffer q b bl off cb ptr ne wl =>
    simp only [step] at h
    exact hwf.geo (geo_enqueueWriteBuffer env c q b bl off cb ptr ne wl r h)
  | enqueueReadBuffer q b bl off cb ptr ne wl =>
    simp only [step] at h
    cases hc : enqueueReadBuffer env c q b bl off cb ptr ne wl with
    | ok a =>
      rw [hc] at h
      simp only [Res.ok.injEq] at h
      rw [← h]
      exact hwf.geo (geo_enqueueReadBuffer env c q b bl off cb ptr ne wl a hc)
    | fatal => rw [hc] at h; simp at h
    | undefined => rw [hc] at h; simp at h
    | diverge => rw [hc] at h; simp at h
  | setKernelArg kernel index size value =>
    simp only [step, Res.ok.injEq] at h
    rw [← h]
    exact hwf.geo ⟨rfl, rfl, rfl, rfl, rfl⟩
  | enqueueNDRangeKernel q kernel wd gwo gws lws ne wl =>
    simp only [step, Res.ok.injEq] at h
    rw [← h]
    unfold enqueueNDRangeKernel
    exact hwf.geo (Geo.geoTrans ⟨rfl, rfl, rfl, rfl, rfl⟩ (geo_markArguments _ _))
  | writeBack =>
    simp only [step, Res.ok.injEq] at h
    rw [← h]
    exact hwf.geo (geo_writeBack env c)
  | writeBackPtr host_ptr =>
    simp only [step, Res.ok.injEq] at h
    rw [← h]
    exact hwf.geo (geo_writeBackPtr env c host_ptr)
  | setDirtyFlag ptr flag =>
    simp only [step, Res.ok.injEq] at h
    rw [← h]
    exact hwf.geo (geo_setDirtyFlag c ptr flag)
  | resetCache =>
    simp only [step, Res.ok.injEq] at h
    rw [← h]
    exact wf_resetCache env c hwf
  | resetTimers =>
    simp only [step, Res.ok.injEq] at h
    rw [← h]
    exact hwf.geo ⟨rfl, rfl, rfl, rfl, rfl⟩

/-- The geometry `WF` holds in every state a returning sequence of calls
reaches from a state in which it holds. -/
theorem wf_run (env : Env) (ops : List Op) :
    ∀ (c : Cache) (r : List (Int × Nat) × Cache), WF c → run env ops c = Res.ok r → WF r.2 := by
  induction ops with
  | nil =>
    intro c r hwf h
    simp only [run, Res.ok.injEq] at h
    rw [← h]
    exact hwf
  | cons op ops ih =>
    intro c r hwf h
    unfold run at h
    cases hs : step env c op with
    | ok a =>
      rw [hs] at h
      simp only [] at h
      cases hr : run env ops a.2 with
      | ok rs =>
        rw [hr] at h
        simp only [Res.ok.injEq] at h
        rw [← h]
        exact ih a.2 rs (wf_step env c op a hwf hs) hr
      | fatal => rw [hr] at h; simp at h
      | undefined => rw [hr] at h; simp at h
      | diverge => rw [hr] at h; simp at h
    | fatal => rw [hs] at h; simp at h
    | undefined => rw [hs] at h; simp at h
    | diverge => rw [hs] at h; simp at h

theorem isPrime_true_ge (n : Int) (h : isPrime n = Res.ok true) : 3 ≤ n := by
  unfold isPrime at h
  split at h
  · simp at h
  · split at h
    · simp at h
    · omega

theorem getTableSizeLoop_ge (n : Int) (f : Nat) :
    ∀ (lower upper m : Int), getTableSizeLoop n f lower upper = Res.ok m → 3 ≤ m := by
  induction f with
  | zero => intro lower upper m h; simp [getTableSizeLoop] at h
  | succ f ih =>
    intro lower upper m h
    unfold getTableSizeLoop at h
    cases hl : isPrime lower with
    | ok pl =>
      rw [hl] at h
      simp only [] at h
      split at h
      · next hc =>
        simp only [Res.ok.injEq] at h
        rw [← h]
        exact isPrime_true_ge lower (by rw [hl, hc.1])
      · cases hu : isPrime upper with
        | ok pu =>
          rw [hu] at h
          simp only [] at h
          split at h
          · next hc =>
            simp only [Res.ok.injEq] at h
            rw [← h]
            exact isPrime_true_ge upper (by rw [hu, hc.1])
          · split at h
            · simp at h
            · exact ih _ _ _ h
        | fatal => rw [hu] at h; simp at h
        | undefined => rw [hu] at h; simp at h
        | diverge => rw [hu] at h; simp at h
    | fatal => rw [hl] at h; simp at h
    | undefined => rw [hl] at h; simp at h
    | diverge => rw [hl] at h; simp at h

theorem getTableSize_ge (fuel : Nat) (n m : Int) (h : getTableSize fuel n = Res.ok m) :
    3 ≤ m := by
  unfold getTableSize at h
  split at h
  · simp only [Res.ok.injEq] at h
    omega
  · split at h
    · simp only [Res.ok.injEq] at h
      omega
    · exact getTableSizeLoop_ge n fuel _ _ m h
    · simp at h
    · simp at h
    · simp at h

/-- A constructed cache with at least one line per set has the geometry
`WF`. -/
theorem wf_initialise (fuel : Nat) (organisation : Organisation)
    (replacementPolicy : ReplacementPolicy) (cacheSize nrOfSet : Int) (write_back : Bool)
    (c0 : Cache)
    (h : initialise fuel organisation replacementPolicy cacheSize nrOfSet write_back = Res.ok c0)
    (hL : 0 < c0.nrOfLinesPerSet) : WF c0 := by
  unfold initialise at h
  cases organisation with
  | DIRECT_MAPPING =>
    simp only [] at h
    cases hg : getTableSize fuel cacheSize with
    | ok n =>
      rw [hg] at h
      simp only [] at h
      have hn := getTableSize_ge fuel cacheSize n hg
      split at h
      · simp at h
      · simp only [Res.ok.injEq] at h
        rw [← h]
        refine ⟨?_, ?_, ?_, ?_, ?_⟩
        · show 0 < n.toNat
          omega
        · show 0 < (1 : Int).toNat
          decide
        · show n.toNat = n.toNat * (1 : Int).toNat
          simp
        · show (List.replicate n.toNat zeroLine).length = n.toNat
          simp
        · intro _
          rfl
    | fatal => rw [hg] at h; simp at h
    | undefined => rw [hg] at h; simp at h
    | diverge => rw [hg] at h; simp at h
  | FULLY_ASSOCIATIVE =>
    simp only [] at h
    split at h
    · simp at h
    · simp only [Res.ok.injEq] at h
      rw [← h] at hL ⊢
      refine ⟨?_, hL, ?_, ?_, ?_⟩
      · show 0 < (1 : Int).toNat
        decide
      · show cacheSize.toNat = (1 : Int).toNat * cacheSize.toNat
        simp
      · show (List.replicate cacheSize.toNat zeroLine).length = cacheSize.toNat
        simp
      · intro hc
        exact Organisation.noConfusion hc
  | SET_ASSOCIATIVE =>
    simp only [] at h
    cases hg : getTableSize fuel nrOfSet with
    | ok n =>
      rw [hg] at h
      simp only [] at h
      have hn := getTableSize_ge fuel nrOfSet n hg
      split at h
      · simp at h
      · simp only [Res.ok.injEq] at h
        rw [← h] at hL ⊢
        have hL2 : 0 < (Int.tdiv cacheSize n).toNat := hL
        refine ⟨?_, hL, ?_, ?_, ?_⟩
        · show 0 < n.toNat
          omega
        · show (n * Int.tdiv cacheSize n).toNat = n.toNat * (Int.tdiv cacheSize n).toNat
          have h1 : (0 : Int) ≤ n := by omega
          have h2 : (0 : Int) ≤ Int.tdiv cacheSize n := by omega
          apply Int.ofNat_inj.1
          rw [Int.toNat_of_nonneg (Int.mul_nonneg h1 h2)]
          push_cast
          rw [Int.toNat_of_nonneg h1, Int.toNat_of_nonneg h2]
        · show (List.replicate (n * Int.tdiv cacheSize n).toNat zeroLine).length = _
          simp
          rfl
        · intro hc
          exact Organisation.noConfusion hc
    | fatal => rw [hg] at h; simp at h
    | undefined => rw [hg] at h; simp at h
    | diverge => rw [hg] at h; simp at h

/-! ## C11: the global write-back is idempotent -/

theorem writeBackLoop_noop (env : Env) (n : Nat) :
    ∀ (i : Nat) (c : Cache) (err : Int),
      (∀ j, i ≤ j → j < i + n → (lineAt c.lines j).flag ≠ Flag.GPU) →
      writeBackLoop env n i c err = (err, c) := by
  induction n with
  | zero => intro i c err _; rfl
  | succ n ih =>
    intro i c err h
    unfold writeBackLoop
    rw [if_neg (h i (le_refl _) (by omega))]
    exact ih (i + 1) c err (fun j h1 h2 => h j (by omega) (by omega))

theorem writeBackLoop_config (env : Env) (n : Nat) :
    ∀ (i : Nat) (c : Cache) (err : Int),
      (writeBackLoop env n i c err).2.write_back = c.write_back ∧
      (writeBackLoop env n i c err).2.nrOfLines = c.nrOfLines := by
  induction n with
  | zero => intro i c err; exact ⟨rfl, rfl⟩
  | succ n ih =>
    intro i c err
    unfold writeBackLoop
    split
    · exact ih (i + 1) (flushLine env c i err).2 (flushLine env c i err).1
    · exact ih (i + 1) c err

/-- C11: for every cache state, a second call of the global `writeBack()`
right after a first one returns `CL_SUCCESS` and leaves the whole cache as the
first call left it: the trace of runtime calls (so it issues none), the line
table, and every statistics counter. -/
theorem writeBack_idempotent (env : Env) (c : Cache) :
    writeBack env (writeBack env c).2 = (CL_SUCCESS, (writeBack env c).2) ∧
      (writeBack env (writeBack env c).2).2.trace = (writeBack env c).2.trace ∧
      (writeBack env (writeBack env c).2).2.lines = (writeBack env c).2.lines ∧
      (writeBack env (writeBack env c).2).2.duration = (writeBack env c).2.duration := by
  have key : writeBack env (writeBack env c).2 = (CL_SUCCESS, (writeBack env c).2) := by
    by_cases hwb : c.write_back = false
    · have h1 : writeBack env c = (CL_SUCCESS, c) := by
        unfold writeBack
        rw [if_pos hwb]
      rw [h1]
      exact h1
    · have h1 : writeBack env c = writeBackLoop env c.nrOfLines 0 c CL_SUCCESS := by
        unfold writeBack
        rw [if_neg hwb]
      obtain ⟨hw, hn⟩ := writeBackLoop_config env c.nrOfLines 0 c CL_SUCCESS
      obtain ⟨_, hflags⟩ := writeBackLoop_spec env c.nrOfLines 0 c CL_SUCCESS
      rw [h1]
      unfold writeBack
      rw [if_neg (by rw [hw]; exact hwb), hn]
      exact writeBackLoop_noop env c.nrOfLines 0 _ CL_SUCCESS (fun j h1 h2 => hflags j h1 h2)
  exact ⟨key, by rw [key], by rw [key], by rw [key]⟩

/-! ## C15: the table size is not always a prime at or above the argument -/

/-- C15, the code at failing inputs: `getTableSize(9)` returns `7` and
`getTableSize(4)` returns `3`, whatever bound at or above two rounds is put on
the `while (true)` loop: the loop tests `lower` before `upper`, so the nearest
odd prime below the argument wins over the one above.  The smallest primes at
or above `9` and `4` are `11` and `5`. -/
theorem getTableSize_below_argument (fuel : Nat) :
    getTableSize (fuel + 2) 9 = Res.ok 7 ∧ getTableSize (fuel + 1) 4 = Res.ok 3 ∧
      isPrime 11 = Res.ok true ∧ isPrime 5 = Res.ok true := by
  refine ⟨?_, ?_, by decide, by decide⟩
  · have h9 : isPrime 9 = Res.ok false := by decide
    have h8 : isPrime 8 = Res.ok false := by decide
    have h10 : isPrime 10 = Res.ok false := by decide
    have h7 : isPrime 7 = Res.ok true := by decide
    have hc : ((2 ^ 64 - 1 : Int) % 9 ≠ 1) := by decide
    unfold getTableSize
    rw [if_neg (by decide), h9]
    simp only []
    show getTableSizeLoop 9 (fuel + 1 + 1) 8 10 = _
    unfold getTableSizeLoop
    rw [h8, h10]
    simp only []
    rw [if_neg (by decide), if_neg (by decide), if_neg (by decide)]
    show getTableSizeLoop 9 (fuel + 1) 7 11 = _
    unfold getTableSizeLoop
    rw [h7]
    simp only []
    rw [if_pos ⟨trivial, hc⟩]
  · have h4 : isPrime 4 = Res.ok false := by decide
    have h3 : isPrime 3 = Res.ok true := by decide
    have hc : ((2 ^ 64 - 1 : Int) % 4 ≠ 1) := by decide
    unfold getTableSize
    rw [if_neg (by decide), h4]
    simp only []
    show getTableSizeLoop 4 (fuel + 1) 3 5 = _
    unfold getTableSizeLoop
    rw [h3]
    simp only []
    rw [if_pos ⟨trivial, hc⟩]

/-! ## C16: geometry of a constructed cache -/

/-- C16: for every construction that completes, the geometry is as follows.
Direct-mapped: the number of sets is `getTableSize(cacheSize)`, there is one
line per set, and the number of lines is the number of sets.  Fully
associative: one set, and both the number of lines and the lines per set are
`cacheSize`.  Set-associative: the number of sets is `getTableSize` of the
requested number of sets and the lines per set are the `int` quotient
`cacheSize / nrOfSets`, which is the floor of the quotient for a cache size
that is not negative.  In all three the number of lines is the number of sets
times the lines per set, and the table has that many lines, all zero. -/
theorem initialise_geometry (fuel : Nat) (organisation : Organisation)
    (replacementPolicy : ReplacementPolicy) (cacheSize nrOfSet : Int) (write_back : Bool)
    (c0 : Cache)
    (h : initialise fuel organisation replacementPolicy cacheSize nrOfSet write_back = Res.ok c0) :
    (organisation = Organisation.DIRECT_MAPPING →
      getTableSize fuel cacheSize = Res.ok (c0.nrOfSets : Int) ∧
      c0.nrOfLinesPerSet = 1 ∧ c0.nrOfLines = c0.nrOfSets) ∧
    (organisation = Organisation.FULLY_ASSOCIATIVE →
      c0.nrOfSets = 1 ∧ (c0.nrOfLines : Int) = cacheSize ∧
      (c0.nrOfLinesPerSet : Int) = cacheSize) ∧
    (organisation = Organisation.SET_ASSOCIATIVE →
      getTableSize fuel nrOfSet = Res.ok (c0.nrOfSets : Int) ∧
      (c0.nrOfLinesPerSet : Int) = Int.tdiv cacheSize c0.nrOfSets ∧
      (0 ≤ cacheSize → (c0.nrOfLinesPerSet : Int) = cacheSize / (c0.nrOfSets : Int))) ∧
    c0.nrOfLines = c0.nrOfSets * c0.nrOfLinesPerSet ∧
    c0.lines = List.replicate c0.nrOfLines zeroLine ∧
    c0.organisation = organisation := by
  unfold initialise at h
  cases organisation with
  | DIRECT_MAPPING =>
    simp only [] at h
    cases hg : getTableSize fuel cacheSize with
    | ok n =>
      rw [hg] at h
      simp only [] at h
      have hn := getTableSize_ge fuel cacheSize n hg
      split at h
      · simp at h
      · simp only [Res.ok.injEq] at h
        rw [← h]
        have hcast : ((n.toNat : Nat) : Int) = n := Int.toNat_of_nonneg (by omega)
        refine ⟨fun _ => ⟨?_, rfl, rfl⟩, fun hc => Organisation.noConfusion hc,
          fun hc => Organisation.noConfusion hc, ?_, rfl, rfl⟩
        · show Res.ok n = Res.ok ((n.toNat : Nat) : Int)
          rw [hcast]
        · show n.toNat = n.toNat * (1 : Int).toNat
          simp
    | fatal => rw [hg] at h; simp at h
    | undefined => rw [hg] at h; simp at h
    | diverge => rw [hg] at h; simp at h
  | FULLY_ASSOCIATIVE =>
    simp only [] at h
    split at h
    · simp at h
    · next hneg =>
      simp only [Res.ok.injEq] at h
      rw [← h]
      have hcast : ((cacheSize.toNat : Nat) : Int) = cacheSize :=
        Int.toNat_of_nonneg (by omega)
      refine ⟨fun hc => Organisation.noConfusion hc, fun _ => ⟨rfl, hcast, hcast⟩,
        fun hc => Organisation.noConfusion hc, ?_, rfl, rfl⟩
      show cacheSize.toNat = (1 : Int).toNat * cacheSize.toNat
      simp
  | SET_ASSOCIATIVE =>
    simp only [] at h
    cases hg : getTableSize fuel nrOfSet with
    | ok n =>
      rw [hg] at h
      simp only [] at h
      have hn := getTableSize_ge fuel nrOfSet n hg
      split at h
      · simp at h
      · next hneg =>
        simp only [Res.ok.injEq] at h
        rw [← h]
        have hn0 : (0 : Int) ≤ n := by omega
        have hcast : ((n.toNat : Nat) : Int) = n := Int.toNat_of_nonneg hn0
        have hq : (0 : Int) ≤ Int.tdiv cacheSize n := by
          by_contra hc
          have h1 : Int.tdiv cacheSize n ≤ -1 := by omega
          have h2 : n * Int.tdiv cacheSize n ≤ n * (-1) := Int.mul_le_mul_of_nonneg_left h1 hn0
          omega
        have hqc : (((Int.tdiv cacheSize n).toNat : Nat) : Int) = Int.tdiv cacheSize n :=
          Int.toNat_of_nonneg hq
        refine ⟨fun hc => Organisation.noConfusion hc, fun hc => Organisation.noConfusion hc,
          fun _ => ⟨?_, ?_, ?_⟩, ?_, rfl, rfl⟩
        · show Res.ok n = Res.ok ((n.toNat : Nat) : Int)
          rw [hcast]
        · show (((Int.tdiv cacheSize n).toNat : Nat) : Int) = Int.tdiv cacheSize ((n.toNat : Nat) : Int)
          rw [hcast, hqc]
        · intro hcs
          show (((Int.tdiv cacheSize n).toNat : Nat) : Int) = cacheSize / ((n.toNat : Nat) : Int)
          rw [hcast, hqc]
          exact Int.tdiv_eq_ediv hcs hn0
        · show (n * Int.tdiv cacheSize n).toNat = n.toNat * (Int.tdiv cacheSize n).toNat
          apply Int.ofNat_inj.1
          rw [Int.toNat_of_nonneg (Int.mul_nonneg hn0 hq)]
          push_cast
          rw [hcast, hqc]
    | fatal => rw [hg] at h; simp at h
    | undefined => rw [hg] at h; simp at h
    | diverge => rw [hg] at h; simp at h

/-- C16, witness: a set-associative construction with cache size 6 and 3
requested sets gives 3 sets of 2 lines. -/
theorem initialise_geometry_witness :
    initialise 0 Organisation.SET_ASSOCIATIVE ReplacementPolicy.FIFO 6 3 true =
        Res.ok (freshCache Organisation.SET_ASSOCIATIVE ReplacementPolicy.FIFO 3 6 2 true) ∧
      (freshCache Organisation.SET_ASSOCIATIVE ReplacementPolicy.FIFO 3 6 2 true).nrOfLines =
        (freshCache Organisation.SET_ASSOCIATIVE ReplacementPolicy.FIFO 3 6 2 true).nrOfSets *
        (freshCache Organisation.SET_ASSOCIATIVE ReplacementPolicy.FIFO 3 6 2 true).nrOfLinesPerSet :=
  ⟨by decide,
    (initialise_geometry 0 Organisation.SET_ASSOCIATIVE ReplacementPolicy.FIFO 6 3 true _
      (by decide)).2.2.2.1⟩

/-! ## C17: starvation -/

theorem getRandomIndexLoop_all_locked (env : Env) (L setIndex : Nat) (locked : List Nat)
    (hall : ∀ j, setIndex * L ≤ j → j < setIndex * L + L → j ∈ locked) (hL : 0 < L) (m : Nat) :
    ∀ rc, (getRandomIndexLoop env L setIndex locked (m + 1) rc).2 = (rc + (m + 1), 0) := by
  induction m with
  | zero =>
    intro rc
    unfold getRandomIndexLoop
    have := Nat.mod_lt (env.rand rc) hL
    rw [if_pos (hall _ (by omega) (by omega))]
    simp
  | succ m ih =>
    intro rc
    unfold getRandomIndexLoop
    have := Nat.mod_lt (env.rand rc) hL
    rw [if_pos (hall _ (by omega) (by omega)), if_pos (Nat.succ_pos m), ih (rc + 1)]
    simp
    omega

theorem fifoLoop_all_locked (L setIndex : Nat) (locked : List Nat)
    (hall : ∀ j, setIndex * L ≤ j → j < setIndex * L + L → j ∈ locked) (hL : 0 < L) (m : Nat) :
    ∀ cur, (fifoLoop L setIndex locked (m + 1) cur).2.2 = 0 := by
  induction m with
  | zero =>
    intro cur
    unfold fifoLoop
    have := Nat.mod_lt (add32 cur 1) hL
    rw [if_pos (hall _ (by omega) (by omega))]
    simp
  | succ m ih =>
    intro cur
    unfold fifoLoop
    have := Nat.mod_lt (add32 cur 1) hL
    rw [if_pos (hall _ (by omega) (by omega)), if_pos (Nat.succ_pos m)]
    exact ih _

theorem getOldestIndexLoop_all_locked (locked : List Nat) (increaseAge : Bool) (n : Nat) :
    ∀ (idx : Nat) (lines : List CacheLine) (oi oa : Int),
      (∀ j, idx ≤ j → j < idx + n → j ∈ locked) →
      (getOldestIndexLoop locked increaseAge n idx lines oi oa).1 = oi := by
  induction n with
  | zero => intro idx lines oi oa _; rfl
  | succ n ih =>
    intro idx lines oi oa h
    unfold getOldestIndexLoop
    have hrest : ∀ j, idx + 1 ≤ j → j < idx + 1 + n → j ∈ locked :=
      fun j h1 h2 => h j (by omega) (by omega)
    split
    · rw [if_pos (h idx (le_refl _) (by omega))]
      exact ih _ _ _ _ hrest
    · exact ih _ _ _ _ hrest

theorem getSmallestDataLineLoop_all_locked (locked : List Nat) (lines : List CacheLine) (n : Nat) :
    ∀ (idx : Nat) (si ss : Int),
      (∀ j, idx ≤ j → j < idx + n → j ∈ locked) →
      getSmallestDataLineLoop locked lines n idx si ss = si := by
  induction n with
  | zero => intro idx si ss _; rfl
  | succ n ih =>
    intro idx si ss h
    unfold getSmallestDataLineLoop
    have hrest : ∀ j, idx + 1 ≤ j → j < idx + 1 + n → j ∈ locked :=
      fun j h1 h2 => h j (by omega) (by omega)
    split
    · rw [if_pos (h idx (le_refl _) (by omega))]
      exact ih _ _ _ hrest
    · exact ih _ _ _ hrest

theorem getRandomIndex_all_locked (env : Env) (c : Cache) (setIndex : Nat)
    (hL : 0 < c.nrOfLinesPerSet)
    (hall : ∀ j, setIndex * c.nrOfLinesPerSet ≤ j →
      j < setIndex * c.nrOfLinesPerSet + c.nrOfLinesPerSet → j ∈ c.lockedLines) :
    getRandomIndex env c setIndex = Res.fatal := by
  unfold getRandomIndex
  rw [if_neg (by omega)]
  simp only []
  rw [getRandomIndexLoop_all_locked env _ _ _ hall hL 999]
  simp

/-- C17: for every cache that is not direct-mapped and has at least one line
per set, every replacement policy and every sequence of random draws: if every
line of the set of the tag is in the lock set, the victim selection, and with
it the insertion that needs a victim, does not return but ends in the fatal
`exit(1)`; the random selection has then made exactly 1000 draws, and the FIFO
loop has counted its `maxIter` of 1000 down to 0. -/
theorem addToCache_starvation (env : Env) (c : Cache) (tag size deviceAddress : Nat)
    (flag : Flag)
    (horg : c.organisation ≠ Organisation.DIRECT_MAPPING) (hL : 0 < c.nrOfLinesPerSet)
    (hall : ∀ j, getSetIndex c tag * c.nrOfLinesPerSet ≤ j →
      j < getSetIndex c tag * c.nrOfLinesPerSet + c.nrOfLinesPerSet → j ∈ c.lockedLines) :
    chooseVictim env c tag = Res.fatal ∧
      addToCache env c tag size deviceAddress flag (-1) = Res.fatal ∧
      (getRandomIndexLoop env c.nrOfLinesPerSet (getSetIndex c tag) c.lockedLines 1000
        c.randCalls).2 = (c.randCalls + 1000, 0) ∧
      (fifoLoop c.nrOfLinesPerSet (getSetIndex c tag) c.lockedLines 1000
        (c.FIFO_index.getD (getSetIndex c tag) 0)).2.2 = 0 := by
  have hv : chooseVictim env c tag = Res.fatal := by
    unfold chooseVictim
    simp only []
    rw [if_pos horg]
    cases hrp : c.replacementPolicy with
    | LRU =>
      simp only []
      unfold getOldestIndex
      simp only []
      rw [getOldestIndexLoop_all_locked c.lockedLines false c.nrOfLinesPerSet _ _ _ _ hall,
        if_pos rfl]
      exact getRandomIndex_all_locked env _ _ hL hall
    | FIFO =>
      simp only []
      unfold fifoIndex
      rw [if_neg (by omega)]
      simp only []
      rw [fifoLoop_all_locked _ _ _ hall hL 999, if_pos rfl]
    | RANDOM =>
      simp only []
      exact getRandomIndex_all_locked env c _ hL hall
    | SMALLEST =>
      simp only []
      unfold getSmallestDataLine
      simp only []
      rw [getSmallestDataLineLoop_all_locked c.lockedLines c.lines c.nrOfLinesPerSet _ _ _ hall,
        if_pos rfl]
      exact getRandomIndex_all_locked env c _ hL hall
  refine ⟨hv, ?_, getRandomIndexLoop_all_locked env _ _ _ hall hL 999 _,
    fifoLoop_all_locked _ _ _ hall hL 999 _⟩
  unfold addToCache
  rw [if_pos rfl, hv]

/-- C17, witness: the starvation scenario of the spec under LRU.  Both lines
of the fully associative cache are locked, and the insertion of the host
pointer `0x500` ends in the fatal `exit(1)`. -/
theorem addToCache_starvation_witness :
    (exCacheG ReplacementPolicy.LRU).lockedLines = [0, 1] ∧
      addToCache exEnv (exCacheG ReplacementPolicy.LRU) 0x500 4 9 Flag.BOTH (-1) = Res.fatal := by
  have hall : ∀ j, getSetIndex (exCacheG ReplacementPolicy.LRU) 0x500 *
      (exCacheG ReplacementPolicy.LRU).nrOfLinesPerSet ≤ j →
      j < getSetIndex (exCacheG ReplacementPolicy.LRU) 0x500 *
        (exCacheG ReplacementPolicy.LRU).nrOfLinesPerSet +
        (exCacheG ReplacementPolicy.LRU).nrOfLinesPerSet →
      j ∈ (exCacheG ReplacementPolicy.LRU).lockedLines := by
    intro j _ h2
    have h3 : j < 2 := h2
    show j ∈ [0, 1]
    interval_cases j <;> simp
  exact ⟨rfl, (addToCache_starvation exEnv (exCacheG ReplacementPolicy.LRU) 0x500 4 9 Flag.BOTH
    (by decide) (by decide) hall).2.1⟩

/-! ## C18: the direct-mapped fallback -/

theorem directLoop_lt (env : Env) (nrOfLines : Nat) (locked : List Nat) (hn : 0 < nrOfLines)
    (f : Nat) :
    ∀ rc r, directLoop env nrOfLines locked f rc = Res.ok r → r.1 < nrOfLines := by
  induction f with
  | zero => intro rc r h; simp [directLoop] at h
  | succ f ih =>
    intro rc r h
    unfold directLoop at h
    by_cases hl : env.rand rc % nrOfLines ∈ locked
    · simp only [hl, if_true] at h
      exact ih _ _ h
    · simp only [hl, if_false, Res.ok.injEq] at h
      rw [← h]
      exact Nat.mod_lt _ hn

theorem directLoop_returns (env : Env) (nrOfLines : Nat) (locked : List Nat) (k : Nat) :
    ∀ rc f, env.rand (rc + k) % nrOfLines ∉ locked → k < f →
      ∃ r, directLoop env nrOfLines locked f rc = Res.ok r := by
  induction k with
  | zero =>
    intro rc f h hf
    obtain ⟨f, rfl⟩ : ∃ g, f = g + 1 := ⟨f - 1, by omega⟩
    have h0 : env.rand rc % nrOfLines ∉ locked := h
    unfold directLoop
    simp only [h0, if_false]
    exact ⟨_, rfl⟩
  | succ k ih =>
    intro rc f h hf
    obtain ⟨f, rfl⟩ : ∃ g, f = g + 1 := ⟨f - 1, by omega⟩
    unfold directLoop
    by_cases hl : env.rand rc % nrOfLines ∈ locked
    · simp only [hl, if_true]
      exact ih (rc + 1) f (by rw [show rc + 1 + k = rc + (k + 1) by omega]; exact h) (by omega)
    · simp only [hl, if_false]
      exact ⟨_, rfl⟩

/-- C18: for every state of a direct-mapped cache in which the sole candidate
line of the tag is in the lock set: whenever the victim selection returns, the
index it chose lies in `[0, nrOfLines)` and is not in the lock set, and the
insertion overwrites that index; and the selection does return as soon as one
of the coming random draws hits a line outside the lock set and the bound put
on the unbounded loop of the source is above the number of draws needed. -/
theorem chooseVictim_direct_fallback (env : Env) (c : Cache) (tag : Nat)
    (horg : c.organisation = Organisation.DIRECT_MAPPING)
    (hlocked : getSetIndex c tag ∈ c.lockedLines) :
    (∀ r, chooseVictim env c tag = Res.ok r → r.1 < c.nrOfLines ∧ r.1 ∉ c.lockedLines) ∧
    (∀ size deviceAddress flag a,
      addToCache env c tag size deviceAddress flag (-1) = Res.ok a →
      ∃ idx, idx < c.nrOfLines ∧ idx ∉ c.lockedLines ∧
        a.2.lockedLines = c.lockedLines ++ [idx] ∧ a.2.lines = setLine c.lines idx a.1) ∧
    (∀ k, 0 < c.nrOfLines → env.rand (c.randCalls + k) % c.nrOfLines ∉ c.lockedLines →
      k < env.fuel → ∃ r, chooseVictim env c tag = Res.ok r) := by
  have hsel : ∀ r, chooseVictim env c tag = Res.ok r →
      r.1 < c.nrOfLines ∧ r.1 ∉ c.lockedLines := by
    intro r h
    refine ⟨?_, (chooseVictim_ok env c tag r h).1⟩
    unfold chooseVictim at h
    simp only [] at h
    rw [if_neg (by rw [horg]; simp), if_pos hlocked] at h
    split at h
    · simp at h
    · next hn =>
      cases hd : directLoop env c.nrOfLines c.lockedLines env.fuel c.randCalls with
      | ok x =>
        rw [hd] at h
        simp only [Res.ok.injEq] at h
        rw [← h]
        exact directLoop_lt env _ _ (by omega) _ _ _ hd
      | fatal => rw [hd] at h; simp at h
      | undefined => rw [hd] at h; simp at h
      | diverge => rw [hd] at h; simp at h
  refine ⟨hsel, ?_, ?_⟩
  · intro size deviceAddress flag a h
    obtain ⟨idx, v, hv, ha⟩ := addToCache_choose env c tag size deviceAddress flag a h
    obtain ⟨h1, h2⟩ := hsel (idx, v) hv
    obtain ⟨_, hvx, _⟩ := chooseVictim_ok env c tag (idx, v) hv
    have hvx2 : v = { c with randCalls := v.randCalls, FIFO_index := v.FIFO_index } := hvx
    have hvl : v.lines = c.lines := by rw [hvx2]
    have hvk : v.lockedLines = c.lockedLines := by rw [hvx2]
    refine ⟨idx, h1, h2, ?_, ?_⟩
    · rw [ha, overwriteLine_frame, hvk]
    · rw [ha, overwriteLine_lines, overwriteLine_fst, hvl]
  · intro k hn hk hf
    obtain ⟨r, hr⟩ := directLoop_returns env c.nrOfLines c.lockedLines k c.randCalls env.fuel hk hf
    unfold chooseVictim
    simp only []
    rw [if_neg (by rw [horg]; simp), if_pos hlocked, if_neg (by omega), hr]
    exact ⟨_, rfl⟩

/-- C18, witness: in the example state the candidate line 0 of the host
pointer `6` is locked; the selection returns line 1, which is in the table and
not locked. -/
theorem chooseVictim_direct_fallback_witness :
    exCacheH.organisation = Organisation.DIRECT_MAPPING ∧
      getSetIndex exCacheH 6 ∈ exCacheH.lockedLines ∧
      chooseVictim exEnv exCacheH 6 = Res.ok (1, { exCacheH with randCalls := 1 }) ∧
      (1 < exCacheH.nrOfLines ∧ 1 ∉ exCacheH.lockedLines) :=
  ⟨by decide, by decide, by decide,
    (chooseVictim_direct_fallback exEnv exCacheH 6 (by decide) (by decide)).1
      (1, { exCacheH with randCalls := 1 }) (by decide)⟩

/-! ## C20: scenario "hit on repeated write" -/

/-- The state a write-buffer hit leaves: the looked-up cache with the hit
counted and the line locked, after the release of the caller's handle when it
is non-null and differs from the cached one. -/
theorem enqueueWriteBuffer_hit_state (env : Env) (c : Cache)
    (command_queue buffer blocking_write offset cb ptr num_events event_wait_list i : Nat)
    (hfind : (getCacheLine c ptr).1 = some i) (hflag : (lineAt c.lines i).flag ≠ Flag.CPU) :
    ∃ c1, enqueueWriteBuffer env c command_queue buffer blocking_write offset cb ptr num_events
        event_wait_list = Res.ok ((CL_SUCCESS,
          if (lineAt c.lines i).deviceAddress ≠ buffer ∧ buffer ≠ 0
          then (lineAt c.lines i).deviceAddress else buffer), c1) ∧
      c1.duration = (countHit (countH2D c cb) cb).duration ∧
      c1.trace = c.trace ++ (if (lineAt c.lines i).deviceAddress ≠ buffer ∧ buffer ≠ 0
        then [RtCall.clReleaseMemObject buffer] else []) ∧
      AgeOnly c.lines c1.lines ∧ c1.nrOfSets = c.nrOfSets ∧
      c1.nrOfLinesPerSet = c.nrOfLinesPerSet ∧ c1.replacementPolicy = c.replacementPolicy := by
  have hcg := getCacheLine_congr c (setQueue (countH2D c cb) command_queue) ptr rfl rfl rfl rfl
  have hl := getCacheLine_lineAt c ptr i
  have hA : AgeOnly c.lines (getCacheLine (setQueue (countH2D c cb) command_queue) ptr).2.lines := by
    rw [hcg.2]; exact getCacheLine_ageOnly c ptr
  unfold enqueueWriteBuffer
  simp only []
  rw [hcg.1, hfind]
  simp only []
  rw [hcg.2, hl.1, hl.2.2.2, if_neg hflag]
  by_cases hrel : (lineAt c.lines i).deviceAddress ≠ buffer ∧ buffer ≠ 0
  · rw [if_pos hrel, if_pos hrel, if_pos hrel]
    refine ⟨_, rfl, ?_, ?_, hA, ?_, ?_, ?_⟩ <;>
      simp [lockLine, releaseMemObject, countHit, countH2D, setQueue]
  · rw [if_neg hrel, if_neg hrel, if_neg hrel]
    refine ⟨_, rfl, ?_, ?_, hA, ?_, ?_, ?_⟩ <;>
      simp [lockLine, countHit, countH2D, setQueue]
theorem createBuffer_exFresh4 (env : Env) (context flags : Nat) (errcode : Int)
    (hcopy : flags &&& CL_MEM_COPY_HOST_PTR ≠ 0) :
    ∃ c1, createBuffer env exFresh4 context flags 64 0x100 errcode =
        Res.ok ((env.mem 0, env.status 0), c1) ∧
      (getCacheLine c1 0x100).1 = some 0 ∧ (lineAt c1.lines 0).flag = Flag.BOTH ∧
      c1.duration.cacheMiss = 1 ∧ c1.duration.cacheHit = 0 ∧
      c1.duration.bytesh2d_total = 64 ∧ c1.duration.bytesh2d_saved = 0 ∧
      c1.trace = [RtCall.clCreateBuffer context flags 64 0x100] ∧
      c1.nrOfSets = 1 ∧ c1.nrOfLinesPerSet = 4 ∧
      c1.replacementPolicy = ReplacementPolicy.LRU := by
  have hl0 : getCacheLine (countH2D exFresh4 64) 0x100 =
      (none, { countH2D exFresh4 64 with
        lines := List.replicate 4 { zeroLine with age := 1 } }) := by decide
  unfold createBuffer
  rw [if_pos hcopy]
  simp only [hl0]
  simp [addToCache, chooseVictim, getSetIndex, getOldestIndex, getOldestIndexLoop,
    overwriteLine, Res.map, issueCreate, countMiss, countH2D, exFresh4, freshCache, lineAt,
    zeroLine, setLine, setFlag, add32, add64, getCacheLine, getCacheLineLoop, bumpAge, clearAge]
/-- C20 (as the code has it): on a fresh fully associative, 4-line, LRU,
write-through cache (which is what `initialise` builds for these arguments),
the sequence create-buffer(hp = 0x100, size = 64, copy-host-pointer),
write-buffer(hp = 0x100, size = 64), write-buffer(hp = 0x100, size = 64)
returns, whatever the runtime answers, and ends with 1 miss, 2 hits,
`bytesh2d_total = 192`, `bytesh2d_saved = 128`; the runtime trace holds the one
`clCreateBuffer` of the miss and no `clEnqueueWriteBuffer` at all (both writes
are hits), every other call being a `clReleaseMemObject`. -/
theorem scenario_repeated_write (env : Env) (fuel : Nat) (nrOfSet : Int)
    (context flags : Nat) (errcode : Int)
    (q1 b1 bl1 off1 ne1 wl1 q2 b2 bl2 off2 ne2 wl2 : Nat)
    (hcopy : flags &&& CL_MEM_COPY_HOST_PTR ≠ 0) :
    initialise fuel Organisation.FULLY_ASSOCIATIVE ReplacementPolicy.LRU 4 nrOfSet false =
        Res.ok exFresh4 ∧
      ∃ r, run env [Op.createBuffer context flags 64 0x100 errcode,
            Op.enqueueWriteBuffer q1 b1 bl1 off1 64 0x100 ne1 wl1,
            Op.enqueueWriteBuffer q2 b2 bl2 off2 64 0x100 ne2 wl2] exFresh4 = Res.ok r ∧
        r.2.duration.cacheMiss = 1 ∧ r.2.duration.cacheHit = 2 ∧
        r.2.duration.bytesh2d_total = 192 ∧ r.2.duration.bytesh2d_saved = 128 ∧
        r.2.trace.filter RtCall.isWrite = [] ∧
        r.2.trace.filter RtCall.isCreate = [RtCall.clCreateBuffer context flags 64 0x100] ∧
        r.2.trace.filter (fun x => !x.isRelease) =
          [RtCall.clCreateBuffer context flags 64 0x100] := by
  refine ⟨by simp [initialise, exFresh4], ?_⟩
  obtain ⟨c1, h1, hf1, hg1, hm1, hh1, ht1, hs1, htr1, hn1, hp1, hr1⟩ :=
    createBuffer_exFresh4 env context flags errcode hcopy
  obtain ⟨c2, h2, hd2, htr2, hA2, hn2, hp2, hr2⟩ :=
    enqueueWriteBuffer_hit_state env c1 q1 b1 bl1 off1 64 0x100 ne1 wl1 0 hf1
      (by rw [hg1]; exact Flag.noConfusion)
  have hf2 : (getCacheLine c2 0x100).1 = some 0 := by
    rw [getCacheLine_fst_congr c1 c2 0x100 (fun j => (hA2.2 j).2.2.1.symm) hn2 hp2 hr2]
    exact hf1
  have hg2 : (lineAt c2.lines 0).flag = Flag.BOTH := by
    rw [← (hA2.2 0).1]; exact hg1
  obtain ⟨c3, h3, hd3, htr3, hA3, hn3, hp3, hr3⟩ :=
    enqueueWriteBuffer_hit_state env c2 q2 b2 bl2 off2 64 0x100 ne2 wl2 0 hf2
      (by rw [hg2]; exact Flag.noConfusion)
  have hrun : ∃ outs, run env [Op.createBuffer context flags 64 0x100 errcode,
      Op.enqueueWriteBuffer q1 b1 bl1 off1 64 0x100 ne1 wl1,
      Op.enqueueWriteBuffer q2 b2 bl2 off2 64 0x100 ne2 wl2] exFresh4 = Res.ok (outs, c3) := by
    simp only [run, step, h1, h2, h3]
    exact ⟨_, rfl⟩
  obtain ⟨outs, hrun⟩ := hrun
  refine ⟨(outs, c3), hrun, ?_⟩
  · simp only [hd3, hd2, countHit, countH2D, hm1, hh1, ht1, hs1, htr3, htr2, htr1]
    refine ⟨trivial, by decide, by decide, by decide, ?_, ?_, ?_⟩ <;>
      (split_ifs <;> simp [RtCall.isWrite, RtCall.isCreate, RtCall.isRelease])

/-- C20, witness: the scenario with the flag `CL_MEM_COPY_HOST_PTR` alone and
the example runtime. -/
theorem scenario_repeated_write_witness :
    (32 &&& CL_MEM_COPY_HOST_PTR ≠ 0) ∧
      initialise 0 Organisation.FULLY_ASSOCIATIVE ReplacementPolicy.LRU 4 1 false =
        Res.ok exFresh4 ∧
      ∃ r, run exEnv [Op.createBuffer 1 32 64 0x100 0,
            Op.enqueueWriteBuffer 1 0 1 0 64 0x100 0 0,
            Op.enqueueWriteBuffer 1 0 1 0 64 0x100 0 0] exFresh4 = Res.ok r ∧
        r.2.duration.cacheMiss = 1 ∧ r.2.duration.cacheHit = 2 ∧
        r.2.duration.bytesh2d_total = 192 ∧ r.2.duration.bytesh2d_saved = 128 ∧
        r.2.trace.filter RtCall.isWrite = [] ∧
        r.2.trace.filter RtCall.isCreate = [RtCall.clCreateBuffer 1 32 64 0x100] ∧
        r.2.trace.filter (fun x => !x.isRelease) = [RtCall.clCreateBuffer 1 32 64 0x100] :=
  ⟨by decide, scenario_repeated_write exEnv 0 1 1 32 0 1 0 1 0 0 0 1 0 1 0 0 0 (by decide)⟩

/-- C20, counterexample: with the example runtime the scenario ends with the
runtime trace `[clCreateBuffer]`: the number of `clEnqueueWriteBuffer` calls in
it is 0, not 1. -/
theorem scenario_repeated_write_no_enqueue_write :
    (run exEnv [Op.createBuffer 1 32 64 0x100 0,
        Op.enqueueWriteBuffer 1 0 1 0 64 0x100 0 0,
        Op.enqueueWriteBuffer 1 0 1 0 64 0x100 0 0] exFresh4).map
      (fun r => (r.2.trace, (r.2.trace.filter RtCall.isWrite).length)) =
      Res.ok ([RtCall.clCreateBuffer 1 32 64 0x100], 0) ∧
    (0 : Nat) ≠ 1 := by
  refine ⟨by decide, by decide⟩

/-! ## C12: the saved-bytes statistic -/

/-- C12: on a fresh fully associative write-back cache of one line, the calls
write-buffer(hp = 3, 64 bytes), set-kernel-arg, kernel launch, `writeBack()`
all return with status 0 and end with `bytesSaved = 2^64 - 64` and
`bytesTotal = 64`: the write-back of the line the kernel flagged `GPU` takes
its size off `bytesSaved`, which no call had credited, and the unsigned counter
wraps.  So `bytesSaved ≤ bytesTotal` fails. -/
theorem writeBack_bytesSaved_wraps :
    initialise 0 Organisation.FULLY_ASSOCIATIVE ReplacementPolicy.LRU 1 1 true =
        Res.ok (freshCache Organisation.FULLY_ASSOCIATIVE ReplacementPolicy.LRU 1 1 1 true) ∧
      (run exEnv exOpsSaved
          (freshCache Organisation.FULLY_ASSOCIATIVE ReplacementPolicy.LRU 1 1 1 true)).map
        (fun r => (r.1, r.2.duration.bytesSaved, r.2.duration.bytesTotal)) =
        Res.ok ([(0, 7), (0, 0), (0, 0), (0, 0)], 2 ^ 64 - 64, 64) ∧
      ¬ ((2 : Nat) ^ 64 - 64 ≤ 64) := by
  refine ⟨by decide, by decide, by decide⟩

/-! ## The handles of the line table and the released handles -/

theorem releases_append (t1 t2 : List RtCall) : releases (t1 ++ t2) = releases t1 ++ releases t2 := by
  unfold releases
  exact List.filterMap_append _ _ _

theorem Kept.keptRefl (l : CacheLine) : Kept l l := ⟨rfl, rfl, fun h _ => h⟩

theorem Kept.keptTrans {l l1 l2 : CacheLine} (h1 : Kept l l1) (h2 : Kept l1 l2) : Kept l l2 := by
  obtain ⟨a1, a2, a3⟩ := h1
  obtain ⟨b1, b2, b3⟩ := h2
  refine ⟨b1.trans a1, b2.trans a2, fun hf ht => ?_⟩
  exact b3 (a3 hf ht) (a1.trans ht)

theorem Frame.of_eq {c c1 : Cache} (rel : List Nat) (h1 : c1.lines = c.lines)
    (h2 : releases c1.trace = releases c.trace ++ rel) : Frame c c1 rel :=
  ⟨fun j => by rw [h1]; exact Kept.keptRefl _, by rw [h1], h2⟩

theorem Frame.same {c c1 : Cache} (h1 : c1.lines = c.lines) (h2 : c1.trace = c.trace) :
    Frame c c1 [] :=
  Frame.of_eq [] h1 (by rw [h2, List.append_nil])

theorem Frame.frameTrans {c c1 c2 : Cache} {r1 r2 : List Nat} (h1 : Frame c c1 r1)
    (h2 : Frame c1 c2 r2) : Frame c c2 (r1 ++ r2) := by
  obtain ⟨a1, a2, a3⟩ := h1
  obtain ⟨b1, b2, b3⟩ := h2
  exact ⟨fun j => (a1 j).keptTrans (b1 j), b2.trans a2, by rw [b3, a3, List.append_assoc]⟩

theorem Frame.frameTrans0 {c c1 c2 : Cache} {r : List Nat} (h1 : Frame c c1 [])
    (h2 : Frame c1 c2 r) : Frame c c2 r := by
  have := h1.frameTrans h2
  simpa using this

theorem Frame.frameTrans1 {c c1 c2 : Cache} {r : List Nat} (h1 : Frame c c1 r)
    (h2 : Frame c1 c2 []) : Frame c c2 r := by
  have := h1.frameTrans h2
  simpa using this

theorem Frame.then_inserted {c x y : Cache} {idx b : Nat} (h1 : Frame c x [])
    (h2 : Inserted x y idx b) : Inserted c y idx b := by
  obtain ⟨a1, a2, a3⟩ := h1
  obtain ⟨b1, b2, b3⟩ := h2
  have hd : (lineAt x.lines idx).deviceAddress = (lineAt c.lines idx).deviceAddress := (a1 idx).2.1
  refine ⟨fun j => ?_, b2.trans a2, ?_⟩
  · have := b1 j
    rw [a2] at this
    split
    · next hc => rw [if_pos hc] at this; exact this
    · next hc => rw [if_neg hc] at this; exact (a1 j).keptTrans this
  · rw [b3, a3, List.append_nil, hd]

theorem Inserted.then_frame {c y z : Cache} {idx b : Nat} (h1 : Inserted c y idx b)
    (h2 : Frame y z []) : Inserted c z idx b := by
  obtain ⟨a1, a2, a3⟩ := h1
  obtain ⟨b1, b2, b3⟩ := h2
  refine ⟨fun j => ?_, b2.trans a2, by rw [b3, a3, List.append_nil]⟩
  have := a1 j
  split
  · next hc => rw [if_pos hc] at this; rw [(b1 j).2.1]; exact this
  · next hc => rw [if_neg hc] at this; exact this.keptTrans (b1 j)

theorem frame_getCacheLine (c : Cache) (tag : Nat) : Frame c (getCacheLine c tag).2 [] := by
  refine ⟨fun j => ?_, getCacheLine_length c tag, by rw [getCacheLine_trace, List.append_nil]⟩
  obtain ⟨a1, _, a3, a4⟩ := getCacheLine_lineAt c tag j
  exact ⟨a3, a4, fun h _ => by rw [a1]; exact h⟩

theorem frame_setDirtyFlag (c : Cache) (ptr : Nat) (flag : Flag) :
    Frame c (setDirtyFlag c ptr flag) [] := by
  have hfr := setDirtyFlag_frame c ptr flag
  refine ⟨fun j => ?_, setDirtyFlag_length c ptr flag, by rw [hfr, List.append_nil]⟩
  obtain ⟨d1, _, d3, _, d5⟩ := setDirtyFlag_lines c ptr flag j
  refine ⟨d1, d3, fun hf ht => ?_⟩
  by_cases h : (getCacheLine c ptr).1 = some j
  · obtain ⟨hp0, _, _, htag⟩ := getCacheLine_some c ptr j h
    rw [ht] at htag
    exact absurd htag.symm hp0
  · rw [d5 h]; exact hf

theorem frame_markArguments (args : List Nat) :
    ∀ c : Cache, Frame c (markArguments c args) [] := by
  induction args with
  | nil => intro c; exact Frame.same rfl rfl
  | cons a rest ih =>
    intro c
    exact (frame_setDirtyFlag c a Flag.GPU).frameTrans0 (ih _)

theorem frame_flushLine (env : Env) (c : Cache) (i : Nat) (err : Int)
    (hg : (lineAt c.lines i).flag = Flag.GPU) : Frame c (flushLine env c i err).2 [] := by
  refine ⟨fun j => ?_, ?_, ?_⟩
  · rw [flushLine_lines, lineAt_setFlag]
    split
    · next h =>
      obtain ⟨rfl, _⟩ := h
      refine ⟨rfl, rfl, fun hf _ => ?_⟩
      rw [hg] at hf
      exact Flag.noConfusion hf
    · exact Kept.keptRefl _
  · rw [flushLine_lines, length_setFlag]
  · unfold flushLine
    simp [releases_append, releases, RtCall.released]

theorem frame_writeBackLoop (env : Env) (n : Nat) :
    ∀ (i : Nat) (c : Cache) (err : Int), Frame c (writeBackLoop env n i c err).2 [] := by
  induction n with
  | zero => intro i c err; exact Frame.same rfl rfl
  | succ n ih =>
    intro i c err
    unfold writeBackLoop
    split
    · next hg => exact (frame_flushLine env c i err hg).frameTrans0 (ih _ _ _)
    · exact ih _ _ _

theorem frame_writeBack (env : Env) (c : Cache) : Frame c (writeBack env c).2 [] := by
  unfold writeBack
  split
  · exact Frame.same rfl rfl
  · exact frame_writeBackLoop env _ _ _ _

theorem frame_writeBackPtr (env : Env) (c : Cache) (host_ptr : Nat) :
    Frame c (writeBackPtr env c host_ptr).2 [] := by
  unfold writeBackPtr
  split
  · exact Frame.same rfl rfl
  · simp only []
    cases h : (getCacheLine c host_ptr).1 with
    | none => exact frame_getCacheLine c host_ptr
    | some i =>
      simp only []
      split
      · next hg =>
        exact (frame_getCacheLine c host_ptr).frameTrans0 (frame_flushLine env _ i _ hg)
      · exact frame_getCacheLine c host_ptr
theorem releases_flushCalls (c : Cache) (idx : Nat) : releases (flushCalls c idx) = [] := by
  unfold flushCalls
  split <;> rfl

theorem releases_releaseCalls (c : Cache) (idx b : Nat) :
    releases (releaseCalls c idx b) =
      if (lineAt c.lines idx).deviceAddress ≠ b ∧ (lineAt c.lines idx).deviceAddress ≠ 0
      then [(lineAt c.lines idx).deviceAddress] else [] := by
  unfold releaseCalls
  split <;> rfl

theorem inserted_overwriteLine (env : Env) (c : Cache) (idx tag size b : Nat) (flag : Flag) :
    Inserted c (overwriteLine env c idx tag size b flag).2 idx b := by
  refine ⟨fun j => ?_, ?_, ?_⟩
  · rw [overwriteLine_lines, lineAt_setLine]
    split
    · rfl
    · exact Kept.keptRefl _
  · rw [overwriteLine_lines, length_setLine]
  · rw [overwriteLine_trace, releases_append, releases_append, releases_flushCalls,
      releases_releaseCalls, List.append_nil]

theorem frame_chooseVictim (env : Env) (c : Cache) (tag : Nat) (r : Nat × Cache)
    (h : chooseVictim env c tag = Res.ok r) : Frame c r.2 [] := by
  obtain ⟨_, h2, _⟩ := chooseVictim_ok env c tag r h
  have h3 : r.2 = { c with randCalls := r.2.randCalls, FIFO_index := r.2.FIFO_index } := h2
  exact Frame.same (by rw [h3]) (by rw [h3])

/-- An insertion overwrites one line: with the caller's index that line, else
the victim it chooses. -/
theorem inserted_addToCache (env : Env) (x : Cache) (tag size b : Nat) (flag : Flag) (i : Int)
    (a : CacheLine × Cache) (h : addToCache env x tag size b flag i = Res.ok a) :
    ∃ idx, Inserted x a.2 idx b ∧ (i ≠ -1 → idx = i.toNat) := by
  by_cases hi : i = -1
  · subst hi
    obtain ⟨idx, v, hv, ha⟩ := addToCache_choose env x tag size b flag a h
    refine ⟨idx, ?_, fun hn => absurd rfl hn⟩
    rw [ha]
    exact (frame_chooseVictim env x tag (idx, v) hv).then_inserted
      (inserted_overwriteLine env v idx tag size b flag)
  · unfold addToCache at h
    rw [if_neg hi] at h
    simp only [Res.ok.injEq] at h
    rw [← h]
    exact ⟨i.toNat, inserted_overwriteLine env x i.toNat tag size b flag, fun _ => rfl⟩
theorem frame_countH2D (c : Cache) (size : Nat) : Frame c (countH2D c size) [] := by
  unfold countH2D; exact Frame.same rfl rfl

theorem frame_setQueue (c : Cache) (q : Nat) : Frame c (setQueue c q) [] := by
  unfold setQueue; exact Frame.same rfl rfl

theorem frame_countMiss (c : Cache) : Frame c (countMiss c) [] := by
  unfold countMiss; exact Frame.same rfl rfl

theorem frame_countHit (c : Cache) (size : Nat) : Frame c (countHit c size) [] := by
  unfold countHit; exact Frame.same rfl rfl

theorem frame_lockLine (c : Cache) (i : Nat) : Frame c (lockLine c i) [] := by
  unfold lockLine; exact Frame.same rfl rfl

theorem frame_clearLocks (c : Cache) : Frame c (clearLocks c) [] := by
  unfold clearLocks; exact Frame.same rfl rfl

theorem shape_createBuffer (env : Env) (c : Cache) (context flags size host_ptr : Nat)
    (errcode : Int) (r : (Nat × Int) × Cache)
    (h : createBuffer env c context flags size host_ptr errcode = Res.ok r) :
    Shape env c (Op.createBuffer context flags size host_ptr errcode) r.2 := by
  unfold createBuffer at h
  split at h
  · next hcopy =>
    simp only [] at h
    have hcg := getCacheLine_congr c (countH2D c size) host_ptr rfl rfl rfl rfl
    have s0 : Frame c (getCacheLine (countH2D c size) host_ptr).2 [] :=
      (frame_countH2D c size).frameTrans0 (frame_getCacheLine _ _)
    have hk : (getCacheLine (countH2D c size) host_ptr).2.trace.length = c.trace.length := by
      rw [getCacheLine_trace]; rfl
    have hmissCase : ∀ r : (Nat × Int) × Cache,
        incoming env c (Op.createBuffer context flags size host_ptr errcode) =
          some (env.mem c.trace.length) →
        (addToCache env (issueCreate (countMiss (getCacheLine (countH2D c size) host_ptr).2)
          context flags size host_ptr) host_ptr size
          (env.mem (getCacheLine (countH2D c size) host_ptr).2.trace.length) Flag.BOTH (-1)).map
          (fun a => ((env.mem (getCacheLine (countH2D c size) host_ptr).2.trace.length,
            env.status (getCacheLine (countH2D c size) host_ptr).2.trace.length), a.2)) =
          Res.ok r → Shape env c (Op.createBuffer context flags size host_ptr errcode) r.2 := by
      intro r hinc hr
      rw [hk] at hr
      have sx : Frame (getCacheLine (countH2D c size) host_ptr).2
          (issueCreate (countMiss (getCacheLine (countH2D c size) host_ptr).2)
            context flags size host_ptr) [] :=
        Frame.of_eq [] rfl (by
          unfold issueCreate countMiss
          simp [releases_append, releases, RtCall.released])
      cases hadd : addToCache env (issueCreate (countMiss
          (getCacheLine (countH2D c size) host_ptr).2) context flags size host_ptr) host_ptr size
          (env.mem c.trace.length) Flag.BOTH (-1) with
      | ok a =>
        rw [hadd] at hr
        simp only [Res.map, Res.ok.injEq] at hr
        rw [← hr]
        obtain ⟨idx, hins, _⟩ := inserted_addToCache env _ _ _ _ _ _ a hadd
        exact Or.inr ⟨idx, _, Or.inl hinc, (s0.frameTrans0 sx).then_inserted hins⟩
      | fatal => rw [hadd] at hr; simp [Res.map] at hr
      | undefined => rw [hadd] at hr; simp [Res.map] at hr
      | diverge => rw [hadd] at hr; simp [Res.map] at hr
    cases hfind : (getCacheLine (countH2D c size) host_ptr).1 with
    | none =>
      rw [hfind] at h
      refine hmissCase r ?_ h
      have hf : (getCacheLine c host_ptr).1 = none := by rw [← hcg.1]; exact hfind
      simp only [incoming, if_pos hcopy, hf]
    | some i =>
      rw [hfind] at h
      simp only [] at h
      have hf : (getCacheLine c host_ptr).1 = some i := by rw [← hcg.1]; exact hfind
      have hfl : (lineAt (getCacheLine (countH2D c size) host_ptr).2.lines i).flag =
          (lineAt c.lines i).flag := by
        rw [hcg.2]; exact (getCacheLine_lineAt c host_ptr i).1
      rw [hfl] at h
      split at h
      · next hcpu =>
        refine hmissCase r ?_ h
        simp only [incoming, if_pos hcopy, hf, if_pos hcpu]
      · simp only [Res.ok.injEq] at h
        rw [← h]
        exact Or.inl ⟨[], (s0.frameTrans0 (frame_countHit _ size)).frameTrans0
          (frame_lockLine _ i), Or.inl rfl⟩
  · simp only [Res.ok.injEq] at h
    rw [← h]
    refine Or.inl ⟨[], Frame.of_eq [] rfl ?_, Or.inl rfl⟩
    unfold issueCreate
    simp [releases_append, releases, RtCall.released]
theorem frame_releaseMemObject (c : Cache) (b : Nat) : Frame c (releaseMemObject c b) [b] := by
  unfold releaseMemObject
  refine Frame.of_eq [b] rfl ?_
  simp [releases_append, releases, RtCall.released]

theorem shape_enqueueWriteBuffer (env : Env) (c : Cache)
    (command_queue buffer blocking_write offset cb ptr num_events event_wait_list : Nat)
    (r : (Int × Nat) × Cache)
    (h : enqueueWriteBuffer env c command_queue buffer blocking_write offset cb ptr num_events
      event_wait_list = Res.ok r) :
    Shape env c (Op.enqueueWriteBuffer command_queue buffer blocking_write offset cb ptr
      num_events event_wait_list) r.2 := by
  unfold enqueueWriteBuffer at h
  simp only [] at h
  have hcg := getCacheLine_congr c (setQueue (countH2D c cb) command_queue) ptr rfl rfl rfl rfl
  have s0 : Frame c (getCacheLine (setQueue (countH2D c cb) command_queue) ptr).2 [] :=
    ((frame_countH2D c cb).frameTrans0 (frame_setQueue _ command_queue)).frameTrans0
      (frame_getCacheLine _ _)
  have hmissCase : ∀ (idx : Int) (r : (Int × Nat) × Cache),
      (addToCache env (countMiss (getCacheLine (setQueue (countH2D c cb) command_queue) ptr).2)
        ptr cb buffer Flag.BOTH idx).map
        (fun a => ((env.status a.2.trace.length, buffer),
          forwardWrite env a.2 command_queue buffer blocking_write offset cb ptr num_events
            event_wait_list)) = Res.ok r →
      ∃ j, Inserted c r.2 j buffer ∧ (idx ≠ -1 → j = idx.toNat) := by
    intro idx r hr
    cases hadd : addToCache env (countMiss
        (getCacheLine (setQueue (countH2D c cb) command_queue) ptr).2) ptr cb buffer
        Flag.BOTH idx with
    | ok a =>
      rw [hadd] at hr
      simp only [Res.map, Res.ok.injEq] at hr
      rw [← hr]
      obtain ⟨j, hins, hj⟩ := inserted_addToCache env _ _ _ _ _ _ a hadd
      refine ⟨j, ?_, hj⟩
      have sx : Frame a.2 (forwardWrite env a.2 command_queue buffer blocking_write offset cb
          ptr num_events event_wait_list) [] :=
        Frame.of_eq [] rfl (by
          unfold forwardWrite
          simp [releases_append, releases, RtCall.released])
      exact ((s0.frameTrans0 (frame_countMiss _)).then_inserted hins).then_frame sx
    | fatal => rw [hadd] at hr; simp [Res.map] at hr
    | undefined => rw [hadd] at hr; simp [Res.map] at hr
    | diverge => rw [hadd] at hr; simp [Res.map] at hr
  cases hfind : (getCacheLine (setQueue (countH2D c cb) command_queue) ptr).1 with
  | none =>
    rw [hfind] at h
    simp only [] at h
    have hf : (getCacheLine c ptr).1 = none := by rw [← hcg.1]; exact hfind
    obtain ⟨j, hins, _⟩ := hmissCase (-1) r h
    refine Or.inr ⟨j, buffer, Or.inl ?_, hins⟩
    simp only [incoming, hf]
  | some i =>
    rw [hfind] at h
    simp only [] at h
    have hf : (getCacheLine c ptr).1 = some i := by rw [← hcg.1]; exact hfind
    obtain ⟨hp0, _, _, htag⟩ := getCacheLine_some c ptr i hf
    have hfl : (lineAt (getCacheLine (setQueue (countH2D c cb) command_queue) ptr).2.lines i).flag =
        (lineAt c.lines i).flag := by
      rw [hcg.2]; exact (getCacheLine_lineAt c ptr i).1
    have hdv : (lineAt (getCacheLine (setQueue (countH2D c cb) command_queue) ptr).2.lines
        i).deviceAddress = (lineAt c.lines i).deviceAddress := by
      rw [hcg.2]; exact (getCacheLine_lineAt c ptr i).2.2.2
    rw [hfl, hdv] at h
    split at h
    · obtain ⟨j, hins, hj⟩ := hmissCase (i : Int) r h
      have hji : j = i := by
        have := hj (by omega)
        simpa using this
      subst hji
      by_cases hb : (lineAt c.lines j).deviceAddress = buffer
      · exact Or.inr ⟨j, buffer, Or.inr ⟨hb.symm, by rw [htag]; exact hp0⟩, hins⟩
      · refine Or.inr ⟨j, buffer, Or.inl ?_, hins⟩
        simp only [incoming, hf, if_neg hb]
    · split at h
      · next hrel =>
        simp only [Res.ok.injEq] at h
        rw [← h]
        refine Or.inl ⟨[buffer], ?_, Or.inr ⟨buffer, ?_, rfl⟩⟩
        · exact ((s0.frameTrans0 (frame_countHit _ cb)).frameTrans0
            (frame_releaseMemObject _ buffer)).frameTrans1 (frame_lockLine _ i)
        · simp only [incoming, hf, if_neg hrel.1]
      · simp only [Res.ok.injEq] at h
        rw [← h]
        exact Or.inl ⟨[], (s0.frameTrans0 (frame_countHit _ cb)).frameTrans0
          (frame_lockLine _ i), Or.inl rfl⟩

theorem shape_enqueueReadBuffer (env : Env) (c : Cache)
    (command_queue buffer blocking_read offset cb ptr num_events event_wait_list : Nat)
    (r : Int × Cache)
    (h : enqueueReadBuffer env c command_queue buffer blocking_read offset cb ptr num_events
      event_wait_list = Res.ok r) :
    Shape env c (Op.enqueueReadBuffer command_queue buffer blocking_read offset cb ptr
      num_events event_wait_list) r.2 := by
  unfold enqueueReadBuffer at h
  simp only [] at h
  obtain ⟨e1, e2, e3, _, _, e5, _, _, _, _⟩ := readBuffer_lookup_state env c command_queue
    buffer blocking_read offset cb ptr num_events event_wait_list _ rfl
  have htr : releases (if (readEntry c command_queue cb).write_back = false then
        forwardRead env (readEntry c command_queue cb) command_queue buffer blocking_read
          offset cb ptr num_events event_wait_list
        else readEntry c command_queue cb).trace = releases c.trace ++ [] := by
    split
    · unfold forwardRead readEntry
      simp [releases_append, releases, RtCall.released]
    · unfold readEntry
      simp
  generalize (if (readEntry c command_queue cb).write_back = false then
        forwardRead env (readEntry c command_queue cb) command_queue buffer blocking_read
          offset cb ptr num_events event_wait_list
        else readEntry c command_queue cb) = c1 at *
  have hcg := getCacheLine_congr c c1 ptr e1 e2 e3 e5
  have s00 : Frame c c1 [] := Frame.of_eq [] e1 htr
  have s0 : Frame c (getCacheLine c1 ptr).2 [] := s00.frameTrans0 (frame_getCacheLine _ _)
  cases hfind : (getCacheLine c1 ptr).1 with
  | none =>
    rw [hfind] at h
    simp only [] at h
    have hf : (getCacheLine c ptr).1 = none := by rw [← hcg.1]; exact hfind
    cases hadd : addToCache env (getCacheLine c1 ptr).2 ptr cb buffer
        (if (getCacheLine c1 ptr).2.write_back = false ∧ env.write_through = true
          then Flag.BOTH else Flag.GPU) (-1) with
    | ok a =>
      rw [hadd] at h
      simp only [Res.map, Res.ok.injEq] at h
      rw [← h]
      obtain ⟨j, hins, _⟩ := inserted_addToCache env _ _ _ _ _ _ a hadd
      refine Or.inr ⟨j, buffer, Or.inl ?_, (s0.then_inserted hins).then_frame
        (frame_clearLocks _)⟩
      simp only [incoming, hf]
    | fatal => rw [hadd] at h; simp [Res.map] at h
    | undefined => rw [hadd] at h; simp [Res.map] at h
    | diverge => rw [hadd] at h; simp [Res.map] at h
  | some i =>
    rw [hfind] at h
    simp only [] at h
    have hf : (getCacheLine c ptr).1 = some i := by rw [← hcg.1]; exact hfind
    have hdv : (lineAt (getCacheLine c1 ptr).2.lines i).deviceAddress =
        (lineAt c.lines i).deviceAddress := by
      rw [hcg.2]; exact (getCacheLine_lineAt c ptr i).2.2.2
    rw [hdv] at h
    split at h
    · next hrel =>
      simp only [Res.ok.injEq] at h
      rw [← h]
      refine Or.inl ⟨[buffer], ?_, Or.inr ⟨buffer, ?_, rfl⟩⟩
      · exact (s0.frameTrans0 (frame_releaseMemObject _ buffer)).frameTrans1 (frame_clearLocks _)
      · have hne : ¬ (lineAt c.lines i).deviceAddress = buffer := fun hh => hrel hh.symm
        simp only [incoming, hf, if_neg hne]
    · simp only [Res.ok.injEq] at h
      rw [← h]
      exact Or.inl ⟨[], s0.frameTrans0 (frame_clearLocks _), Or.inl rfl⟩
/-- Every call other than `resetCache` that returns has the shape `Shape`. -/
theorem shape_step (env : Env) (c : Cache) (op : Op) (r : (Int × Nat) × Cache)
    (hop : op ≠ Op.resetCache) (h : step env c op = Res.ok r) : Shape env c op r.2 := by
  cases op with
  | createBuffer context flags size host_ptr errcode =>
    simp only [step] at h
    cases hc : createBuffer env c context flags size host_ptr errcode with
    | ok a =>
      rw [hc] at h
      simp only [Res.ok.injEq] at h
      rw [← h]
      exact shape_createBuffer env c context flags size host_ptr errcode a hc
    | fatal => rw [hc] at h; simp at h
    | undefined => rw [hc] at h; simp at h
    | diverge => rw [hc] at h; simp at h
  | enqueueWriteBuffer q b bl off cb ptr ne wl =>
    simp only [step] at h
    exact shape_enqueueWriteBuffer env c q b bl off cb ptr ne wl r h
  | enqueueReadBuffer q b bl off cb ptr ne wl =>
    simp only [step] at h
    cases hc : enqueueReadBuffer env c q b bl off cb ptr ne wl with
    | ok a =>
      rw [hc] at h
      simp only [Res.ok.injEq] at h
      rw [← h]
      exact shape_enqueueReadBuffer env c q b bl off cb ptr ne wl a hc
    | fatal => rw [hc] at h; simp at h
    | undefined => rw [hc] at h; simp at h
    | diverge => rw [hc] at h; simp at h
  | setKernelArg kernel index size value =>
    simp only [step] at h
    simp only [Res.ok.injEq] at h
    rw [← h]
    refine Or.inl ⟨[], Frame.of_eq [] rfl ?_, Or.inl rfl⟩
    unfold setKernelArg
    simp [releases_append, releases, RtCall.released]
  | enqueueNDRangeKernel q kernel wd gwo gws lws ne wl =>
    simp only [step] at h
    simp only [Res.ok.injEq] at h
    rw [← h]
    unfold enqueueNDRangeKernel
    simp only []
    refine Or.inl ⟨[], Frame.frameTrans0 ?_ (frame_markArguments _ _), Or.inl rfl⟩
    refine Frame.of_eq [] rfl ?_
    simp [releases_append, releases, RtCall.released]
  | writeBack =>
    simp only [step] at h
    simp only [Res.ok.injEq] at h
    rw [← h]
    exact Or.inl ⟨[], frame_writeBack env c, Or.inl rfl⟩
  | writeBackPtr host_ptr =>
    simp only [step] at h
    simp only [Res.ok.injEq] at h
    rw [← h]
    exact Or.inl ⟨[], frame_writeBackPtr env c host_ptr, Or.inl rfl⟩
  | setDirtyFlag ptr flag =>
    simp only [step] at h
    simp only [Res.ok.injEq] at h
    rw [← h]
    exact Or.inl ⟨[], frame_setDirtyFlag c ptr flag, Or.inl rfl⟩
  | resetCache => exact absurd rfl hop
  | resetTimers =>
    simp only [step] at h
    simp only [Res.ok.injEq] at h
    rw [← h]
    unfold resetTimers
    exact Or.inl ⟨[], Frame.same rfl rfl, Or.inl rfl⟩

/-- The lines of the cache after `resetCache`: the first `nrOfLines` are
zeroed, the others are as before. -/
theorem resetCache_lineAt (env : Env) (c : Cache) (j : Nat) :
    lineAt (resetCache env c).lines j = if j < c.nrOfLines then zeroLine else lineAt c.lines j := by
  obtain ⟨h1, _, _, _⟩ := releaseLoop_lines env c.nrOfLines 0 c 0
  show lineAt (List.replicate c.nrOfLines zeroLine ++
    (releaseLoop env c.nrOfLines 0 c 0).2.lines.drop c.nrOfLines) j = _
  rw [h1, lineAt_replicate_append_drop]

/-- The handles the release loop of `resetCache` and of the destructor
releases: the non-null handles of the lines it visits, in the order of the
lines. -/
theorem releaseLoop_releases (env : Env) (n : Nat) :
    ∀ (i : Nat) (c : Cache) (err : Int),
      releases (releaseLoop env n i c err).2.trace = releases c.trace ++
        ((List.range' i n).map (fun k => (lineAt c.lines k).deviceAddress)).filter
          (fun b => decide (b ≠ 0)) := by
  induction n with
  | zero => intro i c err; simp [releaseLoop]
  | succ n ih =>
    intro i c err
    unfold releaseLoop
    split
    · next hnz =>
      rw [ih]
      simp [releases_append, releases, RtCall.released, List.range'_succ, hnz]
    · next hz =>
      rw [ih]
      simp [List.range'_succ, hz]

theorem initialise_eq_freshCache (fuel : Nat) (organisation : Organisation)
    (replacementPolicy : ReplacementPolicy) (cacheSize nrOfSet : Int) (write_back : Bool)
    (c0 : Cache)
    (h : initialise fuel organisation replacementPolicy cacheSize nrOfSet write_back = Res.ok c0) :
    ∃ s l p, c0 = freshCache organisation replacementPolicy s l p write_back := by
  unfold initialise at h
  cases organisation with
  | DIRECT_MAPPING =>
    simp only [] at h
    cases hg : getTableSize fuel cacheSize with
    | ok n =>
      rw [hg] at h
      simp only [] at h
      split at h
      · simp at h
      · simp only [Res.ok.injEq] at h
        exact ⟨_, _, _, h.symm⟩
    | fatal => rw [hg] at h; simp at h
    | undefined => rw [hg] at h; simp at h
    | diverge => rw [hg] at h; simp at h
  | FULLY_ASSOCIATIVE =>
    simp only [] at h
    split at h
    · simp at h
    · simp only [Res.ok.injEq] at h
      exact ⟨_, _, _, h.symm⟩
  | SET_ASSOCIATIVE =>
    simp only [] at h
    cases hg : getTableSize fuel nrOfSet with
    | ok n =>
      rw [hg] at h
      simp only [] at h
      split at h
      · simp at h
      · simp only [Res.ok.injEq] at h
        exact ⟨_, _, _, h.symm⟩
    | fatal => rw [hg] at h; simp at h
    | undefined => rw [hg] at h; simp at h
    | diverge => rw [hg] at h; simp at h
/-! ## C14: the lines flagged Device hold a handle -/

theorem handlesPresent_frame {c c1 : Cache} {rel : List Nat} (hinv : HandlesPresent c)
    (h : Frame c c1 rel) : HandlesPresent c1 := by
  intro j
  obtain ⟨k1, k2, k3⟩ := h.1 j
  rcases hinv j with hd | ⟨hf, ht⟩
  · exact Or.inl (by rw [k2]; exact hd)
  · exact Or.inr ⟨k3 hf ht, by rw [k1]; exact ht⟩

theorem handlesPresent_inserted {c c1 : Cache} {idx b : Nat} (hinv : HandlesPresent c)
    (h : Inserted c c1 idx b) (hb : b ≠ 0) : HandlesPresent c1 := by
  intro j
  have hj := h.1 j
  split at hj
  · exact Or.inl (by rw [hj]; exact hb)
  · obtain ⟨k1, k2, k3⟩ := hj
    rcases hinv j with hd | ⟨hf, ht⟩
    · exact Or.inl (by rw [k2]; exact hd)
    · exact Or.inr ⟨k3 hf ht, by rw [k1]; exact ht⟩

theorem incoming_ne_zero (env : Env) (c : Cache) (op : Op) (b : Nat)
    (hmem : ∀ k, env.mem k ≠ 0) (hop : op.bufferPresent) (h : incoming env c op = some b) :
    b ≠ 0 := by
  cases op with
  | createBuffer context flags size host_ptr errcode =>
    simp only [incoming] at h
    split at h
    · split at h
      · split at h
        · simp only [Option.some.injEq] at h
          rw [← h]; exact hmem _
        · simp at h
      · simp only [Option.some.injEq] at h
        rw [← h]; exact hmem _
    · simp at h
  | enqueueWriteBuffer q b1 bl off cb ptr ne wl =>
    have hb1 : b1 ≠ 0 := hop
    simp only [incoming] at h
    split at h
    · split at h
      · simp at h
      · simp only [Option.some.injEq] at h
        rw [← h]; exact hb1
    · simp only [Option.some.injEq] at h
      rw [← h]; exact hb1
  | enqueueReadBuffer q b1 bl off cb ptr ne wl =>
    have hb1 : b1 ≠ 0 := hop
    simp only [incoming] at h
    split at h
    · split at h
      · simp at h
      · simp only [Option.some.injEq] at h
        rw [← h]; exact hb1
    · simp only [Option.some.injEq] at h
      rw [← h]; exact hb1
  | setKernelArg kernel index size value => simp [incoming] at h
  | enqueueNDRangeKernel q kernel wd gwo gws lws ne wl => simp [incoming] at h
  | writeBack => simp [incoming] at h
  | writeBackPtr host_ptr => simp [incoming] at h
  | setDirtyFlag ptr flag => simp [incoming] at h
  | resetCache => simp [incoming] at h
  | resetTimers => simp [incoming] at h

theorem handlesPresent_resetCache (env : Env) (c : Cache) (hinv : HandlesPresent c) :
    HandlesPresent (resetCache env c) := by
  intro j
  rw [resetCache_lineAt]
  split
  · exact Or.inr ⟨rfl, rfl⟩
  · exact hinv j

theorem handlesPresent_step (env : Env) (c : Cache) (op : Op) (r : (Int × Nat) × Cache)
    (hinv : HandlesPresent c) (hmem : ∀ k, env.mem k ≠ 0) (hop : op.bufferPresent)
    (h : step env c op = Res.ok r) : HandlesPresent r.2 := by
  by_cases hreset : op = Op.resetCache
  · subst hreset
    simp only [step, Res.ok.injEq] at h
    rw [← h]
    exact handlesPresent_resetCache env c hinv
  · rcases shape_step env c op r hreset h with ⟨rel, hfr, _⟩ | ⟨idx, b, hb, hins⟩
    · exact handlesPresent_frame hinv hfr
    · refine handlesPresent_inserted hinv hins ?_
      rcases hb with hinc | ⟨hbd, htag⟩
      · exact incoming_ne_zero env c op b hmem hop hinc
      · rcases hinv idx with hd | ⟨_, ht⟩
        · rw [hbd]; exact hd
        · exact absurd ht htag

theorem handlesPresent_run (env : Env) (hmem : ∀ k, env.mem k ≠ 0) (ops : List Op) :
    ∀ (c : Cache) (r : List (Int × Nat) × Cache), HandlesPresent c →
      (∀ op ∈ ops, op.bufferPresent) → run env ops c = Res.ok r → HandlesPresent r.2 := by
  induction ops with
  | nil =>
    intro c r hinv _ h
    simp only [run, Res.ok.injEq] at h
    rw [← h]
    exact hinv
  | cons op ops ih =>
    intro c r hinv hops h
    unfold run at h
    cases hs : step env c op with
    | ok a =>
      rw [hs] at h
      simp only [] at h
      cases hr : run env ops a.2 with
      | ok rs =>
        rw [hr] at h
        simp only [Res.ok.injEq] at h
        rw [← h]
        exact ih a.2 rs (handlesPresent_step env c op a hinv hmem
          (hops op (List.mem_cons_self _ _)) hs)
          (fun o ho => hops o (List.mem_cons_of_mem _ ho)) hr
      | fatal => rw [hr] at h; simp at h
      | undefined => rw [hr] at h; simp at h
      | diverge => rw [hr] at h; simp at h
    | fatal => rw [hs] at h; simp at h
    | undefined => rw [hs] at h; simp at h
    | diverge => rw [hs] at h; simp at h

theorem handlesPresent_freshCache (organisation : Organisation)
    (replacementPolicy : ReplacementPolicy) (s l p : Nat) (write_back : Bool) :
    HandlesPresent (freshCache organisation replacementPolicy s l p write_back) := by
  intro j
  show (lineAt (List.replicate l zeroLine) j).deviceAddress ≠ 0 ∨ _
  right
  show (lineAt (List.replicate l zeroLine) j).flag = Flag.CPU ∧
    (lineAt (List.replicate l zeroLine) j).tag = 0
  rw [lineAt_replicate]
  exact ⟨rfl, rfl⟩

/-- C14 (amended): for every sequence of calls that returns, issued on a
freshly constructed cache, in which no null handle comes in (the runtime's
`clCreateBuffer` never returns the null handle, and no write-buffer or
read-buffer call passes a null buffer), every line whose flag is `GPU` (Device)
has a non-null device handle; so has every line flagged `BOTH` and every line
with a non-null tag. -/
theorem run_device_lines_have_handle (env : Env) (fuel : Nat) (organisation : Organisation)
    (replacementPolicy : ReplacementPolicy) (cacheSize nrOfSet : Int) (write_back : Bool)
    (ops : List Op) (c0 : Cache) (r : List (Int × Nat) × Cache)
    (hmem : ∀ k, env.mem k ≠ 0) (hops : ∀ op ∈ ops, op.bufferPresent)
    (hinit : initialise fuel organisation replacementPolicy cacheSize nrOfSet write_back =
      Res.ok c0)
    (hrun : run env ops c0 = Res.ok r) :
    ∀ j, ((lineAt r.2.lines j).flag = Flag.GPU → (lineAt r.2.lines j).deviceAddress ≠ 0) ∧
      ((lineAt r.2.lines j).flag = Flag.BOTH → (lineAt r.2.lines j).deviceAddress ≠ 0) ∧
      ((lineAt r.2.lines j).tag ≠ 0 → (lineAt r.2.lines j).deviceAddress ≠ 0) := by
  obtain ⟨s, l, p, hc0⟩ := initialise_eq_freshCache fuel organisation replacementPolicy cacheSize
    nrOfSet write_back c0 hinit
  have hinv := handlesPresent_run env hmem ops c0 r
    (by rw [hc0]; exact handlesPresent_freshCache _ _ _ _ _ _) hops hrun
  intro j
  rcases hinv j with hd | ⟨hf, ht⟩
  · exact ⟨fun _ => hd, fun _ => hd, fun _ => hd⟩
  · refine ⟨fun hg => ?_, fun hg => ?_, fun hn => absurd ht hn⟩
    · rw [hf] at hg; exact Flag.noConfusion hg
    · rw [hf] at hg; exact Flag.noConfusion hg

/-- C14 (amended), witness: the example sequence (create-buffer, set-kernel-arg,
launch) on a fresh fully associative cache of two lines, with the example
runtime, whose handles are `100 + k`: it returns, and line 0, which the launch
flagged `GPU`, holds the handle `100`. -/
theorem run_device_lines_have_handle_witness :
    (∀ k, exEnv.mem k ≠ 0) ∧ (∀ op ∈ exOpsCreate, op.bufferPresent) ∧
      initialise 0 Organisation.FULLY_ASSOCIATIVE ReplacementPolicy.LRU 2 1 true =
        Res.ok (freshCache Organisation.FULLY_ASSOCIATIVE ReplacementPolicy.LRU 1 2 2 true) ∧
      (run exEnv exOpsCreate
        (freshCache Organisation.FULLY_ASSOCIATIVE ReplacementPolicy.LRU 1 2 2 true)).map
          (fun r => ((lineAt r.2.lines 0).flag, (lineAt r.2.lines 0).tag,
            (lineAt r.2.lines 0).deviceAddress)) = Res.ok (Flag.GPU, 3, 100) ∧
      ∀ j, ((lineAt ((run exEnv exOpsCreate
          (freshCache Organisation.FULLY_ASSOCIATIVE ReplacementPolicy.LRU 1 2 2 true)).getD
            ([], exCacheA)).2.lines j).flag = Flag.GPU →
        (lineAt ((run exEnv exOpsCreate
          (freshCache Organisation.FULLY_ASSOCIATIVE ReplacementPolicy.LRU 1 2 2 true)).getD
            ([], exCacheA)).2.lines j).deviceAddress ≠ 0) := by
  have hmem : ∀ k, exEnv.mem k ≠ 0 := by
    intro k
    show 100 + k ≠ 0
    omega
  have hops : ∀ op ∈ exOpsCreate, op.bufferPresent := by
    intro op hop
    simp only [exOpsCreate, List.mem_cons, List.mem_singleton, List.not_mem_nil, or_false] at hop
    rcases hop with rfl | rfl | rfl <;> exact trivial
  exact ⟨hmem, hops, by decide, by decide, fun j =>
    (run_device_lines_have_handle exEnv 0 Organisation.FULLY_ASSOCIATIVE ReplacementPolicy.LRU 2 1
      true exOpsCreate
      (freshCache Organisation.FULLY_ASSOCIATIVE ReplacementPolicy.LRU 1 2 2 true)
      ((run exEnv exOpsCreate
        (freshCache Organisation.FULLY_ASSOCIATIVE ReplacementPolicy.LRU 1 2 2 true)).getD
          ([], exCacheA))
      hmem hops (by decide) (by decide) j).1⟩

/-- C14, counterexample: with a runtime that is out of device memory, whose
`clCreateBuffer` returns the null handle, the example sequence (create-buffer
of the host pointer `3`, set-kernel-arg, launch) on a fresh fully associative
cache of two lines returns and leaves line 0 with the flag `GPU` (Device) and
the null handle: the create-buffer stores the null handle it got, and the
launch flags the line. -/
theorem device_line_without_handle :
    initialise 0 Organisation.FULLY_ASSOCIATIVE ReplacementPolicy.LRU 2 1 true =
        Res.ok (freshCache Organisation.FULLY_ASSOCIATIVE ReplacementPolicy.LRU 1 2 2 true) ∧
      (run exEnvFail exOpsCreate
        (freshCache Organisation.FULLY_ASSOCIATIVE ReplacementPolicy.LRU 1 2 2 true)).map
          (fun r => (r.1, (lineAt r.2.lines 0).flag, (lineAt r.2.lines 0).tag,
            (lineAt r.2.lines 0).deviceAddress)) =
        Res.ok ([(-4, 0), (-4, 0), (-4, 0)], Flag.GPU, 3, 0) := by
  refine ⟨by decide, by decide⟩

/-! ## C13: every stored handle is released at most once -/

theorem count_append_singleton_le (R : List Nat) (x h : Nat) (hR : R.count h ≤ 1)
    (hx : h = x → x ∉ R) : (R ++ [x]).count h ≤ 1 := by
  rw [List.count_append]
  by_cases hhx : h = x
  · subst hhx
    rw [List.count_eq_zero_of_not_mem (hx rfl)]
    simp
  · have : List.count h [x] = 0 := by
      rw [List.count_eq_zero]
      simp [hhx]
    omega

theorem lineAt_mem_or_zero (lines : List CacheLine) (j : Nat) :
    lineAt lines j ∈ lines ∨ lineAt lines j = zeroLine := by
  by_cases hj : j < lines.length
  · left
    unfold lineAt
    rw [List.getD_eq_getElem?_getD, List.getElem?_eq_getElem hj]
    exact List.getElem_mem _
  · right
    exact lineAt_of_length_le lines j (by omega)

/-- A fresh non-null handle is the handle of no line. -/
theorem FreshH.not_stored {c : Cache} {b : Nat} (h : FreshH c b) (hb : b ≠ 0) (j : Nat) :
    (lineAt c.lines j).deviceAddress ≠ b := by
  rcases lineAt_mem_or_zero c.lines j with hm | hz
  · exact h.1 _ hm
  · rw [hz]
    exact fun h0 => hb h0.symm

theorem Later.laterRefl (c : Cache) : Later c c :=
  ⟨fun _ _ => Or.inl rfl, fun _ h => h⟩

theorem Later.laterTrans {c c1 c2 : Cache} (h1 : Later c c1) (h2 : Later c1 c2) : Later c c2 := by
  refine ⟨fun j hj => ?_, fun h hh => h2.2 h (h1.2 h hh)⟩
  rcases h1.1 j hj with he | hr
  · rw [← he] at hj ⊢
    rcases h2.1 j hj with he2 | hr2
    · exact Or.inl he2
    · exact Or.inr hr2
  · exact Or.inr (h2.2 _ hr)

/-- A step that overwrites no line and releases at most one handle, null or
fresh, keeps the invariant. -/
theorem handleInv_frame {c c1 : Cache} {rel : List Nat} (hinv : HandleInv c)
    (h : Frame c c1 rel) (hrel : rel = [] ∨ ∃ b, rel = [b] ∧ (b = 0 ∨ FreshH c b)) :
    HandleInv c1 ∧ Later c c1 := by
  obtain ⟨i1, i2, i3⟩ := hinv
  obtain ⟨k, _, htr⟩ := h
  have hd : ∀ j, (lineAt c1.lines j).deviceAddress = (lineAt c.lines j).deviceAddress :=
    fun j => (k j).2.1
  have hlater : Later c c1 :=
    ⟨fun j _ => Or.inl (hd j), fun x hx => by rw [htr]; exact List.mem_append_left _ hx⟩
  refine ⟨⟨?_, ?_, ?_⟩, hlater⟩
  · intro i j hi hij
    rw [hd i] at hi hij
    rw [hd j] at hij
    exact i1 i j hi hij
  · intro j hj
    rw [hd j] at hj ⊢
    rw [htr]
    intro hm
    rcases List.mem_append.mp hm with hm | hm
    · exact i2 j hj hm
    · rcases hrel with rfl | ⟨b, rfl, hb⟩
      · simp at hm
      · simp only [List.mem_singleton] at hm
        rcases hb with hb | hb
        · rw [hb] at hm; exact hj hm
        · exact hb.not_stored (by rw [← hm]; exact hj) j hm
  · intro x hx
    rw [htr]
    rcases hrel with rfl | ⟨b, rfl, hb⟩
    · rw [List.append_nil]; exact i3 x hx
    · refine count_append_singleton_le _ b x (i3 x hx) (fun hxb => ?_)
      rcases hb with hb | hb
      · rw [hxb] at hx; exact absurd hb hx
      · exact hb.2

/-- An insertion of a handle that is null, fresh, or the handle the
overwritten line holds already keeps the invariant. -/
theorem handleInv_inserted {c c1 : Cache} {idx b : Nat} (hinv : HandleInv c)
    (h : Inserted c c1 idx b)
    (hb : b = 0 ∨ FreshH c b ∨ b = (lineAt c.lines idx).deviceAddress) :
    HandleInv c1 ∧ Later c c1 := by
  obtain ⟨i1, i2, i3⟩ := hinv
  obtain ⟨k, _, htr⟩ := h
  by_cases hsame : (lineAt c.lines idx).deviceAddress = b ∨ ¬ idx < c.lines.length
  · -- the handles of the lines do not change and nothing is released
    have hd : ∀ j, (lineAt c1.lines j).deviceAddress = (lineAt c.lines j).deviceAddress := by
      intro j
      have hj := k j
      split at hj
      · next hc =>
        rcases hsame with hs | hs
        · rw [hj, ← hs, hc.1]
        · exact absurd hc.2 hs
      · exact hj.2.1
    have hno : ¬ ((lineAt c.lines idx).deviceAddress ≠ b ∧ (lineAt c.lines idx).deviceAddress ≠ 0) := by
      rcases hsame with hs | hs
      · exact fun hh => hh.1 hs
      · intro hh
        rw [lineAt_of_length_le c.lines idx (by omega)] at hh
        exact hh.2 rfl
    rw [if_neg hno, List.append_nil] at htr
    refine ⟨⟨?_, ?_, ?_⟩, ⟨fun j _ => Or.inl (hd j), fun x hx => by rw [htr]; exact hx⟩⟩
    · intro i j hi hij
      rw [hd i] at hi hij
      rw [hd j] at hij
      exact i1 i j hi hij
    · intro j hj
      rw [hd j] at hj ⊢
      rw [htr]
      exact i2 j hj
    · intro x hx
      rw [htr]; exact i3 x hx
  · -- line `idx` now holds `b`, which differs from its old handle
    have hne : (lineAt c.lines idx).deviceAddress ≠ b := fun hh => hsame (Or.inl hh)
    have hlt : idx < c.lines.length := by
      by_contra hh
      exact hsame (Or.inr hh)
    have hfresh : b ≠ 0 → FreshH c b := by
      intro hb0
      rcases hb with hb | hb | hb
      · exact absurd hb hb0
      · exact hb
      · exact absurd hb.symm hne
    have hd : ∀ j, (lineAt c1.lines j).deviceAddress =
        if idx = j then b else (lineAt c.lines j).deviceAddress := by
      intro j
      have hj := k j
      by_cases hc : idx = j
      · rw [if_pos ⟨hc, hlt⟩] at hj
        rw [if_pos hc]; exact hj
      · rw [if_neg (fun hh => hc hh.1)] at hj
        rw [if_neg hc]; exact hj.2.1
    have hmem : ∀ x, x ∈ releases c1.trace ↔ x ∈ releases c.trace ∨
        (x = (lineAt c.lines idx).deviceAddress ∧ (lineAt c.lines idx).deviceAddress ≠ 0) := by
      intro x
      rw [htr, List.mem_append]
      by_cases h0 : (lineAt c.lines idx).deviceAddress ≠ 0
      · rw [if_pos ⟨hne, h0⟩]
        simp [h0]
      · rw [if_neg (fun hh => h0 hh.2)]
        simp [h0]
    refine ⟨⟨?_, ?_, ?_⟩, ⟨?_, fun x hx => (hmem x).mpr (Or.inl hx)⟩⟩
    · intro i j hi hij
      rw [hd i] at hi hij
      rw [hd j] at hij
      by_cases hci : idx = i
      · by_cases hcj : idx = j
        · exact hci.symm.trans hcj
        · rw [if_pos hci] at hi hij
          rw [if_neg hcj] at hij
          exact absurd hij.symm ((hfresh hi).not_stored hi j)
      · by_cases hcj : idx = j
        · rw [if_neg hci] at hi hij
          rw [if_pos hcj] at hij
          exact absurd hij ((hfresh (by rw [← hij]; exact hi)).not_stored
            (by rw [← hij]; exact hi) i)
        · rw [if_neg hci] at hi hij
          rw [if_neg hcj] at hij
          exact i1 i j hi hij
    · intro j hj
      rw [hd j] at hj ⊢
      rw [hmem]
      by_cases hcj : idx = j
      · rw [if_pos hcj] at hj ⊢
        rintro (hm | ⟨hm, _⟩)
        · exact (hfresh hj).2 hm
        · exact hne hm.symm
      · rw [if_neg hcj] at hj ⊢
        rintro (hm | ⟨hm, _⟩)
        · exact i2 j hj hm
        · exact hcj (i1 j idx hj hm).symm
    · intro x hx
      rw [htr]
      by_cases h0 : (lineAt c.lines idx).deviceAddress ≠ 0
      · rw [if_pos ⟨hne, h0⟩]
        exact count_append_singleton_le _ _ x (i3 x hx) (fun _ => i2 idx h0)
      · rw [if_neg (fun hh => h0 hh.2), List.append_nil]
        exact i3 x hx
    · intro j hj
      rw [hd j, hmem]
      by_cases hcj : idx = j
      · subst hcj
        exact Or.inr (Or.inr ⟨rfl, hj⟩)
      · rw [if_neg hcj]
        exact Or.inl rfl
/-- The handles the release loop of `resetCache` and of the destructor
releases, under the invariant: each non-null handle of the lines it visits,
once; what was released before stays released once. -/
theorem releaseLoop_counts (env : Env) (c : Cache) (hinv : HandleInv c) (n : Nat) :
    (∀ x, x ≠ 0 → (releases (releaseLoop env n 0 c 0).2.trace).count x ≤ 1) ∧
    (∀ x ∈ releases c.trace, x ∈ releases (releaseLoop env n 0 c 0).2.trace) ∧
    (∀ j, j < n → (lineAt c.lines j).deviceAddress ≠ 0 →
      (lineAt c.lines j).deviceAddress ∈ releases (releaseLoop env n 0 c 0).2.trace) ∧
    (∀ j, n ≤ j → (lineAt c.lines j).deviceAddress ≠ 0 →
      (lineAt c.lines j).deviceAddress ∉ releases (releaseLoop env n 0 c 0).2.trace) := by
  obtain ⟨i1, i2, i3⟩ := hinv
  have htr := releaseLoop_releases env n 0 c 0
  have hmemL : ∀ x, x ∈ ((List.range' 0 n).map (fun k => (lineAt c.lines k).deviceAddress)).filter
      (fun b => decide (b ≠ 0)) ↔ x ≠ 0 ∧ ∃ k, k < n ∧ (lineAt c.lines k).deviceAddress = x := by
    intro x
    simp only [List.mem_filter, List.mem_map, List.mem_range', decide_eq_true_eq]
    constructor
    · rintro ⟨⟨k, ⟨i, hi, rfl⟩, rfl⟩, hx⟩
      exact ⟨hx, 0 + 1 * i, by omega, rfl⟩
    · rintro ⟨hx, k, hk, rfl⟩
      exact ⟨⟨k, ⟨k, hk, by omega⟩, rfl⟩, hx⟩
  have hnodup : (((List.range' 0 n).map (fun k => (lineAt c.lines k).deviceAddress)).filter
      (fun b => decide (b ≠ 0))).Nodup := by
    rw [List.filter_map]
    refine List.Nodup.map_on ?_ ((List.nodup_range' 0 n).filter _)
    intro x hx y _ hxy
    simp only [List.mem_filter, Function.comp_apply, decide_eq_true_eq] at hx
    exact i1 x y hx.2 hxy
  refine ⟨?_, ?_, ?_, ?_⟩
  · intro x hx
    rw [htr, List.count_append]
    by_cases hxR : x ∈ releases c.trace
    · have hxL : x ∉ ((List.range' 0 n).map (fun k => (lineAt c.lines k).deviceAddress)).filter
          (fun b => decide (b ≠ 0)) := by
        rw [hmemL]
        rintro ⟨_, k, _, rfl⟩
        exact i2 k hx hxR
      rw [List.count_eq_zero_of_not_mem hxL]
      exact i3 x hx
    · rw [List.count_eq_zero_of_not_mem hxR, Nat.zero_add]
      exact List.nodup_iff_count_le_one.mp hnodup x
  · intro x hx
    rw [htr]
    exact List.mem_append_left _ hx
  · intro j hj hd
    rw [htr]
    exact List.mem_append_right _ ((hmemL _).mpr ⟨hd, j, hj, rfl⟩)
  · intro j hj hd
    rw [htr, List.mem_append]
    rintro (hm | hm)
    · exact i2 j hd hm
    · obtain ⟨_, k, hk, hkj⟩ := (hmemL _).mp hm
      have : k = j := i1 k j (by rw [hkj]; exact hd) hkj
      omega

theorem handleInv_resetCache (env : Env) (c : Cache) (hinv : HandleInv c) :
    HandleInv (resetCache env c) ∧ Later c (resetCache env c) := by
  obtain ⟨c1, c2, c3, c4⟩ := releaseLoop_counts env c hinv c.nrOfLines
  obtain ⟨i1, i2, i3⟩ := hinv
  have htr : (resetCache env c).trace = (releaseLoop env c.nrOfLines 0 c 0).2.trace := rfl
  have hd : ∀ j, (lineAt (resetCache env c).lines j).deviceAddress =
      if j < c.nrOfLines then 0 else (lineAt c.lines j).deviceAddress := by
    intro j
    rw [resetCache_lineAt]
    split <;> rfl
  have hkeep : ∀ j, (lineAt (resetCache env c).lines j).deviceAddress ≠ 0 →
      c.nrOfLines ≤ j ∧ (lineAt (resetCache env c).lines j).deviceAddress =
        (lineAt c.lines j).deviceAddress := by
    intro j hj
    rw [hd j] at hj ⊢
    by_cases hlt : j < c.nrOfLines
    · rw [if_pos hlt] at hj; exact absurd rfl hj
    · rw [if_neg hlt]; exact ⟨by omega, rfl⟩
  refine ⟨⟨?_, ?_, ?_⟩, ⟨?_, ?_⟩⟩
  · intro i j hi hij
    have hj : (lineAt (resetCache env c).lines j).deviceAddress ≠ 0 := by rw [← hij]; exact hi
    obtain ⟨_, ei⟩ := hkeep i hi
    obtain ⟨_, ej⟩ := hkeep j hj
    rw [ei] at hi hij
    rw [ej] at hij
    exact i1 i j hi hij
  · intro j hj
    obtain ⟨hge, ej⟩ := hkeep j hj
    rw [ej] at hj ⊢
    rw [htr]
    exact c4 j hge hj
  · intro x hx
    rw [htr]
    exact c1 x hx
  · intro j hj
    rw [htr, hd j]
    by_cases hlt : j < c.nrOfLines
    · exact Or.inr (c3 j hlt hj)
    · rw [if_neg hlt]; exact Or.inl rfl
  · intro x hx
    rw [htr]
    exact c2 x hx

theorem freshOp_spec (env : Env) (c : Cache) (op : Op) (b : Nat)
    (hfresh : freshOp env c op = true) (hinc : incoming env c op = some b) :
    b = 0 ∨ FreshH c b := by
  unfold freshOp at hfresh
  rw [hinc] at hfresh
  simpa using hfresh

/-- A call whose incoming handle is null or fresh keeps the invariant of the
handles, and every handle stored before it is still stored or was released. -/
theorem handleInv_step (env : Env) (c : Cache) (op : Op) (r : (Int × Nat) × Cache)
    (hinv : HandleInv c) (hfresh : freshOp env c op = true)
    (h : step env c op = Res.ok r) : HandleInv r.2 ∧ Later c r.2 := by
  by_cases hreset : op = Op.resetCache
  · subst hreset
    simp only [step, Res.ok.injEq] at h
    rw [← h]
    exact handleInv_resetCache env c hinv
  · rcases shape_step env c op r hreset h with ⟨rel, hfr, hrel⟩ | ⟨idx, b, hb, hins⟩
    · refine handleInv_frame hinv hfr ?_
      rcases hrel with hrel | ⟨b, hinc, hrel⟩
      · exact Or.inl hrel
      · exact Or.inr ⟨b, hrel, freshOp_spec env c op b hfresh hinc⟩
    · refine handleInv_inserted hinv hins ?_
      rcases hb with hinc | ⟨hbd, _⟩
      · rcases freshOp_spec env c op b hfresh hinc with h0 | hf
        · exact Or.inl h0
        · exact Or.inr (Or.inl hf)
      · exact Or.inr (Or.inr hbd)

theorem handleInv_run (env : Env) (ops : List Op) :
    ∀ (c : Cache) (r : List (Int × Nat) × Cache), HandleInv c → freshRun env ops c = true →
      run env ops c = Res.ok r → HandleInv r.2 ∧ Later c r.2 := by
  induction ops with
  | nil =>
    intro c r hinv _ h
    simp only [run, Res.ok.injEq] at h
    rw [← h]
    exact ⟨hinv, Later.laterRefl c⟩
  | cons op ops ih =>
    intro c r hinv hfresh h
    unfold run at h
    unfold freshRun at hfresh
    cases hs : step env c op with
    | ok a =>
      rw [hs] at h hfresh
      simp only [Bool.and_eq_true] at hfresh
      simp only [] at h
      cases hr : run env ops a.2 with
      | ok rs =>
        rw [hr] at h
        simp only [Res.ok.injEq] at h
        rw [← h]
        obtain ⟨hi1, hl1⟩ := handleInv_step env c op a hinv hfresh.1 hs
        obtain ⟨hi2, hl2⟩ := ih a.2 rs hi1 hfresh.2 hr
        exact ⟨hi2, hl1.laterTrans hl2⟩
      | fatal => rw [hr] at h; simp at h
      | undefined => rw [hr] at h; simp at h
      | diverge => rw [hr] at h; simp at h
    | fatal => rw [hs] at h; simp at h
    | undefined => rw [hs] at h; simp at h
    | diverge => rw [hs] at h; simp at h

theorem handleInv_freshCache (organisation : Organisation)
    (replacementPolicy : ReplacementPolicy) (s l p : Nat) (write_back : Bool) :
    HandleInv (freshCache organisation replacementPolicy s l p write_back) := by
  have hz : ∀ j, (lineAt (freshCache organisation replacementPolicy s l p write_back).lines
      j).deviceAddress = 0 := by
    intro j
    show (lineAt (List.replicate l zeroLine) j).deviceAddress = 0
    rw [lineAt_replicate]
    rfl
  refine ⟨fun i j hi => absurd (hz i) hi, fun j hj => absurd (hz j) hj, fun x _ => ?_⟩
  show (releases []).count x ≤ 1
  simp [releases]

/-! ### The table has `nrOfLines` lines -/

theorem full_of_geo {c c1 : Cache} (hfull : c.lines.length = c.nrOfLines) (g : Geo c c1) :
    c1.lines.length = c1.nrOfLines := by
  obtain ⟨_, _, a3, _, a5⟩ := g
  rw [a3, a5]; exact hfull

theorem full_step (env : Env) (c : Cache) (op : Op) (r : (Int × Nat) × Cache)
    (hfull : c.lines.length = c.nrOfLines) (h : step env c op = Res.ok r) :
    r.2.lines.length = r.2.nrOfLines := by
  cases op with
  | createBuffer context flags size host_ptr errcode =>
    simp only [step] at h
    cases hc : createBuffer env c context flags size host_ptr errcode with
    | ok a =>
      rw [hc] at h
      simp only [Res.ok.injEq] at h
      rw [← h]
      exact full_of_geo hfull (geo_createBuffer env c context flags size host_ptr errcode a hc)
    | fatal => rw [hc] at h; simp at h
    | undefined => rw [hc] at h; simp at h
    | diverge => rw [hc] at h; simp at h
  | enqueueWriteBuffer q b bl off cb ptr ne wl =>
    simp only [step] at h
    exact full_of_geo hfull (geo_enqueueWriteBuffer env c q b bl off cb ptr ne wl r h)
  | enqueueReadBuffer q b bl off cb ptr ne wl =>
    simp only [step] at h
    cases hc : enqueueReadBuffer env c q b bl off cb ptr ne wl with
    | ok a =>
      rw [hc] at h
      simp only [Res.ok.injEq] at h
      rw [← h]
      exact full_of_geo hfull (geo_enqueueReadBuffer env c q b bl off cb ptr ne wl a hc)
    | fatal => rw [hc] at h; simp at h
    | undefined => rw [hc] at h; simp at h
    | diverge => rw [hc] at h; simp at h
  | setKernelArg kernel index size value =>
    simp only [step, Res.ok.injEq] at h
    rw [← h]
    exact full_of_geo hfull ⟨rfl, rfl, rfl, rfl, rfl⟩
  | enqueueNDRangeKernel q kernel wd gwo gws lws ne wl =>
    simp only [step, Res.ok.injEq] at h
    rw [← h]
    unfold enqueueNDRangeKernel
    exact full_of_geo hfull (Geo.geoTrans ⟨rfl, rfl, rfl, rfl, rfl⟩ (geo_markArguments _ _))
  | writeBack =>
    simp only [step, Res.ok.injEq] at h
    rw [← h]
    exact full_of_geo hfull (geo_writeBack env c)
  | writeBackPtr host_ptr =>
    simp only [step, Res.ok.injEq] at h
    rw [← h]
    exact full_of_geo hfull (geo_writeBackPtr env c host_ptr)
  | setDirtyFlag ptr flag =>
    simp only [step, Res.ok.injEq] at h
    rw [← h]
    exact full_of_geo hfull (geo_setDirtyFlag c ptr flag)
  | resetCache =>
    simp only [step, Res.ok.injEq] at h
    rw [← h]
    obtain ⟨_, _, g3, _, g5⟩ := geo_releaseLoop env c.nrOfLines 0 c 0
    show (List.replicate c.nrOfLines zeroLine ++
      (releaseLoop env c.nrOfLines 0 c 0).2.lines.drop c.nrOfLines).length =
      (releaseLoop env c.nrOfLines 0 c 0).2.nrOfLines
    rw [g3, List.length_append, List.length_replicate, List.length_drop, g5, hfull]
    omega
  | resetTimers =>
    simp only [step, Res.ok.injEq] at h
    rw [← h]
    exact full_of_geo hfull ⟨rfl, rfl, rfl, rfl, rfl⟩

theorem full_run (env : Env) (ops : List Op) :
    ∀ (c : Cache) (r : List (Int × Nat) × Cache), c.lines.length = c.nrOfLines →
      run env ops c = Res.ok r → r.2.lines.length = r.2.nrOfLines := by
  induction ops with
  | nil =>
    intro c r hfull h
    simp only [run, Res.ok.injEq] at h
    rw [← h]
    exact hfull
  | cons op ops ih =>
    intro c r hfull h
    unfold run at h
    cases hs : step env c op with
    | ok a =>
      rw [hs] at h
      simp only [] at h
      cases hr : run env ops a.2 with
      | ok rs =>
        rw [hr] at h
        simp only [Res.ok.injEq] at h
        rw [← h]
        exact ih a.2 rs (full_step env c op a hfull hs) hr
      | fatal => rw [hr] at h; simp at h
      | undefined => rw [hr] at h; simp at h
      | diverge => rw [hr] at h; simp at h
    | fatal => rw [hs] at h; simp at h
    | undefined => rw [hs] at h; simp at h
    | diverge => rw [hs] at h; simp at h
/-- C13 (amended): take a sequence of calls on a freshly constructed cache in
which every handle that comes in is null or fresh (`freshRun`: the handle the
runtime creates for an inserting create-buffer, and the caller's buffer of a
write-buffer or read-buffer unless it is the handle of the line found, is held
by no line and was never released).  Then for every state `r1` the sequence
passes through and every later state `r2`: a non-null handle stored in a line
of `r1` is in `r2` either still stored in that line and not released, or
released exactly once; no non-null handle was released twice; and after the
destructor every non-null handle that was stored in `r1` has been released
exactly once. -/
theorem handles_released_once (env : Env) (fuel : Nat) (organisation : Organisation)
    (replacementPolicy : ReplacementPolicy) (cacheSize nrOfSet : Int) (write_back : Bool)
    (ops1 ops2 : List Op) (c0 : Cache) (r1 r2 : List (Int × Nat) × Cache)
    (hinit : initialise fuel organisation replacementPolicy cacheSize nrOfSet write_back =
      Res.ok c0)
    (hrun1 : run env ops1 c0 = Res.ok r1) (hfresh1 : freshRun env ops1 c0 = true)
    (hrun2 : run env ops2 r1.2 = Res.ok r2) (hfresh2 : freshRun env ops2 r1.2 = true) :
    (∀ j, (lineAt r1.2.lines j).deviceAddress ≠ 0 →
      ((lineAt r2.2.lines j).deviceAddress = (lineAt r1.2.lines j).deviceAddress ∧
        (releases r2.2.trace).count (lineAt r1.2.lines j).deviceAddress = 0) ∨
      (releases r2.2.trace).count (lineAt r1.2.lines j).deviceAddress = 1) ∧
    (∀ h, h ≠ 0 → (releases r2.2.trace).count h ≤ 1) ∧
    (∀ j, (lineAt r1.2.lines j).deviceAddress ≠ 0 →
      (releases (destroy env r2.2).2.trace).count (lineAt r1.2.lines j).deviceAddress = 1) ∧
    (∀ h, h ≠ 0 → (releases (destroy env r2.2).2.trace).count h ≤ 1) := by
  obtain ⟨s, l, p, hc0⟩ := initialise_eq_freshCache fuel organisation replacementPolicy cacheSize
    nrOfSet write_back c0 hinit
  have hinv0 : HandleInv c0 := by rw [hc0]; exact handleInv_freshCache _ _ _ _ _ _
  have hfull0 : c0.lines.length = c0.nrOfLines := by
    rw [hc0]
    show (List.replicate l zeroLine).length = l
    simp
  obtain ⟨hinv1, _⟩ := handleInv_run env ops1 c0 r1 hinv0 hfresh1 hrun1
  obtain ⟨hinv2, hlater⟩ := handleInv_run env ops2 r1.2 r2 hinv1 hfresh2 hrun2
  have hfull2 : r2.2.lines.length = r2.2.nrOfLines :=
    full_run env ops2 r1.2 r2 (full_run env ops1 c0 r1 hfull0 hrun1) hrun2
  obtain ⟨d1, d2, d3, _⟩ := releaseLoop_counts env r2.2 hinv2 r2.2.nrOfLines
  have hdt : (destroy env r2.2).2.trace = (releaseLoop env r2.2.nrOfLines 0 r2.2 0).2.trace := rfl
  have hone : ∀ (R : List Nat) (x : Nat), x ∈ R → R.count x ≤ 1 → R.count x = 1 := by
    intro R x hx hle
    have := List.count_pos_iff.mpr hx
    omega
  refine ⟨?_, hinv2.2.2, ?_, ?_⟩
  · intro j hj
    rcases hlater.1 j hj with he | hr
    · left
      refine ⟨he, List.count_eq_zero_of_not_mem ?_⟩
      rw [← he]
      exact hinv2.2.1 j (by rw [he]; exact hj)
    · right
      exact hone _ _ hr (hinv2.2.2 _ hj)
  · intro j hj
    rw [hdt]
    refine hone _ _ ?_ (d1 _ hj)
    rcases hlater.1 j hj with he | hr
    · have hlt : j < r2.2.nrOfLines := by
        rw [← hfull2]
        by_contra hge
        rw [← he, lineAt_of_length_le r2.2.lines j (by omega)] at hj
        exact hj rfl
      rw [← he]
      exact d3 j hlt (by rw [he]; exact hj)
    · exact d2 _ hr
  · intro x hx
    rw [hdt]
    exact d1 x hx

/-- C13 (amended), witness: on a fresh fully associative write-through cache of
one line, with the example runtime, a create-buffer of the host pointer `3`
stores the created handle `100` in line 0; a later write-buffer of the host
pointer `6` with the fresh buffer `7` evicts it.  The handle `100` is then
released exactly once, and still exactly once after the destructor. -/
theorem handles_released_once_witness :
    initialise 0 Organisation.FULLY_ASSOCIATIVE ReplacementPolicy.LRU 1 1 false =
        Res.ok (freshCache Organisation.FULLY_ASSOCIATIVE ReplacementPolicy.LRU 1 1 1 false) ∧
      freshRun exEnv [Op.createBuffer 1 32 64 3 0]
        (freshCache Organisation.FULLY_ASSOCIATIVE ReplacementPolicy.LRU 1 1 1 false) = true ∧
      freshRun exEnv [Op.enqueueNDRangeKernel 1 5 1 0 0 0 0 0, Op.enqueueWriteBuffer 1 7 1 0 4 6 0 0]
        ((run exEnv [Op.createBuffer 1 32 64 3 0]
          (freshCache Organisation.FULLY_ASSOCIATIVE ReplacementPolicy.LRU 1 1 1 false)).getD
            ([], exCacheA)).2 = true ∧
      (lineAt ((run exEnv [Op.createBuffer 1 32 64 3 0]
          (freshCache Organisation.FULLY_ASSOCIATIVE ReplacementPolicy.LRU 1 1 1 false)).getD
            ([], exCacheA)).2.lines 0).deviceAddress = 100 ∧
      (releases ((run exEnv
          [Op.enqueueNDRangeKernel 1 5 1 0 0 0 0 0, Op.enqueueWriteBuffer 1 7 1 0 4 6 0 0]
          ((run exEnv [Op.createBuffer 1 32 64 3 0]
            (freshCache Organisation.FULLY_ASSOCIATIVE ReplacementPolicy.LRU 1 1 1 false)).getD
              ([], exCacheA)).2).getD ([], exCacheA)).2.trace).count 100 = 1 ∧
      (releases (destroy exEnv ((run exEnv
          [Op.enqueueNDRangeKernel 1 5 1 0 0 0 0 0, Op.enqueueWriteBuffer 1 7 1 0 4 6 0 0]
          ((run exEnv [Op.createBuffer 1 32 64 3 0]
            (freshCache Organisation.FULLY_ASSOCIATIVE ReplacementPolicy.LRU 1 1 1 false)).getD
              ([], exCacheA)).2).getD ([], exCacheA)).2).2.trace).count
        (lineAt ((run exEnv [Op.createBuffer 1 32 64 3 0]
          (freshCache Organisation.FULLY_ASSOCIATIVE ReplacementPolicy.LRU 1 1 1 false)).getD
            ([], exCacheA)).2.lines 0).deviceAddress = 1 := by
  exact ⟨by decide, by decide, by decide, by decide, by decide,
    (handles_released_once exEnv 0 Organisation.FULLY_ASSOCIATIVE ReplacementPolicy.LRU 1 1 false
      [Op.createBuffer 1 32 64 3 0]
      [Op.enqueueNDRangeKernel 1 5 1 0 0 0 0 0, Op.enqueueWriteBuffer 1 7 1 0 4 6 0 0]
      (freshCache Organisation.FULLY_ASSOCIATIVE ReplacementPolicy.LRU 1 1 1 false)
      ((run exEnv [Op.createBuffer 1 32 64 3 0]
        (freshCache Organisation.FULLY_ASSOCIATIVE ReplacementPolicy.LRU 1 1 1 false)).getD
          ([], exCacheA))
      ((run exEnv
        [Op.enqueueNDRangeKernel 1 5 1 0 0 0 0 0, Op.enqueueWriteBuffer 1 7 1 0 4 6 0 0]
        ((run exEnv [Op.createBuffer 1 32 64 3 0]
          (freshCache Organisation.FULLY_ASSOCIATIVE ReplacementPolicy.LRU 1 1 1 false)).getD
            ([], exCacheA)).2).getD ([], exCacheA))
      (by decide) (by decide) (by decide) (by decide) (by decide)).2.2.1 0 (by decide)⟩

/-- C13, counterexample: on a fresh fully associative cache of two lines, two
write-buffers with the same device buffer `7`, of the host pointers `3` and
`6`, leave both lines holding the handle `7`; the `resetCache` that follows
returns with the handle `7` released twice. -/
theorem shared_handle_released_twice :
    initialise 0 Organisation.FULLY_ASSOCIATIVE ReplacementPolicy.LRU 2 1 false =
        Res.ok (freshCache Organisation.FULLY_ASSOCIATIVE ReplacementPolicy.LRU 1 2 2 false) ∧
      (run exEnv exOpsShared.dropLast
        (freshCache Organisation.FULLY_ASSOCIATIVE ReplacementPolicy.LRU 1 2 2 false)).map
          (fun r => (r.2.lines.map (fun l => l.deviceAddress), releases r.2.trace)) =
        Res.ok ([7, 7], []) ∧
      (run exEnv exOpsShared
        (freshCache Organisation.FULLY_ASSOCIATIVE ReplacementPolicy.LRU 1 2 2 false)).map
          (fun r => (r.2.lines.map (fun l => l.deviceAddress), releases r.2.trace,
            (releases r.2.trace).count 7)) =
        Res.ok ([0, 0], [7, 7], 2) := by
  refine ⟨by decide, by decide, by decide⟩

/-! ## C19: direct mapping and set-associative with one line per set -/

/-- Direct mapping: the candidate line, when it is not locked, is the line
chosen, and the cache is unchanged. -/
theorem chooseVictim_direct_free (env : Env) (c : Cache) (tag : Nat)
    (hdm : c.organisation = Organisation.DIRECT_MAPPING)
    (hfree : getSetIndex c tag ∉ c.lockedLines) :
    chooseVictim env c tag = Res.ok (getSetIndex c tag, c) := by
  unfold chooseVictim
  simp only [hdm, ne_eq, not_true_eq_false, if_false, hfree]

theorem getRandomIndex_one (env : Env) (c : Cache) (s : Nat)
    (hL : c.nrOfLinesPerSet = 1) (hfree : s ∉ c.lockedLines) :
    getRandomIndex env c s = Res.ok (s, { c with randCalls := c.randCalls + 1 }) := by
  unfold getRandomIndex
  rw [hL]
  simp [getRandomIndexLoop, Nat.mod_one, hfree]

/-- Set-associative with one line per set (or fully associative with one
line): the candidate line, when it is not locked, is the line chosen, and the
cache changes in its `rand()` count and FIFO cursors at most. -/
theorem chooseVictim_one_free (env : Env) (c : Cache) (tag : Nat)
    (hsa : c.organisation ≠ Organisation.DIRECT_MAPPING) (hL : c.nrOfLinesPerSet = 1)
    (hfree : getSetIndex c tag ∉ c.lockedLines) :
    ∃ rc fi, chooseVictim env c tag =
      Res.ok (getSetIndex c tag, { c with randCalls := rc, FIFO_index := fi }) := by
  unfold chooseVictim
  simp only [hsa, ne_eq, not_false_eq_true, if_true]
  split
  · unfold getOldestIndex
    rw [hL]
    simp only [Nat.mul_one]
    unfold getOldestIndexLoop getOldestIndexLoop
    by_cases hage : (lineAt c.lines (getSetIndex c tag)).age > -1
    · refine ⟨c.randCalls, c.FIFO_index, ?_⟩
      simp [hage, hfree]
    · refine ⟨c.randCalls + 1, c.FIFO_index, ?_⟩
      simp [hage, hfree, getRandomIndex, getRandomIndexLoop, hL, Nat.mod_one]
  · unfold fifoIndex
    rw [hL]
    refine ⟨c.randCalls, c.FIFO_index.set (getSetIndex c tag) 0, ?_⟩
    simp [fifoLoop, Nat.mod_one, hfree]
  · rw [getRandomIndex_one env c _ hL hfree]
    exact ⟨c.randCalls + 1, c.FIFO_index, rfl⟩
  · unfold getSmallestDataLine
    rw [hL]
    simp only [Nat.mul_one]
    unfold getSmallestDataLineLoop getSmallestDataLineLoop
    by_cases hsz : (lineAt c.lines (getSetIndex c tag)).size < toSizeT (-1)
    · refine ⟨c.randCalls, c.FIFO_index, ?_⟩
      simp [hsz, hfree]
      cases c
      simp_all
    · refine ⟨c.randCalls + 1, c.FIFO_index, ?_⟩
      simp [hsz, hfree, getRandomIndex, getRandomIndexLoop, hL, Nat.mod_one]
/-! ### The operations do not read the organisation, the `rand()` count or
the FIFO cursors, except where `addToCache` chooses its victim -/

theorem retag_getCacheLine (c : Cache) (o : Organisation) (rc : Nat) (fi : List Nat) (tag : Nat) :
    getCacheLine (retag c o rc fi) tag =
      ((getCacheLine c tag).1, retag (getCacheLine c tag).2 o rc fi) := by
  unfold getCacheLine getSetIndex retag
  split <;> rfl

theorem retag_countH2D (c : Cache) (o : Organisation) (rc : Nat) (fi : List Nat) (size : Nat) :
    countH2D (retag c o rc fi) size = retag (countH2D c size) o rc fi := by
  unfold countH2D retag; rfl

theorem retag_setQueue (c : Cache) (o : Organisation) (rc : Nat) (fi : List Nat) (q : Nat) :
    setQueue (retag c o rc fi) q = retag (setQueue c q) o rc fi := by
  unfold setQueue retag; rfl

theorem retag_countMiss (c : Cache) (o : Organisation) (rc : Nat) (fi : List Nat) :
    countMiss (retag c o rc fi) = retag (countMiss c) o rc fi := by
  unfold countMiss retag; rfl

theorem retag_countHit (c : Cache) (o : Organisation) (rc : Nat) (fi : List Nat) (size : Nat) :
    countHit (retag c o rc fi) size = retag (countHit c size) o rc fi := by
  unfold countHit retag; rfl

theorem retag_lockLine (c : Cache) (o : Organisation) (rc : Nat) (fi : List Nat) (i : Nat) :
    lockLine (retag c o rc fi) i = retag (lockLine c i) o rc fi := by
  unfold lockLine retag; rfl

theorem retag_clearLocks (c : Cache) (o : Organisation) (rc : Nat) (fi : List Nat) :
    clearLocks (retag c o rc fi) = retag (clearLocks c) o rc fi := by
  unfold clearLocks retag; rfl

theorem retag_releaseMemObject (c : Cache) (o : Organisation) (rc : Nat) (fi : List Nat)
    (b : Nat) : releaseMemObject (retag c o rc fi) b = retag (releaseMemObject c b) o rc fi := by
  unfold releaseMemObject retag; rfl

theorem retag_issueCreate (c : Cache) (o : Organisation) (rc : Nat) (fi : List Nat)
    (context flags size host_ptr : Nat) :
    issueCreate (retag c o rc fi) context flags size host_ptr =
      retag (issueCreate c context flags size host_ptr) o rc fi := by
  unfold issueCreate retag; rfl

theorem retag_forwardWrite (env : Env) (c : Cache) (o : Organisation) (rc : Nat) (fi : List Nat)
    (q b bl off cb ptr ne wl : Nat) :
    forwardWrite env (retag c o rc fi) q b bl off cb ptr ne wl =
      retag (forwardWrite env c q b bl off cb ptr ne wl) o rc fi := by
  unfold forwardWrite retag; rfl

theorem retag_readEntry (c : Cache) (o : Organisation) (rc : Nat) (fi : List Nat) (q cb : Nat) :
    readEntry (retag c o rc fi) q cb = retag (readEntry c q cb) o rc fi := by
  unfold readEntry retag; rfl

theorem retag_forwardRead (env : Env) (c : Cache) (o : Organisation) (rc : Nat) (fi : List Nat)
    (q b bl off cb ptr ne wl : Nat) :
    forwardRead env (retag c o rc fi) q b bl off cb ptr ne wl =
      retag (forwardRead env c q b bl off cb ptr ne wl) o rc fi := by
  unfold forwardRead retag; rfl

theorem retag_retag (c : Cache) (o o1 : Organisation) (rc rc1 : Nat) (fi fi1 : List Nat) :
    retag (retag c o rc fi) o1 rc1 fi1 = retag c o1 rc1 fi1 := rfl

theorem retag_overwriteLine (env : Env) (c : Cache) (o : Organisation) (rc : Nat)
    (fi : List Nat) (idx tag size b : Nat) (flag : Flag) :
    overwriteLine env (retag c o rc fi) idx tag size b flag =
      ((overwriteLine env c idx tag size b flag).1,
        retag (overwriteLine env c idx tag size b flag).2 o rc fi) := by
  unfold overwriteLine retag
  simp only []
  split_ifs <;> rfl

theorem retag_setDirtyFlag (c : Cache) (o : Organisation) (rc : Nat) (fi : List Nat)
    (ptr : Nat) (flag : Flag) :
    setDirtyFlag (retag c o rc fi) ptr flag = retag (setDirtyFlag c ptr flag) o rc fi := by
  unfold setDirtyFlag
  rw [retag_getCacheLine]
  simp only []
  split <;> rfl

theorem retag_markArguments (o : Organisation) (rc : Nat) (fi : List Nat) (args : List Nat) :
    ∀ c : Cache, markArguments (retag c o rc fi) args = retag (markArguments c args) o rc fi := by
  induction args with
  | nil => intro c; rfl
  | cons a rest ih =>
    intro c
    unfold markArguments
    rw [retag_setDirtyFlag, ih]

theorem retag_flushLine (env : Env) (c : Cache) (o : Organisation) (rc : Nat) (fi : List Nat)
    (i : Nat) (err : Int) :
    flushLine env (retag c o rc fi) i err =
      ((flushLine env c i err).1, retag (flushLine env c i err).2 o rc fi) := by
  unfold flushLine retag; rfl

theorem retag_writeBackLoop (env : Env) (o : Organisation) (rc : Nat) (fi : List Nat) (n : Nat) :
    ∀ (i : Nat) (c : Cache) (err : Int),
      writeBackLoop env n i (retag c o rc fi) err =
        ((writeBackLoop env n i c err).1, retag (writeBackLoop env n i c err).2 o rc fi) := by
  induction n with
  | zero => intro i c err; rfl
  | succ n ih =>
    intro i c err
    unfold writeBackLoop
    have hl : (retag c o rc fi).lines = c.lines := rfl
    rw [hl]
    split
    · rw [retag_flushLine]
      exact ih _ _ _
    · exact ih _ _ _

theorem retag_writeBack (env : Env) (c : Cache) (o : Organisation) (rc : Nat) (fi : List Nat) :
    writeBack env (retag c o rc fi) =
      ((writeBack env c).1, retag (writeBack env c).2 o rc fi) := by
  unfold writeBack
  have h1 : (retag c o rc fi).write_back = c.write_back := rfl
  have h2 : (retag c o rc fi).nrOfLines = c.nrOfLines := rfl
  rw [h1, h2]
  split
  · rfl
  · exact retag_writeBackLoop env o rc fi _ _ _ _

theorem retag_writeBackPtr (env : Env) (c : Cache) (o : Organisation) (rc : Nat) (fi : List Nat)
    (host_ptr : Nat) :
    writeBackPtr env (retag c o rc fi) host_ptr =
      ((writeBackPtr env c host_ptr).1, retag (writeBackPtr env c host_ptr).2 o rc fi) := by
  unfold writeBackPtr
  have h1 : (retag c o rc fi).write_back = c.write_back := rfl
  rw [h1, retag_getCacheLine]
  split
  · rfl
  · simp only []
    have hl : ∀ x : Cache, (retag x o rc fi).lines = x.lines := fun _ => rfl
    split
    · rw [hl]
      split
      · exact retag_flushLine env _ o rc fi _ _
      · rfl
    · rfl

theorem retag_releaseLoop (env : Env) (o : Organisation) (rc : Nat) (fi : List Nat) (n : Nat) :
    ∀ (i : Nat) (c : Cache) (err : Int),
      releaseLoop env n i (retag c o rc fi) err =
        ((releaseLoop env n i c err).1, retag (releaseLoop env n i c err).2 o rc fi) := by
  induction n with
  | zero => intro i c err; rfl
  | succ n ih =>
    intro i c err
    unfold releaseLoop
    have hl : (retag c o rc fi).lines = c.lines := rfl
    rw [hl]
    split
    · exact ih (i + 1)
        { c with
          buffers := sub32 c.buffers 1
          trace := c.trace ++ [RtCall.clReleaseMemObject (lineAt c.lines i).deviceAddress] }
        (Int.lor err (env.status c.trace.length))
    · exact ih _ _ _

theorem retag_resetCache (env : Env) (c : Cache) (o : Organisation) (rc : Nat) (fi : List Nat) :
    resetCache env (retag c o rc fi) = retag (resetCache env c) o rc fi := by
  unfold resetCache
  have h2 : (retag c o rc fi).nrOfLines = c.nrOfLines := rfl
  simp only [h2, retag_releaseLoop]
  rfl

theorem retag_resetTimers (c : Cache) (o : Organisation) (rc : Nat) (fi : List Nat) :
    resetTimers (retag c o rc fi) = retag (resetTimers c) o rc fi := by
  unfold resetTimers retag; rfl

theorem retag_setKernelArg (env : Env) (c : Cache) (o : Organisation) (rc : Nat)
    (fi : List Nat) (kernel index size value : Nat) :
    setKernelArg env (retag c o rc fi) kernel index size value =
      ((setKernelArg env c kernel index size value).1,
        retag (setKernelArg env c kernel index size value).2 o rc fi) := by
  unfold setKernelArg retag; rfl

theorem retag_enqueueNDRangeKernel (env : Env) (c : Cache) (o : Organisation) (rc : Nat)
    (fi : List Nat) (q kernel wd gwo gws lws ne wl : Nat) :
    enqueueNDRangeKernel env (retag c o rc fi) q kernel wd gwo gws lws ne wl =
      ((enqueueNDRangeKernel env c q kernel wd gwo gws lws ne wl).1,
        retag (enqueueNDRangeKernel env c q kernel wd gwo gws lws ne wl).2 o rc fi) := by
  unfold enqueueNDRangeKernel
  simp only []
  have := retag_markArguments o rc fi
    (env.argOrder (kaLookup kernel (kaTouch kernel c.kernelArguments)))
    { c with
      lockedLines := []
      trace := c.trace ++ [RtCall.clEnqueueNDRangeKernel q kernel wd gwo gws lws ne wl]
      duration := { c.duration with kernel := add64 c.duration.kernel (env.eventTime c.trace.length) }
      kernelArguments := kaTouch kernel c.kernelArguments }
  exact Prod.ext rfl this
/-- An insertion that chooses its victim while the candidate line is not
locked: under direct mapping, and with one line per set under another
organisation, it overwrites the candidate line. -/
theorem addToCache_retag (env : Env) (c : Cache) (o : Organisation) (rc : Nat) (fi : List Nat)
    (tag size b : Nat) (flag : Flag)
    (hdm : c.organisation = Organisation.DIRECT_MAPPING) (hsa : o ≠ Organisation.DIRECT_MAPPING)
    (hL : c.nrOfLinesPerSet = 1) (hfree : getSetIndex c tag ∉ c.lockedLines) :
    ∃ rc1 fi1,
      addToCache env c tag size b flag (-1) =
        Res.ok (overwriteLine env c (getSetIndex c tag) tag size b flag) ∧
      addToCache env (retag c o rc fi) tag size b flag (-1) =
        Res.ok ((overwriteLine env c (getSetIndex c tag) tag size b flag).1,
          retag (overwriteLine env c (getSetIndex c tag) tag size b flag).2 o rc1 fi1) := by
  obtain ⟨rc1, fi1, hv⟩ := chooseVictim_one_free env (retag c o rc fi) tag hsa hL hfree
  have hv1 : chooseVictim env (retag c o rc fi) tag =
      Res.ok (getSetIndex c tag, retag c o rc1 fi1) := hv
  refine ⟨rc1, fi1, ?_, ?_⟩
  · unfold addToCache
    rw [if_pos rfl, chooseVictim_direct_free env c tag hdm hfree]
  · unfold addToCache
    rw [if_pos rfl, hv1]
    simp only []
    rw [retag_overwriteLine]

theorem addToCache_retag_idx (env : Env) (c : Cache) (o : Organisation) (rc : Nat)
    (fi : List Nat) (tag size b : Nat) (flag : Flag) (i : Nat) :
    addToCache env c tag size b flag (i : Int) =
        Res.ok (overwriteLine env c i tag size b flag) ∧
      addToCache env (retag c o rc fi) tag size b flag (i : Int) =
        Res.ok ((overwriteLine env c i tag size b flag).1,
          retag (overwriteLine env c i tag size b flag).2 o rc fi) := by
  have hi : ¬ ((i : Int) = -1) := by omega
  unfold addToCache
  rw [if_neg hi, if_neg hi, retag_overwriteLine]
  simp
theorem createBuffer_retag (env : Env) (c : Cache) (o : Organisation) (rc : Nat) (fi : List Nat)
    (context flags size host_ptr : Nat) (errcode : Int)
    (hdm : c.organisation = Organisation.DIRECT_MAPPING) (hsa : o ≠ Organisation.DIRECT_MAPPING)
    (hL : c.nrOfLinesPerSet = 1)
    (hfree : freeOp c (Op.createBuffer context flags size host_ptr errcode) = true) :
    ∃ r rc1 fi1, createBuffer env c context flags size host_ptr errcode = Res.ok r ∧
      createBuffer env (retag c o rc fi) context flags size host_ptr errcode =
        Res.ok (r.1, retag r.2 o rc1 fi1) := by
  unfold createBuffer
  by_cases hcopy : flags &&& CL_MEM_COPY_HOST_PTR ≠ 0
  · rw [if_pos hcopy, if_pos hcopy]
    simp only [retag_countH2D, retag_getCacheLine]
    have hcg := getCacheLine_congr c (countH2D c size) host_ptr rfl rfl rfl rfl
    have hlines : ∀ x : Cache, (retag x o rc fi).lines = x.lines := fun _ => rfl
    have htrace : ∀ x : Cache, (retag x o rc fi).trace = x.trace := fun _ => rfl
    rw [hlines, htrace]
    have hmissCase : victimTag c (Op.createBuffer context flags size host_ptr errcode) =
        some host_ptr →
        ∃ r rc1 fi1,
          (addToCache env (issueCreate (countMiss (getCacheLine (countH2D c size) host_ptr).2)
            context flags size host_ptr) host_ptr size
            (env.mem (getCacheLine (countH2D c size) host_ptr).2.trace.length) Flag.BOTH (-1)).map
            (fun a => ((env.mem (getCacheLine (countH2D c size) host_ptr).2.trace.length,
              env.status (getCacheLine (countH2D c size) host_ptr).2.trace.length), a.2)) =
            Res.ok r ∧
          (addToCache env (issueCreate (countMiss
            (retag (getCacheLine (countH2D c size) host_ptr).2 o rc fi))
            context flags size host_ptr) host_ptr size
            (env.mem (getCacheLine (countH2D c size) host_ptr).2.trace.length) Flag.BOTH (-1)).map
            (fun a => ((env.mem (getCacheLine (countH2D c size) host_ptr).2.trace.length,
              env.status (getCacheLine (countH2D c size) host_ptr).2.trace.length), a.2)) =
            Res.ok (r.1, retag r.2 o rc1 fi1) := by
      intro hvt
      have hfr : getSetIndex c host_ptr ∉ c.lockedLines := by
        unfold freeOp at hfree
        rw [hvt] at hfree
        simpa using hfree
      rw [retag_countMiss, retag_issueCreate]
      obtain ⟨rc1, fi1, e1, e2⟩ := addToCache_retag env
        (issueCreate (countMiss (getCacheLine (countH2D c size) host_ptr).2) context flags size
          host_ptr) o rc fi host_ptr size
        (env.mem (getCacheLine (countH2D c size) host_ptr).2.trace.length) Flag.BOTH
        (by
          show (getCacheLine (countH2D c size) host_ptr).2.organisation = _
          rw [getCacheLine_organisation]; exact hdm) hsa
        (by
          show (getCacheLine (countH2D c size) host_ptr).2.nrOfLinesPerSet = _
          rw [getCacheLine_nrOfLinesPerSet]; exact hL)
        (by
          show host_ptr % (getCacheLine (countH2D c size) host_ptr).2.nrOfSets ∉
            (getCacheLine (countH2D c size) host_ptr).2.lockedLines
          rw [getCacheLine_nrOfSets, getCacheLine_lockedLines]
          exact hfr)
      rw [e1, e2]
      exact ⟨_, rc1, fi1, rfl, rfl⟩
    cases hfind : (getCacheLine (countH2D c size) host_ptr).1 with
    | none =>
      simp only []
      refine hmissCase ?_
      have hf : (getCacheLine c host_ptr).1 = none := by rw [← hcg.1]; exact hfind
      simp only [victimTag, if_pos hcopy, hf]
    | some i =>
      simp only []
      have hf : (getCacheLine c host_ptr).1 = some i := by rw [← hcg.1]; exact hfind
      have hfl : (lineAt (getCacheLine (countH2D c size) host_ptr).2.lines i).flag =
          (lineAt c.lines i).flag := by
        rw [hcg.2]; exact (getCacheLine_lineAt c host_ptr i).1
      by_cases hcpu : (lineAt (getCacheLine (countH2D c size) host_ptr).2.lines i).flag = Flag.CPU
      · rw [if_pos hcpu, if_pos hcpu]
        refine hmissCase ?_
        rw [hfl] at hcpu
        simp only [victimTag, if_pos hcopy, hf, if_pos hcpu]
      · rw [if_neg hcpu, if_neg hcpu]
        refine ⟨_, rc, fi, rfl, ?_⟩
        rw [retag_countHit, retag_lockLine]
  · rw [if_neg hcopy, if_neg hcopy]
    refine ⟨_, rc, fi, rfl, ?_⟩
    rw [retag_issueCreate]
    rfl

theorem enqueueWriteBuffer_retag (env : Env) (c : Cache) (o : Organisation) (rc : Nat)
    (fi : List Nat) (q b bl off cb ptr ne wl : Nat)
    (hdm : c.organisation = Organisation.DIRECT_MAPPING) (hsa : o ≠ Organisation.DIRECT_MAPPING)
    (hL : c.nrOfLinesPerSet = 1)
    (hfree : freeOp c (Op.enqueueWriteBuffer q b bl off cb ptr ne wl) = true) :
    ∃ r rc1 fi1, enqueueWriteBuffer env c q b bl off cb ptr ne wl = Res.ok r ∧
      enqueueWriteBuffer env (retag c o rc fi) q b bl off cb ptr ne wl =
        Res.ok (r.1, retag r.2 o rc1 fi1) := by
  unfold enqueueWriteBuffer
  simp only [retag_countH2D, retag_setQueue, retag_getCacheLine, retag_countMiss]
  have hcg := getCacheLine_congr c (setQueue (countH2D c cb) q) ptr rfl rfl rfl rfl
  have hlines : ∀ x : Cache, (retag x o rc fi).lines = x.lines := fun _ => rfl
  rw [hlines]
  cases hfind : (getCacheLine (setQueue (countH2D c cb) q) ptr).1 with
  | none =>
    simp only []
    have hf : (getCacheLine c ptr).1 = none := by rw [← hcg.1]; exact hfind
    have hfr : getSetIndex c ptr ∉ c.lockedLines := by
      unfold freeOp at hfree
      simp only [victimTag, hf] at hfree
      simpa using hfree
    obtain ⟨rc1, fi1, e1, e2⟩ := addToCache_retag env
      (countMiss (getCacheLine (setQueue (countH2D c cb) q) ptr).2) o rc fi ptr cb b Flag.BOTH
      (by
        show (getCacheLine (setQueue (countH2D c cb) q) ptr).2.organisation = _
        rw [getCacheLine_organisation]; exact hdm) hsa
      (by
        show (getCacheLine (setQueue (countH2D c cb) q) ptr).2.nrOfLinesPerSet = _
        rw [getCacheLine_nrOfLinesPerSet]; exact hL)
      (by
        show ptr % (getCacheLine (setQueue (countH2D c cb) q) ptr).2.nrOfSets ∉
          (getCacheLine (setQueue (countH2D c cb) q) ptr).2.lockedLines
        rw [getCacheLine_nrOfSets, getCacheLine_lockedLines]
        exact hfr)
    rw [e1, e2]
    refine ⟨_, rc1, fi1, rfl, ?_⟩
    simp only [Res.map]
    rw [retag_forwardWrite]
    rfl
  | some i =>
    simp only []
    by_cases hcpu : (lineAt (getCacheLine (setQueue (countH2D c cb) q) ptr).2.lines i).flag =
        Flag.CPU
    · rw [if_pos hcpu, if_pos hcpu]
      obtain ⟨e1, e2⟩ := addToCache_retag_idx env
        (countMiss (getCacheLine (setQueue (countH2D c cb) q) ptr).2) o rc fi ptr cb b
        Flag.BOTH i
      rw [e1, e2]
      refine ⟨_, rc, fi, rfl, ?_⟩
      simp only [Res.map]
      rw [retag_forwardWrite]
      rfl
    · rw [if_neg hcpu, if_neg hcpu]
      split
      · refine ⟨_, rc, fi, rfl, ?_⟩
        rw [retag_countHit, retag_releaseMemObject, retag_lockLine]
      · refine ⟨_, rc, fi, rfl, ?_⟩
        rw [retag_countHit, retag_lockLine]

theorem enqueueReadBuffer_retag (env : Env) (c : Cache) (o : Organisation) (rc : Nat)
    (fi : List Nat) (q b bl off cb ptr ne wl : Nat)
    (hdm : c.organisation = Organisation.DIRECT_MAPPING) (hsa : o ≠ Organisation.DIRECT_MAPPING)
    (hL : c.nrOfLinesPerSet = 1) :
    ∃ r rc1 fi1, enqueueReadBuffer env c q b bl off cb ptr ne wl = Res.ok r ∧
      enqueueReadBuffer env (retag c o rc fi) q b bl off cb ptr ne wl =
        Res.ok (r.1, retag r.2 o rc1 fi1) := by
  unfold enqueueReadBuffer
  simp only [retag_readEntry]
  have hwb : ∀ x : Cache, (retag x o rc fi).write_back = x.write_back := fun _ => rfl
  have hlines : ∀ x : Cache, (retag x o rc fi).lines = x.lines := fun _ => rfl
  have htrace : ∀ x : Cache, (retag x o rc fi).trace = x.trace := fun _ => rfl
  have hc1 : (if (readEntry c q cb).write_back = false then
        forwardRead env (retag (readEntry c q cb) o rc fi) q b bl off cb ptr ne wl
        else retag (readEntry c q cb) o rc fi) =
      retag (if (readEntry c q cb).write_back = false then
        forwardRead env (readEntry c q cb) q b bl off cb ptr ne wl
        else readEntry c q cb) o rc fi := by
    split
    · rw [retag_forwardRead]
    · rfl
  simp only [hwb, htrace, hc1, retag_getCacheLine, hlines]
  obtain ⟨_, _, e3, _, e5, _, e7, _, _, _⟩ := readBuffer_lookup_state env c q b bl off cb ptr ne
    wl _ rfl
  generalize (if (readEntry c q cb).write_back = false then
        forwardRead env (readEntry c q cb) q b bl off cb ptr ne wl
        else readEntry c q cb) = c1 at *
  generalize (if (readEntry c q cb).write_back = false then
    env.status (readEntry c q cb).trace.length else CL_SUCCESS) = err
  cases hfind : (getCacheLine c1 ptr).1 with
  | none =>
    simp only []
    obtain ⟨rc1, fi1, e1, e2⟩ := addToCache_retag env (getCacheLine c1 ptr).2 o rc fi ptr cb b
      (if (getCacheLine c1 ptr).2.write_back = false ∧ env.write_through = true
        then Flag.BOTH else Flag.GPU)
      (by rw [getCacheLine_organisation, e5]; exact hdm) hsa
      (by rw [getCacheLine_nrOfLinesPerSet, e3]; exact hL)
      (by rw [getCacheLine_lockedLines, e7]; simp)
    rw [e1, e2]
    refine ⟨_, rc1, fi1, rfl, ?_⟩
    simp only [Res.map]
    rw [retag_clearLocks]
  | some i =>
    simp only []
    split
    · refine ⟨_, rc, fi, rfl, ?_⟩
      rw [retag_releaseMemObject, retag_clearLocks]
    · refine ⟨_, rc, fi, rfl, ?_⟩
      rw [retag_clearLocks]
theorem step_retag (env : Env) (c : Cache) (o : Organisation) (rc : Nat) (fi : List Nat)
    (op : Op)
    (hdm : c.organisation = Organisation.DIRECT_MAPPING) (hsa : o ≠ Organisation.DIRECT_MAPPING)
    (hL : c.nrOfLinesPerSet = 1) (hfree : freeOp c op = true) :
    ∃ r rc1 fi1, step env c op = Res.ok r ∧
      step env (retag c o rc fi) op = Res.ok (r.1, retag r.2 o rc1 fi1) := by
  cases op with
  | createBuffer context flags size host_ptr errcode =>
    obtain ⟨r, rc1, fi1, e1, e2⟩ := createBuffer_retag env c o rc fi context flags size host_ptr
      errcode hdm hsa hL hfree
    simp only [step, e1, e2]
    exact ⟨_, rc1, fi1, rfl, rfl⟩
  | enqueueWriteBuffer q b bl off cb ptr ne wl =>
    simp only [step]
    exact enqueueWriteBuffer_retag env c o rc fi q b bl off cb ptr ne wl hdm hsa hL hfree
  | enqueueReadBuffer q b bl off cb ptr ne wl =>
    obtain ⟨r, rc1, fi1, e1, e2⟩ := enqueueReadBuffer_retag env c o rc fi q b bl off cb ptr ne wl
      hdm hsa hL
    simp only [step, e1, e2]
    exact ⟨_, rc1, fi1, rfl, rfl⟩
  | setKernelArg kernel index size value =>
    simp only [step, retag_setKernelArg]
    exact ⟨_, rc, fi, rfl, rfl⟩
  | enqueueNDRangeKernel q kernel wd gwo gws lws ne wl =>
    simp only [step, retag_enqueueNDRangeKernel]
    exact ⟨_, rc, fi, rfl, rfl⟩
  | writeBack =>
    simp only [step, retag_writeBack]
    exact ⟨_, rc, fi, rfl, rfl⟩
  | writeBackPtr host_ptr =>
    simp only [step, retag_writeBackPtr]
    exact ⟨_, rc, fi, rfl, rfl⟩
  | setDirtyFlag ptr flag =>
    simp only [step, retag_setDirtyFlag]
    exact ⟨_, rc, fi, rfl, rfl⟩
  | resetCache =>
    simp only [step, retag_resetCache]
    exact ⟨_, rc, fi, rfl, rfl⟩
  | resetTimers =>
    simp only [step, retag_resetTimers]
    exact ⟨_, rc, fi, rfl, rfl⟩

/-- A call that returns keeps the organisation and the number of lines per
set. -/
theorem step_geometry (env : Env) (c : Cache) (op : Op) (r : (Int × Nat) × Cache)
    (h : step env c op = Res.ok r) :
    r.2.organisation = c.organisation ∧ r.2.nrOfLinesPerSet = c.nrOfLinesPerSet := by
  have hg : ∀ c1 : Cache, Geo c c1 →
      c1.organisation = c.organisation ∧ c1.nrOfLinesPerSet = c.nrOfLinesPerSet :=
    fun c1 g => ⟨g.2.2.2.1, g.2.1⟩
  cases op with
  | createBuffer context flags size host_ptr errcode =>
    simp only [step] at h
    cases hc : createBuffer env c context flags size host_ptr errcode with
    | ok a =>
      rw [hc] at h
      simp only [Res.ok.injEq] at h
      rw [← h]
      exact hg _ (geo_createBuffer env c context flags size host_ptr errcode a hc)
    | fatal => rw [hc] at h; simp at h
    | undefined => rw [hc] at h; simp at h
    | diverge => rw [hc] at h; simp at h
  | enqueueWriteBuffer q b bl off cb ptr ne wl =>
    simp only [step] at h
    exact hg _ (geo_enqueueWriteBuffer env c q b bl off cb ptr ne wl r h)
  | enqueueReadBuffer q b bl off cb ptr ne wl =>
    simp only [step] at h
    cases hc : enqueueReadBuffer env c q b bl off cb ptr ne wl with
    | ok a =>
      rw [hc] at h
      simp only [Res.ok.injEq] at h
      rw [← h]
      exact hg _ (geo_enqueueReadBuffer env c q b bl off cb ptr ne wl a hc)
    | fatal => rw [hc] at h; simp at h
    | undefined => rw [hc] at h; simp at h
    | diverge => rw [hc] at h; simp at h
  | setKernelArg kernel index size value =>
    simp only [step, Res.ok.injEq] at h
    rw [← h]
    exact ⟨rfl, rfl⟩
  | enqueueNDRangeKernel q kernel wd gwo gws lws ne wl =>
    simp only [step, Res.ok.injEq] at h
    rw [← h]
    unfold enqueueNDRangeKernel
    exact hg _ (Geo.geoTrans ⟨rfl, rfl, rfl, rfl, rfl⟩ (geo_markArguments _ _))
  | writeBack =>
    simp only [step, Res.ok.injEq] at h
    rw [← h]
    exact hg _ (geo_writeBack env c)
  | writeBackPtr host_ptr =>
    simp only [step, Res.ok.injEq] at h
    rw [← h]
    exact hg _ (geo_writeBackPtr env c host_ptr)
  | setDirtyFlag ptr flag =>
    simp only [step, Res.ok.injEq] at h
    rw [← h]
    exact hg _ (geo_setDirtyFlag c ptr flag)
  | resetCache =>
    simp only [step, Res.ok.injEq] at h
    rw [← h]
    obtain ⟨_, g2, _, g4, _⟩ := geo_releaseLoop env c.nrOfLines 0 c 0
    exact ⟨g4, g2⟩
  | resetTimers =>
    simp only [step, Res.ok.injEq] at h
    rw [← h]
    exact ⟨rfl, rfl⟩

/-- A sequence of calls none of which finds the candidate line of its
insertion locked returns on a direct-mapped cache, and returns the same on the
cache with another organisation and one line per set, with the same final
state up to the organisation, the `rand()` count and the FIFO cursors. -/
theorem run_retag (env : Env) (o : Organisation) (hsa : o ≠ Organisation.DIRECT_MAPPING)
    (ops : List Op) :
    ∀ (c : Cache) (rc : Nat) (fi : List Nat),
      c.organisation = Organisation.DIRECT_MAPPING → c.nrOfLinesPerSet = 1 →
      freeRun env ops c = true →
      ∃ r rc1 fi1, run env ops c = Res.ok r ∧
        run env ops (retag c o rc fi) = Res.ok (r.1, retag r.2 o rc1 fi1) := by
  induction ops with
  | nil =>
    intro c rc fi _ _ _
    exact ⟨_, rc, fi, rfl, rfl⟩
  | cons op ops ih =>
    intro c rc fi hdm hL hfree
    unfold freeRun at hfree
    simp only [Bool.and_eq_true] at hfree
    obtain ⟨a, rc1, fi1, e1, e2⟩ := step_retag env c o rc fi op hdm hsa hL hfree.1
    have hf2 := hfree.2
    rw [e1] at hf2
    simp only [] at hf2
    obtain ⟨g1, g2⟩ := step_geometry env c op a e1
    obtain ⟨rs, rc2, fi2, e3, e4⟩ := ih a.2 rc1 fi1 (by rw [g1]; exact hdm) (by rw [g2]; exact hL)
      hf2
    refine ⟨(a.1 :: rs.1, rs.2), rc2, fi2, ?_, ?_⟩
    · simp only [run, e1, e3]
    · simp only [run, e2, e4]

theorem initialise_direct (fuel : Nat) (rp : ReplacementPolicy) (cacheSize nrOfSet : Int)
    (write_back : Bool) (c : Cache)
    (h : initialise fuel Organisation.DIRECT_MAPPING rp cacheSize nrOfSet write_back = Res.ok c) :
    ∃ n : Int, c = freshCache Organisation.DIRECT_MAPPING rp n.toNat n.toNat 1 write_back := by
  unfold initialise at h
  simp only [] at h
  cases hg : getTableSize fuel cacheSize with
  | ok n =>
    rw [hg] at h
    simp only [] at h
    split at h
    · simp at h
    · simp only [Res.ok.injEq] at h
      exact ⟨n, h.symm⟩
  | fatal => rw [hg] at h; simp at h
  | undefined => rw [hg] at h; simp at h
  | diverge => rw [hg] at h; simp at h

theorem initialise_set_associative (fuel : Nat) (rp : ReplacementPolicy)
    (cacheSize nrOfSet : Int) (write_back : Bool) (c : Cache)
    (h : initialise fuel Organisation.SET_ASSOCIATIVE rp cacheSize nrOfSet write_back = Res.ok c) :
    ∃ n : Int, c = freshCache Organisation.SET_ASSOCIATIVE rp n.toNat
      (n * Int.tdiv cacheSize n).toNat (Int.tdiv cacheSize n).toNat write_back := by
  unfold initialise at h
  simp only [] at h
  cases hg : getTableSize fuel nrOfSet with
  | ok n =>
    rw [hg] at h
    simp only [] at h
    split at h
    · simp at h
    · simp only [Res.ok.injEq] at h
      exact ⟨n, h.symm⟩
  | fatal => rw [hg] at h; simp at h
  | undefined => rw [hg] at h; simp at h
  | diverge => rw [hg] at h; simp at h

/-- C19 (amended): take a direct-mapped cache and a set-associative cache, both
freshly constructed with the same replacement policy and write mode, with the
same number of sets, the second with one line per set.  For every sequence of
calls in which no call finds the candidate line of its insertion locked
(`freeRun`, evaluated along the direct-mapped run), both caches return, with
the same returned statuses and handles, and end in the same state (the same
line table, runtime trace, lock set, statistics and recorded kernel arguments)
up to the organisation, the count of `rand()` calls and the FIFO cursors. -/
theorem direct_mapped_as_one_line_sets (env : Env) (fuel fuel1 : Nat) (rp : ReplacementPolicy)
    (cacheSize nrOfSet cacheSize1 nrOfSet1 : Int) (write_back : Bool) (ops : List Op)
    (c c1 : Cache)
    (hdm : initialise fuel Organisation.DIRECT_MAPPING rp cacheSize nrOfSet write_back = Res.ok c)
    (hsa : initialise fuel1 Organisation.SET_ASSOCIATIVE rp cacheSize1 nrOfSet1 write_back =
      Res.ok c1)
    (hsets : c1.nrOfSets = c.nrOfSets) (hone : c1.nrOfLinesPerSet = 1)
    (hfree : freeRun env ops c = true) :
    ∃ r r1, run env ops c = Res.ok r ∧ run env ops c1 = Res.ok r1 ∧ r1.1 = r.1 ∧
      r1.2.trace = r.2.trace ∧ r1.2.lines = r.2.lines ∧
      r1.2 = retag r.2 Organisation.SET_ASSOCIATIVE r1.2.randCalls r1.2.FIFO_index := by
  obtain ⟨n, hc⟩ := initialise_direct fuel rp cacheSize nrOfSet write_back c hdm
  obtain ⟨m, hc1⟩ := initialise_set_associative fuel1 rp cacheSize1 nrOfSet1 write_back c1 hsa
  have hs : m.toNat = n.toNat := by
    rw [hc, hc1] at hsets
    exact hsets
  have hd : (Int.tdiv cacheSize1 m).toNat = 1 := by
    rw [hc1] at hone
    exact hone
  have hd1 : Int.tdiv cacheSize1 m = 1 := by omega
  have hret : c1 = retag c Organisation.SET_ASSOCIATIVE 0 (List.replicate n.toNat 0) := by
    rw [hc, hc1, hd1, Int.mul_one, hs]
    rfl
  obtain ⟨r, rc1, fi1, e1, e2⟩ := run_retag env Organisation.SET_ASSOCIATIVE
    (fun h => Organisation.noConfusion h) ops c 0 (List.replicate n.toNat 0)
    (by rw [hc]; rfl) (by rw [hc]; rfl) hfree
  rw [← hret] at e2
  exact ⟨r, _, e1, e2, rfl, rfl, rfl, rfl⟩

/-- C19 (amended), witness: caches of 3 sets, the direct-mapped one built for
the size 3 and the set-associative one for the size 3 with 3 sets, and the
example sequence whose host pointers `3` and `4` index to different sets; the
later write-buffer of `6`, which indexes to the set of `3`, comes after the
launch has cleared the lock set. -/
theorem direct_mapped_as_one_line_sets_witness :
    initialise 0 Organisation.DIRECT_MAPPING ReplacementPolicy.LRU 3 1 false =
        Res.ok (freshCache Organisation.DIRECT_MAPPING ReplacementPolicy.LRU 3 3 1 false) ∧
      initialise 0 Organisation.SET_ASSOCIATIVE ReplacementPolicy.LRU 3 3 false =
        Res.ok (freshCache Organisation.SET_ASSOCIATIVE ReplacementPolicy.LRU 3 3 1 false) ∧
      freeRun exEnv exOpsFree
        (freshCache Organisation.DIRECT_MAPPING ReplacementPolicy.LRU 3 3 1 false) = true ∧
      ∃ r r1, run exEnv exOpsFree
          (freshCache Organisation.DIRECT_MAPPING ReplacementPolicy.LRU 3 3 1 false) = Res.ok r ∧
        run exEnv exOpsFree
          (freshCache Organisation.SET_ASSOCIATIVE ReplacementPolicy.LRU 3 3 1 false) = Res.ok r1 ∧
        r1.1 = r.1 ∧ r1.2.trace = r.2.trace ∧ r1.2.lines = r.2.lines ∧
        r1.2 = retag r.2 Organisation.SET_ASSOCIATIVE r1.2.randCalls r1.2.FIFO_index :=
  ⟨by decide, by decide, by decide,
    direct_mapped_as_one_line_sets exEnv 0 0 ReplacementPolicy.LRU 3 1 3 3 false exOpsFree
      (freshCache Organisation.DIRECT_MAPPING ReplacementPolicy.LRU 3 3 1 false)
      (freshCache Organisation.SET_ASSOCIATIVE ReplacementPolicy.LRU 3 3 1 false)
      (by decide) (by decide) (by decide) (by decide) (by decide)⟩

set_option maxRecDepth 100000 in
/-- C19, counterexample: on caches of 3 sets, a write-buffer of the host
pointer `3` followed by one of the host pointer `6` (the first two calls of
the example sequence): both index to line 0, which the first call has locked.
The direct-mapped cache falls back to a random line and returns, with the tag
`6` in line 1; the set-associative cache with one line per set finds no
unlocked line in the set and ends in the fatal exit. -/
theorem direct_mapped_returns_set_associative_aborts :
    initialise 0 Organisation.DIRECT_MAPPING ReplacementPolicy.LRU 3 1 false =
        Res.ok (freshCache Organisation.DIRECT_MAPPING ReplacementPolicy.LRU 3 3 1 false) ∧
      initialise 0 Organisation.SET_ASSOCIATIVE ReplacementPolicy.LRU 3 3 false =
        Res.ok (freshCache Organisation.SET_ASSOCIATIVE ReplacementPolicy.LRU 3 3 1 false) ∧
      (run exEnv (exOps.take 2)
        (freshCache Organisation.DIRECT_MAPPING ReplacementPolicy.LRU 3 3 1 false)).map
          (fun r => (r.1, r.2.lines.map (fun l => l.tag))) =
        Res.ok ([(0, 7), (0, 8)], [3, 6, 0]) ∧
      run exEnv (exOps.take 2)
        (freshCache Organisation.SET_ASSOCIATIVE ReplacementPolicy.LRU 3 3 1 false) =
        Res.fatal := by
  refine ⟨by decide, by decide, by decide, by decide⟩

/-! ## C25: create-buffer without the copy-host-pointer flag -/

/-- C25: for every cache state, `createBuffer` called with flags that do not
hold `CL_MEM_COPY_HOST_PTR` issues exactly one runtime call, the
`clCreateBuffer` with the caller's arguments, returns the handle and leaves in
`*errcode_ret` the error code of that call, and leaves the line table, the lock
set, the FIFO cursors and every statistics counter (hits, misses, bytes, times)
as they were; the only other change is the buffer count, which grows by one. -/
theorem createBuffer_no_copy (env : Env) (c : Cache) (context flags size host_ptr : Nat)
    (errcode : Int) (hflags : flags &&& CL_MEM_COPY_HOST_PTR = 0) :
    ∃ c1, createBuffer env c context flags size host_ptr errcode =
        Res.ok ((env.mem c.trace.length, env.status c.trace.length), c1) ∧
      c1.trace = c.trace ++ [RtCall.clCreateBuffer context flags size host_ptr] ∧
      c1.lines = c.lines ∧ c1.lockedLines = c.lockedLines ∧ c1.FIFO_index = c.FIFO_index ∧
      c1.duration = c.duration ∧ c1.kernelArguments = c.kernelArguments ∧
      c1.randCalls = c.randCalls ∧ c1.buffers = add32 c.buffers 1 ∧
      c1 = { c with trace := c1.trace, buffers := c1.buffers } := by
  unfold createBuffer
  rw [if_neg (by rw [hflags]; simp)]
  exact ⟨_, rfl, rfl, rfl, rfl, rfl, rfl, rfl, rfl, rfl, rfl⟩

/-- C25, witness: on the example state, with the flags `0`. -/
theorem createBuffer_no_copy_witness :
    (0 &&& CL_MEM_COPY_HOST_PTR = 0) ∧
      ∃ c1, createBuffer exEnv exCacheA 1 0 64 3 0 =
        Res.ok ((exEnv.mem exCacheA.trace.length, exEnv.status exCacheA.trace.length), c1) ∧
      c1.trace = exCacheA.trace ++ [RtCall.clCreateBuffer 1 0 64 3] ∧
      c1.lines = exCacheA.lines ∧ c1.lockedLines = exCacheA.lockedLines ∧
      c1.FIFO_index = exCacheA.FIFO_index ∧
      c1.duration = exCacheA.duration ∧ c1.kernelArguments = exCacheA.kernelArguments ∧
      c1.randCalls = exCacheA.randCalls ∧ c1.buffers = add32 exCacheA.buffers 1 ∧
      c1 = { exCacheA with trace := c1.trace, buffers := c1.buffers } :=
  ⟨by decide, createBuffer_no_copy exEnv exCacheA 1 0 64 3 0 (by decide)⟩

/-! ## C26: what an insertion does to the line it overwrites -/

/-- C26: for every insertion that overwrites the index `i` of the table with
the incoming tag, size, handle and flag (`overwriteLine`; `addToCache` with a
supplied index is that at once, and `addToCache` without one is that for the
victim it chooses): the runtime calls issued are, in this order, the flush
read of the old line (its handle, its size, into its tag address), issued if
and only if write-back is on and the old flag is `GPU`, and the release of the
old handle, issued if and only if it is non-null and differs from the incoming
handle; afterwards line `i` is `(flag, age 0, tag, size, handle)`, which is
also what the insertion returns, the lock set is the old one with `i`
appended, and every other line is as it was. -/
theorem overwriteLine_spec (env : Env) (c : Cache) (i tag size deviceAddress : Nat)
    (flag : Flag) (hi : i < c.lines.length) :
    (overwriteLine env c i tag size deviceAddress flag).2.trace =
      c.trace ++
        (if c.write_back = true ∧ (lineAt c.lines i).flag = Flag.GPU then
          [RtCall.clEnqueueReadBuffer c.cache_command_queue (lineAt c.lines i).deviceAddress
            CL_TRUE 0 (lineAt c.lines i).size (lineAt c.lines i).tag 0 0] else []) ++
        (if (lineAt c.lines i).deviceAddress ≠ deviceAddress ∧
            (lineAt c.lines i).deviceAddress ≠ 0 then
          [RtCall.clReleaseMemObject (lineAt c.lines i).deviceAddress] else []) ∧
    lineAt (overwriteLine env c i tag size deviceAddress flag).2.lines i =
      { flag := flag, age := 0, tag := tag, size := size, deviceAddress := deviceAddress } ∧
    (overwriteLine env c i tag size deviceAddress flag).1 =
      { flag := flag, age := 0, tag := tag, size := size, deviceAddress := deviceAddress } ∧
    (overwriteLine env c i tag size deviceAddress flag).2.lockedLines = c.lockedLines ++ [i] ∧
    i ∈ (overwriteLine env c i tag size deviceAddress flag).2.lockedLines ∧
    (∀ j, j ≠ i → lineAt (overwriteLine env c i tag size deviceAddress flag).2.lines j =
      lineAt c.lines j) ∧
    (overwriteLine env c i tag size deviceAddress flag).2.lines.length = c.lines.length ∧
    addToCache env c tag size deviceAddress flag (i : Int) =
      Res.ok (overwriteLine env c i tag size deviceAddress flag) ∧
    (∀ a, addToCache env c tag size deviceAddress flag (-1) = Res.ok a →
      ∃ idx v, chooseVictim env c tag = Res.ok (idx, v) ∧
        v = { c with randCalls := v.randCalls, FIFO_index := v.FIFO_index } ∧
        a = overwriteLine env v idx tag size deviceAddress flag) := by
  have hfr := overwriteLine_frame env c i tag size deviceAddress flag
  have hlock : (overwriteLine env c i tag size deviceAddress flag).2.lockedLines =
      c.lockedLines ++ [i] := by rw [hfr]
  refine ⟨?_, ?_, rfl, hlock, ?_, ?_, ?_, ?_, ?_⟩
  · rw [overwriteLine_trace]
    rfl
  · rw [overwriteLine_lines, lineAt_setLine, if_pos ⟨rfl, hi⟩]
  · rw [hlock]; simp
  · intro j hj
    rw [overwriteLine_lines, lineAt_setLine, if_neg (fun h => hj h.1.symm)]
  · rw [overwriteLine_lines, length_setLine]
  · have hne : ¬ ((i : Int) = -1) := by omega
    unfold addToCache
    rw [if_neg hne]
    simp
  · intro a ha
    obtain ⟨idx, v, hv, hav⟩ := addToCache_choose env c tag size deviceAddress flag a ha
    obtain ⟨_, hv2, _⟩ := chooseVictim_ok env c tag (idx, v) hv
    exact ⟨idx, v, hv, hv2, hav⟩

/-- C26, witness: the one-line write-back example cache, whose line 0 holds the
host pointer `3` with the handle `7` and the flag `GPU`, overwritten by the
host pointer `6` with the handle `9`: the flush read of handle `7` into `3`,
then the release of `7`. -/
theorem overwriteLine_spec_witness :
    (0 < exCacheD.lines.length) ∧
      (overwriteLine exEnv exCacheD 0 6 4 9 Flag.BOTH).2.trace =
        [RtCall.clEnqueueReadBuffer 1 7 CL_TRUE 0 4 3 0 0, RtCall.clReleaseMemObject 7] ∧
      lineAt (overwriteLine exEnv exCacheD 0 6 4 9 Flag.BOTH).2.lines 0 =
        { flag := Flag.BOTH, age := 0, tag := 6, size := 4, deviceAddress := 9 } ∧
      (overwriteLine exEnv exCacheD 0 6 4 9 Flag.BOTH).2.lockedLines = [0] := by
  obtain ⟨h1, h2, _, h4, _⟩ := overwriteLine_spec exEnv exCacheD 0 6 4 9 Flag.BOTH (by decide)
  refine ⟨by decide, ?_, h2, h4⟩
  rw [h1]
  decide

/-! ## C27: the age of the line an LRU lookup finds -/

/-- C27, the code at a failing input: in the example state, an LRU cache
whose line 1 holds the host pointer `6` with the age 0, the lookup of `6` finds
line 1 and leaves it with the age 1, not 0: the scan sets the age of the match
to 0 and then increments it with every scanned line, whereas an insertion
leaves its line with the age 0.  The hit line is therefore no younger than a
line inserted before it: on the fresh fully associative LRU cache of two lines,
after write-buffers of `3` and `6`, a launch, a hit on `3` and a second launch
both lines have the age 1, and the next insertion, of the host pointer `9`,
evicts line 0, which holds the pointer `3` that was used last, and keeps the
pointer `6`, which was used least recently. -/
theorem getCacheLine_lru_matched_age_one :
    exCacheA.replacementPolicy = ReplacementPolicy.LRU ∧
      (lineAt exCacheA.lines 1).age = 0 ∧
      (getCacheLine exCacheA 6).1 = some 1 ∧
      (getCacheLine exCacheA 6).2.lines.map (fun l => l.age) = [1, 1] ∧
      (lineAt (getCacheLine exCacheA 6).2.lines 1).age ≠ 0 ∧
      (overwriteLine exEnv exCacheA 0 3 4 7 Flag.BOTH).1.age = 0 ∧
      (run exEnv exOpsLruHit
        (freshCache Organisation.FULLY_ASSOCIATIVE ReplacementPolicy.LRU 1 2 2 false)).map
          (fun r => (r.1, lineContents r.2.lines)) =
        Res.ok ([(0, 7), (0, 8), (0, 0), (0, 7), (0, 0)],
          [(Flag.BOTH, 3, 64, 7), (Flag.BOTH, 6, 64, 8)]) ∧
      (run exEnv exOpsLruHit
        (freshCache Organisation.FULLY_ASSOCIATIVE ReplacementPolicy.LRU 1 2 2 false)).map
          (fun r => r.2.lines.map (fun l => l.age)) = Res.ok [1, 1] ∧
      (run exEnv (exOpsLruHit ++ [Op.enqueueWriteBuffer 1 9 1 0 64 9 0 0])
        (freshCache Organisation.FULLY_ASSOCIATIVE ReplacementPolicy.LRU 1 2 2 false)).map
          (fun r => lineContents r.2.lines) =
        Res.ok [(Flag.BOTH, 9, 64, 9), (Flag.BOTH, 6, 64, 8)] := by
  refine ⟨by decide, by decide, by decide, by decide, by decide, by decide, by decide,
    by decide, by decide⟩

/-! ## C28: the LRU victim -/

/-- The scan of `getOldestIndex`, without age increase: either no scanned
unlocked line is older than the running maximum, and the running index is
returned, or the result is the first among the oldest scanned unlocked
lines. -/
theorem getOldestIndexLoop_max (locked : List Nat) (lines : List CacheLine) (n : Nat) :
    ∀ (idx : Nat) (oi oa : Int),
      ((getOldestIndexLoop locked false n idx lines oi oa).1 = oi ∧
        ∀ j, idx ≤ j → j < idx + n → j ∉ locked → (lineAt lines j).age ≤ oa) ∨
      ∃ k : Nat, (getOldestIndexLoop locked false n idx lines oi oa).1 = (k : Int) ∧
        idx ≤ k ∧ k < idx + n ∧ k ∉ locked ∧ oa < (lineAt lines k).age ∧
        (∀ j, idx ≤ j → j < idx + n → j ∉ locked → (lineAt lines j).age ≤ (lineAt lines k).age) ∧
        (∀ j, idx ≤ j → j < k → j ∉ locked → (lineAt lines j).age < (lineAt lines k).age) := by
  induction n with
  | zero =>
    intro idx oi oa
    left
    exact ⟨rfl, fun j h1 h2 => by omega⟩
  | succ n ih =>
    intro idx oi oa
    unfold getOldestIndexLoop
    simp only [Bool.false_eq_true, if_false]
    by_cases hage : (lineAt lines idx).age > oa
    · rw [if_pos hage]
      by_cases hl : idx ∈ locked
      · rw [if_pos hl]
        rcases ih (idx + 1) oi oa with ⟨h1, h2⟩ | ⟨k, h1, h2, h3, h4, h5, h6, h7⟩
        · left
          refine ⟨h1, fun j hj1 hj2 hj3 => ?_⟩
          by_cases hji : j = idx
          · subst hji; exact absurd hl hj3
          · exact h2 j (by omega) (by omega) hj3
        · right
          refine ⟨k, h1, by omega, by omega, h4, h5, fun j hj1 hj2 hj3 => ?_,
            fun j hj1 hj2 hj3 => ?_⟩
          · by_cases hji : j = idx
            · subst hji; exact absurd hl hj3
            · exact h6 j (by omega) (by omega) hj3
          · by_cases hji : j = idx
            · subst hji; exact absurd hl hj3
            · exact h7 j (by omega) hj2 hj3
      · rw [if_neg hl]
        right
        rcases ih (idx + 1) (idx : Int) (lineAt lines idx).age with
          ⟨h1, h2⟩ | ⟨k, h1, h2, h3, h4, h5, h6, h7⟩
        · refine ⟨idx, h1, le_refl _, by omega, hl, hage, fun j hj1 hj2 hj3 => ?_,
            fun j hj1 hj2 _ => by omega⟩
          by_cases hji : j = idx
          · subst hji; exact le_refl _
          · exact h2 j (by omega) (by omega) hj3
        · refine ⟨k, h1, by omega, by omega, h4, by omega, fun j hj1 hj2 hj3 => ?_,
            fun j hj1 hj2 hj3 => ?_⟩
          · by_cases hji : j = idx
            · subst hji; omega
            · exact h6 j (by omega) (by omega) hj3
          · by_cases hji : j = idx
            · subst hji; exact h5
            · exact h7 j (by omega) hj2 hj3
    · rw [if_neg hage]
      rcases ih (idx + 1) oi oa with ⟨h1, h2⟩ | ⟨k, h1, h2, h3, h4, h5, h6, h7⟩
      · left
        refine ⟨h1, fun j hj1 hj2 hj3 => ?_⟩
        by_cases hji : j = idx
        · subst hji; omega
        · exact h2 j (by omega) (by omega) hj3
      · right
        refine ⟨k, h1, by omega, by omega, h4, h5, fun j hj1 hj2 hj3 => ?_,
          fun j hj1 hj2 hj3 => ?_⟩
        · by_cases hji : j = idx
          · subst hji; omega
          · exact h6 j (by omega) (by omega) hj3
        · by_cases hji : j = idx
          · subst hji; omega
          · exact h7 j (by omega) hj2 hj3

/-- C28: under LRU, for every cache state and every set that has a line
outside the lock set (ages being non-negative, as they are in every state the
cache reaches before an age passes `INT_MAX`), the victim selection `getOldestIndex` returns a line of that
set which is not locked and has the largest age among the unlocked lines of
the set, the lowest index among those of that age, and it leaves the cache,
ages included, as it was; this is the line `addToCache` overwrites when the
cache is not direct-mapped. -/
theorem getOldestIndex_oldest (env : Env) (c : Cache) (setIndex : Nat)
    (hex : ∃ j, setIndex * c.nrOfLinesPerSet ≤ j ∧
      j < setIndex * c.nrOfLinesPerSet + c.nrOfLinesPerSet ∧ j ∉ c.lockedLines ∧
      0 ≤ (lineAt c.lines j).age) :
    ∃ i, getOldestIndex env c setIndex false = Res.ok (i, c) ∧
      setIndex * c.nrOfLinesPerSet ≤ i ∧ i < setIndex * c.nrOfLinesPerSet + c.nrOfLinesPerSet ∧
      i ∉ c.lockedLines ∧
      (∀ j, setIndex * c.nrOfLinesPerSet ≤ j →
        j < setIndex * c.nrOfLinesPerSet + c.nrOfLinesPerSet → j ∉ c.lockedLines →
        (lineAt c.lines j).age ≤ (lineAt c.lines i).age) ∧
      (∀ j, setIndex * c.nrOfLinesPerSet ≤ j → j < i → j ∉ c.lockedLines →
        (lineAt c.lines j).age < (lineAt c.lines i).age) ∧
      (∀ tag, c.organisation ≠ Organisation.DIRECT_MAPPING →
        c.replacementPolicy = ReplacementPolicy.LRU → getSetIndex c tag = setIndex →
        chooseVictim env c tag = Res.ok (i, c)) := by
  obtain ⟨j0, hj1, hj2, hj3, hj4⟩ := hex
  have hlines := (getOldestIndexLoop_spec c.lockedLines c.nrOfLinesPerSet
    (setIndex * c.nrOfLinesPerSet) c.lines (-1) (-1)).1
  rcases getOldestIndexLoop_max c.lockedLines c.lines c.nrOfLinesPerSet
    (setIndex * c.nrOfLinesPerSet) (-1) (-1) with ⟨_, h2⟩ | ⟨k, h1, h2, h3, h4, h5, h6, h7⟩
  · have := h2 j0 hj1 hj2 hj3
    omega
  · have hres : getOldestIndex env c setIndex false = Res.ok (k, c) := by
      unfold getOldestIndex
      simp only []
      rw [hlines, h1, if_neg (by omega)]
      simp
    refine ⟨k, hres, h2, h3, h4, h6, h7, ?_⟩
    intro tag horg hrp hs
    unfold chooseVictim
    simp only [horg, ne_eq, not_false_eq_true, if_true, hrp, hs]
    exact hres

/-- C28, witness: the example state with the ages 3, 5, 5 and no lock: the
victim is line 1, the first of the two oldest lines. -/
theorem getOldestIndex_oldest_witness :
    (∃ j, 0 * exCacheAges.nrOfLinesPerSet ≤ j ∧
      j < 0 * exCacheAges.nrOfLinesPerSet + exCacheAges.nrOfLinesPerSet ∧
      j ∉ exCacheAges.lockedLines ∧ 0 ≤ (lineAt exCacheAges.lines j).age) ∧
    getOldestIndex exEnv exCacheAges 0 false = Res.ok (1, exCacheAges) ∧
    ∃ i, getOldestIndex exEnv exCacheAges 0 false = Res.ok (i, exCacheAges) ∧
      ∀ j, 0 * exCacheAges.nrOfLinesPerSet ≤ j →
        j < 0 * exCacheAges.nrOfLinesPerSet + exCacheAges.nrOfLinesPerSet →
        j ∉ exCacheAges.lockedLines →
        (lineAt exCacheAges.lines j).age ≤ (lineAt exCacheAges.lines i).age := by
  have hex : ∃ j, 0 * exCacheAges.nrOfLinesPerSet ≤ j ∧
      j < 0 * exCacheAges.nrOfLinesPerSet + exCacheAges.nrOfLinesPerSet ∧
      j ∉ exCacheAges.lockedLines ∧ 0 ≤ (lineAt exCacheAges.lines j).age :=
    ⟨0, by decide, by decide, by decide, by decide⟩
  obtain ⟨i, h1, _, _, _, h5, _⟩ := getOldestIndex_oldest exEnv exCacheAges 0 hex
  exact ⟨hex, by decide, i, h1, h5⟩

/-! ## C29: the FIFO victim -/

/-- The FIFO loop with the budget `m + 1`: when the `k`-th candidate after the
cursor is the first that is not locked, and `k` is within the budget, the loop
ends there. -/
theorem fifoLoop_steps (L setIndex : Nat) (locked : List Nat) (hL : 0 < L) (hL32 : L < 2 ^ 32)
    (m : Nat) :
    ∀ (cur k : Nat), cur + 1 < 2 ^ 32 → 1 ≤ k → k ≤ m + 1 →
      (∀ t, 1 ≤ t → t < k → (cur + t) % L + setIndex * L ∈ locked) →
      (cur + k) % L + setIndex * L ∉ locked →
      fifoLoop L setIndex locked (m + 1) cur =
        ((cur + k) % L, (cur + k) % L + setIndex * L, ((m + 2 - k : Nat) : Int)) := by
  induction m with
  | zero =>
    intro cur k hc hk1 hk2 _ hfree
    have hk : k = 1 := by omega
    subst hk
    have ha : add32 cur 1 = cur + 1 := by unfold add32; exact Nat.mod_eq_of_lt hc
    unfold fifoLoop
    rw [ha]
    simp [hfree]
  | succ m ih =>
    intro cur k hc hk1 hk2 hlocked hfree
    have ha : add32 cur 1 = cur + 1 := by unfold add32; exact Nat.mod_eq_of_lt hc
    unfold fifoLoop
    rw [ha]
    by_cases hk : k = 1
    · subst hk
      simp [hfree]
      omega
    · have h1 : (cur + 1) % L + setIndex * L ∈ locked := hlocked 1 (le_refl _) (by omega)
      simp only [h1, if_true, Nat.succ_pos]
      have hlt := Nat.mod_lt (cur + 1) hL
      have hmod : ∀ t, ((cur + 1) % L + t) % L = (cur + (t + 1)) % L := by
        intro t
        rw [Nat.mod_add_mod]
        congr 1
        omega
      have := ih ((cur + 1) % L) (k - 1) (by omega) (by omega) (by omega)
        (fun t ht1 ht2 => by rw [hmod]; exact hlocked (t + 1) (by omega) (by omega))
        (by rw [hmod, show k - 1 + 1 = k by omega]; exact hfree)
      rw [this, hmod, show k - 1 + 1 = k by omega]
      congr 2
      congr 1
      omega

/-- The FIFO loop with the budget `m + 1` ends with `maxIter = 0` when the
first `m + 1` candidates after the cursor are all locked. -/
theorem fifoLoop_exhausted (L setIndex : Nat) (locked : List Nat) (hL : 0 < L)
    (hL32 : L < 2 ^ 32) (m : Nat) :
    ∀ (cur : Nat), cur + 1 < 2 ^ 32 →
      (∀ t, 1 ≤ t → t ≤ m + 1 → (cur + t) % L + setIndex * L ∈ locked) →
      (fifoLoop L setIndex locked (m + 1) cur).2.2 = 0 := by
  induction m with
  | zero =>
    intro cur hc hlocked
    have ha : add32 cur 1 = cur + 1 := by unfold add32; exact Nat.mod_eq_of_lt hc
    unfold fifoLoop
    rw [ha]
    simp [hlocked 1 (le_refl _) (le_refl _)]
  | succ m ih =>
    intro cur hc hlocked
    have ha : add32 cur 1 = cur + 1 := by unfold add32; exact Nat.mod_eq_of_lt hc
    unfold fifoLoop
    rw [ha]
    have h1 : (cur + 1) % L + setIndex * L ∈ locked := hlocked 1 (le_refl _) (by omega)
    simp only [h1, if_true, Nat.succ_pos]
    have hlt := Nat.mod_lt (cur + 1) hL
    have hmod : ∀ t, ((cur + 1) % L + t) % L = (cur + (t + 1)) % L := by
      intro t
      rw [Nat.mod_add_mod]
      congr 1
      omega
    exact ih ((cur + 1) % L) (by omega)
      (fun t ht1 ht2 => by rw [hmod]; exact hlocked (t + 1) (by omega) (by omega))

/-- C29: under FIFO, for a set `s` with the cursor `cur` in a cache with `L`
lines per set (`0 < L`; `L` is an `int` and the cursor an `unsigned int` below
`2^32 - 1`, as every cursor the cache produces is): when `k ≥ 1` is the least
step for which line `s*L + ((cur + k) mod L)` is not in the lock set and
`k ≤ 1000`, the victim is that line, the cursor of `s` becomes
`(cur + k) mod L` and the cursors of the other sets are unchanged, as is the
rest of the cache; and the selection ends in the fatal exit exactly when the
first 1000 candidates after the cursor are all in the lock set.  This is the
selection `addToCache` makes under FIFO when the cache is not direct-mapped. -/
theorem fifoIndex_spec (env : Env) (c : Cache) (s : Nat)
    (hL : 0 < c.nrOfLinesPerSet) (hL32 : c.nrOfLinesPerSet < 2 ^ 32)
    (hcur : c.FIFO_index.getD s 0 + 1 < 2 ^ 32) (hs : s < c.FIFO_index.length) :
    (∀ k, 1 ≤ k → k ≤ 1000 →
      (∀ t, 1 ≤ t → t < k →
        s * c.nrOfLinesPerSet + (c.FIFO_index.getD s 0 + t) % c.nrOfLinesPerSet ∈ c.lockedLines) →
      s * c.nrOfLinesPerSet + (c.FIFO_index.getD s 0 + k) % c.nrOfLinesPerSet ∉ c.lockedLines →
      ∃ c1, fifoIndex c s =
          Res.ok (s * c.nrOfLinesPerSet + (c.FIFO_index.getD s 0 + k) % c.nrOfLinesPerSet, c1) ∧
        c1.FIFO_index.getD s 0 = (c.FIFO_index.getD s 0 + k) % c.nrOfLinesPerSet ∧
        (∀ s1, s1 ≠ s → c1.FIFO_index.getD s1 0 = c.FIFO_index.getD s1 0) ∧
        c1 = { c with FIFO_index := c1.FIFO_index }) ∧
    (fifoIndex c s = Res.fatal ↔
      ∀ t, 1 ≤ t → t ≤ 1000 →
        s * c.nrOfLinesPerSet + (c.FIFO_index.getD s 0 + t) % c.nrOfLinesPerSet ∈ c.lockedLines) ∧
    (∀ tag, c.organisation ≠ Organisation.DIRECT_MAPPING →
      c.replacementPolicy = ReplacementPolicy.FIFO → getSetIndex c tag = s →
      chooseVictim env c tag = fifoIndex c s) := by
  have hfound : ∀ k, 1 ≤ k → k ≤ 1000 →
      (∀ t, 1 ≤ t → t < k →
        s * c.nrOfLinesPerSet + (c.FIFO_index.getD s 0 + t) % c.nrOfLinesPerSet ∈ c.lockedLines) →
      s * c.nrOfLinesPerSet + (c.FIFO_index.getD s 0 + k) % c.nrOfLinesPerSet ∉ c.lockedLines →
      fifoIndex c s =
        Res.ok (s * c.nrOfLinesPerSet + (c.FIFO_index.getD s 0 + k) % c.nrOfLinesPerSet,
          { c with FIFO_index :=
            c.FIFO_index.set s ((c.FIFO_index.getD s 0 + k) % c.nrOfLinesPerSet) }) := by
    intro k hk1 hk2 hlocked hfree
    have hstep := fifoLoop_steps c.nrOfLinesPerSet s c.lockedLines hL hL32 999
      (c.FIFO_index.getD s 0) k hcur hk1 (by omega)
      (fun t ht1 ht2 => by rw [Nat.add_comm]; exact hlocked t ht1 ht2)
      (by rw [Nat.add_comm]; exact hfree)
    unfold fifoIndex
    rw [if_neg (by omega)]
    simp only []
    rw [hstep]
    simp only []
    rw [if_neg (by omega), Nat.add_comm]
  refine ⟨?_, ?_, ?_⟩
  · intro k hk1 hk2 hlocked hfree
    refine ⟨_, hfound k hk1 hk2 hlocked hfree, ?_, ?_, rfl⟩
    · show (c.FIFO_index.set s _).getD s 0 = _
      rw [List.getD_eq_getElem?_getD, List.getElem?_set]
      simp [hs]
    · intro s1 hs1
      show (c.FIFO_index.set s _).getD s1 0 = _
      rw [List.getD_eq_getElem?_getD, List.getD_eq_getElem?_getD, List.getElem?_set]
      simp [Ne.symm hs1]
  · constructor
    · intro hfatal
      by_contra hnot
      push_neg at hnot
      obtain ⟨t0, ht1, ht2, ht3⟩ := hnot
      -- the least unlocked candidate
      have hex : ∃ k, 1 ≤ k ∧ k ≤ 1000 ∧
          s * c.nrOfLinesPerSet + (c.FIFO_index.getD s 0 + k) % c.nrOfLinesPerSet ∉
            c.lockedLines := ⟨t0, ht1, ht2, ht3⟩
      obtain ⟨hk, hmin⟩ := Nat.find_spec hex, fun t => Nat.find_min hex (m := t)
      have := hfound (Nat.find hex) hk.1 hk.2.1
        (fun t ht1 ht2 => by
          by_contra hfree
          exact hmin t ht2 ⟨ht1, by omega, hfree⟩)
        hk.2.2
      rw [this] at hfatal
      simp at hfatal
    · intro hall
      have hz := fifoLoop_exhausted c.nrOfLinesPerSet s c.lockedLines hL hL32 999
        (c.FIFO_index.getD s 0) hcur
        (fun t ht1 ht2 => by rw [Nat.add_comm]; exact hall t ht1 (by omega))
      unfold fifoIndex
      rw [if_neg (by omega)]
      simp only []
      rw [if_pos hz]
  · intro tag horg hrp hst
    unfold chooseVictim
    simp only [horg, ne_eq, not_false_eq_true, if_true, hrp, hst]

/-- C29, witness: the three-line FIFO example with the cursor 0 and line 1
locked: the first candidate, line 1, is locked, the second, line 2, is the
victim, and the cursor becomes 2. -/
theorem fifoIndex_spec_witness :
    (0 < exCacheFifo.nrOfLinesPerSet) ∧ (exCacheFifo.nrOfLinesPerSet < 2 ^ 32) ∧
      (exCacheFifo.FIFO_index.getD 0 0 + 1 < 2 ^ 32) ∧ (0 < exCacheFifo.FIFO_index.length) ∧
      (0 * exCacheFifo.nrOfLinesPerSet +
        (exCacheFifo.FIFO_index.getD 0 0 + 2) % exCacheFifo.nrOfLinesPerSet = 2) ∧
      ∃ c1, fifoIndex exCacheFifo 0 =
          Res.ok (0 * exCacheFifo.nrOfLinesPerSet +
            (exCacheFifo.FIFO_index.getD 0 0 + 2) % exCacheFifo.nrOfLinesPerSet, c1) ∧
        c1.FIFO_index.getD 0 0 =
          (exCacheFifo.FIFO_index.getD 0 0 + 2) % exCacheFifo.nrOfLinesPerSet ∧
        (∀ s1, s1 ≠ 0 → c1.FIFO_index.getD s1 0 = exCacheFifo.FIFO_index.getD s1 0) ∧
        c1 = { exCacheFifo with FIFO_index := c1.FIFO_index } :=
  ⟨by decide, by decide, by decide, by decide, by decide,
    (fifoIndex_spec exEnv exCacheFifo 0 (by decide) (by decide) (by decide) (by decide)).1 2
      (by decide) (by decide)
      (fun t ht1 ht2 => by
        have ht : t = 1 := by omega
        subst ht
        decide)
      (by decide)⟩

/-! ## C30: the SMALLEST victim -/

theorem toSizeT_toInt32 (n : Nat) (h : n < 2 ^ 31) : toSizeT (toInt32 n) = n := by
  unfold toSizeT toInt32
  have h1 : n % 2 ^ 32 = n := Nat.mod_eq_of_lt (by omega)
  rw [h1, if_pos h]
  have h2 : ((n : Int) % 2 ^ 64) = (n : Int) := Int.emod_eq_of_lt (by omega) (by omega)
  rw [h2]
  simp

/-- The scan of `getSmallestDataLine` over lines whose sizes are below `2^31`:
either no scanned unlocked line is smaller than the running minimum, and the
running index is returned, or the result is the first among the smallest
scanned unlocked lines. -/
theorem getSmallestDataLineLoop_min (locked : List Nat) (lines : List CacheLine) (n : Nat) :
    ∀ (idx : Nat) (si ss : Int),
      (∀ j, idx ≤ j → j < idx + n → (lineAt lines j).size < 2 ^ 31) →
      (getSmallestDataLineLoop locked lines n idx si ss = si ∧
        ∀ j, idx ≤ j → j < idx + n → j ∉ locked → toSizeT ss ≤ (lineAt lines j).size) ∨
      ∃ k : Nat, getSmallestDataLineLoop locked lines n idx si ss = (k : Int) ∧
        idx ≤ k ∧ k < idx + n ∧ k ∉ locked ∧ (lineAt lines k).size < toSizeT ss ∧
        (∀ j, idx ≤ j → j < idx + n → j ∉ locked →
          (lineAt lines k).size ≤ (lineAt lines j).size) ∧
        (∀ j, idx ≤ j → j < k → j ∉ locked → (lineAt lines k).size < (lineAt lines j).size) := by
  induction n with
  | zero =>
    intro idx si ss _
    left
    exact ⟨rfl, fun j h1 h2 => by omega⟩
  | succ n ih =>
    intro idx si ss hsz
    have hrest : ∀ j, idx + 1 ≤ j → j < idx + 1 + n → (lineAt lines j).size < 2 ^ 31 :=
      fun j h1 h2 => hsz j (by omega) (by omega)
    unfold getSmallestDataLineLoop
    by_cases hlt : (lineAt lines idx).size < toSizeT ss
    · rw [if_pos hlt]
      by_cases hl : idx ∈ locked
      · rw [if_pos hl]
        rcases ih (idx + 1) si ss hrest with ⟨h1, h2⟩ | ⟨k, h1, h2, h3, h4, h5, h6, h7⟩
        · left
          refine ⟨h1, fun j hj1 hj2 hj3 => ?_⟩
          by_cases hji : j = idx
          · subst hji; exact absurd hl hj3
          · exact h2 j (by omega) (by omega) hj3
        · right
          refine ⟨k, h1, by omega, by omega, h4, h5, fun j hj1 hj2 hj3 => ?_,
            fun j hj1 hj2 hj3 => ?_⟩
          · by_cases hji : j = idx
            · subst hji; exact absurd hl hj3
            · exact h6 j (by omega) (by omega) hj3
          · by_cases hji : j = idx
            · subst hji; exact absurd hl hj3
            · exact h7 j (by omega) hj2 hj3
      · rw [if_neg hl]
        right
        have hconv : toSizeT (toInt32 (lineAt lines idx).size) = (lineAt lines idx).size :=
          toSizeT_toInt32 _ (hsz idx (le_refl _) (by omega))
        rcases ih (idx + 1) (idx : Int) (toInt32 (lineAt lines idx).size) hrest with
          ⟨h1, h2⟩ | ⟨k, h1, h2, h3, h4, h5, h6, h7⟩
        · rw [hconv] at h2
          refine ⟨idx, h1, le_refl _, by omega, hl, hlt, fun j hj1 hj2 hj3 => ?_,
            fun j hj1 hj2 _ => by omega⟩
          by_cases hji : j = idx
          · subst hji; exact le_refl _
          · exact h2 j (by omega) (by omega) hj3
        · rw [hconv] at h5
          refine ⟨k, h1, by omega, by omega, h4, by omega, fun j hj1 hj2 hj3 => ?_,
            fun j hj1 hj2 hj3 => ?_⟩
          · by_cases hji : j = idx
            · subst hji; omega
            · exact h6 j (by omega) (by omega) hj3
          · by_cases hji : j = idx
            · subst hji; exact h5
            · exact h7 j (by omega) hj2 hj3
    · rw [if_neg hlt]
      rcases ih (idx + 1) si ss hrest with ⟨h1, h2⟩ | ⟨k, h1, h2, h3, h4, h5, h6, h7⟩
      · left
        refine ⟨h1, fun j hj1 hj2 hj3 => ?_⟩
        by_cases hji : j = idx
        · subst hji; omega
        · exact h2 j (by omega) (by omega) hj3
      · right
        refine ⟨k, h1, by omega, by omega, h4, h5, fun j hj1 hj2 hj3 => ?_,
          fun j hj1 hj2 hj3 => ?_⟩
        · by_cases hji : j = idx
          · subst hji; omega
          · exact h6 j (by omega) (by omega) hj3
        · by_cases hji : j = idx
          · subst hji; omega
          · exact h7 j (by omega) hj2 hj3

/-- C30 (amended): under SMALLEST, for every cache state and every set that
has a line outside the lock set, and in which every line has a size below
`2^31` bytes (so that the `int` that keeps the running minimum holds it), the
victim selection `getSmallestDataLine` returns a line of the set, populated or
empty, that is not locked and whose size is less than or equal to the size of
every unlocked line of the set, the first such line, and leaves the cache as
it was; this is the line `addToCache` overwrites when the cache is not
direct-mapped. -/
theorem getSmallestDataLine_smallest (env : Env) (c : Cache) (setIndex : Nat)
    (hsz : ∀ j, setIndex * c.nrOfLinesPerSet ≤ j →
      j < setIndex * c.nrOfLinesPerSet + c.nrOfLinesPerSet → (lineAt c.lines j).size < 2 ^ 31)
    (hex : ∃ j, setIndex * c.nrOfLinesPerSet ≤ j ∧
      j < setIndex * c.nrOfLinesPerSet + c.nrOfLinesPerSet ∧ j ∉ c.lockedLines) :
    ∃ i, getSmallestDataLine env c setIndex = Res.ok (i, c) ∧
      setIndex * c.nrOfLinesPerSet ≤ i ∧ i < setIndex * c.nrOfLinesPerSet + c.nrOfLinesPerSet ∧
      i ∉ c.lockedLines ∧
      (∀ j, setIndex * c.nrOfLinesPerSet ≤ j →
        j < setIndex * c.nrOfLinesPerSet + c.nrOfLinesPerSet → j ∉ c.lockedLines →
        (lineAt c.lines i).size ≤ (lineAt c.lines j).size) ∧
      (∀ j, setIndex * c.nrOfLinesPerSet ≤ j → j < i → j ∉ c.lockedLines →
        (lineAt c.lines i).size < (lineAt c.lines j).size) ∧
      (∀ tag, c.organisation ≠ Organisation.DIRECT_MAPPING →
        c.replacementPolicy = ReplacementPolicy.SMALLEST → getSetIndex c tag = setIndex →
        chooseVictim env c tag = Res.ok (i, c)) := by
  obtain ⟨j0, hj1, hj2, hj3⟩ := hex
  have hm1 : toSizeT (-1) = 2 ^ 64 - 1 := by decide
  rcases getSmallestDataLineLoop_min c.lockedLines c.lines c.nrOfLinesPerSet
    (setIndex * c.nrOfLinesPerSet) (-1) (-1) hsz with ⟨_, h2⟩ | ⟨k, h1, h2, h3, h4, h5, h6, h7⟩
  · have := h2 j0 hj1 hj2 hj3
    have := hsz j0 hj1 hj2
    rw [hm1] at *
    omega
  · have hres : getSmallestDataLine env c setIndex = Res.ok (k, c) := by
      unfold getSmallestDataLine
      simp only []
      rw [h1, if_neg (by omega)]
      simp
    refine ⟨k, hres, h2, h3, h4, h6, h7, ?_⟩
    intro tag horg hrp hs
    unfold chooseVictim
    simp only [horg, ne_eq, not_false_eq_true, if_true, hrp, hs]
    exact hres

/-- C30 (amended), witness: the three-line example state, with the sizes 64,
16, 16 and no lock: the victim is line 1, the first of the two smallest. -/
theorem getSmallestDataLine_smallest_witness :
    (∀ j, 0 * exCacheAges.nrOfLinesPerSet ≤ j →
      j < 0 * exCacheAges.nrOfLinesPerSet + exCacheAges.nrOfLinesPerSet →
      (lineAt exCacheAges.lines j).size < 2 ^ 31) ∧
    getSmallestDataLine exEnv exCacheAges 0 = Res.ok (1, exCacheAges) ∧
    ∃ i, getSmallestDataLine exEnv exCacheAges 0 = Res.ok (i, exCacheAges) ∧
      ∀ j, 0 * exCacheAges.nrOfLinesPerSet ≤ j →
        j < 0 * exCacheAges.nrOfLinesPerSet + exCacheAges.nrOfLinesPerSet →
        j ∉ exCacheAges.lockedLines →
        (lineAt exCacheAges.lines i).size ≤ (lineAt exCacheAges.lines j).size := by
  have hsz : ∀ j, 0 * exCacheAges.nrOfLinesPerSet ≤ j →
      j < 0 * exCacheAges.nrOfLinesPerSet + exCacheAges.nrOfLinesPerSet →
      (lineAt exCacheAges.lines j).size < 2 ^ 31 := by
    intro j _ hj
    have hj3 : j < 3 := by simpa [exCacheAges, freshCache] using hj
    interval_cases j <;> decide
  obtain ⟨i, h1, _, _, _, h5, _⟩ := getSmallestDataLine_smallest exEnv exCacheAges 0 hsz
    ⟨0, by decide, by decide, by decide⟩
  exact ⟨hsz, by decide, i, h1, h5⟩

/-- C30, counterexample: two failing inputs.  In the two-line example state
`exCacheA`, whose line 0 is empty and whose line 1 is populated and not
locked, the selection returns the empty line 0.  In the state `exCacheBig`,
whose two populated unlocked lines have the sizes `2^32` and 16, the selection
returns line 0, of size `2^32`: the size is stored into the `int`
`smallestLineSize` as 0, and no later size is below 0. -/
theorem getSmallestDataLine_not_smallest_populated :
    getSmallestDataLine exEnv exCacheA 0 = Res.ok (0, exCacheA) ∧
      (lineAt exCacheA.lines 0).tag = 0 ∧ (lineAt exCacheA.lines 1).tag = 6 ∧
      1 ∉ exCacheA.lockedLines ∧
      getSmallestDataLine exEnv exCacheBig 0 = Res.ok (0, exCacheBig) ∧
      (lineAt exCacheBig.lines 0).size = 2 ^ 32 ∧ (lineAt exCacheBig.lines 1).size = 16 ∧
      (lineAt exCacheBig.lines 0).tag = 3 ∧ (lineAt exCacheBig.lines 1).tag = 6 ∧
      exCacheBig.lockedLines = [] := by
  refine ⟨by decide, by decide, by decide, by decide, by decide, by decide, by decide,
    by decide, by decide, by decide⟩

/-! ## C24: the status of the flush read of an eviction -/

/-- C24: on a fresh fully associative write-back cache of one line, with a
runtime whose call at trace position 3 fails with the status `-5`, the last
call of the example sequence, the write-buffer of the host pointer `6`, evicts
the line the launch has flagged `GPU`: the flush read of the handle `7` into
the host pointer `3` is the runtime call at position 3, it fails, and the
write-buffer hands back the status 0 (`CL_SUCCESS`) of its forwarded write. -/
theorem enqueueWriteBuffer_swallows_flush_status :
    initialise 0 Organisation.FULLY_ASSOCIATIVE ReplacementPolicy.LRU 1 1 true =
        Res.ok (freshCache Organisation.FULLY_ASSOCIATIVE ReplacementPolicy.LRU 1 1 1 true) ∧
      (run exEnvFlush exOpsEvict
          (freshCache Organisation.FULLY_ASSOCIATIVE ReplacementPolicy.LRU 1 1 1 true)).map
        (fun r => (r.1, r.2.trace)) =
        Res.ok ([(0, 7), (0, 0), (0, 0), (CL_SUCCESS, 8)],
          [RtCall.clEnqueueWriteBuffer 1 7 1 0 64 3 0 0, RtCall.clSetKernelArg 5 0 8 3,
            RtCall.clEnqueueNDRangeKernel 1 5 1 0 0 0 0 0,
            RtCall.clEnqueueReadBuffer 1 7 CL_TRUE 0 64 3 0 0,
            RtCall.clReleaseMemObject 7,
            RtCall.clEnqueueWriteBuffer 1 8 1 0 64 6 0 0]) ∧
      exEnvFlush.status 3 = -5 ∧ exEnvFlush.status 3 ≠ CL_SUCCESS := by
  refine ⟨by decide, by decide, by decide, by decide⟩

/-! ## State lemmas for the scenarios -/

/-- The lookup finds the one line of the probed set that holds the tag. -/
theorem getCacheLine_finds (c : Cache) (p idx : Nat) (hp : p ≠ 0)
    (hlo : getSetIndex c p * c.nrOfLinesPerSet ≤ idx)
    (hhi : idx < getSetIndex c p * c.nrOfLinesPerSet + c.nrOfLinesPerSet)
    (htag : (lineAt c.lines idx).tag = p)
    (huniq : ∀ j, getSetIndex c p * c.nrOfLinesPerSet ≤ j →
      j < getSetIndex c p * c.nrOfLinesPerSet + c.nrOfLinesPerSet → j ≠ idx →
      (lineAt c.lines j).tag ≠ p) :
    (getCacheLine c p).1 = some idx := by
  cases h : (getCacheLine c p).1 with
  | none =>
    rcases getCacheLine_none c p h with h0 | hn
    · exact absurd h0 hp
    · exact absurd htag (hn idx hlo hhi)
  | some i =>
    obtain ⟨_, h1, h2, h3⟩ := getCacheLine_some c p i h
    by_cases hi : i = idx
    · rw [hi]
    · exact absurd h3 (huniq i h1 h2 hi)

theorem Conf.confRefl (c : Cache) : Conf c c := ⟨Geo.geoRefl c, rfl, rfl⟩

theorem Conf.confTrans {c c1 c2 : Cache} (h1 : Conf c c1) (h2 : Conf c1 c2) : Conf c c2 :=
  ⟨h1.1.geoTrans h2.1, h2.2.1.trans h1.2.1, h2.2.2.trans h1.2.2⟩

theorem conf_getCacheLine (c : Cache) (tag : Nat) : Conf c (getCacheLine c tag).2 :=
  ⟨geo_getCacheLine c tag, by simp, by simp⟩

/-- What a write-buffer that misses and returns leaves: the line it chose,
which was not locked and lies in the set of the pointer (under direct mapping
when the candidate line was free), holds the pointer, the size, the caller's
handle and the flag `BOTH`; the other lines are as the lookup left them. -/
theorem enqueueWriteBuffer_miss_state (env : Env) (c : Cache)
    (q b bl off cb ptr ne wl : Nat) (r : (Int × Nat) × Cache)
    (hfind : (getCacheLine c ptr).1 = none)
    (h : enqueueWriteBuffer env c q b bl off cb ptr ne wl = Res.ok r) :
    ∃ idx, idx ∉ c.lockedLines ∧
      (c.organisation ≠ Organisation.DIRECT_MAPPING →
        getSetIndex c ptr * c.nrOfLinesPerSet ≤ idx ∧
        idx < getSetIndex c ptr * c.nrOfLinesPerSet + c.nrOfLinesPerSet) ∧
      (c.organisation = Organisation.DIRECT_MAPPING → getSetIndex c ptr ∉ c.lockedLines →
        idx = getSetIndex c ptr) ∧
      r.2.lines = setLine (getCacheLine c ptr).2.lines idx
        { flag := Flag.BOTH, age := 0, tag := ptr, size := cb, deviceAddress := b } ∧
      r.2.lockedLines = c.lockedLines ++ [idx] ∧ Conf c r.2 ∧ r.1.2 = b := by
  unfold enqueueWriteBuffer at h
  simp only [] at h
  have hcg := getCacheLine_congr c (setQueue (countH2D c cb) q) ptr rfl rfl rfl rfl
  rw [hcg.1, hfind] at h
  simp only [] at h
  cases hadd : addToCache env (countMiss (getCacheLine (setQueue (countH2D c cb) q) ptr).2)
      ptr cb b Flag.BOTH (-1) with
  | ok a =>
    rw [hadd] at h
    simp only [Res.map, Res.ok.injEq] at h
    obtain ⟨idx, v, hv, ha⟩ := addToCache_choose env _ ptr cb b Flag.BOTH a hadd
    have g := geo_addToCache env _ ptr cb b Flag.BOTH (-1) a hadd
    subst ha
    subst h
    obtain ⟨hnl, hvx0, hrange0⟩ := chooseVictim_ok env _ ptr (idx, v) hv
    have hvx : v = { countMiss (getCacheLine (setQueue (countH2D c cb) q) ptr).2 with
        randCalls := v.randCalls, FIFO_index := v.FIFO_index } := hvx0
    have hfr := overwriteLine_frame env v idx ptr cb b Flag.BOTH
    have hl := overwriteLine_lines env v idx ptr cb b Flag.BOTH
    have hvl : v.lines = (getCacheLine c ptr).2.lines := by
      rw [hvx]
      show (getCacheLine (setQueue (countH2D c cb) q) ptr).2.lines = _
      exact hcg.2
    refine ⟨idx, ?_, ?_, ?_, ?_, ?_, ?_, ?_⟩
    · have : idx ∉ (getCacheLine (setQueue (countH2D c cb) q) ptr).2.lockedLines := hnl
      rw [getCacheLine_lockedLines] at this
      exact this
    · intro horg
      have := hrange0 (by
        show (getCacheLine (setQueue (countH2D c cb) q) ptr).2.organisation ≠ _
        rw [getCacheLine_organisation]; exact horg)
      have e1 : getSetIndex (countMiss (getCacheLine (setQueue (countH2D c cb) q) ptr).2) ptr =
          getSetIndex c ptr := by
        unfold getSetIndex
        show ptr % (getCacheLine (setQueue (countH2D c cb) q) ptr).2.nrOfSets = _
        rw [getCacheLine_nrOfSets]; rfl
      have e2 : (countMiss (getCacheLine (setQueue (countH2D c cb) q) ptr).2).nrOfLinesPerSet =
          c.nrOfLinesPerSet := by
        show (getCacheLine (setQueue (countH2D c cb) q) ptr).2.nrOfLinesPerSet = _
        rw [getCacheLine_nrOfLinesPerSet]; rfl
      rw [e1, e2] at this
      exact this
    · intro hdm hfree
      have hd := chooseVictim_direct_free env
        (countMiss (getCacheLine (setQueue (countH2D c cb) q) ptr).2) ptr
        (by
          show (getCacheLine (setQueue (countH2D c cb) q) ptr).2.organisation = _
          rw [getCacheLine_organisation]; exact hdm)
        (by
          show ptr % (getCacheLine (setQueue (countH2D c cb) q) ptr).2.nrOfSets ∉
            (getCacheLine (setQueue (countH2D c cb) q) ptr).2.lockedLines
          rw [getCacheLine_nrOfSets, getCacheLine_lockedLines]
          exact hfree)
      rw [hd] at hv
      simp only [Res.ok.injEq, Prod.mk.injEq] at hv
      rw [← hv.1]
      unfold getSetIndex
      show ptr % (getCacheLine (setQueue (countH2D c cb) q) ptr).2.nrOfSets = _
      rw [getCacheLine_nrOfSets]; rfl
    · show (overwriteLine env v idx ptr cb b Flag.BOTH).2.lines = _
      rw [hl, hvl]
    · show (overwriteLine env v idx ptr cb b Flag.BOTH).2.lockedLines = _
      rw [hfr]
      show v.lockedLines ++ [idx] = _
      rw [hvx]
      show (getCacheLine (setQueue (countH2D c cb) q) ptr).2.lockedLines ++ [idx] = _
      rw [getCacheLine_lockedLines]; rfl
    · have g0 : Geo c (countMiss (getCacheLine (setQueue (countH2D c cb) q) ptr).2) :=
        (((geo_countH2D c cb).geoTrans (geo_setQueue _ q)).geoTrans
          (geo_getCacheLine _ _)).geoTrans (geo_countMiss _)
      refine ⟨(g0.geoTrans g).geoTrans (geo_forwardWrite env _ q b bl off cb ptr ne wl),
        ?_, ?_⟩
      · show (overwriteLine env v idx ptr cb b Flag.BOTH).2.replacementPolicy = _
        rw [hfr]
        show v.replacementPolicy = _
        rw [hvx]
        show (getCacheLine (setQueue (countH2D c cb) q) ptr).2.replacementPolicy = _
        rw [getCacheLine_replacementPolicy]; rfl
      · show (overwriteLine env v idx ptr cb b Flag.BOTH).2.write_back = _
        rw [hfr]
        show v.write_back = _
        rw [hvx]
        show (getCacheLine (setQueue (countH2D c cb) q) ptr).2.write_back = _
        rw [getCacheLine_write_back]; rfl
    · rfl
  | fatal => rw [hadd] at h; simp [Res.map] at h
  | undefined => rw [hadd] at h; simp [Res.map] at h
  | diverge => rw [hadd] at h; simp [Res.map] at h

theorem set_range_lt_length (c : Cache) (hwf : WF c) (tag idx : Nat)
    (hhi : idx < getSetIndex c tag * c.nrOfLinesPerSet + c.nrOfLinesPerSet) :
    idx < c.lines.length := by
  obtain ⟨h1, h2, h3, h4, _⟩ := hwf
  have hs : getSetIndex c tag < c.nrOfSets := Nat.mod_lt _ h1
  have hbound : getSetIndex c tag * c.nrOfLinesPerSet + c.nrOfLinesPerSet ≤
      c.nrOfSets * c.nrOfLinesPerSet := by
    calc getSetIndex c tag * c.nrOfLinesPerSet + c.nrOfLinesPerSet
        = (getSetIndex c tag + 1) * c.nrOfLinesPerSet := by ring
      _ ≤ c.nrOfSets * c.nrOfLinesPerSet := Nat.mul_le_mul_right _ hs
  rw [h4, h3]
  omega

/-- A write-buffer that misses while no line is locked returns. -/
theorem enqueueWriteBuffer_miss_returns (env : Env) (c : Cache)
    (q b bl off cb ptr ne wl : Nat) (hwf : WF c) (hlock : c.lockedLines = [])
    (hfind : (getCacheLine c ptr).1 = none) :
    ∃ r, enqueueWriteBuffer env c q b bl off cb ptr ne wl = Res.ok r := by
  unfold enqueueWriteBuffer
  simp only []
  have hcg := getCacheLine_congr c (setQueue (countH2D c cb) q) ptr rfl rfl rfl rfl
  rw [hcg.1, hfind]
  simp only []
  have g0 : Geo c (countMiss (getCacheLine (setQueue (countH2D c cb) q) ptr).2) :=
    (((geo_countH2D c cb).geoTrans (geo_setQueue _ q)).geoTrans
      (geo_getCacheLine _ _)).geoTrans (geo_countMiss _)
  obtain ⟨idx, v, _, hadd, _, _⟩ := addToCache_unlocked env
    (countMiss (getCacheLine (setQueue (countH2D c cb) q) ptr).2) ptr cb b Flag.BOTH
    (hwf.geo g0)
    (by
      show (getCacheLine (setQueue (countH2D c cb) q) ptr).2.lockedLines = []
      rw [getCacheLine_lockedLines]; exact hlock)
  rw [hadd]
  exact ⟨_, rfl⟩

/-- What a read-buffer that finds the pointer does: the forwarded read unless
the cache is write-back, the release of the caller's buffer when it is not the
cached handle, an empty lock set, and a line table changed in its ages only. -/
theorem enqueueReadBuffer_hit_state (env : Env) (c : Cache)
    (q b bl off cb ptr ne wl i : Nat) (hfind : (getCacheLine c ptr).1 = some i) :
    ∃ c1, enqueueReadBuffer env c q b bl off cb ptr ne wl =
        Res.ok ((if c.write_back = false then env.status c.trace.length else CL_SUCCESS), c1) ∧
      c1.trace = c.trace ++
        (if c.write_back = false then [RtCall.clEnqueueReadBuffer q b bl off cb ptr ne wl]
          else []) ++
        (if b ≠ (lineAt c.lines i).deviceAddress then [RtCall.clReleaseMemObject b] else []) ∧
      AgeOnly c.lines c1.lines ∧ Conf c c1 ∧ c1.lockedLines = [] := by
  unfold enqueueReadBuffer
  simp only []
  obtain ⟨e1, e2, e3, e4, e5, e6, e7, e8, _, e10⟩ := readBuffer_lookup_state env c q
    b bl off cb ptr ne wl _ rfl
  have herr : (if (readEntry c q cb).write_back = false then
      env.status (readEntry c q cb).trace.length else CL_SUCCESS) =
      (if c.write_back = false then env.status c.trace.length else CL_SUCCESS) := rfl
  rw [herr]
  generalize (if (readEntry c q cb).write_back = false then
        forwardRead env (readEntry c q cb) q b bl off cb ptr ne wl
        else readEntry c q cb) = c1 at *
  have hcg := getCacheLine_congr c c1 ptr e1 e2 e3 e6
  have hA : AgeOnly c.lines (getCacheLine c1 ptr).2.lines := by
    rw [hcg.2]; exact getCacheLine_ageOnly c ptr
  have hdv : (lineAt (getCacheLine c1 ptr).2.lines i).deviceAddress =
      (lineAt c.lines i).deviceAddress := by
    rw [hcg.2]; exact (getCacheLine_lineAt c ptr i).2.2.2
  have hconf : Conf c (getCacheLine c1 ptr).2 := by
    refine Conf.confTrans ⟨⟨e2, e3, e4, e5, by rw [e1]⟩, e6, e8⟩ (conf_getCacheLine c1 ptr)
  rw [hcg.1, hfind]
  simp only []
  rw [hdv]
  by_cases hrel : b ≠ (lineAt c.lines i).deviceAddress
  · rw [if_pos hrel, if_pos hrel]
    unfold clearLocks releaseMemObject
    refine ⟨_, rfl, ?_, ?_, ?_, rfl⟩
    · show (getCacheLine c1 ptr).2.trace ++ [RtCall.clReleaseMemObject b] = _
      rw [getCacheLine_trace, e10]
    · exact hA
    · obtain ⟨⟨g1, g2, g3, g4, g5⟩, h2, h3⟩ := hconf
      exact ⟨⟨g1, g2, g3, g4, g5⟩, h2, h3⟩
  · rw [if_neg hrel, if_neg hrel]
    unfold clearLocks
    refine ⟨_, rfl, ?_, ?_, ?_, rfl⟩
    · show (getCacheLine c1 ptr).2.trace = _
      rw [getCacheLine_trace, e10, List.append_nil]
    · exact hA
    · obtain ⟨⟨g1, g2, g3, g4, g5⟩, h2, h3⟩ := hconf
      exact ⟨⟨g1, g2, g3, g4, g5⟩, h2, h3⟩

/-- What a kernel launch leaves: the one runtime call, an empty lock set, the
geometry, policy and write mode as they were, tags, sizes and handles as they
were, the flag `GPU` on every line the lookup finds for a recorded argument of
the kernel, and lookups that find what they found before. -/
theorem enqueueNDRangeKernel_state (env : Env) (c : Cache)
    (q kernel wd gwo gws lws ne wl : Nat) :
    (enqueueNDRangeKernel env c q kernel wd gwo gws lws ne wl).2.trace =
        c.trace ++ [RtCall.clEnqueueNDRangeKernel q kernel wd gwo gws lws ne wl] ∧
      (enqueueNDRangeKernel env c q kernel wd gwo gws lws ne wl).2.lockedLines = [] ∧
      Geo c (enqueueNDRangeKernel env c q kernel wd gwo gws lws ne wl).2 ∧
      (enqueueNDRangeKernel env c q kernel wd gwo gws lws ne wl).2.replacementPolicy =
        c.replacementPolicy ∧
      (enqueueNDRangeKernel env c q kernel wd gwo gws lws ne wl).2.write_back = c.write_back ∧
      (enqueueNDRangeKernel env c q kernel wd gwo gws lws ne wl).2.cache_command_queue =
        c.cache_command_queue ∧
      (∀ j, (lineAt (enqueueNDRangeKernel env c q kernel wd gwo gws lws ne wl).2.lines j).tag =
          (lineAt c.lines j).tag ∧
        (lineAt (enqueueNDRangeKernel env c q kernel wd gwo gws lws ne wl).2.lines j).size =
          (lineAt c.lines j).size ∧
        (lineAt (enqueueNDRangeKernel env c q kernel wd gwo gws lws ne wl).2.lines
          j).deviceAddress = (lineAt c.lines j).deviceAddress) ∧
      (∀ v ∈ kaLookup kernel c.kernelArguments, ∀ i, (getCacheLine c v).1 = some i →
        (lineAt (enqueueNDRangeKernel env c q kernel wd gwo gws lws ne wl).2.lines i).flag =
          Flag.GPU) ∧
      (∀ v, (getCacheLine (enqueueNDRangeKernel env c q kernel wd gwo gws lws ne wl).2 v).1 =
        (getCacheLine c v).1) := by
  unfold enqueueNDRangeKernel
  simp only [kaLookup_kaTouch]
  generalize hc1 : ({ c with
    lockedLines := []
    trace := c.trace ++ [RtCall.clEnqueueNDRangeKernel q kernel wd gwo gws lws ne wl]
    duration := { c.duration with kernel := add64 c.duration.kernel (env.eventTime c.trace.length) }
    kernelArguments := kaTouch kernel c.kernelArguments } : Cache) = c1
  have e1 : c1.lines = c.lines := by rw [← hc1]
  have e2 : c1.lockedLines = [] := by rw [← hc1]
  have e3 : c1.trace = c.trace ++ [RtCall.clEnqueueNDRangeKernel q kernel wd gwo gws lws ne wl] := by
    rw [← hc1]
  have e4 : Geo c c1 := by rw [← hc1]; exact ⟨rfl, rfl, rfl, rfl, rfl⟩
  have e5 : c1.replacementPolicy = c.replacementPolicy := by rw [← hc1]
  have e6 : c1.write_back = c.write_back := by rw [← hc1]
  have e7 : c1.cache_command_queue = c.cache_command_queue := by rw [← hc1]
  obtain ⟨h1, _, h3, h4⟩ :=
    markArguments_spec (env.argOrder (kaLookup kernel c.kernelArguments)) c1
  unfold SameButLines at h1
  have hcg1 : ∀ v, (getCacheLine c1 v).1 = (getCacheLine c v).1 :=
    fun v => (getCacheLine_congr c c1 v e1 e4.1 e4.2.1 e5).1
  have hcgr : ∀ v, (getCacheLine (markArguments c1
      (env.argOrder (kaLookup kernel c.kernelArguments))) v).1 = (getCacheLine c v).1 := by
    intro v
    rw [← hcg1 v]
    apply getCacheLine_fst_congr
    · exact fun j => (h3 j).1
    · rw [h1]
    · rw [h1]
    · rw [h1]
  refine ⟨by rw [h1]; exact e3, by rw [h1]; exact e2,
    e4.geoTrans (geo_markArguments _ _), by rw [h1]; exact e5, by rw [h1]; exact e6,
    by rw [h1]; exact e7, ?_, ?_, hcgr⟩
  · intro j
    obtain ⟨a1, a2, a3, _⟩ := h3 j
    rw [e1] at a1 a2 a3
    exact ⟨a1, a2, a3⟩
  · intro v hv i hi
    exact h4 v ((env.argOrder_perm _).mem_iff.mpr hv) i (by rw [hcg1]; exact hi)

/-- Under write-back, `writeBack(host_ptr)` on a line flagged `GPU`: the
one read of the handle of the line, of its size, into its tag address, and the
flag `BOTH` afterwards. -/
theorem writeBackPtr_flush (env : Env) (c : Cache) (host_ptr i : Nat)
    (hwb : c.write_back = true) (hfind : (getCacheLine c host_ptr).1 = some i)
    (hflag : (lineAt c.lines i).flag = Flag.GPU) :
    (writeBackPtr env c host_ptr).1 = Int.lor CL_SUCCESS (env.status c.trace.length) ∧
      (writeBackPtr env c host_ptr).2.trace = c.trace ++
        [RtCall.clEnqueueReadBuffer c.cache_command_queue (lineAt c.lines i).deviceAddress
          CL_TRUE 0 (lineAt c.lines i).size host_ptr 0 0] ∧
      (lineAt (writeBackPtr env c host_ptr).2.lines i).flag = Flag.BOTH ∧
      (lineAt (writeBackPtr env c host_ptr).2.lines i).tag = host_ptr ∧
      (lineAt (writeBackPtr env c host_ptr).2.lines i).deviceAddress =
        (lineAt c.lines i).deviceAddress := by
  obtain ⟨hp0, _, _, htag⟩ := getCacheLine_some c host_ptr i hfind
  obtain ⟨a1, a2, a3, a4⟩ := getCacheLine_lineAt c host_ptr i
  have hlen : i < (getCacheLine c host_ptr).2.lines.length := by
    rw [getCacheLine_length]
    exact lt_length_of_tag_ne_zero c.lines i (by rw [htag]; exact hp0)
  unfold writeBackPtr
  rw [if_neg (by rw [hwb]; simp)]
  simp only []
  rw [hfind]
  simp only []
  rw [a1, if_pos hflag]
  refine ⟨?_, ?_, ?_, ?_, ?_⟩
  · show Int.lor CL_SUCCESS (env.status (getCacheLine c host_ptr).2.trace.length) = _
    rw [getCacheLine_trace]
  · show (getCacheLine c host_ptr).2.trace ++ [RtCall.clEnqueueReadBuffer
      (getCacheLine c host_ptr).2.cache_command_queue
      (lineAt (getCacheLine c host_ptr).2.lines i).deviceAddress CL_TRUE 0
      (lineAt (getCacheLine c host_ptr).2.lines i).size
      (lineAt (getCacheLine c host_ptr).2.lines i).tag 0 0] = _
    rw [getCacheLine_trace, getCacheLine_cache_command_queue, a2, a3, a4, htag]
  · rw [flushLine_lines, lineAt_setFlag, if_pos ⟨rfl, hlen⟩]
  · rw [flushLine_lines, lineAt_setFlag, if_pos ⟨rfl, hlen⟩]
    show (lineAt (getCacheLine c host_ptr).2.lines i).tag = _
    rw [a3, htag]
  · rw [flushLine_lines, lineAt_setFlag, if_pos ⟨rfl, hlen⟩]
    exact a4

/-! ## C21: scenario "write-back mode defers the read" -/

theorem getCacheLine_freshCache (organisation : Organisation) (rp : ReplacementPolicy)
    (s l p : Nat) (wb : Bool) (tag : Nat) :
    (getCacheLine (freshCache organisation rp s l p wb) tag).1 = none := by
  cases h : (getCacheLine (freshCache organisation rp s l p wb) tag).1 with
  | none => rfl
  | some i =>
    obtain ⟨hp0, _, _, htag⟩ := getCacheLine_some _ tag i h
    have hz : (lineAt (freshCache organisation rp s l p wb).lines i).tag = 0 := by
      show (lineAt (List.replicate l zeroLine) i).tag = 0
      rw [lineAt_replicate]
      rfl
    rw [hz] at htag
    exact absurd htag.symm hp0

/-- A write-buffer of a non-null pointer on a fresh cache that is not
direct-mapped and has at least one line per set returns, and the lookup of the
pointer then finds a line that holds the pointer, the size, the caller's
handle and the flag `BOTH`. -/
theorem enqueueWriteBuffer_fresh (env : Env) (organisation : Organisation)
    (rp : ReplacementPolicy) (s l p : Nat) (wb : Bool) (q b bl off cb ptr ne wl : Nat)
    (hwf : WF (freshCache organisation rp s l p wb))
    (horg : organisation ≠ Organisation.DIRECT_MAPPING) (hptr : ptr ≠ 0) :
    ∃ r i, enqueueWriteBuffer env (freshCache organisation rp s l p wb) q b bl off cb ptr ne wl =
        Res.ok r ∧
      (getCacheLine r.2 ptr).1 = some i ∧
      lineAt r.2.lines i =
        { flag := Flag.BOTH, age := 0, tag := ptr, size := cb, deviceAddress := b } ∧
      (∀ j, j ≠ i → (lineAt r.2.lines j).tag = 0) ∧
      r.2.lockedLines = [i] ∧ Conf (freshCache organisation rp s l p wb) r.2 ∧ r.1.2 = b := by
  have hnone := getCacheLine_freshCache organisation rp s l p wb ptr
  obtain ⟨r, hr⟩ := enqueueWriteBuffer_miss_returns env _ q b bl off cb ptr ne wl hwf rfl hnone
  obtain ⟨idx, _, hrange, _, hlines, hlock, hconf, hb⟩ :=
    enqueueWriteBuffer_miss_state env _ q b bl off cb ptr ne wl r hnone hr
  have hrange := hrange horg
  have hlen : idx < (getCacheLine (freshCache organisation rp s l p wb) ptr).2.lines.length := by
    rw [getCacheLine_length]
    exact set_range_lt_length _ hwf ptr idx hrange.2
  have hl : ∀ j, lineAt r.2.lines j = if idx = j then
      { flag := Flag.BOTH, age := 0, tag := ptr, size := cb, deviceAddress := b }
      else lineAt (getCacheLine (freshCache organisation rp s l p wb) ptr).2.lines j := by
    intro j
    rw [hlines, lineAt_setLine]
    by_cases hj : idx = j
    · rw [if_pos ⟨hj, hlen⟩, if_pos hj]
    · rw [if_neg (fun h => hj h.1), if_neg hj]
  have hz : ∀ j, (lineAt (getCacheLine (freshCache organisation rp s l p wb) ptr).2.lines j).tag
      = 0 := by
    intro j
    rw [(getCacheLine_lineAt _ ptr j).2.2.1]
    show (lineAt (List.replicate l zeroLine) j).tag = 0
    rw [lineAt_replicate]
    rfl
  have g1 := hconf.1.1
  have g2 := hconf.1.2.1
  refine ⟨r, idx, hr, ?_, ?_, ?_, hlock, hconf, hb⟩
  · apply getCacheLine_finds r.2 ptr idx hptr
    · unfold getSetIndex
      rw [g1, g2]; exact hrange.1
    · unfold getSetIndex
      rw [g1, g2]; exact hrange.2
    · rw [hl idx, if_pos rfl]
    · intro j _ _ hj
      rw [hl j, if_neg (fun h => hj h.symm), hz j]
      exact fun h => hptr h.symm
  · rw [hl idx, if_pos rfl]
  · intro j hj
    rw [hl j, if_neg (fun h => hj h.symm), hz j]

/-- C21: on a fresh fully associative, 2-line, write-back cache, for every
replacement policy, every runtime behaviour, every non-null host pointer `hp`,
every size and every handle `h`: write-buffer(`h`, `hp`), set-kernel-arg with
the value `hp` and the launch of that kernel return, and the lookup of `hp`
then finds a line with the flag `GPU` (Device) that holds the handle `h`; a
following read-buffer(`h`, `hp`) returns `CL_SUCCESS`, issues no runtime call
at all and leaves that line flagged `GPU`; a following `writeBack(hp)` issues
exactly one runtime call, the read of the handle `h`, of the size written,
into `hp`, and leaves the line flagged `BOTH`. -/
theorem scenario_write_back_defers_read (env : Env) (rp : ReplacementPolicy) (fuel : Nat)
    (nrOfSet : Int) (hp cb h kernel : Nat)
    (q bl off ne wl index asize qk wd gwo gws lws nek wlk q2 bl2 off2 cb2 ne2 wl2 : Nat)
    (hhp : hp ≠ 0) :
    initialise fuel Organisation.FULLY_ASSOCIATIVE rp 2 nrOfSet true =
        Res.ok (freshCache Organisation.FULLY_ASSOCIATIVE rp 1 2 2 true) ∧
    ∃ r1 i,
      run env [Op.enqueueWriteBuffer q h bl off cb hp ne wl,
          Op.setKernelArg kernel index asize hp,
          Op.enqueueNDRangeKernel qk kernel wd gwo gws lws nek wlk]
        (freshCache Organisation.FULLY_ASSOCIATIVE rp 1 2 2 true) = Res.ok r1 ∧
      (getCacheLine r1.2 hp).1 = some i ∧
      (lineAt r1.2.lines i).flag = Flag.GPU ∧ (lineAt r1.2.lines i).deviceAddress = h ∧
      (lineAt r1.2.lines i).size = cb ∧
      ∃ c2, enqueueReadBuffer env r1.2 q2 h bl2 off2 cb2 hp ne2 wl2 = Res.ok (CL_SUCCESS, c2) ∧
        c2.trace = r1.2.trace ∧ (getCacheLine c2 hp).1 = some i ∧
        (lineAt c2.lines i).flag = Flag.GPU ∧
        (writeBackPtr env c2 hp).2.trace = c2.trace ++
          [RtCall.clEnqueueReadBuffer c2.cache_command_queue h CL_TRUE 0 cb hp 0 0] ∧
        (lineAt (writeBackPtr env c2 hp).2.lines i).flag = Flag.BOTH := by
  refine ⟨by simp [initialise], ?_⟩
  have hwf : WF (freshCache Organisation.FULLY_ASSOCIATIVE rp 1 2 2 true) :=
    ⟨Nat.one_pos, Nat.succ_pos 1, rfl, rfl, fun h => Organisation.noConfusion h⟩
  obtain ⟨rw1, i, hw, hfind1, hline1, _, _, hconf1, _⟩ :=
    enqueueWriteBuffer_fresh env Organisation.FULLY_ASSOCIATIVE rp 1 2 2 true q h bl off cb hp
      ne wl hwf (fun h => Organisation.noConfusion h) hhp
  have hrun : ∃ outs, run env [Op.enqueueWriteBuffer q h bl off cb hp ne wl,
      Op.setKernelArg kernel index asize hp,
      Op.enqueueNDRangeKernel qk kernel wd gwo gws lws nek wlk]
      (freshCache Organisation.FULLY_ASSOCIATIVE rp 1 2 2 true) =
      Res.ok (outs, (enqueueNDRangeKernel env (setKernelArg env rw1.2 kernel index asize hp).2
        qk kernel wd gwo gws lws nek wlk).2) := by
    simp only [run, step, hw]
    exact ⟨_, rfl⟩
  -- the state after set-kernel-arg
  have hcsdef : (setKernelArg env rw1.2 kernel index asize hp).2 =
      { rw1.2 with
        kernelArguments := kaInsert kernel hp rw1.2.kernelArguments
        trace := rw1.2.trace ++ [RtCall.clSetKernelArg kernel index asize hp] } := rfl
  generalize (setKernelArg env rw1.2 kernel index asize hp).2 = cs at hcsdef hrun
  have es1 : cs.lines = rw1.2.lines := by rw [hcsdef]
  have es2 : Conf rw1.2 cs := by
    rw [hcsdef]
    exact ⟨⟨rfl, rfl, rfl, rfl, rfl⟩, rfl, rfl⟩
  have es3 : hp ∈ kaLookup kernel cs.kernelArguments := by
    rw [hcsdef]
    exact (kaLookup_kaInsert kernel hp rw1.2.kernelArguments).1
  have hfind2 : (getCacheLine cs hp).1 = some i := by
    rw [(getCacheLine_congr rw1.2 cs hp es1 es2.1.1 es2.1.2.1 es2.2.1).1]
    exact hfind1
  -- the state after the launch
  obtain ⟨_, _, k3, k4, k5, _, k7, k8, k9⟩ :=
    enqueueNDRangeKernel_state env cs qk kernel wd gwo gws lws nek wlk
  generalize (enqueueNDRangeKernel env cs qk kernel wd gwo gws lws nek wlk).2 = c1 at *
  have hfind3 : (getCacheLine c1 hp).1 = some i := by rw [k9]; exact hfind2
  have hflag3 : (lineAt c1.lines i).flag = Flag.GPU := k8 hp es3 i hfind2
  have hdev3 : (lineAt c1.lines i).deviceAddress = h := by
    rw [(k7 i).2.2, es1, hline1]
  have hsize3 : (lineAt c1.lines i).size = cb := by
    rw [(k7 i).2.1, es1, hline1]
  have hwb3 : c1.write_back = true := by
    rw [k5, es2.2.2, hconf1.2.2]
    rfl
  obtain ⟨outs, hrun⟩ := hrun
  -- the read-buffer
  obtain ⟨c2, hread, htr2, hA2, hconf2, _⟩ :=
    enqueueReadBuffer_hit_state env c1 q2 h bl2 off2 cb2 hp ne2 wl2 i hfind3
  have hwbf : ¬ (c1.write_back = false) := by rw [hwb3]; simp
  have hnr : ¬ (h ≠ (lineAt c1.lines i).deviceAddress) := by rw [hdev3]; simp
  rw [if_neg hwbf] at hread
  rw [if_neg hwbf, if_neg hnr, List.append_nil, List.append_nil] at htr2
  have hfind4 : (getCacheLine c2 hp).1 = some i := by
    rw [getCacheLine_fst_congr c1 c2 hp (fun j => (hA2.2 j).2.2.1.symm) hconf2.1.1
      hconf2.1.2.1 hconf2.2.1]
    exact hfind3
  have hflag4 : (lineAt c2.lines i).flag = Flag.GPU := by
    rw [← (hA2.2 i).1]; exact hflag3
  have hdev4 : (lineAt c2.lines i).deviceAddress = h := by
    rw [← (hA2.2 i).2.2.2]; exact hdev3
  have hsize4 : (lineAt c2.lines i).size = cb := by
    rw [← (hA2.2 i).2.1]; exact hsize3
  have hwb4 : c2.write_back = true := by rw [hconf2.2.2]; exact hwb3
  obtain ⟨_, w2, w3, _, _⟩ := writeBackPtr_flush env c2 hp i hwb4 hfind4 hflag4
  rw [hdev4, hsize4] at w2
  exact ⟨(outs, c1), i, hrun, hfind3, hflag3, hdev3, hsize3, c2, hread, htr2, hfind4, hflag4,
    w2, w3⟩

/-- C21, witness: the scenario of the spec, with the host pointer `0x200`, under
LRU and with the example runtime. -/
theorem scenario_write_back_defers_read_witness :
    ((0x200 : Nat) ≠ 0) ∧
    initialise 0 Organisation.FULLY_ASSOCIATIVE ReplacementPolicy.LRU 2 1 true =
        Res.ok (freshCache Organisation.FULLY_ASSOCIATIVE ReplacementPolicy.LRU 1 2 2 true) ∧
    ∃ r1 i,
      run exEnv [Op.enqueueWriteBuffer 1 7 1 0 64 0x200 0 0,
          Op.setKernelArg 5 0 8 0x200,
          Op.enqueueNDRangeKernel 1 5 1 0 0 0 0 0]
        (freshCache Organisation.FULLY_ASSOCIATIVE ReplacementPolicy.LRU 1 2 2 true) =
        Res.ok r1 ∧
      (getCacheLine r1.2 0x200).1 = some i ∧
      (lineAt r1.2.lines i).flag = Flag.GPU ∧ (lineAt r1.2.lines i).deviceAddress = 7 ∧
      (lineAt r1.2.lines i).size = 64 ∧
      ∃ c2, enqueueReadBuffer exEnv r1.2 1 7 1 0 64 0x200 0 0 = Res.ok (CL_SUCCESS, c2) ∧
        c2.trace = r1.2.trace ∧ (getCacheLine c2 0x200).1 = some i ∧
        (lineAt c2.lines i).flag = Flag.GPU ∧
        (writeBackPtr exEnv c2 0x200).2.trace = c2.trace ++
          [RtCall.clEnqueueReadBuffer c2.cache_command_queue 7 CL_TRUE 0 64 0x200 0 0] ∧
        (lineAt (writeBackPtr exEnv c2 0x200).2.lines i).flag = Flag.BOTH :=
  ⟨by decide, scenario_write_back_defers_read exEnv ReplacementPolicy.LRU 0 1 0x200 64 7 5
    1 1 0 0 0 0 8 1 1 0 0 0 0 0 1 1 0 64 0 0 (by decide)⟩

/-! ## Sequences of calls, one call at a time -/

theorem run_cons_ok (env : Env) (op : Op) (ops : List Op) (c : Cache)
    (r : (Int × Nat) × Cache) (rs : List (Int × Nat) × Cache)
    (h1 : step env c op = Res.ok r) (h2 : run env ops r.2 = Res.ok rs) :
    run env (op :: ops) c = Res.ok (r.1 :: rs.1, rs.2) := by
  simp only [run, h1, h2]

theorem run_cons_fatal (env : Env) (op : Op) (ops : List Op) (c : Cache)
    (r : (Int × Nat) × Cache)
    (h1 : step env c op = Res.ok r) (h2 : run env ops r.2 = Res.fatal) :
    run env (op :: ops) c = Res.fatal := by
  simp only [run, h1, h2]

theorem run_head_fatal (env : Env) (op : Op) (ops : List Op) (c : Cache)
    (h1 : step env c op = Res.fatal) :
    run env (op :: ops) c = Res.fatal := by
  simp only [run, h1]

theorem step_createBuffer_fatal (env : Env) (c : Cache) (context flags size host_ptr : Nat)
    (errcode : Int) (h : createBuffer env c context flags size host_ptr errcode = Res.fatal) :
    step env c (Op.createBuffer context flags size host_ptr errcode) = Res.fatal := by
  simp only [step, h]

theorem step_enqueueReadBuffer_ok (env : Env) (c : Cache) (q b bl off cb ptr ne wl : Nat)
    (r : Int × Cache) (h : enqueueReadBuffer env c q b bl off cb ptr ne wl = Res.ok r) :
    step env c (Op.enqueueReadBuffer q b bl off cb ptr ne wl) = Res.ok ((r.1, 0), r.2) := by
  simp only [step, h]
/-! ## C22: scenario "stale host-flagged line is re-created" -/

/-- With every line of the set of the tag in the lock set, the victim
selection of a cache that is not direct-mapped ends in `exit(1)`, under every
replacement policy. -/
theorem chooseVictim_all_locked (env : Env) (c : Cache) (tag : Nat)
    (horg : c.organisation ≠ Organisation.DIRECT_MAPPING) (hL : 0 < c.nrOfLinesPerSet)
    (hall : ∀ j, getSetIndex c tag * c.nrOfLinesPerSet ≤ j →
      j < getSetIndex c tag * c.nrOfLinesPerSet + c.nrOfLinesPerSet → j ∈ c.lockedLines) :
    chooseVictim env c tag = Res.fatal := by
  unfold chooseVictim
  simp only []
  rw [if_pos horg]
  cases hrp : c.replacementPolicy with
  | LRU =>
    simp only []
    unfold getOldestIndex
    simp only []
    rw [getOldestIndexLoop_all_locked c.lockedLines false c.nrOfLinesPerSet _ _ _ _ hall,
      if_pos rfl]
    exact getRandomIndex_all_locked env _ _ hL hall
  | FIFO =>
    simp only []
    unfold fifoIndex
    rw [if_neg (by omega)]
    simp only []
    rw [fifoLoop_all_locked _ _ _ hall hL 999, if_pos rfl]
  | RANDOM =>
    simp only []
    exact getRandomIndex_all_locked env c _ hL hall
  | SMALLEST =>
    simp only []
    unfold getSmallestDataLine
    simp only []
    rw [getSmallestDataLineLoop_all_locked c.lockedLines c.lines c.nrOfLinesPerSet _ _ _ hall,
      if_pos rfl]
    exact getRandomIndex_all_locked env c _ hL hall

/-- A create-buffer with copy-host-pointer whose lookup finds a line flagged
`CPU` asks for a victim instead of overwriting the line it found: with every
line of the set in the lock set it ends in `exit(1)`. -/
theorem createBuffer_stale_all_locked (env : Env) (c : Cache)
    (context flags size host_ptr : Nat) (errcode : Int) (i : Nat)
    (hflags : flags &&& CL_MEM_COPY_HOST_PTR ≠ 0)
    (hfind : (getCacheLine c host_ptr).1 = some i)
    (hflag : (lineAt c.lines i).flag = Flag.CPU)
    (horg : c.organisation ≠ Organisation.DIRECT_MAPPING) (hL : 0 < c.nrOfLinesPerSet)
    (hall : ∀ j, getSetIndex c host_ptr * c.nrOfLinesPerSet ≤ j →
      j < getSetIndex c host_ptr * c.nrOfLinesPerSet + c.nrOfLinesPerSet → j ∈ c.lockedLines) :
    createBuffer env c context flags size host_ptr errcode = Res.fatal := by
  have e0 : (countH2D c size).lines = c.lines := by unfold countH2D; rfl
  have e1 : (countH2D c size).nrOfSets = c.nrOfSets := by unfold countH2D; rfl
  have e2 : (countH2D c size).nrOfLinesPerSet = c.nrOfLinesPerSet := by unfold countH2D; rfl
  have e3 : (countH2D c size).replacementPolicy = c.replacementPolicy := by
    unfold countH2D; rfl
  have e4 : (countH2D c size).lockedLines = c.lockedLines := by unfold countH2D; rfl
  have e5 : (countH2D c size).organisation = c.organisation := by unfold countH2D; rfl
  have hfind1 : (getCacheLine (countH2D c size) host_ptr).1 = some i := by
    rw [(getCacheLine_congr c (countH2D c size) host_ptr e0 e1 e2 e3).1]
    exact hfind
  have hflag1 : (lineAt (getCacheLine (countH2D c size) host_ptr).2.lines i).flag = Flag.CPU := by
    rw [(getCacheLine_lineAt _ host_ptr i).1, e0]
    exact hflag
  have hv : chooseVictim env
      (issueCreate (countMiss (getCacheLine (countH2D c size) host_ptr).2) context flags size
        host_ptr) host_ptr = Res.fatal := by
    have f1 : (issueCreate (countMiss (getCacheLine (countH2D c size) host_ptr).2) context flags
        size host_ptr).nrOfSets = c.nrOfSets := by
      unfold issueCreate countMiss
      simp only [getCacheLine_nrOfSets]
      exact e1
    have f2 : (issueCreate (countMiss (getCacheLine (countH2D c size) host_ptr).2) context flags
        size host_ptr).nrOfLinesPerSet = c.nrOfLinesPerSet := by
      unfold issueCreate countMiss
      simp only [getCacheLine_nrOfLinesPerSet]
      exact e2
    have f3 : (issueCreate (countMiss (getCacheLine (countH2D c size) host_ptr).2) context flags
        size host_ptr).lockedLines = c.lockedLines := by
      unfold issueCreate countMiss
      simp only [getCacheLine_lockedLines]
      exact e4
    have f4 : (issueCreate (countMiss (getCacheLine (countH2D c size) host_ptr).2) context flags
        size host_ptr).organisation = c.organisation := by
      unfold issueCreate countMiss
      simp only [getCacheLine_organisation]
      exact e5
    apply chooseVictim_all_locked
    · rw [f4]; exact horg
    · rw [f2]; exact hL
    · intro j h1 h2
      unfold getSetIndex at h1 h2
      rw [f1, f2] at h1 h2
      rw [f3]
      exact hall j h1 h2
  unfold createBuffer
  rw [if_pos hflags]
  simp only []
  rw [hfind1]
  simp only []
  rw [if_pos hflag1]
  unfold addToCache
  rw [if_pos rfl, hv]
  rfl

/-- C22: on the fresh fully associative cache of one line, for every
replacement policy, both write modes, every runtime behaviour and every
handle: the write-buffer of the host pointer `0x600` of 16 bytes returns and
`setDirtyFlag(0x600, CPU)` flags its line `CPU`; the following create-buffer of
`0x600` with copy-host-pointer does not return: it asks the replacement policy
for a victim instead of overwriting the line it found, the only line is in the
lock set, and the process ends in `exit(1)`. -/
theorem scenario_stale_line_recreate_aborts (env : Env) (rp : ReplacementPolicy) (wb : Bool)
    (fuel : Nat) (nrOfSet : Int) (q h bl off ne wl context : Nat) (errcode : Int) :
    initialise fuel Organisation.FULLY_ASSOCIATIVE rp 1 nrOfSet wb =
        Res.ok (freshCache Organisation.FULLY_ASSOCIATIVE rp 1 1 1 wb) ∧
      (∃ r, run env [Op.enqueueWriteBuffer q h bl off 16 0x600 ne wl,
            Op.setDirtyFlag 0x600 Flag.CPU]
          (freshCache Organisation.FULLY_ASSOCIATIVE rp 1 1 1 wb) = Res.ok r ∧
        (getCacheLine r.2 0x600).1 = some 0 ∧ (lineAt r.2.lines 0).flag = Flag.CPU ∧
        r.2.lockedLines = [0] ∧
        createBuffer env r.2 context CL_MEM_COPY_HOST_PTR 16 0x600 errcode = Res.fatal) ∧
      run env [Op.enqueueWriteBuffer q h bl off 16 0x600 ne wl,
          Op.setDirtyFlag 0x600 Flag.CPU,
          Op.createBuffer context CL_MEM_COPY_HOST_PTR 16 0x600 errcode]
        (freshCache Organisation.FULLY_ASSOCIATIVE rp 1 1 1 wb) = Res.fatal := by
  have hwf : WF (freshCache Organisation.FULLY_ASSOCIATIVE rp 1 1 1 wb) :=
    ⟨Nat.one_pos, Nat.one_pos, rfl, by simp [freshCache],
      fun h => Organisation.noConfusion h⟩
  obtain ⟨rw1, i, hw, hfind1, hline1, _, hlock1, hconf1, _⟩ :=
    enqueueWriteBuffer_fresh env Organisation.FULLY_ASSOCIATIVE rp 1 1 1 wb q h bl off 16 0x600
      ne wl hwf (fun h => Organisation.noConfusion h) (by decide)
  have g1 : rw1.2.nrOfSets = 1 := hconf1.1.1
  have g2 : rw1.2.nrOfLinesPerSet = 1 := hconf1.1.2.1
  have g4 : rw1.2.organisation = Organisation.FULLY_ASSOCIATIVE := hconf1.1.2.2.2.1
  have hi : i = 0 := by
    obtain ⟨_, a, b, _⟩ := getCacheLine_some rw1.2 0x600 i hfind1
    unfold getSetIndex at a b
    rw [g1, g2] at b
    omega
  subst hi
  have hs1 : step env (freshCache Organisation.FULLY_ASSOCIATIVE rp 1 1 1 wb)
      (Op.enqueueWriteBuffer q h bl off 16 0x600 ne wl) = Res.ok rw1 := hw
  have hs2 : step env rw1.2 (Op.setDirtyFlag 0x600 Flag.CPU) =
      Res.ok ((0, 0), setDirtyFlag rw1.2 0x600 Flag.CPU) := rfl
  have hfr := setDirtyFlag_frame rw1.2 0x600 Flag.CPU
  generalize hcd : setDirtyFlag rw1.2 0x600 Flag.CPU = cd at hfr hs2
  have hl := fun j => setDirtyFlag_lines rw1.2 0x600 Flag.CPU j
  rw [hcd] at hl
  have d1 : cd.nrOfSets = 1 := by rw [hfr]; exact g1
  have d2 : cd.nrOfLinesPerSet = 1 := by rw [hfr]; exact g2
  have d3 : cd.lockedLines = [0] := by rw [hfr]; exact hlock1
  have d4 : cd.organisation = Organisation.FULLY_ASSOCIATIVE := by rw [hfr]; exact g4
  have d5 : cd.replacementPolicy = rw1.2.replacementPolicy := by rw [hfr]
  have hfind2 : (getCacheLine cd 0x600).1 = some 0 := by
    rw [getCacheLine_fst_congr rw1.2 cd 0x600 (fun j => (hl j).1) (by rw [d1, g1])
      (by rw [d2, g2]) d5]
    exact hfind1
  have hflag2 : (lineAt cd.lines 0).flag = Flag.CPU := (hl 0).2.2.2.1 hfind1
  have hfatal : createBuffer env cd context CL_MEM_COPY_HOST_PTR 16 0x600 errcode =
      Res.fatal := by
    apply createBuffer_stale_all_locked env cd context CL_MEM_COPY_HOST_PTR 16 0x600 errcode 0
      (by decide) hfind2 hflag2 (by rw [d4]; exact fun h => Organisation.noConfusion h)
      (by rw [d2]; exact Nat.one_pos)
    intro j h1 h2
    unfold getSetIndex at h1 h2
    rw [d1, d2] at h1 h2
    rw [d3]
    have : j = 0 := by omega
    subst this
    simp
  have hinit : initialise fuel Organisation.FULLY_ASSOCIATIVE rp 1 nrOfSet wb =
      Res.ok (freshCache Organisation.FULLY_ASSOCIATIVE rp 1 1 1 wb) := by
    simp [initialise]
  have hrun2 := run_cons_ok env _ _ _ _ _ hs1 (run_cons_ok env _ [] _ _ _ hs2 rfl)
  have hrun3 := run_cons_fatal env _ _ _ _ hs1 (run_cons_fatal env _ _ _ _ hs2
    (run_head_fatal env _ [] _ (step_createBuffer_fatal env cd _ _ _ _ _ hfatal)))
  exact ⟨hinit, ⟨_, hrun2, hfind2, hflag2, d3, hfatal⟩, hrun3⟩

/-! ## C23: write, read back, write again -/

/-- C23: for every cache state of either write mode, every runtime behaviour
and every non-null host pointer `hp` the lookup does not find: when the
candidate line of `hp` is not in the lock set (a condition on direct-mapped
caches only) and the write-buffer of `hp` returns, then a read-buffer of `hp`
and a second write-buffer of `hp` with the same handle and size return, the
second write-buffer is a hit that hands back the same handle, and `nrOfSets`,
`nrOfLines` and the flag, tag, size and handle of every line are as they were
right after the first write-buffer. -/
theorem write_read_write_stable (env : Env) (c : Cache)
    (q b bl off cb hp ne wl q2 b2 bl2 off2 cb2 ne2 wl2 q3 bl3 off3 ne3 wl3 : Nat)
    (r1 : (Int × Nat) × Cache)
    (hwf : WF c) (hhp : hp ≠ 0)
    (hfree : c.organisation = Organisation.DIRECT_MAPPING → getSetIndex c hp ∉ c.lockedLines)
    (hnone : (getCacheLine c hp).1 = none)
    (h1 : enqueueWriteBuffer env c q b bl off cb hp ne wl = Res.ok r1) :
    ∃ r2 r3, enqueueReadBuffer env r1.2 q2 b2 bl2 off2 cb2 hp ne2 wl2 = Res.ok r2 ∧
      enqueueWriteBuffer env r2.2 q3 b bl3 off3 cb hp ne3 wl3 = Res.ok r3 ∧
      r3.1 = (CL_SUCCESS, b) ∧
      r3.2.nrOfSets = r1.2.nrOfSets ∧ r3.2.nrOfLines = r1.2.nrOfLines ∧
      r3.2.lines.length = r1.2.lines.length ∧
      ∀ j, (lineAt r3.2.lines j).flag = (lineAt r1.2.lines j).flag ∧
        (lineAt r3.2.lines j).tag = (lineAt r1.2.lines j).tag ∧
        (lineAt r3.2.lines j).size = (lineAt r1.2.lines j).size ∧
        (lineAt r3.2.lines j).deviceAddress = (lineAt r1.2.lines j).deviceAddress := by
  obtain ⟨idx, _, hrange, hdm, hlines, _, hconf, _⟩ :=
    enqueueWriteBuffer_miss_state env c q b bl off cb hp ne wl r1 hnone h1
  have hr : getSetIndex c hp * c.nrOfLinesPerSet ≤ idx ∧
      idx < getSetIndex c hp * c.nrOfLinesPerSet + c.nrOfLinesPerSet := by
    by_cases horg : c.organisation = Organisation.DIRECT_MAPPING
    · have hi := hdm horg (hfree horg)
      have hL := hwf.2.2.2.2 horg
      rw [hi, hL]
      omega
    · exact hrange horg
  have hlen : idx < (getCacheLine c hp).2.lines.length := by
    rw [getCacheLine_length]
    exact set_range_lt_length c hwf hp idx hr.2
  have hl : ∀ j, lineAt r1.2.lines j = if idx = j then
      { flag := Flag.BOTH, age := 0, tag := hp, size := cb, deviceAddress := b }
      else lineAt (getCacheLine c hp).2.lines j := by
    intro j
    rw [hlines, lineAt_setLine]
    by_cases hj : idx = j
    · rw [if_pos ⟨hj, hlen⟩, if_pos hj]
    · rw [if_neg (fun h => hj h.1), if_neg hj]
  have g1 := hconf.1.1
  have g2 := hconf.1.2.1
  have hfind1 : (getCacheLine r1.2 hp).1 = some idx := by
    apply getCacheLine_finds r1.2 hp idx hhp
    · unfold getSetIndex
      rw [g1, g2]; exact hr.1
    · unfold getSetIndex
      rw [g1, g2]; exact hr.2
    · rw [hl idx, if_pos rfl]
    · intro j h1 h2 hj
      unfold getSetIndex at h1 h2
      rw [g1, g2] at h1 h2
      rw [hl j, if_neg (fun h => hj h.symm), (getCacheLine_lineAt c hp j).2.2.1]
      rcases getCacheLine_none c hp hnone with h0 | hn
      · exact absurd h0 hhp
      · exact hn j h1 h2
  obtain ⟨c2, hread, _, hA2, hconf2, _⟩ :=
    enqueueReadBuffer_hit_state env r1.2 q2 b2 bl2 off2 cb2 hp ne2 wl2 idx hfind1
  have hfind2 : (getCacheLine c2 hp).1 = some idx := by
    rw [getCacheLine_fst_congr r1.2 c2 hp (fun j => (hA2.2 j).2.2.1.symm) hconf2.1.1
      hconf2.1.2.1 hconf2.2.1]
    exact hfind1
  have hline2 : (lineAt c2.lines idx).flag = Flag.BOTH ∧
      (lineAt c2.lines idx).deviceAddress = b := by
    rw [← (hA2.2 idx).1, ← (hA2.2 idx).2.2.2, hl idx, if_pos rfl]
    exact ⟨rfl, rfl⟩
  obtain ⟨c3, hw3, _, _, hA3, k1, _, _⟩ :=
    enqueueWriteBuffer_hit_state env c2 q3 b bl3 off3 cb hp ne3 wl3 idx hfind2
      (by rw [hline2.1]; exact fun h => Flag.noConfusion h)
  have hno : ¬ ((lineAt c2.lines idx).deviceAddress ≠ b ∧ b ≠ 0) := by
    rw [hline2.2]
    exact fun h => h.1 rfl
  rw [if_neg hno] at hw3
  have hgeo3 := geo_enqueueWriteBuffer env c2 q3 b bl3 off3 cb hp ne3 wl3 _ hw3
  refine ⟨_, _, hread, hw3, rfl, ?_, ?_, ?_, ?_⟩
  · exact hgeo3.1.trans hconf2.1.1
  · exact hgeo3.2.2.1.trans hconf2.1.2.2.1
  · exact hA3.1.symm.trans hA2.1.symm
  · intro j
    obtain ⟨a1, a2, a3, a4⟩ := hA2.2 j
    obtain ⟨b1, b2, b3, b4⟩ := hA3.2 j
    exact ⟨(a1.trans b1).symm, (a3.trans b3).symm, (a2.trans b2).symm, (a4.trans b4).symm⟩

/-- C23, witness: the fresh fully associative write-through cache of two
lines, the host pointer `3`, the handle `7` and the size 64. -/
theorem write_read_write_stable_witness :
    WF (freshCache Organisation.FULLY_ASSOCIATIVE ReplacementPolicy.LRU 1 2 2 false) ∧
    (getCacheLine (freshCache Organisation.FULLY_ASSOCIATIVE ReplacementPolicy.LRU 1 2 2 false)
      3).1 = none ∧
    ∃ r1, enqueueWriteBuffer exEnv
        (freshCache Organisation.FULLY_ASSOCIATIVE ReplacementPolicy.LRU 1 2 2 false)
        1 7 1 0 64 3 0 0 = Res.ok r1 ∧
      ∃ r2 r3, enqueueReadBuffer exEnv r1.2 1 7 1 0 64 3 0 0 = Res.ok r2 ∧
        enqueueWriteBuffer exEnv r2.2 1 7 1 0 64 3 0 0 = Res.ok r3 ∧
        r3.1 = (CL_SUCCESS, 7) ∧
        r3.2.nrOfSets = r1.2.nrOfSets ∧ r3.2.nrOfLines = r1.2.nrOfLines ∧
        r3.2.lines.length = r1.2.lines.length ∧
        ∀ j, (lineAt r3.2.lines j).flag = (lineAt r1.2.lines j).flag ∧
          (lineAt r3.2.lines j).tag = (lineAt r1.2.lines j).tag ∧
          (lineAt r3.2.lines j).size = (lineAt r1.2.lines j).size ∧
          (lineAt r3.2.lines j).deviceAddress = (lineAt r1.2.lines j).deviceAddress :=
  ⟨⟨Nat.one_pos, Nat.succ_pos 1, rfl, rfl, fun h => Organisation.noConfusion h⟩, by decide,
    (enqueueWriteBuffer exEnv
      (freshCache Organisation.FULLY_ASSOCIATIVE ReplacementPolicy.LRU 1 2 2 false)
      1 7 1 0 64 3 0 0).getD ((0, 0),
        freshCache Organisation.FULLY_ASSOCIATIVE ReplacementPolicy.LRU 1 2 2 false),
    by decide,
    write_read_write_stable exEnv
      (freshCache Organisation.FULLY_ASSOCIATIVE ReplacementPolicy.LRU 1 2 2 false)
      1 7 1 0 64 3 0 0 1 7 1 0 64 0 0 1 1 0 0 0 _
      ⟨Nat.one_pos, Nat.succ_pos 1, rfl, rfl, fun h => Organisation.noConfusion h⟩
      (by decide) (by decide) (by decide) (by decide)⟩

/-- C23, counterexample: on the direct-mapped write-through cache of three
lines, the write-buffer of the host pointer `3` takes and locks line 0; the
host pointer `6`, not cached, maps to line 0 too, so that its write-buffer
falls back to the random line 1.  The read-buffer of `6` then clears the lock
set, looks up line 0 only, misses, and overwrites line 0: after the second
write-buffer of `6` line 0 holds the pointer `6` and the handle `8`, where it
held the pointer `3` and the handle `7` right after the first write-buffer. -/
theorem write_read_write_direct_mapped_differs :
    initialise 10 Organisation.DIRECT_MAPPING ReplacementPolicy.LRU 3 1 false =
        Res.ok (freshCache Organisation.DIRECT_MAPPING ReplacementPolicy.LRU 3 3 1 false) ∧
      (run exEnv [Op.enqueueWriteBuffer 1 7 1 0 64 3 0 0]
        (freshCache Organisation.DIRECT_MAPPING ReplacementPolicy.LRU 3 3 1 false)).map
          (fun r => (getCacheLine r.2 6).1) = Res.ok none ∧
      (run exEnv exOpsDirect
        (freshCache Organisation.DIRECT_MAPPING ReplacementPolicy.LRU 3 3 1 false)).map
          (fun r => (r.2.write_back, lineContents r.2.lines)) =
        Res.ok (false, [(Flag.BOTH, 3, 64, 7), (Flag.BOTH, 6, 64, 8), (Flag.CPU, 0, 0, 0)]) ∧
      (run exEnv (exOpsDirect ++ exOpsAgain)
        (freshCache Organisation.DIRECT_MAPPING ReplacementPolicy.LRU 3 3 1 false)).map
          (fun r => (r.1, lineContents r.2.lines)) =
        Res.ok ([(0, 7), (0, 8), (0, 0), (0, 8)],
          [(Flag.BOTH, 6, 64, 8), (Flag.BOTH, 6, 64, 8), (Flag.CPU, 0, 0, 0)]) := by
  refine ⟨by decide, by decide, by decide, by decide⟩

/-! ## C31: the direct-mapped fallback with every line locked -/

/-- With every line of the table in the lock set, the loop of the
direct-mapped fallback finds no line, whatever the draws and however many
rounds it is given. -/
theorem directLoop_all_locked (env : Env) (nrOfLines : Nat) (locked : List Nat)
    (hn : 0 < nrOfLines) (hall : ∀ j, j < nrOfLines → j ∈ locked) (f : Nat) :
    ∀ rc, directLoop env nrOfLines locked f rc = Res.diverge := by
  induction f with
  | zero => intro rc; rfl
  | succ f ih =>
    intro rc
    unfold directLoop
    simp only []
    rw [if_pos (hall _ (Nat.mod_lt _ hn))]
    exact ih (rc + 1)

/-- C31: on the direct-mapped cache of three lines with every line in the
lock set, for every tag, every sequence of random draws and every bound put on
the rounds of the fallback loop, the victim selection and the insertion
neither return nor reach `exit(1)`: the loop of the direct-mapped fallback has
no retry budget and draws again forever.  The state is the one three
write-buffers leave, and a fourth write-buffer does not return from it. -/
theorem addToCache_direct_all_locked_never_ends (env : Env) (tag size deviceAddress : Nat)
    (flag : Flag) :
    chooseVictim env exCacheLockedDM tag = Res.diverge ∧
      addToCache env exCacheLockedDM tag size deviceAddress flag (-1) = Res.diverge ∧
      (run exEnv exOpsFill
        (freshCache Organisation.DIRECT_MAPPING ReplacementPolicy.LRU 3 3 1 false)).map
          (fun r => (r.2.lockedLines, r.2.organisation, r.2.nrOfLines)) =
        Res.ok (exCacheLockedDM.lockedLines, exCacheLockedDM.organisation,
          exCacheLockedDM.nrOfLines) ∧
      run exEnv (exOpsFill ++ [Op.enqueueWriteBuffer 1 10 1 0 64 6 0 0])
        (freshCache Organisation.DIRECT_MAPPING ReplacementPolicy.LRU 3 3 1 false) =
        Res.diverge := by
  have hall : ∀ j, j < exCacheLockedDM.nrOfLines → j ∈ exCacheLockedDM.lockedLines := by
    intro j hj
    have h3 : j < 3 := hj
    show j ∈ [0, 1, 2]
    interval_cases j <;> simp
  have hset : getSetIndex exCacheLockedDM tag ∈ exCacheLockedDM.lockedLines :=
    hall _ (Nat.mod_lt _ (by decide))
  have hv : chooseVictim env exCacheLockedDM tag = Res.diverge := by
    unfold chooseVictim
    simp only []
    rw [if_neg (fun h => h rfl), if_pos hset, if_neg (by decide),
      directLoop_all_locked env _ _ (by decide) hall]
  refine ⟨hv, ?_, by decide, by decide⟩
  unfold addToCache
  rw [if_pos rfl, hv]

/-! ## C32: the additional constraint on the table size -/

/-- C32, the code at failing inputs: `getTableSize(7)` returns `7` and
`getTableSize(8)` returns `7`, for every bound on the rounds of the loop, while
`(2^64 - 1) mod 7 = 1`: a prime argument is returned without any test of the
constraint, and the test in the loop reads `prime`, which still holds the
argument (here `(2^64 - 1) mod 8 = 7`), not the candidate. -/
theorem getTableSize_constraint_violated (fuel : Nat) :
    getTableSize fuel 7 = Res.ok 7 ∧ getTableSize (fuel + 1) 8 = Res.ok 7 ∧
      (2 ^ 64 - 1 : Int) % 7 = 1 ∧ (2 ^ 64 - 1 : Int) % 8 = 7 := by
  have h7 : isPrime 7 = Res.ok true := by decide
  have h8 : isPrime 8 = Res.ok false := by decide
  refine ⟨?_, ?_, by decide, by decide⟩
  · unfold getTableSize
    rw [if_neg (by decide), h7]
  · have hc : ((2 ^ 64 - 1 : Int) % 8 ≠ 1) := by decide
    unfold getTableSize
    rw [if_neg (by decide), h8]
    simp only []
    show getTableSizeLoop 8 (fuel + 1) 7 9 = _
    unfold getTableSizeLoop
    rw [h7]
    simp only []
    rw [if_pos ⟨trivial, hc⟩]

/-! ## C34: the search loop of the table size -/

theorem isPrimeLoop_not_fatal (n : Int) (f : Nat) :
    ∀ i, isPrimeLoop n f i ≠ Res.fatal := by
  induction f with
  | zero => intro i h; simp [isPrimeLoop] at h
  | succ f ih =>
    intro i h
    unfold isPrimeLoop at h
    split at h
    · simp at h
    · split at h
      · split at h
        · simp at h
        · exact ih _ h
      · simp at h

theorem isPrime_not_fatal (n : Int) : isPrime n ≠ Res.fatal := by
  intro h
  unfold isPrime at h
  split at h
  · simp at h
  · split at h
    · simp at h
    · split at h
      · simp at h
      · split at h
        · simp at h
        · exact isPrimeLoop_not_fatal n _ _ h

/-- When the argument `n` has `(2^64 - 1) mod n = 1`, the test of the
constraint fails in every round, so that the loop returns no candidate: it
runs until the bound on its rounds or until a signed overflow. -/
theorem getTableSizeLoop_stuck (n : Int) (hn : (2 ^ 64 - 1 : Int) % n = 1) (f : Nat) :
    ∀ lower upper, getTableSizeLoop n f lower upper = Res.diverge ∨
      getTableSizeLoop n f lower upper = Res.undefined := by
  induction f with
  | zero => intro l u; left; rfl
  | succ f ih =>
    intro l u
    unfold getTableSizeLoop
    cases hl : isPrime l with
    | ok pl =>
      simp only []
      rw [if_neg (fun hc => hc.2 hn)]
      cases hu : isPrime u with
      | ok pu =>
        simp only []
        rw [if_neg (fun hc => hc.2 hn)]
        split
        · right; rfl
        · exact ih _ _
      | fatal => exact absurd hu (isPrime_not_fatal u)
      | undefined => right; rfl
      | diverge => left; rfl
    | fatal => exact absurd hl (isPrime_not_fatal l)
    | undefined => right; rfl
    | diverge => left; rfl

/-- C34, the code at a failing input: `getTableSize(14)` returns for no bound
on the rounds of its loop.  `14` is not prime and `(2^64 - 1) mod 14 = 1`, and
the test of the constraint in the loop reads `prime`, which holds the argument
throughout, so that no candidate is ever accepted: the loop runs on (within
100 rounds it has not ended) until `upper++` overflows. -/
theorem getTableSize_fourteen_never_returns (fuel : Nat) :
    (getTableSize fuel 14 = Res.diverge ∨ getTableSize fuel 14 = Res.undefined) ∧
      (2 ^ 64 - 1 : Int) % 14 = 1 ∧ getTableSize 100 14 = Res.diverge := by
  have h14 : isPrime 14 = Res.ok false := by decide
  refine ⟨?_, by decide, by decide⟩
  unfold getTableSize
  rw [if_neg (by decide), h14]
  simp only []
  exact getTableSizeLoop_stuck 14 (by decide) fuel _ _

/-! ## C37: the saved-byte counters -/

/-- C37, the code at a failing input: on a fresh fully associative write-back
cache of one line the example sequence (write-buffer of the host pointer `3`,
set-kernel-arg, launch, write-buffer of the host pointer `6`, which evicts the
line the launch has flagged `GPU`) returns with `bytesSaved = 2^64 - 64` while
`bytesh2d_saved = 0` and `bytesd2h_saved = 0`: the flush of the eviction in
`addToCache` subtracts the size of the line from `bytesSaved` only. -/
theorem saved_counters_disagree_after_eviction :
    (run exEnv exOpsEvict
        (freshCache Organisation.FULLY_ASSOCIATIVE ReplacementPolicy.LRU 1 1 1 true)).map
      (fun r => (r.1, r.2.duration.bytesSaved, r.2.duration.bytesh2d_saved,
        r.2.duration.bytesd2h_saved)) =
      Res.ok ([(0, 7), (0, 0), (0, 0), (0, 8)], 2 ^ 64 - 64, 0, 0) ∧
    add64 0 0 ≠ 2 ^ 64 - 64 := by
  refine ⟨by decide, by decide⟩

/-! ## C38: `resetCache` -/

/-- The release loop changes the trace and the buffer count only. -/
theorem releaseLoop_frame (env : Env) (n : Nat) :
    ∀ (i : Nat) (c : Cache) (err : Int),
      (releaseLoop env n i c err).2 =
        { c with buffers := (releaseLoop env n i c err).2.buffers,
                 trace := (releaseLoop env n i c err).2.trace } := by
  induction n with
  | zero => intro i c err; rfl
  | succ n ih =>
    intro i c err
    unfold releaseLoop
    split
    · rw [ih]
    · exact ih _ _ _

/-- The runtime calls of the release loop: one `clReleaseMemObject` for each
visited line with a non-null handle, in the order of the lines. -/
theorem releaseLoop_trace (env : Env) (n : Nat) :
    ∀ (i : Nat) (c : Cache) (err : Int),
      (releaseLoop env n i c err).2.trace = c.trace ++
        (((List.range' i n).map (fun k => (lineAt c.lines k).deviceAddress)).filter
          (fun b => decide (b ≠ 0))).map RtCall.clReleaseMemObject := by
  induction n with
  | zero => intro i c err; simp [releaseLoop]
  | succ n ih =>
    intro i c err
    unfold releaseLoop
    split
    · next hnz =>
      rw [ih]
      simp [List.range'_succ, hnz]
    · next hz =>
      rw [ih]
      simp [List.range'_succ, hz]

/-- C38: for every cache state whose table has `nrOfLines` lines in
`nrOfSets` sets of `nrOfLinesPerSet` lines, and every runtime behaviour:
`resetCache` adds to the trace exactly one `clReleaseMemObject` for each line
whose handle is non-null, in the order of the lines, and no other call; every
line of the table is zero afterwards, so that the lookup of every tag misses;
the lock set, the FIFO cursors, the kernel-argument map, all statistics
counters and the geometry are unchanged. -/
theorem resetCache_spec (env : Env) (c : Cache) (hwf : WF c) :
    (resetCache env c).trace = c.trace ++
      (((List.range' 0 c.nrOfLines).map (fun k => (lineAt c.lines k).deviceAddress)).filter
        (fun b => decide (b ≠ 0))).map RtCall.clReleaseMemObject ∧
    (resetCache env c).lines = List.replicate c.nrOfLines zeroLine ∧
    (∀ j, lineAt (resetCache env c).lines j = zeroLine) ∧
    (∀ tag, (getCacheLine (resetCache env c) tag).1 = none) ∧
    (resetCache env c).lockedLines = c.lockedLines ∧
    (resetCache env c).FIFO_index = c.FIFO_index ∧
    (resetCache env c).kernelArguments = c.kernelArguments ∧
    (resetCache env c).duration = c.duration ∧
    (resetCache env c).nrOfSets = c.nrOfSets ∧ (resetCache env c).nrOfLines = c.nrOfLines ∧
    (resetCache env c).nrOfLinesPerSet = c.nrOfLinesPerSet := by
  have hfr := releaseLoop_frame env c.nrOfLines 0 c 0
  have htr := releaseLoop_trace env c.nrOfLines 0 c 0
  obtain ⟨hl, _, _, _⟩ := releaseLoop_lines env c.nrOfLines 0 c 0
  have hlen : c.lines.length = c.nrOfLines := hwf.2.2.2.1
  have hlines : (resetCache env c).lines = List.replicate c.nrOfLines zeroLine := by
    show List.replicate c.nrOfLines zeroLine ++
      (releaseLoop env c.nrOfLines 0 c 0).2.lines.drop c.nrOfLines = _
    rw [hl, List.drop_of_length_le (by omega), List.append_nil]
  have hz : ∀ j, lineAt (resetCache env c).lines j = zeroLine := by
    intro j
    rw [hlines, lineAt_replicate]
  refine ⟨htr, hlines, hz, ?_, ?_, ?_, ?_, ?_, ?_, ?_, ?_⟩
  · intro tag
    cases h : (getCacheLine (resetCache env c) tag).1 with
    | none => rfl
    | some i =>
      obtain ⟨hp0, _, _, htag⟩ := getCacheLine_some _ tag i h
      rw [hz i] at htag
      exact absurd htag.symm hp0
  · show (releaseLoop env c.nrOfLines 0 c 0).2.lockedLines = _
    rw [hfr]
  · show (releaseLoop env c.nrOfLines 0 c 0).2.FIFO_index = _
    rw [hfr]
  · show (releaseLoop env c.nrOfLines 0 c 0).2.kernelArguments = _
    rw [hfr]
  · show (releaseLoop env c.nrOfLines 0 c 0).2.duration = _
    rw [hfr]
  · show (releaseLoop env c.nrOfLines 0 c 0).2.nrOfSets = _
    rw [hfr]
  · show (releaseLoop env c.nrOfLines 0 c 0).2.nrOfLines = _
    rw [hfr]
  · show (releaseLoop env c.nrOfLines 0 c 0).2.nrOfLinesPerSet = _
    rw [hfr]

/-- C38, witness: the example cache of two lines, line 1 holding the handle
`8`: `resetCache` issues the one release of `8`. -/
theorem resetCache_spec_witness :
    WF exCacheA ∧ (resetCache exEnv exCacheA).trace = [RtCall.clReleaseMemObject 8] ∧
    (resetCache exEnv exCacheA).trace = exCacheA.trace ++
      (((List.range' 0 exCacheA.nrOfLines).map
          (fun k => (lineAt exCacheA.lines k).deviceAddress)).filter
        (fun b => decide (b ≠ 0))).map RtCall.clReleaseMemObject ∧
    (resetCache exEnv exCacheA).lines = List.replicate exCacheA.nrOfLines zeroLine ∧
    (∀ j, lineAt (resetCache exEnv exCacheA).lines j = zeroLine) ∧
    (∀ tag, (getCacheLine (resetCache exEnv exCacheA) tag).1 = none) ∧
    (resetCache exEnv exCacheA).lockedLines = exCacheA.lockedLines ∧
    (resetCache exEnv exCacheA).FIFO_index = exCacheA.FIFO_index ∧
    (resetCache exEnv exCacheA).kernelArguments = exCacheA.kernelArguments ∧
    (resetCache exEnv exCacheA).duration = exCacheA.duration ∧
    (resetCache exEnv exCacheA).nrOfSets = exCacheA.nrOfSets ∧
    (resetCache exEnv exCacheA).nrOfLines = exCacheA.nrOfLines ∧
    (resetCache exEnv exCacheA).nrOfLinesPerSet = exCacheA.nrOfLinesPerSet :=
  ⟨⟨Nat.one_pos, Nat.succ_pos 1, rfl, rfl, fun h => Organisation.noConfusion h⟩, by decide,
    resetCache_spec exEnv exCacheA
      ⟨Nat.one_pos, Nat.succ_pos 1, rfl, rfl, fun h => Organisation.noConfusion h⟩⟩

/-! ## C33: the table size is an odd prime -/

/-- What a `true` of the trial-division loop of `isPrime` means: no candidate
`i + 6k` or `i + 6k + 2` with `(i + 6k)² ≤ n` divides `n`. -/
theorem isPrimeLoop_sound (n : Int) (f : Nat) :
    ∀ i : Int, 0 ≤ i → isPrimeLoop n f i = Res.ok true →
      ∀ k : Nat, (i + 6 * k) * (i + 6 * k) ≤ n →
        n % (i + 6 * k) ≠ 0 ∧ n % (i + 6 * k + 2) ≠ 0 := by
  induction f with
  | zero => intro i _ h; simp [isPrimeLoop] at h
  | succ f ih =>
    intro i hi h k hk
    unfold isPrimeLoop at h
    split at h
    · simp at h
    · split at h
      · split at h
        · simp at h
        · next hsq hdiv =>
          cases k with
          | zero =>
            simp only [Nat.cast_zero, mul_zero, add_zero]
            exact ⟨fun h0 => hdiv (Or.inl h0), fun h0 => hdiv (Or.inr h0)⟩
          | succ k =>
            have e : i + 6 * ((k + 1 : Nat) : Int) = (i + 6) + 6 * (k : Int) := by
              push_cast; ring
            rw [e] at hk ⊢
            exact ih (i + 6) (by omega) h k hk
      · next hsq =>
        exfalso
        have hk0 : (0 : Int) ≤ (k : Int) := Int.natCast_nonneg k
        nlinarith

/-- A `true` of `isPrime` is right: the argument is a prime. -/
theorem isPrime_sound (n : Int) (h : isPrime n = Res.ok true) : Nat.Prime n.toNat := by
  unfold isPrime at h
  split at h
  · simp at h
  · split at h
    · simp at h
    · split at h
      · next h1 h2 h3 =>
        have : n = 3 := by omega
        subst this
        exact Nat.prime_three
      · split at h
        · simp at h
        · next h1 h2 h3 hdiv =>
          have hs := isPrimeLoop_sound n n.toNat 5 (by decide) h
          obtain ⟨m, rfl⟩ : ∃ m : Nat, n = (m : Int) := ⟨n.toNat, by omega⟩
          rw [Int.toNat_ofNat]
          by_contra hnp
          have hm4 : 4 ≤ m := by omega
          have hp : (Nat.minFac m).Prime := Nat.minFac_prime (by omega)
          have hpd : Nat.minFac m ∣ m := Nat.minFac_dvd m
          have hsq : Nat.minFac m ^ 2 ≤ m := Nat.minFac_sq_le_self (by omega) hnp
          generalize Nat.minFac m = p at hp hpd hsq
          have hmod : ((m : Int) % (p : Int)) = 0 :=
            Int.emod_eq_zero_of_dvd (Int.natCast_dvd_natCast.mpr hpd)
          have hp2 : p ≠ 2 := by
            intro hp2
            subst hp2
            exact hdiv (Or.inl hmod)
          have hp3 : p ≠ 3 := by
            intro hp3
            subst hp3
            exact hdiv (Or.inr hmod)
          have hodd : p % 2 ≠ 0 := by
            intro h0
            have : 2 ∣ p := Nat.dvd_of_mod_eq_zero h0
            rcases (Nat.dvd_prime hp).mp this with h | h
            · omega
            · exact hp2 h.symm
          have hthree : p % 3 ≠ 0 := by
            intro h0
            have : 3 ∣ p := Nat.dvd_of_mod_eq_zero h0
            rcases (Nat.dvd_prime hp).mp this with h | h
            · omega
            · exact hp3 h.symm
          have hp5 : 2 ≤ p := hp.two_le
          have hsqi : ((p : Int)) * (p : Int) ≤ (m : Int) := by
            have : p * p ≤ m := by rw [← sq]; exact hsq
            exact_mod_cast this
          have h6 : p % 6 = 5 ∨ p % 6 = 1 := by omega
          rcases h6 with h6 | h6
          · have hk := hs ((p - 5) / 6) (by
              have e : (5 : Int) + 6 * (((p - 5) / 6 : Nat) : Int) = (p : Int) := by omega
              rw [e]; exact hsqi)
            have e : (5 : Int) + 6 * (((p - 5) / 6 : Nat) : Int) = (p : Int) := by omega
            rw [e] at hk
            exact hk.1 hmod
          · have hk := hs ((p - 7) / 6) (by
              have e : (5 : Int) + 6 * (((p - 7) / 6 : Nat) : Int) = (p : Int) - 2 := by omega
              rw [e]
              have : (0 : Int) ≤ (p : Int) - 2 := by omega
              nlinarith)
            have e : (5 : Int) + 6 * (((p - 7) / 6 : Nat) : Int) + 2 = (p : Int) := by omega
            rw [e] at hk
            exact hk.2 hmod

theorem getTableSizeLoop_isPrime (n : Int) (f : Nat) :
    ∀ (lower upper m : Int), getTableSizeLoop n f lower upper = Res.ok m →
      isPrime m = Res.ok true := by
  induction f with
  | zero => intro lower upper m h; simp [getTableSizeLoop] at h
  | succ f ih =>
    intro lower upper m h
    unfold getTableSizeLoop at h
    cases hl : isPrime lower with
    | ok pl =>
      rw [hl] at h
      simp only [] at h
      split at h
      · next hc =>
        simp only [Res.ok.injEq] at h
        rw [← h, hl, hc.1]
      · cases hu : isPrime upper with
        | ok pu =>
          rw [hu] at h
          simp only [] at h
          split at h
          · next hc =>
            simp only [Res.ok.injEq] at h
            rw [← h, hu, hc.1]
          · split at h
            · simp at h
            · exact ih _ _ _ h
        | fatal => rw [hu] at h; simp at h
        | undefined => rw [hu] at h; simp at h
        | diverge => rw [hu] at h; simp at h
    | fatal => rw [hl] at h; simp at h
    | undefined => rw [hl] at h; simp at h
    | diverge => rw [hl] at h; simp at h

theorem getTableSize_isPrime (fuel : Nat) (n m : Int) (h : getTableSize fuel n = Res.ok m) :
    isPrime m = Res.ok true := by
  unfold getTableSize at h
  split at h
  · simp only [Res.ok.injEq] at h
    rw [← h]
    decide
  · cases hp : isPrime n with
    | ok b =>
      rw [hp] at h
      cases b with
      | true =>
        simp only [Res.ok.injEq] at h
        rw [← h]; exact hp
      | false =>
        simp only [] at h
        exact getTableSizeLoop_isPrime n fuel _ _ m h
    | fatal => rw [hp] at h; simp at h
    | undefined => rw [hp] at h; simp at h
    | diverge => rw [hp] at h; simp at h

/-- The set count of a constructed cache that is direct-mapped or
set-associative is the value `getTableSize` returned. -/
theorem initialise_nrOfSets (fuel : Nat) (organisation : Organisation)
    (replacementPolicy : ReplacementPolicy) (cacheSize nrOfSet : Int) (write_back : Bool)
    (c0 : Cache) (horg : organisation ≠ Organisation.FULLY_ASSOCIATIVE)
    (h : initialise fuel organisation replacementPolicy cacheSize nrOfSet write_back = Res.ok c0) :
    ∃ t, getTableSize fuel
        (if organisation = Organisation.DIRECT_MAPPING then cacheSize else nrOfSet) = Res.ok t ∧
      c0.nrOfSets = t.toNat := by
  unfold initialise at h
  cases organisation with
  | DIRECT_MAPPING =>
    simp only [] at h
    cases hg : getTableSize fuel cacheSize with
    | ok n =>
      rw [hg] at h
      simp only [] at h
      split at h
      · simp at h
      · simp only [Res.ok.injEq] at h
        rw [← h]
        exact ⟨n, by simp [hg], rfl⟩
    | fatal => rw [hg] at h; simp at h
    | undefined => rw [hg] at h; simp at h
    | diverge => rw [hg] at h; simp at h
  | FULLY_ASSOCIATIVE => exact absurd rfl horg
  | SET_ASSOCIATIVE =>
    simp only [] at h
    cases hg : getTableSize fuel nrOfSet with
    | ok n =>
      rw [hg] at h
      simp only [] at h
      split at h
      · simp at h
      · simp only [Res.ok.injEq] at h
        rw [← h]
        exact ⟨n, by simp [hg], rfl⟩
    | fatal => rw [hg] at h; simp at h
    | undefined => rw [hg] at h; simp at h
    | diverge => rw [hg] at h; simp at h

/-- An odd prime as an `int`: at least 3, prime, and odd. -/
theorem isPrime_odd_prime (m : Int) (h : isPrime m = Res.ok true) :
    3 ≤ m ∧ Nat.Prime m.toNat ∧ m % 2 = 1 := by
  have h3 := isPrime_true_ge m h
  have hp := isPrime_sound m h
  refine ⟨h3, hp, ?_⟩
  rcases hp.eq_two_or_odd with h2 | ho
  · omega
  · omega

/-- C33: for every argument `n` and every bound on the rounds of the loop,
whenever `getTableSize(n)` returns, its result is an odd prime: at least 3,
prime, and odd; hence the `nrOfSets` of every constructed cache that is
direct-mapped or set-associative is an odd prime; and the direct-mapped cache
of the requested size 10 has `nrOfSets = nrOfLines = 11`. -/
theorem getTableSize_odd_prime (fuel : Nat) (n m : Int) (organisation : Organisation)
    (replacementPolicy : ReplacementPolicy) (cacheSize nrOfSet : Int) (write_back : Bool)
    (c0 : Cache) :
    (getTableSize fuel n = Res.ok m → 3 ≤ m ∧ Nat.Prime m.toNat ∧ m % 2 = 1) ∧
    (organisation ≠ Organisation.FULLY_ASSOCIATIVE →
      initialise fuel organisation replacementPolicy cacheSize nrOfSet write_back = Res.ok c0 →
      3 ≤ c0.nrOfSets ∧ Nat.Prime c0.nrOfSets ∧ c0.nrOfSets % 2 = 1) ∧
    getTableSize (fuel + 1) 10 = Res.ok 11 ∧
    initialise (fuel + 1) Organisation.DIRECT_MAPPING replacementPolicy 10 nrOfSet write_back =
      Res.ok (freshCache Organisation.DIRECT_MAPPING replacementPolicy 11 11 1 write_back) := by
  have h10 : getTableSize (fuel + 1) 10 = Res.ok 11 := by
    have h10 : isPrime 10 = Res.ok false := by decide
    have h9 : isPrime 9 = Res.ok false := by decide
    have h11 : isPrime 11 = Res.ok true := by decide
    have hc : ((2 ^ 64 - 1 : Int) % 10 ≠ 1) := by decide
    unfold getTableSize
    rw [if_neg (by decide), h10]
    simp only []
    show getTableSizeLoop 10 (fuel + 1) 9 11 = _
    unfold getTableSizeLoop
    rw [h9, h11]
    simp only []
    rw [if_neg (by decide), if_pos ⟨trivial, hc⟩]
  refine ⟨fun h => isPrime_odd_prime m (getTableSize_isPrime fuel n m h), ?_, h10, ?_⟩
  · intro horg hinit
    obtain ⟨t, ht, hs⟩ := initialise_nrOfSets fuel organisation replacementPolicy cacheSize
      nrOfSet write_back c0 horg hinit
    obtain ⟨a1, a2, a3⟩ := isPrime_odd_prime t (getTableSize_isPrime fuel _ t ht)
    rw [hs]
    refine ⟨by omega, a2, by omega⟩
  · unfold initialise
    simp only [h10]
    rfl

/-- C33, witness: `getTableSize(10)` returns 11 within one round of the loop,
and the direct-mapped cache of the requested size 10 has 11 sets. -/
theorem getTableSize_odd_prime_witness :
    getTableSize 1 10 = Res.ok 11 ∧
    initialise 1 Organisation.DIRECT_MAPPING ReplacementPolicy.LRU 10 1 false =
      Res.ok (freshCache Organisation.DIRECT_MAPPING ReplacementPolicy.LRU 11 11 1 false) ∧
    (3 ≤ (11 : Int) ∧ Nat.Prime (11 : Int).toNat ∧ (11 : Int) % 2 = 1) ∧
    (3 ≤ (freshCache Organisation.DIRECT_MAPPING ReplacementPolicy.LRU 11 11 1 false).nrOfSets ∧
      Nat.Prime (freshCache Organisation.DIRECT_MAPPING ReplacementPolicy.LRU 11 11 1
        false).nrOfSets ∧
      (freshCache Organisation.DIRECT_MAPPING ReplacementPolicy.LRU 11 11 1 false).nrOfSets % 2
        = 1) :=
  ⟨by decide, by decide,
    (getTableSize_odd_prime 1 10 11 Organisation.DIRECT_MAPPING ReplacementPolicy.LRU 10 1 false
      (freshCache Organisation.DIRECT_MAPPING ReplacementPolicy.LRU 11 11 1 false)).1
      (by decide),
    (getTableSize_odd_prime 1 10 11 Organisation.DIRECT_MAPPING ReplacementPolicy.LRU 10 1 false
      (freshCache Organisation.DIRECT_MAPPING ReplacementPolicy.LRU 11 11 1 false)).2.1
      (by decide) (by decide)⟩

/-! ## C36: at least one line per set -/

theorem getRandomIndex_defined (env : Env) (c : Cache) (s : Nat) (hL : 0 < c.nrOfLinesPerSet) :
    getRandomIndex env c s = Res.fatal ∨ ∃ a, getRandomIndex env c s = Res.ok a := by
  unfold getRandomIndex
  rw [if_neg (by omega)]
  simp only []
  split
  · left; rfl
  · right; exact ⟨_, rfl⟩

theorem fifoIndex_defined (c : Cache) (s : Nat) (hL : 0 < c.nrOfLinesPerSet) :
    fifoIndex c s = Res.fatal ∨ ∃ a, fifoIndex c s = Res.ok a := by
  unfold fifoIndex
  rw [if_neg (by omega)]
  simp only []
  split
  · left; rfl
  · right; exact ⟨_, rfl⟩

theorem directLoop_defined (env : Env) (nrOfLines : Nat) (locked : List Nat) (f : Nat) :
    ∀ rc, directLoop env nrOfLines locked f rc ≠ Res.undefined := by
  induction f with
  | zero => intro rc h; simp [directLoop] at h
  | succ f ih =>
    intro rc h
    unfold directLoop at h
    simp only [] at h
    split at h
    · exact ih _ h
    · simp at h

/-- With at least one line per set the victim selection never takes a modulo
by zero. -/
theorem chooseVictim_defined (env : Env) (c : Cache) (tag : Nat) (hwf : WF c) :
    chooseVictim env c tag ≠ Res.undefined := by
  obtain ⟨h1, h2, h3, h4, h5⟩ := hwf
  intro h
  unfold chooseVictim at h
  simp only [] at h
  split at h
  · split at h
    · unfold getOldestIndex at h
      simp only [] at h
      split at h
      · rcases getRandomIndex_defined env
          { c with lines := (getOldestIndexLoop c.lockedLines false c.nrOfLinesPerSet
            (getSetIndex c tag * c.nrOfLinesPerSet) c.lines (-1) (-1)).2 }
          (getSetIndex c tag) h2 with hf | ⟨a, ha⟩
        · rw [hf] at h; simp at h
        · rw [ha] at h; simp at h
      · simp at h
    · rcases fifoIndex_defined c (getSetIndex c tag) h2 with hf | ⟨a, ha⟩
      · rw [hf] at h; simp at h
      · rw [ha] at h; simp at h
    · rcases getRandomIndex_defined env c (getSetIndex c tag) h2 with hf | ⟨a, ha⟩
      · rw [hf] at h; simp at h
      · rw [ha] at h; simp at h
    · unfold getSmallestDataLine at h
      simp only [] at h
      split at h
      · rcases getRandomIndex_defined env c (getSetIndex c tag) h2 with hf | ⟨a, ha⟩
        · rw [hf] at h; simp at h
        · rw [ha] at h; simp at h
      · simp at h
  · split at h
    · have hn : c.nrOfLines ≠ 0 := by
        rw [h3]
        exact Nat.mul_ne_zero (by omega) (by omega)
      rw [if_neg hn] at h
      cases hd : directLoop env c.nrOfLines c.lockedLines env.fuel c.randCalls with
      | ok r => rw [hd] at h; simp at h
      | fatal => rw [hd] at h; simp at h
      | undefined => exact directLoop_defined env _ _ _ _ hd
      | diverge => rw [hd] at h; simp at h
    · simp at h

/-- Every index the victim selection returns is an index of the table. -/
theorem chooseVictim_lt_nrOfLines (env : Env) (c : Cache) (tag : Nat) (r : Nat × Cache)
    (hwf : WF c) (h : chooseVictim env c tag = Res.ok r) : r.1 < c.nrOfLines := by
  have hwf0 := hwf
  obtain ⟨h1, h2, h3, h4, h5⟩ := hwf
  by_cases horg : c.organisation = Organisation.DIRECT_MAPPING
  · have hL := h5 horg
    have hn : 0 < c.nrOfLines := by
      rw [h3]
      exact Nat.mul_pos h1 h2
    unfold chooseVictim at h
    simp only [] at h
    rw [if_neg (fun hc => hc horg)] at h
    split at h
    · rw [if_neg (by omega)] at h
      cases hd : directLoop env c.nrOfLines c.lockedLines env.fuel c.randCalls with
      | ok a =>
        rw [hd] at h
        simp only [Res.ok.injEq] at h
        rw [← h]
        exact directLoop_lt env _ _ hn _ _ _ hd
      | fatal => rw [hd] at h; simp at h
      | undefined => rw [hd] at h; simp at h
      | diverge => rw [hd] at h; simp at h
    · simp only [Res.ok.injEq] at h
      rw [← h, h3, hL, Nat.mul_one]
      exact Nat.mod_lt _ h1
  · obtain ⟨_, _, hr⟩ := chooseVictim_ok env c tag r h
    have := set_range_lt_length c hwf0 tag r.1 (hr horg).2
    rw [h4] at this
    exact this

/-- The lines per set of a constructed cache: at least one for a positive
cache size, provided a set-associative cache is at least as large as its set
count. -/
theorem initialise_linesPerSet_pos (fuel : Nat) (organisation : Organisation)
    (replacementPolicy : ReplacementPolicy) (cacheSize nrOfSet : Int) (write_back : Bool)
    (c0 : Cache) (hcs : 0 < cacheSize)
    (hsa : organisation = Organisation.SET_ASSOCIATIVE → (c0.nrOfSets : Int) ≤ cacheSize)
    (h : initialise fuel organisation replacementPolicy cacheSize nrOfSet write_back = Res.ok c0) :
    0 < c0.nrOfLinesPerSet := by
  have h0 := h
  unfold initialise at h
  cases organisation with
  | DIRECT_MAPPING =>
    simp only [] at h
    cases hg : getTableSize fuel cacheSize with
    | ok n =>
      rw [hg] at h
      simp only [] at h
      split at h
      · simp at h
      · simp only [Res.ok.injEq] at h
        rw [← h]
        show 0 < (1 : Int).toNat
        decide
    | fatal => rw [hg] at h; simp at h
    | undefined => rw [hg] at h; simp at h
    | diverge => rw [hg] at h; simp at h
  | FULLY_ASSOCIATIVE =>
    simp only [] at h
    split at h
    · simp at h
    · simp only [Res.ok.injEq] at h
      rw [← h]
      show 0 < cacheSize.toNat
      omega
  | SET_ASSOCIATIVE =>
    simp only [] at h
    have hsa := hsa rfl
    cases hg : getTableSize fuel nrOfSet with
    | ok n =>
      rw [hg] at h
      simp only [] at h
      have hn := getTableSize_ge fuel nrOfSet n hg
      split at h
      · simp at h
      · simp only [Res.ok.injEq] at h
        rw [← h] at hsa ⊢
        have hs : ((n.toNat : Nat) : Int) ≤ cacheSize := hsa
        have hn2 : n ≤ cacheSize := by omega
        show 0 < (Int.tdiv cacheSize n).toNat
        rw [Int.tdiv_eq_ediv (by omega) (by omega)]
        have : 1 ≤ cacheSize / n := Int.le_ediv_of_mul_le (by omega) (by omega)
        omega
    | fatal => rw [hg] at h; simp at h
    | undefined => rw [hg] at h; simp at h
    | diverge => rw [hg] at h; simp at h

/-- C36: for every construction with a positive cache size that completes,
provided a set-associative cache is asked for at least as many lines as it
gets sets, `nrOfLinesPerSet` and `nrOfLines` are at least 1, and they stay so
in every state a sequence of calls reaches: there the modulo by
`nrOfLinesPerSet` of the RANDOM and FIFO selections is defined (each of them
returns or ends in `exit(1)`), no victim selection is undefined, and every
index a victim selection returns is below `nrOfLines`. -/
theorem initialise_lines_per_set_positive (env : Env) (fuel : Nat)
    (organisation : Organisation) (replacementPolicy : ReplacementPolicy)
    (cacheSize nrOfSet : Int) (write_back : Bool) (c0 : Cache) (hcs : 0 < cacheSize)
    (hsa : organisation = Organisation.SET_ASSOCIATIVE → (c0.nrOfSets : Int) ≤ cacheSize)
    (hinit : initialise fuel organisation replacementPolicy cacheSize nrOfSet write_back =
      Res.ok c0) :
    1 ≤ c0.nrOfLinesPerSet ∧ 1 ≤ c0.nrOfLines ∧
    ∀ ops r, run env ops c0 = Res.ok r →
      1 ≤ r.2.nrOfLinesPerSet ∧ 1 ≤ r.2.nrOfLines ∧
      ∀ tag s,
        (getRandomIndex env r.2 s = Res.fatal ∨ ∃ a, getRandomIndex env r.2 s = Res.ok a) ∧
        (fifoIndex r.2 s = Res.fatal ∨ ∃ a, fifoIndex r.2 s = Res.ok a) ∧
        chooseVictim env r.2 tag ≠ Res.undefined ∧
        ∀ a, chooseVictim env r.2 tag = Res.ok a → a.1 < r.2.nrOfLines := by
  have hL := initialise_linesPerSet_pos fuel organisation replacementPolicy cacheSize nrOfSet
    write_back c0 hcs hsa hinit
  have hwf := wf_initialise fuel organisation replacementPolicy cacheSize nrOfSet write_back c0
    hinit hL
  have key : ∀ c : Cache, WF c → 1 ≤ c.nrOfLinesPerSet ∧ 1 ≤ c.nrOfLines := by
    intro c hc
    obtain ⟨h1, h2, h3, _, _⟩ := hc
    refine ⟨h2, ?_⟩
    rw [h3]
    exact Nat.mul_pos h1 h2
  refine ⟨(key c0 hwf).1, (key c0 hwf).2, ?_⟩
  intro ops r hrun
  have hwf2 := wf_run env ops c0 r hwf hrun
  refine ⟨(key r.2 hwf2).1, (key r.2 hwf2).2, ?_⟩
  intro tag s
  exact ⟨getRandomIndex_defined env r.2 s hwf2.2.1, fifoIndex_defined r.2 s hwf2.2.1,
    chooseVictim_defined env r.2 tag hwf2,
    fun a ha => chooseVictim_lt_nrOfLines env r.2 tag a hwf2 ha⟩

/-- C36, witness: the set-associative cache of the requested size 6 and the
requested set count 1 has three sets of two lines. -/
theorem initialise_lines_per_set_positive_witness :
    (0 : Int) < 6 ∧
    initialise 0 Organisation.SET_ASSOCIATIVE ReplacementPolicy.FIFO 6 1 false =
      Res.ok (freshCache Organisation.SET_ASSOCIATIVE ReplacementPolicy.FIFO 3 6 2 false) ∧
    1 ≤ (freshCache Organisation.SET_ASSOCIATIVE ReplacementPolicy.FIFO 3 6 2
      false).nrOfLinesPerSet ∧
    1 ≤ (freshCache Organisation.SET_ASSOCIATIVE ReplacementPolicy.FIFO 3 6 2 false).nrOfLines ∧
    ∀ ops r, run exEnv ops
        (freshCache Organisation.SET_ASSOCIATIVE ReplacementPolicy.FIFO 3 6 2 false) = Res.ok r →
      1 ≤ r.2.nrOfLinesPerSet ∧ 1 ≤ r.2.nrOfLines ∧
      ∀ tag s,
        (getRandomIndex exEnv r.2 s = Res.fatal ∨ ∃ a, getRandomIndex exEnv r.2 s = Res.ok a) ∧
        (fifoIndex r.2 s = Res.fatal ∨ ∃ a, fifoIndex r.2 s = Res.ok a) ∧
        chooseVictim exEnv r.2 tag ≠ Res.undefined ∧
        ∀ a, chooseVictim exEnv r.2 tag = Res.ok a → a.1 < r.2.nrOfLines :=
  ⟨by decide, by decide,
    initialise_lines_per_set_positive exEnv 0 Organisation.SET_ASSOCIATIVE
      ReplacementPolicy.FIFO 6 1 false
      (freshCache Organisation.SET_ASSOCIATIVE ReplacementPolicy.FIFO 3 6 2 false)
      (by decide) (fun _ => by decide) (by decide)⟩

/-- C36, counterexample: the set-associative cache of the requested size 2
and the requested set count 1 (both positive) gets 3 sets, `2 / 3 = 0` lines
per set and no line at all; its RANDOM and FIFO selections take a modulo by
zero, and its first write-buffer is undefined. -/
theorem initialise_zero_lines_per_set :
    initialise 0 Organisation.SET_ASSOCIATIVE ReplacementPolicy.RANDOM 2 1 false =
      Res.ok (freshCache Organisation.SET_ASSOCIATIVE ReplacementPolicy.RANDOM 3 0 0 false) ∧
    (freshCache Organisation.SET_ASSOCIATIVE ReplacementPolicy.RANDOM 3 0 0
      false).nrOfLinesPerSet = 0 ∧
    (freshCache Organisation.SET_ASSOCIATIVE ReplacementPolicy.RANDOM 3 0 0 false).nrOfLines
      = 0 ∧
    getRandomIndex exEnv
      (freshCache Organisation.SET_ASSOCIATIVE ReplacementPolicy.RANDOM 3 0 0 false) 0 =
      Res.undefined ∧
    fifoIndex (freshCache Organisation.SET_ASSOCIATIVE ReplacementPolicy.FIFO 3 0 0 false) 0 =
      Res.undefined ∧
    run exEnv [Op.enqueueWriteBuffer 1 7 1 0 64 3 0 0]
      (freshCache Organisation.SET_ASSOCIATIVE ReplacementPolicy.RANDOM 3 0 0 false) =
      Res.undefined := by
  refine ⟨by decide, by decide, by decide, by decide, by decide, by decide⟩

/-! ## C35: every line sits in the set of its tag -/

theorem SameTags.of_soft {c c1 : Cache} (h : Soft c c1) : SameTags c c1 :=
  ⟨h.1, h.2.1, h.2.2.1, fun j => (h.2.2.2 j).1⟩

theorem SameTags.sameTrans {c c1 c2 : Cache} (h1 : SameTags c c1) (h2 : SameTags c1 c2) :
    SameTags c c2 :=
  ⟨h2.1.trans h1.1, h2.2.1.trans h1.2.1, h2.2.2.1.trans h1.2.2.1,
    fun j => (h2.2.2.2 j).trans (h1.2.2.2 j)⟩

theorem Placed.ofSameTags {c c1 : Cache} (hinv : Placed c) (h : SameTags c c1) : Placed c1 := by
  obtain ⟨i1, i2⟩ := hinv
  obtain ⟨a1, a2, a3, a4⟩ := h
  refine ⟨by rw [a1]; exact i1, ?_⟩
  intro i hi
  unfold getSetIndex
  rw [a4 i, a2, a3]
  rw [a4 i] at hi
  exact i2 i hi

theorem sameTags_setDirtyFlag (c : Cache) (ptr : Nat) (flag : Flag) :
    SameTags c (setDirtyFlag c ptr flag) := by
  obtain ⟨g1, g2, _, g4, _⟩ := geo_setDirtyFlag c ptr flag
  exact ⟨g4, g1, g2, fun j => (setDirtyFlag_lines c ptr flag j).1⟩

/-- The overwrite of a line of the set of the new tag keeps every line in the
set of its tag. -/
theorem placed_overwriteLine (env : Env) (v : Cache) (idx tag size deviceAddress : Nat)
    (flag : Flag) (hinv : Placed v)
    (hr : getSetIndex v tag * v.nrOfLinesPerSet ≤ idx ∧
      idx < getSetIndex v tag * v.nrOfLinesPerSet + v.nrOfLinesPerSet) :
    Placed (overwriteLine env v idx tag size deviceAddress flag).2 := by
  obtain ⟨i1, i2⟩ := hinv
  have hfr := overwriteLine_frame env v idx tag size deviceAddress flag
  have e1 : (overwriteLine env v idx tag size deviceAddress flag).2.organisation =
      v.organisation := by rw [hfr]
  have e2 : (overwriteLine env v idx tag size deviceAddress flag).2.nrOfSets = v.nrOfSets := by
    rw [hfr]
  have e3 : (overwriteLine env v idx tag size deviceAddress flag).2.nrOfLinesPerSet =
      v.nrOfLinesPerSet := by rw [hfr]
  have hl : ∀ j, lineAt (overwriteLine env v idx tag size deviceAddress flag).2.lines j =
      if idx = j ∧ idx < v.lines.length then
      { flag := flag, age := 0, tag := tag, size := size, deviceAddress := deviceAddress }
      else lineAt v.lines j := by
    intro j
    rw [overwriteLine_lines, lineAt_setLine]
  refine ⟨by rw [e1]; exact i1, ?_⟩
  intro i hi
  unfold getSetIndex
  rw [e2, e3]
  rw [hl i] at hi ⊢
  split
  · next hc =>
    obtain ⟨rfl, _⟩ := hc
    exact hr
  · next hc =>
    rw [if_neg hc] at hi
    exact i2 i hi

/-- An insertion, at the index of a line of the set of the tag or at the
victim the policy chooses, keeps every line in the set of its tag. -/
theorem placed_addToCache (env : Env) (x : Cache) (tag size deviceAddress : Nat) (flag : Flag)
    (idx : Int) (a : CacheLine × Cache) (hinv : Placed x)
    (hidx : idx = -1 ∨ ∃ i : Nat, idx = (i : Int) ∧
      getSetIndex x tag * x.nrOfLinesPerSet ≤ i ∧
      i < getSetIndex x tag * x.nrOfLinesPerSet + x.nrOfLinesPerSet)
    (h : addToCache env x tag size deviceAddress flag idx = Res.ok a) : Placed a.2 := by
  rcases hidx with hm | ⟨i, hi, hr⟩
  · subst hm
    obtain ⟨k, v, hv, ha⟩ := addToCache_choose env x tag size deviceAddress flag a h
    obtain ⟨_, hvx0, hrange0⟩ := chooseVictim_ok env x tag (k, v) hv
    have hvx : v = { x with randCalls := v.randCalls, FIFO_index := v.FIFO_index } := hvx0
    have hrange : x.organisation ≠ Organisation.DIRECT_MAPPING →
        getSetIndex x tag * x.nrOfLinesPerSet ≤ k ∧
        k < getSetIndex x tag * x.nrOfLinesPerSet + x.nrOfLinesPerSet := hrange0
    have hs : SameTags x v := by
      refine ⟨by rw [hvx], by rw [hvx], by rw [hvx], fun j => by rw [hvx]⟩
    have hr := hrange hinv.1
    rw [ha]
    apply placed_overwriteLine env v k tag size deviceAddress flag (hinv.ofSameTags hs)
    unfold getSetIndex
    rw [hs.2.1, hs.2.2.1]
    exact hr
  · subst hi
    unfold addToCache at h
    rw [if_neg (by omega)] at h
    simp only [Int.toNat_ofNat, Res.ok.injEq] at h
    rw [← h]
    exact placed_overwriteLine env x i tag size deviceAddress flag hinv hr

/-- The range of a line the lookup finds, in a cache with the same tags and
geometry. -/
theorem found_range {c x : Cache} (tag i : Nat) (h : SameTags c x)
    (hfind : (getCacheLine c tag).1 = some i) :
    getSetIndex x tag * x.nrOfLinesPerSet ≤ i ∧
      i < getSetIndex x tag * x.nrOfLinesPerSet + x.nrOfLinesPerSet := by
  obtain ⟨_, h1, h2, _⟩ := getCacheLine_some c tag i hfind
  unfold getSetIndex at h1 h2 ⊢
  rw [h.2.1, h.2.2.1]
  exact ⟨h1, h2⟩

theorem placed_createBuffer (env : Env) (c : Cache) (context flags size host_ptr : Nat)
    (errcode : Int) (r : (Nat × Int) × Cache) (hinv : Placed c)
    (h : createBuffer env c context flags size host_ptr errcode = Res.ok r) : Placed r.2 := by
  unfold createBuffer at h
  split at h
  · simp only [] at h
    have s0 : SameTags c (countH2D c size) :=
      SameTags.of_soft (Soft.of_lines_eq rfl rfl rfl rfl)
    have s1 : SameTags c (getCacheLine (countH2D c size) host_ptr).2 :=
      s0.sameTrans (SameTags.of_soft (soft_getCacheLine _ _))
    have hmissCase : ∀ r : (Nat × Int) × Cache,
        (addToCache env (issueCreate (countMiss (getCacheLine (countH2D c size) host_ptr).2)
          context flags size host_ptr) host_ptr size
          (env.mem (getCacheLine (countH2D c size) host_ptr).2.trace.length) Flag.BOTH (-1)).map
          (fun a => ((env.mem (getCacheLine (countH2D c size) host_ptr).2.trace.length,
            env.status (getCacheLine (countH2D c size) host_ptr).2.trace.length), a.2)) =
          Res.ok r → Placed r.2 := by
      intro r hr
      have sx : SameTags (getCacheLine (countH2D c size) host_ptr).2
          (issueCreate (countMiss (getCacheLine (countH2D c size) host_ptr).2)
            context flags size host_ptr) :=
        SameTags.of_soft (Soft.of_lines_eq rfl rfl rfl rfl)
      cases hadd : addToCache env (issueCreate (countMiss
          (getCacheLine (countH2D c size) host_ptr).2) context flags size host_ptr) host_ptr size
          (env.mem (getCacheLine (countH2D c size) host_ptr).2.trace.length) Flag.BOTH (-1) with
      | ok a =>
        rw [hadd] at hr
        simp only [Res.map, Res.ok.injEq] at hr
        rw [← hr]
        exact placed_addToCache env _ _ _ _ _ _ a (hinv.ofSameTags (s1.sameTrans sx))
          (Or.inl rfl) hadd
      | fatal => rw [hadd] at hr; simp [Res.map] at hr
      | undefined => rw [hadd] at hr; simp [Res.map] at hr
      | diverge => rw [hadd] at hr; simp [Res.map] at hr
    cases hfind : (getCacheLine (countH2D c size) host_ptr).1 with
    | none =>
      rw [hfind] at h
      exact hmissCase r h
    | some i =>
      rw [hfind] at h
      simp only [] at h
      split at h
      · exact hmissCase r h
      · simp only [Res.ok.injEq] at h
        rw [← h]
        exact hinv.ofSameTags (s1.sameTrans (SameTags.of_soft (Soft.of_lines_eq rfl rfl rfl rfl)))
  · simp only [Res.ok.injEq] at h
    rw [← h]
    exact hinv.ofSameTags (SameTags.of_soft (Soft.of_lines_eq rfl rfl rfl rfl))

theorem placed_enqueueWriteBuffer (env : Env) (c : Cache)
    (command_queue buffer blocking_write offset cb ptr num_events event_wait_list : Nat)
    (r : (Int × Nat) × Cache) (hinv : Placed c)
    (h : enqueueWriteBuffer env c command_queue buffer blocking_write offset cb ptr num_events
      event_wait_list = Res.ok r) : Placed r.2 := by
  unfold enqueueWriteBuffer at h
  simp only [] at h
  have s0 : SameTags c (setQueue (countH2D c cb) command_queue) :=
    SameTags.of_soft (Soft.of_lines_eq rfl rfl rfl rfl)
  have s1 : SameTags c (getCacheLine (setQueue (countH2D c cb) command_queue) ptr).2 :=
    s0.sameTrans (SameTags.of_soft (soft_getCacheLine _ _))
  have sx : SameTags (getCacheLine (setQueue (countH2D c cb) command_queue) ptr).2
      (countMiss (getCacheLine (setQueue (countH2D c cb) command_queue) ptr).2) :=
    SameTags.of_soft (Soft.of_lines_eq rfl rfl rfl rfl)
  have hmissCase : ∀ (idx : Int) (r : (Int × Nat) × Cache),
      (idx = -1 ∨ ∃ i : Nat, idx = (i : Int) ∧
        (getCacheLine (setQueue (countH2D c cb) command_queue) ptr).1 = some i) →
      (addToCache env (countMiss
        (getCacheLine (setQueue (countH2D c cb) command_queue) ptr).2) ptr cb buffer
        Flag.BOTH idx).map
        (fun a => ((env.status a.2.trace.length, buffer),
          forwardWrite env a.2 command_queue buffer blocking_write offset cb ptr num_events
            event_wait_list)) = Res.ok r → Placed r.2 := by
    intro idx r hidx hr
    cases hadd : addToCache env (countMiss
        (getCacheLine (setQueue (countH2D c cb) command_queue) ptr).2) ptr cb buffer
        Flag.BOTH idx with
    | ok a =>
      rw [hadd] at hr
      simp only [Res.map, Res.ok.injEq] at hr
      rw [← hr]
      have hidx2 : idx = -1 ∨ ∃ i : Nat, idx = (i : Int) ∧
          getSetIndex (countMiss (getCacheLine (setQueue (countH2D c cb) command_queue) ptr).2)
            ptr * (countMiss (getCacheLine (setQueue (countH2D c cb) command_queue)
              ptr).2).nrOfLinesPerSet ≤ i ∧
          i < getSetIndex (countMiss (getCacheLine (setQueue (countH2D c cb) command_queue)
            ptr).2) ptr * (countMiss (getCacheLine (setQueue (countH2D c cb) command_queue)
              ptr).2).nrOfLinesPerSet + (countMiss (getCacheLine (setQueue (countH2D c cb)
                command_queue) ptr).2).nrOfLinesPerSet := by
        rcases hidx with hm | ⟨i, hi, hf⟩
        · exact Or.inl hm
        · exact Or.inr ⟨i, hi, found_range ptr i
            ((SameTags.of_soft (soft_getCacheLine _ _)).sameTrans sx) hf⟩
      have := placed_addToCache env _ _ _ _ _ _ a (hinv.ofSameTags (s1.sameTrans sx)) hidx2 hadd
      exact this.ofSameTags (SameTags.of_soft (Soft.of_lines_eq rfl rfl rfl rfl))
    | fatal => rw [hadd] at hr; simp [Res.map] at hr
    | undefined => rw [hadd] at hr; simp [Res.map] at hr
    | diverge => rw [hadd] at hr; simp [Res.map] at hr
  cases hfind : (getCacheLine (setQueue (countH2D c cb) command_queue) ptr).1 with
  | none =>
    rw [hfind] at h
    simp only [] at h
    exact hmissCase (-1) r (Or.inl rfl) h
  | some i =>
    rw [hfind] at h
    simp only [] at h
    split at h
    · exact hmissCase (i : Int) r (Or.inr ⟨i, rfl, hfind⟩) h
    · split at h
      · simp only [Res.ok.injEq] at h
        rw [← h]
        exact hinv.ofSameTags (((s1.sameTrans (SameTags.of_soft (soft_countHit _ cb))).sameTrans
          (SameTags.of_soft (soft_releaseMemObject _ buffer))).sameTrans
          (SameTags.of_soft (soft_lockLine _ i)))
      · simp only [Res.ok.injEq] at h
        rw [← h]
        exact hinv.ofSameTags ((s1.sameTrans (SameTags.of_soft (soft_countHit _ cb))).sameTrans
          (SameTags.of_soft (soft_lockLine _ i)))

theorem placed_enqueueReadBuffer (env : Env) (c : Cache)
    (command_queue buffer blocking_read offset cb ptr num_events event_wait_list : Nat)
    (r : Int × Cache) (hinv : Placed c)
    (h : enqueueReadBuffer env c command_queue buffer blocking_read offset cb ptr num_events
      event_wait_list = Res.ok r) : Placed r.2 := by
  unfold enqueueReadBuffer at h
  simp only [] at h
  obtain ⟨e1, e2, e3, _, e5, _, _, _, _, _⟩ := readBuffer_lookup_state env c command_queue
    buffer blocking_read offset cb ptr num_events event_wait_list _ rfl
  generalize (if (readEntry c command_queue cb).write_back = false then
        forwardRead env (readEntry c command_queue cb) command_queue buffer blocking_read
          offset cb ptr num_events event_wait_list
        else readEntry c command_queue cb) = c1 at *
  have s0 : SameTags c c1 := SameTags.of_soft (Soft.of_lines_eq e5 e2 e3 e1)
  have s1 : SameTags c (getCacheLine c1 ptr).2 :=
    s0.sameTrans (SameTags.of_soft (soft_getCacheLine _ _))
  cases hfind : (getCacheLine c1 ptr).1 with
  | none =>
    rw [hfind] at h
    simp only [] at h
    cases hadd : addToCache env (getCacheLine c1 ptr).2 ptr cb buffer
        (if (getCacheLine c1 ptr).2.write_back = false ∧ env.write_through = true
          then Flag.BOTH else Flag.GPU) (-1) with
    | ok a =>
      rw [hadd] at h
      simp only [Res.map, Res.ok.injEq] at h
      rw [← h]
      have := placed_addToCache env _ _ _ _ _ _ a (hinv.ofSameTags s1) (Or.inl rfl) hadd
      exact this.ofSameTags (SameTags.of_soft (Soft.of_lines_eq rfl rfl rfl rfl))
    | fatal => rw [hadd] at h; simp [Res.map] at h
    | undefined => rw [hadd] at h; simp [Res.map] at h
    | diverge => rw [hadd] at h; simp [Res.map] at h
  | some i =>
    rw [hfind] at h
    simp only [] at h
    split at h
    · simp only [Res.ok.injEq] at h
      rw [← h]
      show Placed (clearLocks (releaseMemObject (getCacheLine c1 ptr).2 buffer))
      exact hinv.ofSameTags ((s1.sameTrans (SameTags.of_soft (soft_releaseMemObject _ buffer))).sameTrans
        (SameTags.of_soft (soft_clearLocks _)))
    · simp only [Res.ok.injEq] at h
      rw [← h]
      show Placed (clearLocks (getCacheLine c1 ptr).2)
      exact hinv.ofSameTags (s1.sameTrans (SameTags.of_soft (soft_clearLocks _)))

theorem placed_resetCache (env : Env) (c : Cache) (hinv : Placed c) :
    Placed (resetCache env c) := by
  obtain ⟨i1, i2⟩ := hinv
  obtain ⟨_, h2, h3, h4⟩ := releaseLoop_lines env c.nrOfLines 0 c 0
  have e1 : (resetCache env c).organisation = c.organisation := h2
  have e2 : (resetCache env c).nrOfSets = c.nrOfSets := h3
  have e3 : (resetCache env c).nrOfLinesPerSet = c.nrOfLinesPerSet := h4
  refine ⟨by rw [e1]; exact i1, ?_⟩
  intro i hi
  unfold getSetIndex
  rw [e2, e3]
  rw [resetCache_lineAt] at hi ⊢
  split
  · next hc =>
    rw [if_pos hc] at hi
    exact absurd rfl hi
  · next hc =>
    rw [if_neg hc] at hi
    exact i2 i hi

theorem placed_step (env : Env) (c : Cache) (op : Op) (r : (Int × Nat) × Cache)
    (hinv : Placed c) (h : step env c op = Res.ok r) : Placed r.2 := by
  cases op with
  | createBuffer context flags size host_ptr errcode =>
    simp only [step] at h
    cases hc : createBuffer env c context flags size host_ptr errcode with
    | ok a =>
      rw [hc] at h
      simp only [Res.ok.injEq] at h
      rw [← h]
      exact placed_createBuffer env c context flags size host_ptr errcode a hinv hc
    | fatal => rw [hc] at h; simp at h
    | undefined => rw [hc] at h; simp at h
    | diverge => rw [hc] at h; simp at h
  | enqueueWriteBuffer q b bl off cb ptr ne wl =>
    simp only [step] at h
    exact placed_enqueueWriteBuffer env c q b bl off cb ptr ne wl r hinv h
  | enqueueReadBuffer q b bl off cb ptr ne wl =>
    simp only [step] at h
    cases hc : enqueueReadBuffer env c q b bl off cb ptr ne wl with
    | ok a =>
      rw [hc] at h
      simp only [Res.ok.injEq] at h
      rw [← h]
      exact placed_enqueueReadBuffer env c q b bl off cb ptr ne wl a hinv hc
    | fatal => rw [hc] at h; simp at h
    | undefined => rw [hc] at h; simp at h
    | diverge => rw [hc] at h; simp at h
  | setKernelArg kernel index size value =>
    simp only [step] at h
    simp only [Res.ok.injEq] at h
    rw [← h]
    exact hinv.ofSameTags (SameTags.of_soft (Soft.of_lines_eq rfl rfl rfl rfl))
  | enqueueNDRangeKernel q kernel wd gwo gws lws ne wl =>
    simp only [step] at h
    simp only [Res.ok.injEq] at h
    rw [← h]
    unfold enqueueNDRangeKernel
    exact hinv.ofSameTags (SameTags.of_soft
      (Soft.softTrans (Soft.of_lines_eq rfl rfl rfl rfl) (soft_markArguments _ _)))
  | writeBack =>
    simp only [step] at h
    simp only [Res.ok.injEq] at h
    rw [← h]
    exact hinv.ofSameTags (SameTags.of_soft (soft_writeBack env c))
  | writeBackPtr host_ptr =>
    simp only [step] at h
    simp only [Res.ok.injEq] at h
    rw [← h]
    exact hinv.ofSameTags (SameTags.of_soft (soft_writeBackPtr env c host_ptr))
  | setDirtyFlag ptr flag =>
    simp only [step] at h
    simp only [Res.ok.injEq] at h
    rw [← h]
    exact hinv.ofSameTags (sameTags_setDirtyFlag c ptr flag)
  | resetCache =>
    simp only [step] at h
    simp only [Res.ok.injEq] at h
    rw [← h]
    exact placed_resetCache env c hinv
  | resetTimers =>
    simp only [step] at h
    simp only [Res.ok.injEq] at h
    rw [← h]
    exact hinv.ofSameTags (SameTags.of_soft (Soft.of_lines_eq rfl rfl rfl rfl))

theorem placed_run (env : Env) (ops : List Op) :
    ∀ (c : Cache) (r : List (Int × Nat) × Cache), Placed c →
      run env ops c = Res.ok r → Placed r.2 := by
  induction ops with
  | nil =>
    intro c r hinv h
    simp only [run, Res.ok.injEq] at h
    rw [← h]
    exact hinv
  | cons op ops ih =>
    intro c r hinv h
    unfold run at h
    cases hs : step env c op with
    | ok a =>
      rw [hs] at h
      simp only [] at h
      cases hr : run env ops a.2 with
      | ok rs =>
        rw [hr] at h
        simp only [Res.ok.injEq] at h
        rw [← h]
        exact ih a.2 rs (placed_step env c op a hinv hs) hr
      | fatal => rw [hr] at h; simp at h
      | undefined => rw [hr] at h; simp at h
      | diverge => rw [hr] at h; simp at h
    | fatal => rw [hs] at h; simp at h
    | undefined => rw [hs] at h; simp at h
    | diverge => rw [hs] at h; simp at h

theorem placed_initialise (fuel : Nat) (organisation : Organisation)
    (replacementPolicy : ReplacementPolicy) (cacheSize nrOfSet : Int) (write_back : Bool)
    (c0 : Cache) (horg : organisation ≠ Organisation.DIRECT_MAPPING)
    (h : initialise fuel organisation replacementPolicy cacheSize nrOfSet write_back = Res.ok c0) :
    Placed c0 := by
  obtain ⟨s, l, p, hc⟩ := initialise_eq_freshCache fuel organisation replacementPolicy
    cacheSize nrOfSet write_back c0 h
  subst hc
  refine ⟨horg, fun i hi => ?_⟩
  exfalso
  apply hi
  show (lineAt (List.replicate l zeroLine) i).tag = 0
  rw [lineAt_replicate]
  rfl

/-- C35: for every sequence of calls of the public interface that returns,
issued on a freshly constructed cache that is set-associative or fully
associative (any replacement policy and write mode, `setDirtyFlag` with any
flag included), every line with a non-null tag sits in the set its tag indexes
to: its index `i` lies in `[s * L, s * L + L)` and `i / L = s`, with
`s = tag mod nrOfSets` and `L = nrOfLinesPerSet`, and the lookup of that tag
finds a line. -/
theorem run_lines_in_their_set (env : Env) (fuel : Nat) (organisation : Organisation)
    (replacementPolicy : ReplacementPolicy) (cacheSize nrOfSet : Int) (write_back : Bool)
    (ops : List Op) (c0 : Cache) (r : List (Int × Nat) × Cache)
    (horg : organisation ≠ Organisation.DIRECT_MAPPING)
    (hinit : initialise fuel organisation replacementPolicy cacheSize nrOfSet write_back =
      Res.ok c0)
    (hrun : run env ops c0 = Res.ok r) :
    ∀ i, (lineAt r.2.lines i).tag ≠ 0 →
      (lineAt r.2.lines i).tag % r.2.nrOfSets * r.2.nrOfLinesPerSet ≤ i ∧
      i < (lineAt r.2.lines i).tag % r.2.nrOfSets * r.2.nrOfLinesPerSet + r.2.nrOfLinesPerSet ∧
      i / r.2.nrOfLinesPerSet = (lineAt r.2.lines i).tag % r.2.nrOfSets ∧
      ∃ j, (getCacheLine r.2 (lineAt r.2.lines i).tag).1 = some j := by
  have hinv := placed_run env ops c0 r
    (placed_initialise fuel organisation replacementPolicy cacheSize nrOfSet write_back c0 horg
      hinit) hrun
  intro i hi
  have hr := hinv.2 i hi
  unfold getSetIndex at hr
  refine ⟨hr.1, hr.2, ?_, ?_⟩
  · apply Nat.div_eq_of_lt_le
    · exact hr.1
    · have : ((lineAt r.2.lines i).tag % r.2.nrOfSets + 1) * r.2.nrOfLinesPerSet =
          (lineAt r.2.lines i).tag % r.2.nrOfSets * r.2.nrOfLinesPerSet + r.2.nrOfLinesPerSet := by
        ring
      rw [this]
      exact hr.2
  · cases hf : (getCacheLine r.2 (lineAt r.2.lines i).tag).1 with
    | some j => exact ⟨j, rfl⟩
    | none =>
      exfalso
      rcases getCacheLine_none r.2 _ hf with h0 | hn
      · exact hi h0
      · unfold getSetIndex at hn
        exact hn i hr.1 hr.2 rfl

/-- C35, witness: the example sequence on the fresh fully associative cache of
two lines. -/
theorem run_lines_in_their_set_witness :
    Organisation.FULLY_ASSOCIATIVE ≠ Organisation.DIRECT_MAPPING ∧
    initialise 0 Organisation.FULLY_ASSOCIATIVE ReplacementPolicy.LRU 2 1 false =
      Res.ok (freshCache Organisation.FULLY_ASSOCIATIVE ReplacementPolicy.LRU 1 2 2 false) ∧
    ∃ r, run exEnv exOpsDirect
        (freshCache Organisation.FULLY_ASSOCIATIVE ReplacementPolicy.LRU 1 2 2 false) =
        Res.ok r ∧
      (lineAt r.2.lines 0).tag ≠ 0 ∧
      ∀ i, (lineAt r.2.lines i).tag ≠ 0 →
        (lineAt r.2.lines i).tag % r.2.nrOfSets * r.2.nrOfLinesPerSet ≤ i ∧
        i < (lineAt r.2.lines i).tag % r.2.nrOfSets * r.2.nrOfLinesPerSet +
          r.2.nrOfLinesPerSet ∧
        i / r.2.nrOfLinesPerSet = (lineAt r.2.lines i).tag % r.2.nrOfSets ∧
        ∃ j, (getCacheLine r.2 (lineAt r.2.lines i).tag).1 = some j :=
  ⟨by decide, by decide,
    (run exEnv exOpsDirect
      (freshCache Organisation.FULLY_ASSOCIATIVE ReplacementPolicy.LRU 1 2 2 false)).getD
        ([], freshCache Organisation.FULLY_ASSOCIATIVE ReplacementPolicy.LRU 1 2 2 false),
    by decide, by decide,
    run_lines_in_their_set exEnv 0 Organisation.FULLY_ASSOCIATIVE ReplacementPolicy.LRU 2 1
      false exOpsDirect
      (freshCache Organisation.FULLY_ASSOCIATIVE ReplacementPolicy.LRU 1 2 2 false) _
      (by decide) (by decide) (by decide)⟩

/-- C35, counterexample: on the fresh direct-mapped cache of three lines the
write-buffer of the host pointer `3` takes and locks line 0, and the
write-buffer of the host pointer `6`, which indexes to line 0 as well, falls
back to the random line 1: line 1 then holds the tag `6` with
`1 / 1 = 1 ≠ 0 = 6 mod 3`, and the lookup of `6` scans line 0 only and
misses. -/
theorem direct_mapped_line_outside_its_set :
    initialise 10 Organisation.DIRECT_MAPPING ReplacementPolicy.LRU 3 1 false =
        Res.ok (freshCache Organisation.DIRECT_MAPPING ReplacementPolicy.LRU 3 3 1 false) ∧
      (run exEnv exOpsDirect
        (freshCache Organisation.DIRECT_MAPPING ReplacementPolicy.LRU 3 3 1 false)).map
          (fun r => ((lineAt r.2.lines 1).tag, 1 / r.2.nrOfLinesPerSet,
            (lineAt r.2.lines 1).tag % r.2.nrOfSets, (getCacheLine r.2 6).1)) =
        Res.ok (6, 1, 0, none) := by
  refine ⟨by decide, by decide⟩

-- end of the theorems

end SoftCache
